import Mathlib

/-!
Mini C compiler front end (`src/frontend/templates/script.js`).

A shallow embedding of the class `MiniCCompiler`: the lexer `tokenize`, the
recursive-descent parser `parse` with its symbol table, the post-parse sweep
`semanticAnalysis`, the stub `generateCode` and the driver `compile`.

Modelling conventions.

* A JavaScript string is the list of its UTF-16 code units (`JSString`), a code
  unit being a natural number; `line[col]`, `line.length` and `line.substr`
  are list operations on code units, as in JavaScript.
* The instance fields of `MiniCCompiler` are the fields of the structure
  `MiniCCompiler`; every method takes the instance and returns the updated one.
* The string tags `'KEYWORD'`, `'LEXICAL'`, `'variable'`, ... form closed sets and are
  enumerations.
* Loops and recursive methods take a fuel argument and return `none` when it
  runs out; the theorems show that the fuel handed out by `tokenize` and `parse`
  is always enough.
* The JavaScript call stack is taken to be unbounded.
-/

namespace MiniC

/-! ## Strings -/

/-- A JavaScript string, as the list of its UTF-16 code units. -/
abbrev JSString := List Nat

/-- UTF-16 encoding of one Unicode scalar value. -/
def utf16Char (c : Char) : List Nat :=
  if c.toNat < 65536 then [c.toNat]
  else [55296 + (c.toNat - 65536) / 1024, 56320 + (c.toNat - 65536) % 1024]

/-- The JavaScript string denoted by a string literal of the source. -/
def utf16 (s : String) : JSString :=
  s.toList.foldr (fun c acc => utf16Char c ++ acc) []

/-- The call `code.split('\n')`: the pieces between line feeds (always at least one
piece). -/
def splitLines : JSString → List JSString
  | [] => [[]]
  | ch :: rest =>
    if ch = 10 then [] :: splitLines rest
    else
      match splitLines rest with
      | [] => [[ch]]
      | l :: ls => (ch :: l) :: ls

/-- The test `/\s/.test(char)` on one code unit: the ECMAScript `WhiteSpace` and
`LineTerminator` code points. -/
def isWhitespace (ch : Nat) : Bool :=
  ch = 9 || ch = 10 || ch = 11 || ch = 12 || ch = 13 || ch = 32 || ch = 160 ||
  ch = 5760 || (8192 ≤ ch && ch ≤ 8202) || ch = 8232 || ch = 8233 || ch = 8239 ||
  ch = 8287 || ch = 12288 || ch = 65279

/-- The test `/\d/.test(char)`: an ASCII digit. -/
def isDigit (ch : Nat) : Bool := 48 ≤ ch && ch ≤ 57

/-- The test `/[a-zA-Z_]/.test(char)`. -/
def isIdentStart (ch : Nat) : Bool :=
  (97 ≤ ch && ch ≤ 122) || (65 ≤ ch && ch ≤ 90) || ch = 95

/-- The test `/[a-zA-Z0-9_]/.test(char)`. -/
def isIdentPart (ch : Nat) : Bool :=
  (97 ≤ ch && ch ≤ 122) || (65 ≤ ch && ch ≤ 90) || (48 ≤ ch && ch ≤ 57) || ch = 95

/-! ## Tokens and diagnostics -/

/-- The values of `Token.type`; `EOF` is the placeholder of `getCurrentToken`. -/
inductive TokenType
  | KEYWORD | IDENTIFIER | INTEGER | FLOAT | STRING | OPERATOR | DELIMITER | EOF
  deriving DecidableEq, Repr

/-- The class `Token`. -/
structure Token where
  type : TokenType
  value : JSString
  line : Nat
  column : Nat
  deriving DecidableEq, Repr

/-- The values of `CompilerError.type`. -/
inductive ErrorType
  | LEXICAL | SYNTAX | SEMANTIC | INTERNAL
  deriving DecidableEq, Repr

/-- The class `CompilerError`. -/
structure CompilerError where
  type : ErrorType
  message : JSString
  line : Nat
  column : Nat
  suggestion : JSString
  deriving DecidableEq, Repr

/-- The values stored in `symbolTable`: `{type: 'variable', dataType}`,
`{type: 'parameter', dataType}` and `{type: 'function', returnType}`. -/
inductive SymbolInfo
  | variable (dataType : JSString)
  | parameter (dataType : JSString)
  | function (returnType : JSString)
  deriving DecidableEq, Repr

/-- A JavaScript `Map` from names to symbol records, in insertion order. -/
abbrev SymbolTable := List (JSString × SymbolInfo)

/-- The method `Map.prototype.has`. -/
def SymbolTable.has (m : SymbolTable) (name : JSString) : Bool :=
  m.any (fun e => e.1 == name)

/-- The method `Map.prototype.set`: an existing key keeps its place and takes the new value, a
new key goes to the end. -/
def SymbolTable.set (m : SymbolTable) (name : JSString) (info : SymbolInfo) : SymbolTable :=
  if m.has name then m.map (fun e => if e.1 == name then (name, info) else e)
  else m ++ [(name, info)]

/-- The instance fields of `MiniCCompiler`. -/
structure MiniCCompiler where
  tokens : List Token
  currentToken : Nat
  errors : List CompilerError
  warnings : List CompilerError
  symbolTable : SymbolTable
  output : List JSString
  deriving DecidableEq, Repr

/-- The state built by the constructor. -/
def MiniCCompiler.new : MiniCCompiler := ⟨[], 0, [], [], [], []⟩

/-! ## Lexical analysis -/

/-- The array `keywords` of `tokenize`. -/
def keywords : List JSString :=
  [utf16 "int", utf16 "float", utf16 "char", utf16 "void", utf16 "if", utf16 "else",
   utf16 "while", utf16 "for", utf16 "return", utf16 "printf", utf16 "scanf",
   utf16 "include"]

/-- The array `operators` of `tokenize`. -/
def operators : List JSString :=
  [utf16 "+", utf16 "-", utf16 "*", utf16 "/", utf16 "=", utf16 "==", utf16 "!=",
   utf16 "<", utf16 ">", utf16 "<=", utf16 ">=", utf16 "&&", utf16 "||", utf16 "!",
   utf16 "++", utf16 "--", utf16 "+=", utf16 "-="]

/-- The array `delimiters` of `tokenize`. -/
def delimiters : List JSString :=
  [utf16 "(", utf16 ")", utf16 "\x7b", utf16 "\x7d", utf16 "[", utf16 "]", utf16 ";",
   utf16 ",", utf16 "#"]

/-- What the inner loop of the number branch leaves behind: the text `num`, the
flag `isFloat`, and whether the loop stopped on a second decimal point. -/
structure NumberScan where
  num : JSString
  isFloat : Bool
  secondPoint : Bool
  deriving DecidableEq, Repr

/-- The inner `while` of the number branch, run on the rest of the line
`line.slice(col)` with the current value of `isFloat`. -/
def scanNumber : JSString → Bool → NumberScan
  | [], isFloat => ⟨[], isFloat, false⟩
  | ch :: rest, isFloat =>
    if isDigit ch || ch = 46 then
      if ch = 46 then
        if isFloat then ⟨[], true, true⟩
        else
          let r := scanNumber rest true
          ⟨ch :: r.num, r.isFloat, r.secondPoint⟩
      else
        let r := scanNumber rest isFloat
        ⟨ch :: r.num, r.isFloat, r.secondPoint⟩
    else ⟨[], isFloat, false⟩

/-- The outcome of one pass through the body of the per-line `while` loop. -/
inductive ScanStep
  /-- The `break` of the comment branch. -/
  | stop
  /-- The loop goes on at column `col`, with the tokens pushed on `tokens` and the
  diagnostics pushed on `this.errors` during the pass. -/
  | next (col : Nat) (toks : List Token) (errs : List CompilerError)
  deriving DecidableEq, Repr

/-- One pass through the body of `while (col < line.length)` in `tokenize`, entered
with `col < line.length`. The inner loops of the string and identifier branches
collect the longest run of admissible code units from `col` on. -/
@[irreducible] def scanStep (lineNum : Nat) (line : JSString) (col : Nat) : ScanStep :=
  let char := line.getD col 0
  if isWhitespace char then .next (col + 1) [] []
  else if char = 47 ∧ col + 1 < line.length ∧ line.getD (col + 1) 0 = 47 then .stop
  else if char = 34 then
    let str := (line.drop (col + 1)).takeWhile (fun ch => ch != 34)
    let col1 := col + 1 + str.length
    if col1 ≥ line.length then
      .next col1 []
        [⟨.LEXICAL, utf16 "Unterminated string literal", lineNum + 1, col1,
          utf16 "Add closing quote \""⟩]
    else
      .next (col1 + 1) [⟨.STRING, str, lineNum + 1, col1 + 1 - str.length - 1⟩] []
  else if isDigit char then
    let r := scanNumber (line.drop col) false
    let col1 := col + r.num.length
    .next col1
      [⟨if r.isFloat then .FLOAT else .INTEGER, r.num, lineNum + 1, col1 - r.num.length⟩]
      (if r.secondPoint then
        [⟨.LEXICAL, utf16 "Invalid number format", lineNum + 1, col1,
          utf16 "Numbers can only have one decimal point"⟩]
       else [])
  else if isIdentStart char then
    let identifier := (line.drop col).takeWhile isIdentPart
    let col1 := col + identifier.length
    .next col1
      [⟨if keywords.contains identifier then .KEYWORD else .IDENTIFIER, identifier,
        lineNum + 1, col1 - identifier.length⟩] []
  else if col + 1 < line.length ∧ operators.contains ((line.drop col).take 2) then
    .next (col + 2) [⟨.OPERATOR, (line.drop col).take 2, lineNum + 1, col⟩] []
  else if operators.contains [char] ∨ delimiters.contains [char] then
    .next (col + 1)
      [⟨if delimiters.contains [char] then .DELIMITER else .OPERATOR, [char],
        lineNum + 1, col⟩] []
  else
    .next (col + 1) []
      [⟨.LEXICAL, utf16 "Invalid character: \x27" ++ [char] ++ utf16 "\x27", lineNum + 1,
        col, utf16 "Remove or replace invalid character"⟩]

/-- The loop `while (col < line.length)` of `tokenize` on one line; `toks` is the
local array `tokens` and `errs` is `this.errors`. -/
def scanLine (lineNum : Nat) (line : JSString) :
    Nat → Nat → List Token → List CompilerError →
      Option (List Token × List CompilerError)
  | 0, _, _, _ => none
  | fuel + 1, col, toks, errs =>
    if col < line.length then
      match scanStep lineNum line col with
      | .stop => some (toks, errs)
      | .next col1 ts es => scanLine lineNum line fuel col1 (toks ++ ts) (errs ++ es)
    else some (toks, errs)

/-- The loop `for (lineNum ...)` of `tokenize` over the lines still to be read. -/
def scanLines : Nat → List JSString → List Token → List CompilerError →
    Option (List Token × List CompilerError)
  | _, [], toks, errs => some (toks, errs)
  | lineNum, line :: rest, toks, errs =>
    match scanLine lineNum line (line.length + 1) 0 toks errs with
    | none => none
    | some (toks1, errs1) => scanLines (lineNum + 1) rest toks1 errs1

/-- The method `tokenize`: the returned token array and the instance, whose
`errors` has grown by the lexical diagnostics. -/
def tokenize (c : MiniCCompiler) (code : JSString) : Option (List Token × MiniCCompiler) :=
  match scanLines 0 (splitLines code) [] c.errors with
  | none => none
  | some (toks, errs) => some (toks, { c with errors := errs })

/-! ## Syntax analysis: the utility methods -/

/-- The placeholder `new Token('EOF', '', 0, 0)`. -/
def eofToken : Token := ⟨.EOF, [], 0, 0⟩

/-- The method `getCurrentToken`. -/
def getCurrentToken (c : MiniCCompiler) : Token :=
  if c.currentToken ≥ c.tokens.length then eofToken
  else c.tokens.getD c.currentToken eofToken

/-- The method `checkToken`. -/
def checkToken (c : MiniCCompiler) (type : TokenType) (value : JSString) : Bool :=
  let token := getCurrentToken c
  token.type = type && token.value = value

/-- The method `checkTokenType`. -/
def checkTokenType (c : MiniCCompiler) (type : TokenType) : Bool :=
  (getCurrentToken c).type = type

/-- The statement `this.currentToken++`. -/
def advance (c : MiniCCompiler) : MiniCCompiler :=
  { c with currentToken := c.currentToken + 1 }

/-- The statement `this.currentToken--`; both occurrences directly follow a
`this.currentToken++`, so the cursor is positive there. -/
def retreat (c : MiniCCompiler) : MiniCCompiler :=
  { c with currentToken := c.currentToken - 1 }

/-- The statement `this.symbolTable.set(name, info)`. -/
def setSymbol (c : MiniCCompiler) (name : JSString) (info : SymbolInfo) : MiniCCompiler :=
  { c with symbolTable := c.symbolTable.set name info }

/-- The method `syntaxError`. -/
def syntaxError (c : MiniCCompiler) (message suggestion : JSString) : MiniCCompiler :=
  let token := getCurrentToken c
  { c with errors := c.errors ++ [⟨.SYNTAX, message, token.line, token.column, suggestion⟩] }

/-- The method `semanticError`. -/
def semanticError (c : MiniCCompiler) (message suggestion : JSString) : MiniCCompiler :=
  let token := getCurrentToken c
  { c with errors := c.errors ++ [⟨.SEMANTIC, message, token.line, token.column, suggestion⟩] }

/-- The method `consumeToken`: the returned token and the updated instance. -/
def consumeToken (c : MiniCCompiler) (expectedType : TokenType) (expectedValue : JSString) :
    Token × MiniCCompiler :=
  let token := getCurrentToken c
  if token.type = expectedType ∧ token.value = expectedValue then (token, advance c)
  else (token, syntaxError c (utf16 "Expected " ++ expectedValue) (utf16 "Add " ++ expectedValue))

/-! ## Syntax analysis: the grammar -/

/-- The method `parseInclude`. -/
def parseInclude (c : MiniCCompiler) : MiniCCompiler :=
  let c1 := (consumeToken c .DELIMITER (utf16 "#")).2
  let c2 := (consumeToken c1 .KEYWORD (utf16 "include")).2
  if checkToken c2 .OPERATOR (utf16 "<") then
    let c3 := (consumeToken c2 .OPERATOR (utf16 "<")).2
    let c4 :=
      if !checkTokenType c3 .IDENTIFIER then
        syntaxError c3 (utf16 "Expected header name") (utf16 "Add header name like stdio.h")
      else advance c3
    (consumeToken c4 .OPERATOR (utf16 ">")).2
  else
    syntaxError c2 (utf16 "Expected < after #include") (utf16 "Use format: #include <stdio.h>")

/-- The method `parseParameterList`: one call of the function is one pass through
the body of the `do ... while` loop. -/
def parseParameterList : Nat → MiniCCompiler → Option MiniCCompiler
  | 0, _ => none
  | n + 1, c =>
    if checkTokenType c .KEYWORD then
      let paramType := (getCurrentToken c).value
      let c1 := advance c
      let c2 :=
        if checkTokenType c1 .IDENTIFIER then
          let paramName := (getCurrentToken c1).value
          advance (setSymbol c1 paramName (.parameter paramType))
        else
          syntaxError c1 (utf16 "Expected parameter name") (utf16 "Add parameter name after type")
      if checkToken c2 .DELIMITER (utf16 ",") then
        let c3 := advance c2
        if c3.currentToken < c3.tokens.length then parseParameterList n c3 else some c3
      else some c2
    else
      some (syntaxError c (utf16 "Expected parameter type")
        (utf16 "Add parameter type (int, float, etc.)"))

/-- The body shared by `if`, `else`, `while` and `for`: the four occurrences of
`if (this.checkToken('DELIMITER', '{')) { consume '{'; parseBlockStatement(); consume '}' }
else { parseStatement() }`, with the two methods passed in. -/
def blockOrStatement (parseBlockStatement parseStatement : MiniCCompiler → Option MiniCCompiler)
    (c : MiniCCompiler) : Option MiniCCompiler :=
  if checkToken c .DELIMITER (utf16 "\x7b") then do
    let c1 := (consumeToken c .DELIMITER (utf16 "\x7b")).2
    let c2 ← parseBlockStatement c1
    some (consumeToken c2 .DELIMITER (utf16 "\x7d")).2
  else parseStatement c

mutual

/-- The method `parseProgram`: one call is one test of the `while` condition. -/
def parseProgram : Nat → MiniCCompiler → Option MiniCCompiler
  | 0, _ => none
  | n + 1, c =>
    if c.currentToken < c.tokens.length then
      if checkToken c .KEYWORD (utf16 "include") then
        parseProgram n (parseInclude c)
      else if checkTokenType c .KEYWORD then do
        let c1 ← parseDeclarationOrFunction n c
        parseProgram n c1
      else
        parseProgram n
          (advance (syntaxError c (utf16 "Expected declaration or function")
            (utf16 "Add proper function or variable declaration")))
    else some c

/-- The method `parseDeclarationOrFunction`. -/
def parseDeclarationOrFunction : Nat → MiniCCompiler → Option MiniCCompiler
  | 0, _ => none
  | n + 1, c =>
    let type := (getCurrentToken c).value
    let c1 := advance c
    if !checkTokenType c1 .IDENTIFIER then
      some (syntaxError c1 (utf16 "Expected identifier") (utf16 "Add variable or function name"))
    else
      let name := (getCurrentToken c1).value
      let c2 := advance c1
      if checkToken c2 .DELIMITER (utf16 "(") then parseFunction n type name c2
      else if checkToken c2 .OPERATOR (utf16 "=") || checkToken c2 .DELIMITER (utf16 ";")
          || checkToken c2 .DELIMITER (utf16 ",") then
        parseDeclaration n type name c2
      else
        some (syntaxError c2 (utf16 "Expected (, =, or ;")
          (utf16 "Add proper syntax for declaration or function"))

/-- The method `parseFunction`. -/
def parseFunction : Nat → JSString → JSString → MiniCCompiler → Option MiniCCompiler
  | 0, _, _, _ => none
  | n + 1, returnType, name, c => do
    let c1 := setSymbol c name (.function returnType)
    let c2 := (consumeToken c1 .DELIMITER (utf16 "(")).2
    let c3 ← if !checkToken c2 .DELIMITER (utf16 ")") then parseParameterList n c2 else some c2
    let c4 := (consumeToken c3 .DELIMITER (utf16 ")")).2
    let c5 := (consumeToken c4 .DELIMITER (utf16 "\x7b")).2
    let c6 ← parseBlockStatement n c5
    some (consumeToken c6 .DELIMITER (utf16 "\x7d")).2

/-- The method `parseDeclaration`. -/
def parseDeclaration : Nat → JSString → JSString → MiniCCompiler → Option MiniCCompiler
  | 0, _, _, _ => none
  | n + 1, type, name, c => do
    let c1 := setSymbol c name (.variable type)
    let c2 ← if checkToken c1 .OPERATOR (utf16 "=") then parseExpression n (advance c1)
              else some c1
    let c3 ← parseDeclarationLoop n type c2
    some (consumeToken c3 .DELIMITER (utf16 ";")).2

/-- The loop `while (this.checkToken('DELIMITER', ','))` of `parseDeclaration`. -/
def parseDeclarationLoop : Nat → JSString → MiniCCompiler → Option MiniCCompiler
  | 0, _, _ => none
  | n + 1, type, c =>
    if checkToken c .DELIMITER (utf16 ",") then
      let c1 := advance c
      if checkTokenType c1 .IDENTIFIER then do
        let nextName := (getCurrentToken c1).value
        let c2 := advance (setSymbol c1 nextName (.variable type))
        let c3 ← if checkToken c2 .OPERATOR (utf16 "=") then parseExpression n (advance c2)
                  else some c2
        parseDeclarationLoop n type c3
      else
        parseDeclarationLoop n type
          (syntaxError c1 (utf16 "Expected identifier") (utf16 "Add variable name after comma"))
    else some c

/-- The method `parseBlockStatement`: one call is one test of the `while` condition. -/
def parseBlockStatement : Nat → MiniCCompiler → Option MiniCCompiler
  | 0, _ => none
  | n + 1, c =>
    if !checkToken c .DELIMITER (utf16 "\x7d") && c.currentToken < c.tokens.length then do
      let c1 ← parseStatement n c
      parseBlockStatement n c1
    else some c

/-- The method `parseStatement`. -/
def parseStatement : Nat → MiniCCompiler → Option MiniCCompiler
  | 0, _ => none
  | n + 1, c =>
    if checkTokenType c .KEYWORD then
      let keyword := (getCurrentToken c).value
      if keyword = utf16 "int" ∨ keyword = utf16 "float" ∨ keyword = utf16 "char" then
        parseDeclarationOrFunction n c
      else if keyword = utf16 "if" then parseIfStatement n c
      else if keyword = utf16 "while" then parseWhileStatement n c
      else if keyword = utf16 "for" then parseForStatement n c
      else if keyword = utf16 "return" then parseReturnStatement n c
      else if keyword = utf16 "printf" ∨ keyword = utf16 "scanf" then parseFunctionCall n c
      else
        some (advance (syntaxError c (utf16 "Unexpected keyword: " ++ keyword)
          (utf16 "Use valid C keywords")))
    else if checkTokenType c .IDENTIFIER then
      let name := (getCurrentToken c).value
      let c1 := advance c
      if checkToken c1 .DELIMITER (utf16 "(") then parseFunctionCall n (retreat c1)
      else if checkToken c1 .OPERATOR (utf16 "=") || checkToken c1 .OPERATOR (utf16 "+=")
          || checkToken c1 .OPERATOR (utf16 "-=") then
        parseAssignment n name c1
      else
        some (syntaxError c1 (utf16 "Expected assignment or function call")
          (utf16 "Add = for assignment or () for function call"))
    else
      some (advance (syntaxError c (utf16 "Expected statement") (utf16 "Add valid C statement")))

/-- The method `parseIfStatement`. -/
def parseIfStatement : Nat → MiniCCompiler → Option MiniCCompiler
  | 0, _ => none
  | n + 1, c => do
    let c1 := (consumeToken c .KEYWORD (utf16 "if")).2
    let c2 := (consumeToken c1 .DELIMITER (utf16 "(")).2
    let c3 ← parseExpression n c2
    let c4 := (consumeToken c3 .DELIMITER (utf16 ")")).2
    let c5 ← blockOrStatement (parseBlockStatement n) (parseStatement n) c4
    if checkToken c5 .KEYWORD (utf16 "else") then
      blockOrStatement (parseBlockStatement n) (parseStatement n) (advance c5)
    else some c5

/-- The method `parseWhileStatement`. -/
def parseWhileStatement : Nat → MiniCCompiler → Option MiniCCompiler
  | 0, _ => none
  | n + 1, c => do
    let c1 := (consumeToken c .KEYWORD (utf16 "while")).2
    let c2 := (consumeToken c1 .DELIMITER (utf16 "(")).2
    let c3 ← parseExpression n c2
    let c4 := (consumeToken c3 .DELIMITER (utf16 ")")).2
    blockOrStatement (parseBlockStatement n) (parseStatement n) c4

/-- The method `parseForStatement`. -/
def parseForStatement : Nat → MiniCCompiler → Option MiniCCompiler
  | 0, _ => none
  | n + 1, c => do
    let c1 := (consumeToken c .KEYWORD (utf16 "for")).2
    let c2 := (consumeToken c1 .DELIMITER (utf16 "(")).2
    let c3 ← if !checkToken c2 .DELIMITER (utf16 ";") then parseStatement n c2
              else some (advance c2)
    let c4 ← if !checkToken c3 .DELIMITER (utf16 ";") then parseExpression n c3 else some c3
    let c5 := (consumeToken c4 .DELIMITER (utf16 ";")).2
    let c6 ← if !checkToken c5 .DELIMITER (utf16 ")") then parseExpression n c5 else some c5
    let c7 := (consumeToken c6 .DELIMITER (utf16 ")")).2
    blockOrStatement (parseBlockStatement n) (parseStatement n) c7

/-- The method `parseReturnStatement`. -/
def parseReturnStatement : Nat → MiniCCompiler → Option MiniCCompiler
  | 0, _ => none
  | n + 1, c => do
    let c1 := (consumeToken c .KEYWORD (utf16 "return")).2
    let c2 ← if !checkToken c1 .DELIMITER (utf16 ";") then parseExpression n c1 else some c1
    some (consumeToken c2 .DELIMITER (utf16 ";")).2

/-- The method `parseFunctionCall`. -/
def parseFunctionCall : Nat → MiniCCompiler → Option MiniCCompiler
  | 0, _ => none
  | n + 1, c => do
    let funcName := (getCurrentToken c).value
    let c1 := advance c
    let c2 :=
      if !c1.symbolTable.has funcName && !([utf16 "printf", utf16 "scanf"].contains funcName) then
        semanticError c1 (utf16 "Undeclared function: " ++ funcName)
          (utf16 "Declare function before use")
      else c1
    let c3 := (consumeToken c2 .DELIMITER (utf16 "(")).2
    let c4 ← if !checkToken c3 .DELIMITER (utf16 ")") then parseArgumentList n c3 else some c3
    let c5 := (consumeToken c4 .DELIMITER (utf16 ")")).2
    some (consumeToken c5 .DELIMITER (utf16 ";")).2

/-- The method `parseArgumentList`: one call is one pass through the body of the
`do ... while` loop. -/
def parseArgumentList : Nat → MiniCCompiler → Option MiniCCompiler
  | 0, _ => none
  | n + 1, c => do
    let c1 ← parseExpression n c
    if checkToken c1 .DELIMITER (utf16 ",") then
      let c2 := advance c1
      if c2.currentToken < c2.tokens.length then parseArgumentList n c2 else some c2
    else some c1

/-- The method `parseAssignment`. -/
def parseAssignment : Nat → JSString → MiniCCompiler → Option MiniCCompiler
  | 0, _, _ => none
  | n + 1, varName, c => do
    let c1 :=
      if !c.symbolTable.has varName then
        semanticError c (utf16 "Undeclared variable: " ++ varName)
          (utf16 "Declare variable before use")
      else c
    let c2 := advance c1
    let c3 ← parseExpression n c2
    some (consumeToken c3 .DELIMITER (utf16 ";")).2

/-- The method `parseExpression`. -/
def parseExpression : Nat → MiniCCompiler → Option MiniCCompiler
  | 0, _ => none
  | n + 1, c => parseLogicalOr n c

/-- The method `parseLogicalOr`. -/
def parseLogicalOr : Nat → MiniCCompiler → Option MiniCCompiler
  | 0, _ => none
  | n + 1, c => do
    let c1 ← parseLogicalAnd n c
    parseLogicalOrLoop n c1

/-- The `while` loop of `parseLogicalOr`. -/
def parseLogicalOrLoop : Nat → MiniCCompiler → Option MiniCCompiler
  | 0, _ => none
  | n + 1, c =>
    if checkToken c .OPERATOR (utf16 "||") then do
      let c1 ← parseLogicalAnd n (advance c)
      parseLogicalOrLoop n c1
    else some c

/-- The method `parseLogicalAnd`. -/
def parseLogicalAnd : Nat → MiniCCompiler → Option MiniCCompiler
  | 0, _ => none
  | n + 1, c => do
    let c1 ← parseEquality n c
    parseLogicalAndLoop n c1

/-- The `while` loop of `parseLogicalAnd`. -/
def parseLogicalAndLoop : Nat → MiniCCompiler → Option MiniCCompiler
  | 0, _ => none
  | n + 1, c =>
    if checkToken c .OPERATOR (utf16 "&&") then do
      let c1 ← parseEquality n (advance c)
      parseLogicalAndLoop n c1
    else some c

/-- The method `parseEquality`. -/
def parseEquality : Nat → MiniCCompiler → Option MiniCCompiler
  | 0, _ => none
  | n + 1, c => do
    let c1 ← parseRelational n c
    parseEqualityLoop n c1

/-- The `while` loop of `parseEquality`. -/
def parseEqualityLoop : Nat → MiniCCompiler → Option MiniCCompiler
  | 0, _ => none
  | n + 1, c =>
    if checkToken c .OPERATOR (utf16 "==") || checkToken c .OPERATOR (utf16 "!=") then do
      let c1 ← parseRelational n (advance c)
      parseEqualityLoop n c1
    else some c

/-- The method `parseRelational`. -/
def parseRelational : Nat → MiniCCompiler → Option MiniCCompiler
  | 0, _ => none
  | n + 1, c => do
    let c1 ← parseAdditive n c
    parseRelationalLoop n c1

/-- The `while` loop of `parseRelational`. -/
def parseRelationalLoop : Nat → MiniCCompiler → Option MiniCCompiler
  | 0, _ => none
  | n + 1, c =>
    if checkToken c .OPERATOR (utf16 "<") || checkToken c .OPERATOR (utf16 ">")
        || checkToken c .OPERATOR (utf16 "<=") || checkToken c .OPERATOR (utf16 ">=") then do
      let c1 ← parseAdditive n (advance c)
      parseRelationalLoop n c1
    else some c

/-- The method `parseAdditive`. -/
def parseAdditive : Nat → MiniCCompiler → Option MiniCCompiler
  | 0, _ => none
  | n + 1, c => do
    let c1 ← parseMultiplicative n c
    parseAdditiveLoop n c1

/-- The `while` loop of `parseAdditive`. -/
def parseAdditiveLoop : Nat → MiniCCompiler → Option MiniCCompiler
  | 0, _ => none
  | n + 1, c =>
    if checkToken c .OPERATOR (utf16 "+") || checkToken c .OPERATOR (utf16 "-") then do
      let c1 ← parseMultiplicative n (advance c)
      parseAdditiveLoop n c1
    else some c

/-- The method `parseMultiplicative`. -/
def parseMultiplicative : Nat → MiniCCompiler → Option MiniCCompiler
  | 0, _ => none
  | n + 1, c => do
    let c1 ← parseUnary n c
    parseMultiplicativeLoop n c1

/-- The `while` loop of `parseMultiplicative`. -/
def parseMultiplicativeLoop : Nat → MiniCCompiler → Option MiniCCompiler
  | 0, _ => none
  | n + 1, c =>
    if checkToken c .OPERATOR (utf16 "*") || checkToken c .OPERATOR (utf16 "/") then do
      let c1 ← parseUnary n (advance c)
      parseMultiplicativeLoop n c1
    else some c

/-- The method `parseUnary`. -/
def parseUnary : Nat → MiniCCompiler → Option MiniCCompiler
  | 0, _ => none
  | n + 1, c =>
    if checkToken c .OPERATOR (utf16 "!") || checkToken c .OPERATOR (utf16 "-")
        || checkToken c .OPERATOR (utf16 "+") then
      parseUnary n (advance c)
    else parsePrimary n c

/-- The method `parsePrimary`. -/
def parsePrimary : Nat → MiniCCompiler → Option MiniCCompiler
  | 0, _ => none
  | n + 1, c =>
    if checkTokenType c .INTEGER || checkTokenType c .FLOAT || checkTokenType c .STRING then
      some (advance c)
    else if checkTokenType c .IDENTIFIER then
      let varName := (getCurrentToken c).value
      let c1 :=
        if !c.symbolTable.has varName then
          semanticError c (utf16 "Undeclared variable: " ++ varName)
            (utf16 "Declare variable before use")
        else c
      let c2 := advance c1
      if checkToken c2 .DELIMITER (utf16 "(") then parseFunctionCall n (retreat c2)
      else some c2
    else if checkToken c .DELIMITER (utf16 "(") then do
      let c1 := (consumeToken c .DELIMITER (utf16 "(")).2
      let c2 ← parseExpression n c1
      some (consumeToken c2 .DELIMITER (utf16 ")")).2
    else
      some (syntaxError c (utf16 "Expected expression")
        (utf16 "Add number, variable, or parenthesized expression"))

end

/-- Fuel handed to `parseProgram` by `parse`: every call and every loop test takes
one unit. -/
def parseFuel (tokens : List Token) : Nat := 32 * (tokens.length + 1)

/-- The method `parse` on a call stack that suffices for the recursion of the grammar
methods: the `try` block runs to its end and the `catch` is not entered. The `catch`
is modelled by `Bounded.parse`, which counts the frames and agrees with this function
whenever the stack has more frames than `parseFuel tokens`
(`bounded_parse_of_enough_stack`). -/
def parse (c : MiniCCompiler) (tokens : List Token) : Option MiniCCompiler :=
  parseProgram (parseFuel tokens) { c with tokens := tokens, currentToken := 0 }

/-! ## Semantic sweep, code generation and the driver -/

/-- The method `semanticAnalysis`: one diagnostic per `variable` entry of type `void`,
in the iteration order of the map. -/
def semanticAnalysis (c : MiniCCompiler) : MiniCCompiler :=
  c.symbolTable.foldl
    (fun c e =>
      match e.2 with
      | .variable dataType =>
        if dataType = utf16 "void" then
          semanticError c (utf16 "Variable \x27" ++ e.1 ++ utf16 "\x27 cannot be of type void")
            (utf16 "Use int, float, or char instead")
        else c
      | _ => c)
    c

/-- The method `String.prototype.toUpperCase` on ASCII text: the only receivers are the
`dataType` fields, which hold keyword texts. -/
def toUpperCase (s : JSString) : JSString :=
  s.map (fun ch => if 97 ≤ ch ∧ ch ≤ 122 then ch - 32 else ch)

/-- The method `generateCode`; the returned array is `this.output`. -/
def generateCode (c : MiniCCompiler) : MiniCCompiler :=
  let output : List JSString := []
  let output := output ++ [utf16 "// Generated Assembly-like Code"]
  let output := output ++ [utf16 "SECTION .data"]
  let output :=
    c.symbolTable.foldl
      (fun output e =>
        match e.2 with
        | .variable dataType =>
          output ++ [utf16 "    " ++ e.1 ++ utf16 ": " ++ toUpperCase dataType ++ utf16 " 0"]
        | _ => output)
      output
  let output := output ++ [utf16 "SECTION .text"]
  let output := output ++ [utf16 "GLOBAL _start"]
  let output := output ++ [utf16 "_start:"]
  let output := output ++ [utf16 "    ; Program execution starts here"]
  let output := output ++ [utf16 "    ; ... generated code ..."]
  let output := output ++ [utf16 "    MOV EAX, 1    ; sys_exit"]
  let output := output ++ [utf16 "    MOV EBX, 0    ; exit status"]
  let output := output ++ [utf16 "    INT 0x80      ; system call"]
  { c with output := output }

/-- The object `result` of `compile`. -/
structure CompileResult where
  success : Bool
  tokens : List Token
  errors : List CompilerError
  warnings : List CompilerError
  symbolTable : SymbolTable
  generatedCode : List JSString
  phases : List JSString
  deriving DecidableEq, Repr

/-- The four phase labels pushed on `result.phases`. -/
def phaseLexical : JSString := utf16 "🔍 LEXICAL ANALYSIS"
def phaseSyntax : JSString := utf16 "📝 SYNTAX ANALYSIS"
def phaseSemantic : JSString := utf16 "🧠 SEMANTIC ANALYSIS"
def phaseGeneration : JSString := utf16 "⚙️ CODE GENERATION"

/-- The method `compile`, run on the instance `c0` on a call stack that suffices for
the recursion of the grammar methods: the returned `result` and the instance
afterwards. The `catch` branch (the only place that builds an `INTERNAL` diagnostic)
is modelled by `Bounded.compile`, which counts the frames and agrees with this
function whenever the stack has more frames than the parser's fuel
(`bounded_compile_of_enough_stack`). -/
def compile (c0 : MiniCCompiler) (code : JSString) : Option (CompileResult × MiniCCompiler) := do
  let c : MiniCCompiler := { c0 with errors := [], warnings := [], symbolTable := [], output := [] }
  let result : CompileResult := ⟨false, [], [], [], [], [], []⟩
  let result := { result with phases := result.phases ++ [phaseLexical] }
  let (tokens, c) ← tokenize c code
  let result := { result with tokens := tokens }
  if c.errors.length > 0 then
    some ({ result with errors := c.errors }, c)
  else
    let result := { result with phases := result.phases ++ [phaseSyntax] }
    let c ← parse c tokens
    if c.errors.length > 0 then
      some ({ result with errors := c.errors }, c)
    else
      let result := { result with phases := result.phases ++ [phaseSemantic] }
      let c := semanticAnalysis c
      let result := { result with phases := result.phases ++ [phaseGeneration] }
      let c := generateCode c
      let result := { result with generatedCode := c.output }
      let result := { result with success := c.errors.length == 0 }
      let result := { result with errors := c.errors }
      let result := { result with warnings := c.warnings }
      let result := { result with symbolTable := c.symbolTable }
      some (result, c)

/-! ## Specifications used by the proofs -/

/-- The diagnostics the parser builds: kind `SYNTAX`, or kind `SEMANTIC` with a
message that starts with "Undeclared "; the suggestion is not empty. -/
def ParserDiagnostic (e : CompilerError) : Prop :=
  (e.type = .SYNTAX ∨ (e.type = .SEMANTIC ∧ utf16 "Undeclared " <+: e.message)) ∧
    e.suggestion ≠ []

/-- What every parser method guarantees about the instance: `c1` is `c` with
further parser diagnostics, a moved cursor and more symbols; the token list, the
warnings and the output are untouched. -/
structure Ext (c c1 : MiniCCompiler) : Prop where
  tokens : c1.tokens = c.tokens
  warnings : c1.warnings = c.warnings
  output : c1.output = c.output
  errors : ∃ es, c1.errors = c.errors ++ es ∧ ∀ e ∈ es, ParserDiagnostic e

/-- The relation `Ext` together with a net move of the cursor by at least `d` tokens. -/
structure Adv (d : Nat) (c c1 : MiniCCompiler) : Prop where
  ext : Ext c c1
  cursor : c.currentToken + d ≤ c1.currentToken

/-- A parser method `f` of rank `rank` returns, with postcondition `post`, on every
instance that satisfies `pre`, when given `rank + 32 * (tokens left)` units of fuel. -/
def Spec (f : Nat → MiniCCompiler → Option MiniCCompiler) (rank : Nat)
    (pre : MiniCCompiler → Prop) (post : MiniCCompiler → MiniCCompiler → Prop) (n : Nat) :
    Prop :=
  ∀ c, pre c → rank + 32 * (c.tokens.length - c.currentToken) ≤ n →
    ∃ c1, f n c = some c1 ∧ post c c1

/-- The specifications of all parser methods at fuel `n`. -/
structure AllSpecs (n : Nat) : Prop where
  parseFunctionCall :
    Spec parseFunctionCall 1 (fun c => c.currentToken < c.tokens.length) (Adv 1) n
  parsePrimary : Spec parsePrimary 2 (fun _ => True) (Adv 0) n
  parseUnary : Spec parseUnary 3 (fun _ => True) (Adv 0) n
  parseMultiplicativeLoop : Spec parseMultiplicativeLoop 1 (fun _ => True) (Adv 0) n
  parseMultiplicative : Spec parseMultiplicative 4 (fun _ => True) (Adv 0) n
  parseAdditiveLoop : Spec parseAdditiveLoop 1 (fun _ => True) (Adv 0) n
  parseAdditive : Spec parseAdditive 5 (fun _ => True) (Adv 0) n
  parseRelationalLoop : Spec parseRelationalLoop 1 (fun _ => True) (Adv 0) n
  parseRelational : Spec parseRelational 6 (fun _ => True) (Adv 0) n
  parseEqualityLoop : Spec parseEqualityLoop 1 (fun _ => True) (Adv 0) n
  parseEquality : Spec parseEquality 7 (fun _ => True) (Adv 0) n
  parseLogicalAndLoop : Spec parseLogicalAndLoop 1 (fun _ => True) (Adv 0) n
  parseLogicalAnd : Spec parseLogicalAnd 8 (fun _ => True) (Adv 0) n
  parseLogicalOrLoop : Spec parseLogicalOrLoop 1 (fun _ => True) (Adv 0) n
  parseLogicalOr : Spec parseLogicalOr 9 (fun _ => True) (Adv 0) n
  parseExpression : Spec parseExpression 10 (fun _ => True) (Adv 0) n
  parseArgumentList : Spec parseArgumentList 11 (fun _ => True) (Adv 0) n
  parseAssignment :
    ∀ varName, Spec (fun n => parseAssignment n varName) 11 (fun _ => True) (Adv 1) n
  parseReturnStatement :
    Spec parseReturnStatement 11 (fun c => checkToken c .KEYWORD (utf16 "return") = true)
      (Adv 1) n
  parseDeclarationLoop :
    ∀ type, Spec (fun n => parseDeclarationLoop n type) 1 (fun _ => True) (Adv 0) n
  parseDeclaration :
    ∀ type name, Spec (fun n => parseDeclaration n type name) 11 (fun _ => True) (Adv 0) n
  parseDeclarationOrFunction : Spec parseDeclarationOrFunction 12 (fun _ => True) (Adv 1) n
  parseIfStatement :
    Spec parseIfStatement 13 (fun c => checkToken c .KEYWORD (utf16 "if") = true) (Adv 1) n
  parseWhileStatement :
    Spec parseWhileStatement 13 (fun c => checkToken c .KEYWORD (utf16 "while") = true)
      (Adv 1) n
  parseForStatement :
    Spec parseForStatement 13 (fun c => checkToken c .KEYWORD (utf16 "for") = true) (Adv 1) n
  parseStatement : Spec parseStatement 14 (fun _ => True) (Adv 1) n
  parseBlockStatement : Spec parseBlockStatement 15 (fun _ => True) (Adv 0) n
  parseFunction :
    ∀ returnType name,
      Spec (fun n => parseFunction n returnType name) 16 (fun _ => True) (Adv 0) n
  parseProgram :
    Spec parseProgram 17 (fun _ => True)
      (fun c c1 => Adv 0 c c1 ∧ c1.tokens.length ≤ c1.currentToken) n

/-- The value returned by `compile` when it is run on the instance `c0`. -/
def compileResult (c0 : MiniCCompiler) (code : JSString) : Option CompileResult :=
  (compile c0 code).map Prod.fst

/-- The instance after the four resetting assignments at the top of `compile`. -/
def resetForCompile (c0 : MiniCCompiler) : MiniCCompiler :=
  { c0 with errors := [], warnings := [], symbolTable := [], output := [] }

/-- The diagnostics of the lexer: kind `LEXICAL`, with a non-empty suggestion. -/
def LexDiagnostic (e : CompilerError) : Prop :=
  e.type = .LEXICAL ∧ e.suggestion ≠ []

/-- The diagnostic that `semanticAnalysis` raises for the variable `name` while the
current token is `token`. -/
def voidDiagnostic (token : Token) (name : JSString) : CompilerError :=
  ⟨.SEMANTIC, utf16 "Variable \x27" ++ name ++ utf16 "\x27 cannot be of type void", token.line,
    token.column, utf16 "Use int, float, or char instead"⟩

/-- A symbol-table entry of role `variable` whose declared type is `void`. -/
def isVoidVariable (e : JSString × SymbolInfo) : Bool :=
  e.2 == .variable (utf16 "void")

/-- The lexer run on its own: the tokens `tokenize` returns for `code` and the
diagnostics it appends to `this.errors`. -/
def lex (code : JSString) : Option (List Token × List CompilerError) :=
  scanLines 0 (splitLines code) [] []

/-- The two-character entries of the array `operators`. -/
def twoCharOperators : List JSString :=
  [utf16 "==", utf16 "!=", utf16 "<=", utf16 ">=", utf16 "&&", utf16 "||", utf16 "++",
   utf16 "--", utf16 "+=", utf16 "-="]

/-- A letter or underscore followed by letters, digits or underscores. -/
def isIdentifierText : JSString → Bool
  | [] => false
  | ch :: rest => isIdentStart ch && rest.all isIdentPart

/-- From column `col` on, with enough fuel, the per-line loop pushes the tokens `ts`
and the diagnostics `es`. -/
def Scans (lineNum : Nat) (line : JSString) (col : Nat) (ts : List Token)
    (es : List CompilerError) : Prop :=
  ∀ (fuel : Nat) (toks : List Token) (errs : List CompilerError),
    line.length - col < fuel →
      scanLine lineNum line fuel col toks errs = some (toks ++ ts, errs ++ es)

/-- The tokens of a parameter list: `type name` pairs separated by comma tokens,
given as the first pair and the following (comma, type, name) triples. -/
def paramListTokens : Token × Token → List (Token × Token × Token) → List Token
  | (ty, nm), [] => [ty, nm]
  | (ty, nm), (comma, ty1, nm1) :: more =>
    ty :: nm :: comma :: paramListTokens (ty1, nm1) more

/-- The symbol table after every pair of a parameter list has been recorded, in
order, as a `parameter` of its type. -/
def recordParams (st : SymbolTable) : Token × Token → List (Token × Token × Token) → SymbolTable
  | (ty, nm), [] => st.set nm.value (.parameter ty.value)
  | (ty, nm), (_, ty1, nm1) :: more =>
    recordParams (st.set nm.value (.parameter ty.value)) (ty1, nm1) more

/-- The token kinds of a parameter list: keyword, identifier, and `,` between
pairs. -/
def WellFormedParams : Token × Token → List (Token × Token × Token) → Prop
  | (ty, nm), [] => ty.type = .KEYWORD ∧ nm.type = .IDENTIFIER
  | (ty, nm), (comma, ty1, nm1) :: more =>
    ty.type = .KEYWORD ∧ nm.type = .IDENTIFIER ∧ comma.type = .DELIMITER ∧
      comma.value = utf16 "," ∧ WellFormedParams (ty1, nm1) more

/-- The token `t` moved `d` lines down. -/
def Token.shiftLine (d : Nat) (t : Token) : Token :=
  { t with line := t.line + d }

/-- The diagnostic `e` moved `d` lines down. -/
def CompilerError.shiftLine (d : Nat) (e : CompilerError) : CompilerError :=
  { e with line := e.line + d }

/-- The outcome of a pass with its tokens and diagnostics moved `d` lines down. -/
def ScanStep.shiftLine (d : Nat) : ScanStep → ScanStep
  | .stop => .stop
  | .next col toks errs =>
    .next col (toks.map (Token.shiftLine d)) (errs.map (CompilerError.shiftLine d))

/-- The diagnostic of the string branch for a literal that is still open at the end
of line `line`, whose length is `column`. -/
def unterminatedDiagnostic (line column : Nat) : CompilerError :=
  ⟨.LEXICAL, utf16 "Unterminated string literal", line, column, utf16 "Add closing quote \""⟩

/-- The diagnostic of the number branch for a second decimal point met on line
`line` at column `column`. -/
def secondPointDiagnostic (line column : Nat) : CompilerError :=
  ⟨.LEXICAL, utf16 "Invalid number format", line, column,
    utf16 "Numbers can only have one decimal point"⟩

/-- The text of the token `t` stands in `line` at the column of `t`. -/
def TextAt (line : JSString) (t : Token) : Prop :=
  (line.drop t.column).take t.value.length = t.value

/-- A token pushed while reading `line` as line number `lineNum` (0-based): its
`line` is `lineNum + 1`, its text stands in the line at its column, and for a
`STRING` token the character just before its column is the opening quote. -/
def TokenOnLine (lineNum : Nat) (line : JSString) (t : Token) : Prop :=
  t.line = lineNum + 1 ∧ TextAt line t ∧
    (t.type = .STRING → 1 ≤ t.column ∧ line.getD (t.column - 1) 0 = 34)

/-- The diagnostic of the last branch of the per-line loop of `tokenize`, for the
character `ch` met on line `line` at column `column`. -/
def invalidCharDiagnostic (line column ch : Nat) : CompilerError :=
  ⟨.LEXICAL, utf16 "Invalid character: \x27" ++ [ch] ++ utf16 "\x27", line, column,
    utf16 "Remove or replace invalid character"⟩

/-- The characters that none of the branches of the per-line loop of `tokenize`
accepts: not whitespace, not `"`, not a digit, letter or underscore, not a
one-character operator, not a delimiter, and not `&` or `|`. -/
def isInvalidChar (ch : Nat) : Bool :=
  !isWhitespace ch && ch != 34 && !isDigit ch && !isIdentStart ch &&
    !operators.contains [ch] && !delimiters.contains [ch] && ch != 38 && ch != 124

/-- The invalid-character diagnostics of the characters of `s`, which stand on line
`line` from column `col` on. -/
def invalidCharDiagnostics (line : Nat) : Nat → JSString → List CompilerError
  | _, [] => []
  | col, ch :: s => invalidCharDiagnostic line col ch :: invalidCharDiagnostics line (col + 1) s

/-- The tokens of an include directive `# include < h >` with header name `h`;
`p i` is the (line, column) position of the token at index `i`. -/
def includeTokens (h : JSString) (p : Nat → Nat × Nat) : List Token :=
  [⟨.DELIMITER, utf16 "#", (p 0).1, (p 0).2⟩, ⟨.KEYWORD, utf16 "include", (p 1).1, (p 1).2⟩,
   ⟨.OPERATOR, utf16 "<", (p 2).1, (p 2).2⟩, ⟨.IDENTIFIER, h, (p 3).1, (p 3).2⟩,
   ⟨.OPERATOR, utf16 ">", (p 4).1, (p 4).2⟩]

/-- The four type keywords `int`, `float`, `char`, `void`. -/
def typeKeywords : List JSString := [utf16 "int", utf16 "float", utf16 "char", utf16 "void"]

/-- A symbol record whose declared type or return type is a type keyword. -/
def SymbolInfo.hasTypeKeyword : SymbolInfo → Bool
  | .variable dataType => typeKeywords.contains dataType
  | .parameter dataType => typeKeywords.contains dataType
  | .function returnType => typeKeywords.contains returnType

/-! ## Call-free expressions as token lists -/

/-- The operators tested by the loop of the binary precedence level `k`: 0 is
`parseMultiplicative`, 1 `parseAdditive`, 2 `parseRelational`, 3 `parseEquality`,
4 `parseLogicalAnd` and 5 `parseLogicalOr`. -/
def levelOperators : Nat → List JSString
  | 0 => [utf16 "*", utf16 "/"]
  | 1 => [utf16 "+", utf16 "-"]
  | 2 => [utf16 "<", utf16 ">", utf16 "<=", utf16 ">="]
  | 3 => [utf16 "==", utf16 "!="]
  | 4 => [utf16 "&&"]
  | 5 => [utf16 "||"]
  | _ => []

/-- An OPERATOR token that the loop of level `k` accepts. -/
def isLevelOperator (k : Nat) (t : Token) : Bool :=
  (levelOperators k).any (fun v => decide (t.type = .OPERATOR) && decide (t.value = v))

/-- An OPERATOR token that `parseUnary` skips: `!`, `-` or `+`. -/
def isUnaryOperator (t : Token) : Bool :=
  [utf16 "!", utf16 "-", utf16 "+"].any
    (fun v => decide (t.type = .OPERATOR) && decide (t.value = v))

/-- The DELIMITER token with text `v`. -/
def isDelimiter (v : JSString) (t : Token) : Bool :=
  decide (t.type = .DELIMITER) && decide (t.value = v)

/-- An INTEGER, FLOAT or STRING token. -/
def isLiteral (t : Token) : Bool :=
  decide (t.type = .INTEGER) || decide (t.type = .FLOAT) || decide (t.type = .STRING)

/-- The kinds of phrases of the expression grammar: a primary expression, an
expression of precedence level `k` (0 is the unary level, 6 a full expression), the
operator-operand pairs that follow the first operand of level `k + 1`, and a
comma-separated argument list. -/
inductive Phrase
  | primary
  | level (k : Nat)
  | tail (k : Nat)
  | arguments

/-- The token lists of well-formed expressions and argument lists that contain no
call: a primary is a literal, an identifier or a parenthesised expression; level 0
puts unary operators before a primary; level `k + 1` is a level-`k` operand followed
by pairs of a level-`k` operator and a level-`k` operand; an argument list is
expressions separated by commas. -/
inductive CallFree : Phrase → List Token → Prop
  | literal (t : Token) : isLiteral t = true → CallFree .primary [t]
  | identifier (t : Token) : t.type = .IDENTIFIER → CallFree .primary [t]
  | paren (l r : Token) (ts : List Token) : isDelimiter (utf16 "(") l = true →
      isDelimiter (utf16 ")") r = true → CallFree (.level 6) ts →
      CallFree .primary (l :: ts ++ [r])
  | operand (ts : List Token) : CallFree .primary ts → CallFree (.level 0) ts
  | unary (t : Token) (ts : List Token) : isUnaryOperator t = true →
      CallFree (.level 0) ts → CallFree (.level 0) (t :: ts)
  | binary (k : Nat) (ts tl : List Token) : k < 6 → CallFree (.level k) ts →
      CallFree (.tail k) tl → CallFree (.level (k + 1)) (ts ++ tl)
  | done (k : Nat) : k < 6 → CallFree (.tail k) []
  | more (k : Nat) (t : Token) (ts tl : List Token) : k < 6 → isLevelOperator k t = true →
      CallFree (.level k) ts → CallFree (.tail k) tl → CallFree (.tail k) (t :: ts ++ tl)
  | last (ts : List Token) : CallFree (.level 6) ts → CallFree .arguments ts
  | comma (ts : List Token) (t : Token) (tl : List Token) : CallFree (.level 6) ts →
      isDelimiter (utf16 ",") t = true → CallFree .arguments tl →
      CallFree .arguments (ts ++ t :: tl)

/-- The method that parses an expression of precedence level `k`. -/
def levelMethod : Nat → Nat → MiniCCompiler → Option MiniCCompiler
  | 0 => parseUnary
  | 1 => parseMultiplicative
  | 2 => parseAdditive
  | 3 => parseRelational
  | 4 => parseEquality
  | 5 => parseLogicalAnd
  | _ => parseLogicalOr

/-- The loop that reads the operator-operand pairs of level `k + 1`. -/
def loopMethod : Nat → Nat → MiniCCompiler → Option MiniCCompiler
  | 0 => parseMultiplicativeLoop
  | 1 => parseAdditiveLoop
  | 2 => parseRelationalLoop
  | 3 => parseEqualityLoop
  | 4 => parseLogicalAndLoop
  | _ => parseLogicalOrLoop

/-- The diagnostic of `parsePrimary` for the identifier token `t` that is not in the
symbol table. -/
def undeclaredVariableDiagnostic (t : Token) : CompilerError :=
  ⟨.SEMANTIC, utf16 "Undeclared variable: " ++ t.value, t.line, t.column,
    utf16 "Declare variable before use"⟩

/-- The diagnostics for the identifier tokens of `ts` that are not in the table `st`,
in the order of the tokens. -/
def undeclaredVariables (st : SymbolTable) (ts : List Token) : List CompilerError :=
  (ts.filter (fun t => decide (t.type = .IDENTIFIER) && !st.has t.value)).map
    undeclaredVariableDiagnostic

/-- The instance after the call-free tokens `ts` were read: the cursor is behind
them and the undeclared identifiers among them are reported. -/
def afterTokens (c : MiniCCompiler) (ts : List Token) : MiniCCompiler :=
  { c with
    currentToken := c.currentToken + ts.length
    errors := c.errors ++ undeclaredVariables c.symbolTable ts }

/-- The token after a phrase neither opens a call nor is an operator of a level
below `m`. -/
def FollowOk (m : Nat) (t : Token) : Prop :=
  isDelimiter (utf16 "(") t = false ∧ ∀ j < m, isLevelOperator j t = false

/-- The method `f` reads the tokens `ts`: started at `ts` followed by a token that
satisfies `ok`, with `need` units of fuel and 32 for every token left, it returns
the instance `afterTokens c ts`. -/
def Parses (f : Nat → MiniCCompiler → Option MiniCCompiler) (need : Nat) (ok : Token → Prop)
    (ts : List Token) : Prop :=
  ∀ (c : MiniCCompiler) (rest : List Token) (n : Nat),
    c.tokens.drop c.currentToken = ts ++ rest → ok (rest.headD eofToken) →
      need + 32 * (c.tokens.length - c.currentToken) ≤ n → f n c = some (afterTokens c ts)

/-- What it means that the parser reads a phrase of each kind. -/
def ParsesPhrase : Phrase → List Token → Prop
  | .primary, ts => Parses parsePrimary 2 (FollowOk 0) ts
  | .level k, ts => Parses (levelMethod k) (3 + k) (FollowOk k) ts
  | .tail k, ts => Parses (loopMethod k) 1 (FollowOk (k + 1)) ts
  | .arguments, ts =>
    Parses parseArgumentList 11 (fun t => FollowOk 6 t ∧ isDelimiter (utf16 ",") t = false) ts

/-- The diagnostic of `parseFunctionCall` for the callee `name`, placed at the token
`t` behind the name. -/
def undeclaredFunctionDiagnostic (name : JSString) (t : Token) : CompilerError :=
  ⟨.SEMANTIC, utf16 "Undeclared function: " ++ name, t.line, t.column,
    utf16 "Declare function before use"⟩

/-- The diagnostics that `parseFunctionCall` appends for the callee itself. -/
def calleeDiagnostics (st : SymbolTable) (name : JSString) (t : Token) : List CompilerError :=
  if !st.has name && !([utf16 "printf", utf16 "scanf"].contains name) then
    [undeclaredFunctionDiagnostic name t]
  else []

/-- The tokens of the call statement `g(1 + x);`. -/
def callExampleTokens : List Token :=
  [⟨.IDENTIFIER, utf16 "g", 1, 0⟩, ⟨.DELIMITER, utf16 "(", 1, 1⟩, ⟨.INTEGER, utf16 "1", 1, 2⟩,
   ⟨.OPERATOR, utf16 "+", 1, 4⟩, ⟨.IDENTIFIER, utf16 "x", 1, 6⟩, ⟨.DELIMITER, utf16 ")", 1, 7⟩,
   ⟨.DELIMITER, utf16 ";", 1, 8⟩]

/-- The tokens of the call statement `f(f());`, whose argument is a call. -/
def nestedCallTokens : List Token :=
  [⟨.IDENTIFIER, utf16 "f", 1, 0⟩, ⟨.DELIMITER, utf16 "(", 1, 1⟩, ⟨.IDENTIFIER, utf16 "f", 1, 2⟩,
   ⟨.DELIMITER, utf16 "(", 1, 3⟩, ⟨.DELIMITER, utf16 ")", 1, 4⟩, ⟨.DELIMITER, utf16 ")", 1, 5⟩,
   ⟨.DELIMITER, utf16 ";", 1, 6⟩]

/-- The tokens of `int f() \x7b f(); \x7d` for the name `f`; `p i` is the
(line, column) position of the token at index `i`. -/
def selfCallTokens (f : JSString) (p : Nat → Nat × Nat) : List Token :=
  [⟨.KEYWORD, utf16 "int", (p 0).1, (p 0).2⟩, ⟨.IDENTIFIER, f, (p 1).1, (p 1).2⟩,
   ⟨.DELIMITER, utf16 "(", (p 2).1, (p 2).2⟩, ⟨.DELIMITER, utf16 ")", (p 3).1, (p 3).2⟩,
   ⟨.DELIMITER, utf16 "\x7b", (p 4).1, (p 4).2⟩, ⟨.IDENTIFIER, f, (p 5).1, (p 5).2⟩,
   ⟨.DELIMITER, utf16 "(", (p 6).1, (p 6).2⟩, ⟨.DELIMITER, utf16 ")", (p 7).1, (p 7).2⟩,
   ⟨.DELIMITER, utf16 ";", (p 8).1, (p 8).2⟩, ⟨.DELIMITER, utf16 "\x7d", (p 9).1, (p 9).2⟩]

/-- The positions of the tokens of `int f() \x7b f(); \x7d` when the name `f` has
`n` characters. -/
def selfCallPositions (n : Nat) (i : Nat) : Nat × Nat :=
  (1, [0, 4, 4 + n, 5 + n, 7 + n, 9 + n, 9 + n + n, 10 + n + n, 11 + n + n, 13 + n + n].getD i 0)

/-- The diagnostic of `parseProgram` for the token `t`, which starts neither a
declaration nor a function. -/
def topLevelDiagnostic (t : Token) : CompilerError :=
  ⟨.SYNTAX, utf16 "Expected declaration or function", t.line, t.column,
    utf16 "Add proper function or variable declaration"⟩

/-- The diagnostic of a failing `consumeToken(kind, value)` at the token `t`. -/
def expectedDiagnostic (value : JSString) (t : Token) : CompilerError :=
  ⟨.SYNTAX, utf16 "Expected " ++ value, t.line, t.column, utf16 "Add " ++ value⟩

/-! ## Comma-chained declarations as token lists -/

/-- A declarator `x` or `x = literal`: the name token and, if there is an
initialiser, the `=` token and the literal token. -/
abbrev Declarator := Token × Option (Token × Token)

/-- The tokens of an optional initialiser. -/
def initialiserTokens : Option (Token × Token) → List Token
  | none => []
  | some (eq, lit) => [eq, lit]

/-- The tokens of a declarator. -/
def declaratorTokens (d : Declarator) : List Token :=
  d.1 :: initialiserTokens d.2

/-- The tokens of the declarators after the first, each behind its comma token. -/
def moreDeclaratorTokens : List (Token × Declarator) → List Token
  | [] => []
  | (comma, d) :: more => comma :: declaratorTokens d ++ moreDeclaratorTokens more

/-- The tokens of the declaration `T x1 [= e1], ..., xn [= en];`. -/
def declarationTokens (ty : Token) (first : Declarator) (more : List (Token × Declarator))
    (semi : Token) : List Token :=
  ty :: declaratorTokens first ++ moreDeclaratorTokens more ++ [semi]

/-- The token kinds of an optional initialiser: the operator `=` and a literal. -/
def WellFormedInitialiser : Option (Token × Token) → Prop
  | none => True
  | some (eq, lit) => eq.type = .OPERATOR ∧ eq.value = utf16 "=" ∧ isLiteral lit = true

/-- The token kinds of the declarators after the first: `,`, an identifier and an
optional initialiser. -/
def WellFormedDeclarators : List (Token × Declarator) → Prop
  | [] => True
  | (comma, d) :: more =>
    isDelimiter (utf16 ",") comma = true ∧ d.1.type = .IDENTIFIER ∧
      WellFormedInitialiser d.2 ∧ WellFormedDeclarators more

/-- The symbol table after the names of the declarators have been recorded, in
order, as variables of type `type`. -/
def recordDeclarators (type : JSString) (st : SymbolTable) : List Declarator → SymbolTable
  | [] => st
  | d :: ds => recordDeclarators type (st.set d.1.value (.variable type)) ds

/-! ## Two runs of the parser side by side -/

/-- What a relation between parser instances needs so that two runs of the parser
stay related: related instances have the same tokens and the same cursor, and each
primitive step of the parser, taken on both sides, leads to related instances. The
only step that looks into the symbol table is the conditional `semanticError`. -/
structure Simulation (R : MiniCCompiler → MiniCCompiler → Prop) : Prop where
  tokens : ∀ c c', R c c' → c'.tokens = c.tokens
  cursor : ∀ c c', R c c' → c'.currentToken = c.currentToken
  adv : ∀ c c', R c c' → R (advance c) (advance c')
  ret : ∀ c c', R c c' → R (retreat c) (retreat c')
  syn : ∀ c c' m s, R c c' → R (syntaxError c m s) (syntaxError c' m s)
  set : ∀ c c' k v, R c c' → R (setSymbol c k v) (setSymbol c' k v)
  sem : ∀ c c' (p : SymbolTable → Bool) m s, R c c' →
    R (if p c.symbolTable = true then semanticError c m s else c)
      (if p c'.symbolTable = true then semanticError c' m s else c')

/-- The run `y` follows the run `x`: if `x` returns, `y` returns a related instance. -/
def OptSim (R : MiniCCompiler → MiniCCompiler → Prop) (x y : Option MiniCCompiler) : Prop :=
  ∀ r, x = some r → ∃ r', y = some r' ∧ R r r'

/-- The method `g` follows the method `f` on related instances. -/
def Sim (R : MiniCCompiler → MiniCCompiler → Prop)
    (f g : MiniCCompiler → Option MiniCCompiler) : Prop :=
  ∀ c c', R c c' → OptSim R (f c) (g c')

/-- Every parser method with fuel `m` follows the same method with fuel `n`. -/
structure AllSim (R : MiniCCompiler → MiniCCompiler → Prop) (n m : Nat) : Prop where
  parseParameterList : Sim R (parseParameterList n) (parseParameterList m)
  parseProgram : Sim R (parseProgram n) (parseProgram m)
  parseDeclarationOrFunction :
    Sim R (parseDeclarationOrFunction n) (parseDeclarationOrFunction m)
  parseFunction : ∀ t x, Sim R (parseFunction n t x) (parseFunction m t x)
  parseDeclaration : ∀ t x, Sim R (parseDeclaration n t x) (parseDeclaration m t x)
  parseDeclarationLoop : ∀ t, Sim R (parseDeclarationLoop n t) (parseDeclarationLoop m t)
  parseBlockStatement : Sim R (parseBlockStatement n) (parseBlockStatement m)
  parseStatement : Sim R (parseStatement n) (parseStatement m)
  parseIfStatement : Sim R (parseIfStatement n) (parseIfStatement m)
  parseWhileStatement : Sim R (parseWhileStatement n) (parseWhileStatement m)
  parseForStatement : Sim R (parseForStatement n) (parseForStatement m)
  parseReturnStatement : Sim R (parseReturnStatement n) (parseReturnStatement m)
  parseFunctionCall : Sim R (parseFunctionCall n) (parseFunctionCall m)
  parseArgumentList : Sim R (parseArgumentList n) (parseArgumentList m)
  parseAssignment : ∀ x, Sim R (parseAssignment n x) (parseAssignment m x)
  parseExpression : Sim R (parseExpression n) (parseExpression m)
  level : ∀ k, k ≤ 6 → Sim R (levelMethod k n) (levelMethod k m)
  loop : ∀ k, k < 6 → Sim R (loopMethod k n) (loopMethod k m)
  parsePrimary : Sim R (parsePrimary n) (parsePrimary m)

/-- A diagnostic of kind `SYNTAX`. -/
def isSyntaxDiagnostic (e : CompilerError) : Bool := decide (e.type = .SYNTAX)

/-- Two parser instances that agree on what has been recognised: the same tokens,
the same cursor and the same `SYNTAX` diagnostics, in the same order. The symbol
tables and the other diagnostics may differ. -/
def SameSyntax (c c' : MiniCCompiler) : Prop :=
  c'.tokens = c.tokens ∧ c'.currentToken = c.currentToken ∧
    c'.errors.filter isSyntaxDiagnostic = c.errors.filter isSyntaxDiagnostic

/-! ## The flat expression parser of the specification -/

/-- The binary operators of the expression grammar, loosest first. -/
def binaryOperators : List JSString :=
  [utf16 "||", utf16 "&&", utf16 "==", utf16 "!=", utf16 "<", utf16 ">", utf16 "<=",
    utf16 ">=", utf16 "+", utf16 "-", utf16 "*", utf16 "/"]

/-- An OPERATOR token that is one of the binary operators. -/
def isBinaryOperator (t : Token) : Bool :=
  binaryOperators.any (fun v => decide (t.type = .OPERATOR) && decide (t.value = v))

/-- The loop of the flat parser, written after the specification and not after the
code: while the current token is any binary operator, consume it and read another
unary operand with the method `parseUnary` of the code. One call is one test of
the loop condition. -/
def parseFlatLoop : Nat → MiniCCompiler → Option MiniCCompiler
  | 0, _ => none
  | n + 1, c =>
    if isBinaryOperator (getCurrentToken c) then
      (parseUnary n (advance c)).bind (parseFlatLoop n)
    else some c

/-- The flat parser of the specification: one unary operand, then the loop. -/
def parseExpressionFlat : Nat → MiniCCompiler → Option MiniCCompiler
  | 0, _ => none
  | n + 1, c => (parseUnary n c).bind (parseFlatLoop n)

/-- Operator-operand pairs read one after the other, the operators taken from the
precedence levels below `k`: the instance `r` is reached from `c` by consuming an
operator and reading a unary operand, any number of times. -/
inductive FlatSteps (k : Nat) : MiniCCompiler → MiniCCompiler → Prop
  | done (c : MiniCCompiler) : FlatSteps k c c
  | step (c c1 r : MiniCCompiler) (j n : Nat) : j < k →
      isLevelOperator j (getCurrentToken c) = true → parseUnary n (advance c) = some c1 →
      FlatSteps k c1 r → FlatSteps k c r

/-! ## Expressions that end with a call, as token lists -/

/-- The tokens of the operands before the last one, each followed by its binary
operator. -/
def operandTokens : List (List Token × Token) → List Token
  | [] => []
  | (e, op) :: ps => e ++ op :: operandTokens ps

/-- An expression whose last operand is a call, with the `;` behind the call:
`e1 op1 ... ek opk u1 ... um name ( args ) ;` with operands `ei`, binary operators
`opi` and unary operators `ui`. -/
structure TrailingCall where
  operands : List (List Token × Token)
  unaries : List Token
  name : Token
  lparen : Token
  args : List Token
  rparen : Token
  semi : Token

/-- The tokens `name ( args ) ;` of the call. -/
def TrailingCall.callTokens (e : TrailingCall) : List Token :=
  e.name :: e.lparen :: (e.args ++ [e.rparen, e.semi])

/-- The tokens of the expression and the `;` behind it. -/
def TrailingCall.toTokens (e : TrailingCall) : List Token :=
  operandTokens e.operands ++ (e.unaries ++ e.callTokens)

/-! ## The parser on a bounded call stack

The engine gives the call stack a finite number of frames. A call made when none is
left raises a `RangeError`, which unwinds to the nearest `catch`: that of `parse`.
The definitions below are the grammar methods once more, with the number `s` of
frames left for the calls that the body makes. A frame stands for the stack room of
one grammar method together with the calls of the utility methods
(`getCurrentToken`, `checkToken`, `consumeToken`, ...) and of the built-ins that its
body makes, so those calls are taken to fit. -/

/-- How a call of a grammar method ends. -/
inductive Outcome
  /-- The method returned; `c` is the instance then. -/
  | done (c : MiniCCompiler)
  /-- A `RangeError` was raised at a call for which no frame was left; `c` is the
  instance at that moment. -/
  | thrown (c : MiniCCompiler)
  /-- The fuel of the model ran out. -/
  | stuck
  deriving DecidableEq, Repr

/-- Sequencing: an exception ends the run. -/
def Outcome.bind (o : Outcome) (k : MiniCCompiler → Outcome) : Outcome :=
  match o with
  | .done c => k c
  | .thrown c => .thrown c
  | .stuck => .stuck

/-- The outcome of a method that calls no grammar method. -/
def Outcome.ofOption : Option MiniCCompiler → Outcome
  | some c => .done c
  | none => .stuck

/-- A call of a grammar method on the instance `c` with `s` frames left: with none
left the call raises the `RangeError`, else the method runs with one frame less. -/
def invoke (s : Nat) (c : MiniCCompiler) (method : Nat → MiniCCompiler → Outcome) : Outcome :=
  match s with
  | 0 => .thrown c
  | s + 1 => method s c

/-- The body shared by `if`, `else`, `while` and `for` on a bounded stack. -/
def Bounded.blockOrStatement (s : Nat)
    (parseBlockStatement parseStatement : Nat → MiniCCompiler → Outcome) (c : MiniCCompiler) :
    Outcome :=
  if checkToken c .DELIMITER (utf16 "\x7b") then
    let c1 := (consumeToken c .DELIMITER (utf16 "\x7b")).2
    (invoke s c1 parseBlockStatement).bind fun c2 =>
    .done (consumeToken c2 .DELIMITER (utf16 "\x7d")).2
  else invoke s c parseStatement

mutual

/-- The method `parseProgram` on a bounded stack: one call is one test of the
`while` condition. -/
def Bounded.parseProgram : Nat → Nat → MiniCCompiler → Outcome
  | 0, _, _ => .stuck
  | n + 1, s, c =>
    if c.currentToken < c.tokens.length then
      if checkToken c .KEYWORD (utf16 "include") then
        (invoke s c (fun _ c => .done (parseInclude c))).bind (Bounded.parseProgram n s)
      else if checkTokenType c .KEYWORD then
        (invoke s c (Bounded.parseDeclarationOrFunction n)).bind (Bounded.parseProgram n s)
      else
        Bounded.parseProgram n s
          (advance (syntaxError c (utf16 "Expected declaration or function")
            (utf16 "Add proper function or variable declaration")))
    else .done c

/-- The method `parseDeclarationOrFunction` on a bounded stack. -/
def Bounded.parseDeclarationOrFunction : Nat → Nat → MiniCCompiler → Outcome
  | 0, _, _ => .stuck
  | n + 1, s, c =>
    let type := (getCurrentToken c).value
    let c1 := advance c
    if !checkTokenType c1 .IDENTIFIER then
      .done (syntaxError c1 (utf16 "Expected identifier") (utf16 "Add variable or function name"))
    else
      let name := (getCurrentToken c1).value
      let c2 := advance c1
      if checkToken c2 .DELIMITER (utf16 "(") then invoke s c2 (Bounded.parseFunction n type name)
      else if checkToken c2 .OPERATOR (utf16 "=") || checkToken c2 .DELIMITER (utf16 ";")
          || checkToken c2 .DELIMITER (utf16 ",") then
        invoke s c2 (Bounded.parseDeclaration n type name)
      else
        .done (syntaxError c2 (utf16 "Expected (, =, or ;")
          (utf16 "Add proper syntax for declaration or function"))

/-- The method `parseFunction` on a bounded stack. -/
def Bounded.parseFunction : Nat → JSString → JSString → Nat → MiniCCompiler → Outcome
  | 0, _, _, _, _ => .stuck
  | n + 1, returnType, name, s, c =>
    let c1 := setSymbol c name (.function returnType)
    let c2 := (consumeToken c1 .DELIMITER (utf16 "(")).2
    (if !checkToken c2 .DELIMITER (utf16 ")") then
        invoke s c2 (fun _ c => Outcome.ofOption (parseParameterList n c))
      else .done c2).bind fun c3 =>
    let c4 := (consumeToken c3 .DELIMITER (utf16 ")")).2
    let c5 := (consumeToken c4 .DELIMITER (utf16 "\x7b")).2
    (invoke s c5 (Bounded.parseBlockStatement n)).bind fun c6 =>
    .done (consumeToken c6 .DELIMITER (utf16 "\x7d")).2

/-- The method `parseDeclaration` on a bounded stack. -/
def Bounded.parseDeclaration : Nat → JSString → JSString → Nat → MiniCCompiler → Outcome
  | 0, _, _, _, _ => .stuck
  | n + 1, type, name, s, c =>
    let c1 := setSymbol c name (.variable type)
    (if checkToken c1 .OPERATOR (utf16 "=") then
        invoke s (advance c1) (Bounded.parseExpression n)
      else .done c1).bind fun c2 =>
    (Bounded.parseDeclarationLoop n type s c2).bind fun c3 =>
    .done (consumeToken c3 .DELIMITER (utf16 ";")).2

/-- The loop `while (this.checkToken('DELIMITER', ','))` of `parseDeclaration` on a
bounded stack; it runs in the frame of `parseDeclaration`. -/
def Bounded.parseDeclarationLoop : Nat → JSString → Nat → MiniCCompiler → Outcome
  | 0, _, _, _ => .stuck
  | n + 1, type, s, c =>
    if checkToken c .DELIMITER (utf16 ",") then
      let c1 := advance c
      if checkTokenType c1 .IDENTIFIER then
        let nextName := (getCurrentToken c1).value
        let c2 := advance (setSymbol c1 nextName (.variable type))
        (if checkToken c2 .OPERATOR (utf16 "=") then
            invoke s (advance c2) (Bounded.parseExpression n)
          else .done c2).bind fun c3 =>
        Bounded.parseDeclarationLoop n type s c3
      else
        Bounded.parseDeclarationLoop n type s
          (syntaxError c1 (utf16 "Expected identifier") (utf16 "Add variable name after comma"))
    else .done c

/-- The method `parseBlockStatement` on a bounded stack: one call is one test of the
`while` condition. -/
def Bounded.parseBlockStatement : Nat → Nat → MiniCCompiler → Outcome
  | 0, _, _ => .stuck
  | n + 1, s, c =>
    if !checkToken c .DELIMITER (utf16 "\x7d") && c.currentToken < c.tokens.length then
      (invoke s c (Bounded.parseStatement n)).bind (Bounded.parseBlockStatement n s)
    else .done c

/-- The method `parseStatement` on a bounded stack. -/
def Bounded.parseStatement : Nat → Nat → MiniCCompiler → Outcome
  | 0, _, _ => .stuck
  | n + 1, s, c =>
    if checkTokenType c .KEYWORD then
      let keyword := (getCurrentToken c).value
      if keyword = utf16 "int" ∨ keyword = utf16 "float" ∨ keyword = utf16 "char" then
        invoke s c (Bounded.parseDeclarationOrFunction n)
      else if keyword = utf16 "if" then invoke s c (Bounded.parseIfStatement n)
      else if keyword = utf16 "while" then invoke s c (Bounded.parseWhileStatement n)
      else if keyword = utf16 "for" then invoke s c (Bounded.parseForStatement n)
      else if keyword = utf16 "return" then invoke s c (Bounded.parseReturnStatement n)
      else if keyword = utf16 "printf" ∨ keyword = utf16 "scanf" then
        invoke s c (Bounded.parseFunctionCall n)
      else
        .done (advance (syntaxError c (utf16 "Unexpected keyword: " ++ keyword)
          (utf16 "Use valid C keywords")))
    else if checkTokenType c .IDENTIFIER then
      let name := (getCurrentToken c).value
      let c1 := advance c
      if checkToken c1 .DELIMITER (utf16 "(") then
        invoke s (retreat c1) (Bounded.parseFunctionCall n)
      else if checkToken c1 .OPERATOR (utf16 "=") || checkToken c1 .OPERATOR (utf16 "+=")
          || checkToken c1 .OPERATOR (utf16 "-=") then
        invoke s c1 (Bounded.parseAssignment n name)
      else
        .done (syntaxError c1 (utf16 "Expected assignment or function call")
          (utf16 "Add = for assignment or () for function call"))
    else
      .done (advance (syntaxError c (utf16 "Expected statement") (utf16 "Add valid C statement")))

/-- The method `parseIfStatement` on a bounded stack. -/
def Bounded.parseIfStatement : Nat → Nat → MiniCCompiler → Outcome
  | 0, _, _ => .stuck
  | n + 1, s, c =>
    let c1 := (consumeToken c .KEYWORD (utf16 "if")).2
    let c2 := (consumeToken c1 .DELIMITER (utf16 "(")).2
    (invoke s c2 (Bounded.parseExpression n)).bind fun c3 =>
    let c4 := (consumeToken c3 .DELIMITER (utf16 ")")).2
    (Bounded.blockOrStatement s (Bounded.parseBlockStatement n) (Bounded.parseStatement n)
      c4).bind fun c5 =>
    if checkToken c5 .KEYWORD (utf16 "else") then
      Bounded.blockOrStatement s (Bounded.parseBlockStatement n) (Bounded.parseStatement n)
        (advance c5)
    else .done c5

/-- The method `parseWhileStatement` on a bounded stack. -/
def Bounded.parseWhileStatement : Nat → Nat → MiniCCompiler → Outcome
  | 0, _, _ => .stuck
  | n + 1, s, c =>
    let c1 := (consumeToken c .KEYWORD (utf16 "while")).2
    let c2 := (consumeToken c1 .DELIMITER (utf16 "(")).2
    (invoke s c2 (Bounded.parseExpression n)).bind fun c3 =>
    let c4 := (consumeToken c3 .DELIMITER (utf16 ")")).2
    Bounded.blockOrStatement s (Bounded.parseBlockStatement n) (Bounded.parseStatement n) c4

/-- The method `parseForStatement` on a bounded stack. -/
def Bounded.parseForStatement : Nat → Nat → MiniCCompiler → Outcome
  | 0, _, _ => .stuck
  | n + 1, s, c =>
    let c1 := (consumeToken c .KEYWORD (utf16 "for")).2
    let c2 := (consumeToken c1 .DELIMITER (utf16 "(")).2
    (if !checkToken c2 .DELIMITER (utf16 ";") then invoke s c2 (Bounded.parseStatement n)
      else .done (advance c2)).bind fun c3 =>
    (if !checkToken c3 .DELIMITER (utf16 ";") then invoke s c3 (Bounded.parseExpression n)
      else .done c3).bind fun c4 =>
    let c5 := (consumeToken c4 .DELIMITER (utf16 ";")).2
    (if !checkToken c5 .DELIMITER (utf16 ")") then invoke s c5 (Bounded.parseExpression n)
      else .done c5).bind fun c6 =>
    let c7 := (consumeToken c6 .DELIMITER (utf16 ")")).2
    Bounded.blockOrStatement s (Bounded.parseBlockStatement n) (Bounded.parseStatement n) c7

/-- The method `parseReturnStatement` on a bounded stack. -/
def Bounded.parseReturnStatement : Nat → Nat → MiniCCompiler → Outcome
  | 0, _, _ => .stuck
  | n + 1, s, c =>
    let c1 := (consumeToken c .KEYWORD (utf16 "return")).2
    (if !checkToken c1 .DELIMITER (utf16 ";") then invoke s c1 (Bounded.parseExpression n)
      else .done c1).bind fun c2 =>
    .done (consumeToken c2 .DELIMITER (utf16 ";")).2

/-- The method `parseFunctionCall` on a bounded stack. -/
def Bounded.parseFunctionCall : Nat → Nat → MiniCCompiler → Outcome
  | 0, _, _ => .stuck
  | n + 1, s, c =>
    let funcName := (getCurrentToken c).value
    let c1 := advance c
    let c2 :=
      if !c1.symbolTable.has funcName && !([utf16 "printf", utf16 "scanf"].contains funcName) then
        semanticError c1 (utf16 "Undeclared function: " ++ funcName)
          (utf16 "Declare function before use")
      else c1
    let c3 := (consumeToken c2 .DELIMITER (utf16 "(")).2
    (if !checkToken c3 .DELIMITER (utf16 ")") then invoke s c3 (Bounded.parseArgumentList n)
      else .done c3).bind fun c4 =>
    let c5 := (consumeToken c4 .DELIMITER (utf16 ")")).2
    .done (consumeToken c5 .DELIMITER (utf16 ";")).2

/-- The method `parseArgumentList` on a bounded stack: one call is one pass through
the body of the `do ... while` loop. -/
def Bounded.parseArgumentList : Nat → Nat → MiniCCompiler → Outcome
  | 0, _, _ => .stuck
  | n + 1, s, c =>
    (invoke s c (Bounded.parseExpression n)).bind fun c1 =>
    if checkToken c1 .DELIMITER (utf16 ",") then
      let c2 := advance c1
      if c2.currentToken < c2.tokens.length then Bounded.parseArgumentList n s c2 else .done c2
    else .done c1

/-- The method `parseAssignment` on a bounded stack. -/
def Bounded.parseAssignment : Nat → JSString → Nat → MiniCCompiler → Outcome
  | 0, _, _, _ => .stuck
  | n + 1, varName, s, c =>
    let c1 :=
      if !c.symbolTable.has varName then
        semanticError c (utf16 "Undeclared variable: " ++ varName)
          (utf16 "Declare variable before use")
      else c
    let c2 := advance c1
    (invoke s c2 (Bounded.parseExpression n)).bind fun c3 =>
    .done (consumeToken c3 .DELIMITER (utf16 ";")).2

/-- The method `parseExpression` on a bounded stack. -/
def Bounded.parseExpression : Nat → Nat → MiniCCompiler → Outcome
  | 0, _, _ => .stuck
  | n + 1, s, c => invoke s c (Bounded.parseLogicalOr n)

/-- The method `parseLogicalOr` on a bounded stack. -/
def Bounded.parseLogicalOr : Nat → Nat → MiniCCompiler → Outcome
  | 0, _, _ => .stuck
  | n + 1, s, c =>
    (invoke s c (Bounded.parseLogicalAnd n)).bind (Bounded.parseLogicalOrLoop n s)

/-- The `while` loop of `parseLogicalOr` on a bounded stack. -/
def Bounded.parseLogicalOrLoop : Nat → Nat → MiniCCompiler → Outcome
  | 0, _, _ => .stuck
  | n + 1, s, c =>
    if checkToken c .OPERATOR (utf16 "||") then
      (invoke s (advance c) (Bounded.parseLogicalAnd n)).bind (Bounded.parseLogicalOrLoop n s)
    else .done c

/-- The method `parseLogicalAnd` on a bounded stack. -/
def Bounded.parseLogicalAnd : Nat → Nat → MiniCCompiler → Outcome
  | 0, _, _ => .stuck
  | n + 1, s, c =>
    (invoke s c (Bounded.parseEquality n)).bind (Bounded.parseLogicalAndLoop n s)

/-- The `while` loop of `parseLogicalAnd` on a bounded stack. -/
def Bounded.parseLogicalAndLoop : Nat → Nat → MiniCCompiler → Outcome
  | 0, _, _ => .stuck
  | n + 1, s, c =>
    if checkToken c .OPERATOR (utf16 "&&") then
      (invoke s (advance c) (Bounded.parseEquality n)).bind (Bounded.parseLogicalAndLoop n s)
    else .done c

/-- The method `parseEquality` on a bounded stack. -/
def Bounded.parseEquality : Nat → Nat → MiniCCompiler → Outcome
  | 0, _, _ => .stuck
  | n + 1, s, c =>
    (invoke s c (Bounded.parseRelational n)).bind (Bounded.parseEqualityLoop n s)

/-- The `while` loop of `parseEquality` on a bounded stack. -/
def Bounded.parseEqualityLoop : Nat → Nat → MiniCCompiler → Outcome
  | 0, _, _ => .stuck
  | n + 1, s, c =>
    if checkToken c .OPERATOR (utf16 "==") || checkToken c .OPERATOR (utf16 "!=") then
      (invoke s (advance c) (Bounded.parseRelational n)).bind (Bounded.parseEqualityLoop n s)
    else .done c

/-- The method `parseRelational` on a bounded stack. -/
def Bounded.parseRelational : Nat → Nat → MiniCCompiler → Outcome
  | 0, _, _ => .stuck
  | n + 1, s, c =>
    (invoke s c (Bounded.parseAdditive n)).bind (Bounded.parseRelationalLoop n s)

/-- The `while` loop of `parseRelational` on a bounded stack. -/
def Bounded.parseRelationalLoop : Nat → Nat → MiniCCompiler → Outcome
  | 0, _, _ => .stuck
  | n + 1, s, c =>
    if checkToken c .OPERATOR (utf16 "<") || checkToken c .OPERATOR (utf16 ">")
        || checkToken c .OPERATOR (utf16 "<=") || checkToken c .OPERATOR (utf16 ">=") then
      (invoke s (advance c) (Bounded.parseAdditive n)).bind (Bounded.parseRelationalLoop n s)
    else .done c

/-- The method `parseAdditive` on a bounded stack. -/
def Bounded.parseAdditive : Nat → Nat → MiniCCompiler → Outcome
  | 0, _, _ => .stuck
  | n + 1, s, c =>
    (invoke s c (Bounded.parseMultiplicative n)).bind (Bounded.parseAdditiveLoop n s)

/-- The `while` loop of `parseAdditive` on a bounded stack. -/
def Bounded.parseAdditiveLoop : Nat → Nat → MiniCCompiler → Outcome
  | 0, _, _ => .stuck
  | n + 1, s, c =>
    if checkToken c .OPERATOR (utf16 "+") || checkToken c .OPERATOR (utf16 "-") then
      (invoke s (advance c) (Bounded.parseMultiplicative n)).bind (Bounded.parseAdditiveLoop n s)
    else .done c

/-- The method `parseMultiplicative` on a bounded stack. -/
def Bounded.parseMultiplicative : Nat → Nat → MiniCCompiler → Outcome
  | 0, _, _ => .stuck
  | n + 1, s, c =>
    (invoke s c (Bounded.parseUnary n)).bind (Bounded.parseMultiplicativeLoop n s)

/-- The `while` loop of `parseMultiplicative` on a bounded stack. -/
def Bounded.parseMultiplicativeLoop : Nat → Nat → MiniCCompiler → Outcome
  | 0, _, _ => .stuck
  | n + 1, s, c =>
    if checkToken c .OPERATOR (utf16 "*") || checkToken c .OPERATOR (utf16 "/") then
      (invoke s (advance c) (Bounded.parseUnary n)).bind (Bounded.parseMultiplicativeLoop n s)
    else .done c

/-- The method `parseUnary` on a bounded stack. -/
def Bounded.parseUnary : Nat → Nat → MiniCCompiler → Outcome
  | 0, _, _ => .stuck
  | n + 1, s, c =>
    if checkToken c .OPERATOR (utf16 "!") || checkToken c .OPERATOR (utf16 "-")
        || checkToken c .OPERATOR (utf16 "+") then
      invoke s (advance c) (Bounded.parseUnary n)
    else invoke s c (Bounded.parsePrimary n)

/-- The method `parsePrimary` on a bounded stack. -/
def Bounded.parsePrimary : Nat → Nat → MiniCCompiler → Outcome
  | 0, _, _ => .stuck
  | n + 1, s, c =>
    if checkTokenType c .INTEGER || checkTokenType c .FLOAT || checkTokenType c .STRING then
      .done (advance c)
    else if checkTokenType c .IDENTIFIER then
      let varName := (getCurrentToken c).value
      let c1 :=
        if !c.symbolTable.has varName then
          semanticError c (utf16 "Undeclared variable: " ++ varName)
            (utf16 "Declare variable before use")
        else c
      let c2 := advance c1
      if checkToken c2 .DELIMITER (utf16 "(") then
        invoke s (retreat c2) (Bounded.parseFunctionCall n)
      else .done c2
    else if checkToken c .DELIMITER (utf16 "(") then
      let c1 := (consumeToken c .DELIMITER (utf16 "(")).2
      (invoke s c1 (Bounded.parseExpression n)).bind fun c2 =>
      .done (consumeToken c2 .DELIMITER (utf16 ")")).2
    else
      .done (syntaxError c (utf16 "Expected expression")
        (utf16 "Add number, variable, or parenthesized expression"))

end

/-- The method `parse` on a call stack with `s` frames left for the calls it makes:
a `RangeError` raised in `parseProgram` is swallowed by the `catch`, and the
instance stays as the exception left it. -/
def Bounded.parse (s : Nat) (c : MiniCCompiler) (tokens : List Token) : Option MiniCCompiler :=
  match invoke s { c with tokens := tokens, currentToken := 0 }
      (Bounded.parseProgram (parseFuel tokens)) with
  | .done c1 => some c1
  | .thrown c1 => some c1
  | .stuck => none

/-- A run on a bounded stack compared with the run of the same method on a stack
that suffices: when the bounded run returns, the other run returns the same
instance; it raises the `RangeError` only if `P` (the stack suffices) fails; and it
runs out of fuel only if the other run does. -/
def Follows (P : Prop) (o : Outcome) (x : Option MiniCCompiler) : Prop :=
  match o with
  | .done r => x = some r
  | .thrown _ => ¬P
  | .stuck => x = none

/-- Every grammar method on a bounded stack, with fuel `n`, follows the method on a
stack that suffices; `n` frames suffice. -/
structure AllFollows (n : Nat) : Prop where
  parseProgram : ∀ s c, Follows (n ≤ s) (Bounded.parseProgram n s c) (parseProgram n c)
  parseDeclarationOrFunction : ∀ s c,
    Follows (n ≤ s) (Bounded.parseDeclarationOrFunction n s c) (parseDeclarationOrFunction n c)
  parseFunction : ∀ t x s c,
    Follows (n ≤ s) (Bounded.parseFunction n t x s c) (parseFunction n t x c)
  parseDeclaration : ∀ t x s c,
    Follows (n ≤ s) (Bounded.parseDeclaration n t x s c) (parseDeclaration n t x c)
  parseDeclarationLoop : ∀ t s c,
    Follows (n ≤ s) (Bounded.parseDeclarationLoop n t s c) (parseDeclarationLoop n t c)
  parseBlockStatement : ∀ s c,
    Follows (n ≤ s) (Bounded.parseBlockStatement n s c) (parseBlockStatement n c)
  parseStatement : ∀ s c, Follows (n ≤ s) (Bounded.parseStatement n s c) (parseStatement n c)
  parseIfStatement : ∀ s c,
    Follows (n ≤ s) (Bounded.parseIfStatement n s c) (parseIfStatement n c)
  parseWhileStatement : ∀ s c,
    Follows (n ≤ s) (Bounded.parseWhileStatement n s c) (parseWhileStatement n c)
  parseForStatement : ∀ s c,
    Follows (n ≤ s) (Bounded.parseForStatement n s c) (parseForStatement n c)
  parseReturnStatement : ∀ s c,
    Follows (n ≤ s) (Bounded.parseReturnStatement n s c) (parseReturnStatement n c)
  parseFunctionCall : ∀ s c,
    Follows (n ≤ s) (Bounded.parseFunctionCall n s c) (parseFunctionCall n c)
  parseArgumentList : ∀ s c,
    Follows (n ≤ s) (Bounded.parseArgumentList n s c) (parseArgumentList n c)
  parseAssignment : ∀ x s c,
    Follows (n ≤ s) (Bounded.parseAssignment n x s c) (parseAssignment n x c)
  parseExpression : ∀ s c,
    Follows (n ≤ s) (Bounded.parseExpression n s c) (parseExpression n c)
  parseLogicalOr : ∀ s c, Follows (n ≤ s) (Bounded.parseLogicalOr n s c) (parseLogicalOr n c)
  parseLogicalOrLoop : ∀ s c,
    Follows (n ≤ s) (Bounded.parseLogicalOrLoop n s c) (parseLogicalOrLoop n c)
  parseLogicalAnd : ∀ s c, Follows (n ≤ s) (Bounded.parseLogicalAnd n s c) (parseLogicalAnd n c)
  parseLogicalAndLoop : ∀ s c,
    Follows (n ≤ s) (Bounded.parseLogicalAndLoop n s c) (parseLogicalAndLoop n c)
  parseEquality : ∀ s c, Follows (n ≤ s) (Bounded.parseEquality n s c) (parseEquality n c)
  parseEqualityLoop : ∀ s c,
    Follows (n ≤ s) (Bounded.parseEqualityLoop n s c) (parseEqualityLoop n c)
  parseRelational : ∀ s c, Follows (n ≤ s) (Bounded.parseRelational n s c) (parseRelational n c)
  parseRelationalLoop : ∀ s c,
    Follows (n ≤ s) (Bounded.parseRelationalLoop n s c) (parseRelationalLoop n c)
  parseAdditive : ∀ s c, Follows (n ≤ s) (Bounded.parseAdditive n s c) (parseAdditive n c)
  parseAdditiveLoop : ∀ s c,
    Follows (n ≤ s) (Bounded.parseAdditiveLoop n s c) (parseAdditiveLoop n c)
  parseMultiplicative : ∀ s c,
    Follows (n ≤ s) (Bounded.parseMultiplicative n s c) (parseMultiplicative n c)
  parseMultiplicativeLoop : ∀ s c,
    Follows (n ≤ s) (Bounded.parseMultiplicativeLoop n s c) (parseMultiplicativeLoop n c)
  parseUnary : ∀ s c, Follows (n ≤ s) (Bounded.parseUnary n s c) (parseUnary n c)
  parsePrimary : ∀ s c, Follows (n ≤ s) (Bounded.parsePrimary n s c) (parsePrimary n c)

/-- The property `Q` holds of the instance a call ends with, returned or thrown. -/
@[irreducible] def Outcome.All (Q : MiniCCompiler → Prop) : Outcome → Prop
  | .done r => Q r
  | .thrown r => Q r
  | .stuck => True

/-- A relation between an instance and a later one that every primitive step of the
parser keeps. -/
structure StepClosed (E : MiniCCompiler → MiniCCompiler → Prop) : Prop where
  refl : ∀ c, E c c
  trans : ∀ a b c, E a b → E b c → E a c
  adv : ∀ c, E c (advance c)
  ret : ∀ c, E c (retreat c)
  syn : ∀ c m s, E c (syntaxError c m s)
  sem : ∀ c m s, E c (semanticError c m s)
  set : ∀ c k v, E c (setSymbol c k v)

/-- The relation `E` holds between the instance a grammar method is called on and the
instance it ends with, whether it returns or raises. -/
structure AllReach (E : MiniCCompiler → MiniCCompiler → Prop) (n : Nat) : Prop where
  parseProgram : ∀ s c, (Bounded.parseProgram n s c).All (E c)
  parseDeclarationOrFunction : ∀ s c, (Bounded.parseDeclarationOrFunction n s c).All (E c)
  parseFunction : ∀ t x s c, (Bounded.parseFunction n t x s c).All (E c)
  parseDeclaration : ∀ t x s c, (Bounded.parseDeclaration n t x s c).All (E c)
  parseDeclarationLoop : ∀ t s c, (Bounded.parseDeclarationLoop n t s c).All (E c)
  parseBlockStatement : ∀ s c, (Bounded.parseBlockStatement n s c).All (E c)
  parseStatement : ∀ s c, (Bounded.parseStatement n s c).All (E c)
  parseIfStatement : ∀ s c, (Bounded.parseIfStatement n s c).All (E c)
  parseWhileStatement : ∀ s c, (Bounded.parseWhileStatement n s c).All (E c)
  parseForStatement : ∀ s c, (Bounded.parseForStatement n s c).All (E c)
  parseReturnStatement : ∀ s c, (Bounded.parseReturnStatement n s c).All (E c)
  parseFunctionCall : ∀ s c, (Bounded.parseFunctionCall n s c).All (E c)
  parseArgumentList : ∀ s c, (Bounded.parseArgumentList n s c).All (E c)
  parseAssignment : ∀ x s c, (Bounded.parseAssignment n x s c).All (E c)
  parseExpression : ∀ s c, (Bounded.parseExpression n s c).All (E c)
  parseLogicalOr : ∀ s c, (Bounded.parseLogicalOr n s c).All (E c)
  parseLogicalOrLoop : ∀ s c, (Bounded.parseLogicalOrLoop n s c).All (E c)
  parseLogicalAnd : ∀ s c, (Bounded.parseLogicalAnd n s c).All (E c)
  parseLogicalAndLoop : ∀ s c, (Bounded.parseLogicalAndLoop n s c).All (E c)
  parseEquality : ∀ s c, (Bounded.parseEquality n s c).All (E c)
  parseEqualityLoop : ∀ s c, (Bounded.parseEqualityLoop n s c).All (E c)
  parseRelational : ∀ s c, (Bounded.parseRelational n s c).All (E c)
  parseRelationalLoop : ∀ s c, (Bounded.parseRelationalLoop n s c).All (E c)
  parseAdditive : ∀ s c, (Bounded.parseAdditive n s c).All (E c)
  parseAdditiveLoop : ∀ s c, (Bounded.parseAdditiveLoop n s c).All (E c)
  parseMultiplicative : ∀ s c, (Bounded.parseMultiplicative n s c).All (E c)
  parseMultiplicativeLoop : ∀ s c, (Bounded.parseMultiplicativeLoop n s c).All (E c)
  parseUnary : ∀ s c, (Bounded.parseUnary n s c).All (E c)
  parsePrimary : ∀ s c, (Bounded.parsePrimary n s c).All (E c)

/-- The instance `r` is `c` some steps of the parser later: the same tokens, and
further diagnostics of the kinds `SYNTAX` and `SEMANTIC` only. -/
def Grows (c r : MiniCCompiler) : Prop :=
  r.tokens = c.tokens ∧
    ∃ es, r.errors = c.errors ++ es ∧ ∀ e ∈ es, e.type = .SYNTAX ∨ e.type = .SEMANTIC

/-- The message of the `RangeError` that the engine raises when the call stack is
exhausted (the text of V8). -/
def rangeErrorMessage : JSString := utf16 "Maximum call stack size exceeded"

/-- The diagnostic that the `catch` of `compile` pushes on `result.errors` for a
`RangeError`. -/
def internalDiagnostic : CompilerError :=
  ⟨.INTERNAL, utf16 "Internal compiler error: " ++ rangeErrorMessage, 0, 0,
    utf16 "Report this bug"⟩

/-- The array read `this.tokens[this.currentToken]` as JavaScript performs it: outside
the bounds of the array it yields `undefined`, written `none` here; a property access
on that value (`token.type`) would raise a `TypeError`. -/
def readToken (c : MiniCCompiler) : Option Token :=
  c.tokens[c.currentToken]?

/-- The method `getCurrentToken` with the array read as JavaScript performs it: `none`
stands for a returned `undefined`. -/
def getCurrentTokenChecked (c : MiniCCompiler) : Option Token :=
  if c.currentToken ≥ c.tokens.length then some eofToken
  else readToken c

/-- The message of the `TypeError` for reading `line` of `undefined` (the text of
V8). -/
def typeErrorMessage : JSString :=
  utf16 "Cannot read properties of undefined (reading \x27line\x27)"

/-- The diagnostic that the `catch` of `compile` pushes on `result.errors` for that
`TypeError`. -/
def typeErrorDiagnostic : CompilerError :=
  ⟨.INTERNAL, utf16 "Internal compiler error: " ++ typeErrorMessage, 0, 0,
    utf16 "Report this bug"⟩

/-- The method `semanticError` with the token read as JavaScript performs it: if
`getCurrentToken` returned `undefined`, the property access `token.line` would raise
a `TypeError`, written `.error` with the instance at that moment. -/
def semanticErrorChecked (c : MiniCCompiler) (message suggestion : JSString) :
    Except MiniCCompiler MiniCCompiler :=
  match getCurrentTokenChecked c with
  | none => .error c
  | some token =>
    .ok { c with
      errors := c.errors ++ [⟨.SEMANTIC, message, token.line, token.column, suggestion⟩] }

/-- The method `semanticAnalysis` with the token reads as JavaScript performs them;
the sweep runs outside `parse`, so a `TypeError` raised here would reach the `catch`
of `compile`. -/
def semanticAnalysisChecked (c : MiniCCompiler) : Except MiniCCompiler MiniCCompiler :=
  c.symbolTable.foldlM
    (fun c e =>
      match e.2 with
      | .variable dataType =>
        if dataType = utf16 "void" then
          semanticErrorChecked c
            (utf16 "Variable \x27" ++ e.1 ++ utf16 "\x27 cannot be of type void")
            (utf16 "Use int, float, or char instead")
        else .ok c
      | _ => .ok c)
    c

/-- The method `compile` on a call stack with `stack` frames left for the calls it
makes: the returned `result` and the instance afterwards. With no frame left the
first call in the `try` block, `this.tokenize(code)`, raises the `RangeError`, and
the `catch` pushes the `INTERNAL` diagnostic. Otherwise the phases run, `parse` with
one frame less for its own calls; the phases other than `parse` call no grammar
method and are taken to fit. The sweep is run with its token reads as JavaScript
performs them: a `TypeError` raised there ends the `try` block in the `catch`. -/
def Bounded.compile (stack : Nat) (c0 : MiniCCompiler) (code : JSString) :
    Option (CompileResult × MiniCCompiler) :=
  let c : MiniCCompiler := { c0 with errors := [], warnings := [], symbolTable := [], output := [] }
  let result : CompileResult := ⟨false, [], [], [], [], [], []⟩
  let result := { result with phases := result.phases ++ [phaseLexical] }
  match stack with
  | 0 => some ({ result with errors := result.errors ++ [internalDiagnostic] }, c)
  | s + 1 => do
    let (tokens, c) ← tokenize c code
    let result := { result with tokens := tokens }
    if c.errors.length > 0 then
      some ({ result with errors := c.errors }, c)
    else
      let result := { result with phases := result.phases ++ [phaseSyntax] }
      let c ← Bounded.parse s c tokens
      if c.errors.length > 0 then
        some ({ result with errors := c.errors }, c)
      else
        let result := { result with phases := result.phases ++ [phaseSemantic] }
        match semanticAnalysisChecked c with
        | .error c => some ({ result with errors := result.errors ++ [typeErrorDiagnostic] }, c)
        | .ok c =>
          let result := { result with phases := result.phases ++ [phaseGeneration] }
          let c := generateCode c
          let result := { result with generatedCode := c.output }
          let result := { result with success := c.errors.length == 0 }
          let result := { result with errors := c.errors }
          let result := { result with warnings := c.warnings }
          let result := { result with symbolTable := c.symbolTable }
          some (result, c)

/-- The value returned by `compile` on a call stack with `stack` frames left. -/
def Bounded.compileResult (stack : Nat) (c0 : MiniCCompiler) (code : JSString) :
    Option CompileResult :=
  (Bounded.compile stack c0 code).map Prod.fst

/-- The tokens of `m` opening parentheses on line 1, the first at column `col`. -/
def parenTokens : Nat → Nat → List Token
  | _, 0 => []
  | col, m + 1 => ⟨.DELIMITER, utf16 "(", 1, col⟩ :: parenTokens (col + 1) m

/-- The tokens of `void x = (( ... (;` with `k` opening parentheses, as the lexer
places them on line 1. -/
def nestedVoidTokens (k : Nat) : List Token :=
  [⟨.KEYWORD, utf16 "void", 1, 0⟩, ⟨.IDENTIFIER, utf16 "x", 1, 5⟩, ⟨.OPERATOR, utf16 "=", 1, 7⟩] ++
    (parenTokens 9 k ++ [⟨.DELIMITER, utf16 ";", 1, 9 + k⟩])

/-- The source text `void x = (( ... (;` with `k` opening parentheses. -/
def nestedVoidSource (k : Nat) : JSString :=
  utf16 "void x = " ++ (List.replicate k 40 ++ utf16 ";")

/-- The methods on the way from `parseExpression` down to `parsePrimary`, by the number
of calls between them. -/
def Bounded.chainMethod : Nat → Nat → Nat → MiniCCompiler → Outcome
  | 0 => Bounded.parseExpression
  | 1 => Bounded.parseLogicalOr
  | 2 => Bounded.parseLogicalAnd
  | 3 => Bounded.parseEquality
  | 4 => Bounded.parseRelational
  | 5 => Bounded.parseAdditive
  | 6 => Bounded.parseMultiplicative
  | 7 => Bounded.parseUnary
  | _ => Bounded.parsePrimary

/-! ## Expressions with calls, as token lists -/

/-- The token lists of well-formed expressions and argument lists, calls included: a
primary is a literal, an identifier, a parenthesised expression or a call
`name ( arguments )`, with or without arguments; the other phrases are built as in
`CallFree`. -/
inductive Grammar : Phrase → List Token → Prop
  | literal (t : Token) : isLiteral t = true → Grammar .primary [t]
  | identifier (t : Token) : t.type = .IDENTIFIER → Grammar .primary [t]
  | paren (l r : Token) (ts : List Token) : isDelimiter (utf16 "(") l = true →
      isDelimiter (utf16 ")") r = true → Grammar (.level 6) ts →
      Grammar .primary (l :: ts ++ [r])
  | call (name lp rp : Token) (args : List Token) : name.type = .IDENTIFIER →
      isDelimiter (utf16 "(") lp = true → isDelimiter (utf16 ")") rp = true →
      Grammar .arguments args → Grammar .primary (name :: lp :: args ++ [rp])
  | callEmpty (name lp rp : Token) : name.type = .IDENTIFIER →
      isDelimiter (utf16 "(") lp = true → isDelimiter (utf16 ")") rp = true →
      Grammar .primary [name, lp, rp]
  | operand (ts : List Token) : Grammar .primary ts → Grammar (.level 0) ts
  | unary (t : Token) (ts : List Token) : isUnaryOperator t = true →
      Grammar (.level 0) ts → Grammar (.level 0) (t :: ts)
  | binary (k : Nat) (ts tl : List Token) : k < 6 → Grammar (.level k) ts →
      Grammar (.tail k) tl → Grammar (.level (k + 1)) (ts ++ tl)
  | done (k : Nat) : k < 6 → Grammar (.tail k) []
  | more (k : Nat) (t : Token) (ts tl : List Token) : k < 6 → isLevelOperator k t = true →
      Grammar (.level k) ts → Grammar (.tail k) tl → Grammar (.tail k) (t :: ts ++ tl)
  | last (ts : List Token) : Grammar (.level 6) ts → Grammar .arguments ts
  | comma (ts : List Token) (t : Token) (tl : List Token) : Grammar (.level 6) ts →
      isDelimiter (utf16 ",") t = true → Grammar .arguments tl →
      Grammar .arguments (ts ++ t :: tl)

/-- The diagnostics that reading an expression appends: the `SEMANTIC` ones for
undeclared variables and functions, and the `SYNTAX` diagnostic "Expected ;" of a call
that is not followed by `;`. -/
def ExpressionDiagnostic (d : CompilerError) : Prop :=
  d.type = .SEMANTIC ∨ (d.type = .SYNTAX ∧ d.message = utf16 "Expected ;")

/-- The instance `r` is the instance `c` after `k` further tokens of an expression
were read: the cursor is `k` tokens further, diagnostics of expressions were appended,
and nothing else changed. -/
def ReadTo (c : MiniCCompiler) (k : Nat) (r : MiniCCompiler) : Prop :=
  ∃ es, r = { c with currentToken := c.currentToken + k, errors := c.errors ++ es } ∧
    ∀ d ∈ es, ExpressionDiagnostic d

/-- The method `f` reads the tokens `ts`, calls included: started at `ts` followed by
a token that satisfies `ok`, with `need` units of fuel and 32 for every token left, it
returns with the cursor behind `ts`. -/
def Reads (f : Nat → MiniCCompiler → Option MiniCCompiler) (need : Nat) (ok : Token → Prop)
    (ts : List Token) : Prop :=
  ∀ (c : MiniCCompiler) (rest : List Token) (n : Nat),
    c.tokens.drop c.currentToken = ts ++ rest → ok (rest.headD eofToken) →
      need + 32 * (c.tokens.length - c.currentToken) ≤ n →
        ∃ r, f n c = some r ∧ ReadTo c ts.length r

/-- The token after a phrase that may end with a call: as `FollowOk`, and not the `;`
that the call would take. -/
def FollowCall (m : Nat) (t : Token) : Prop :=
  FollowOk m t ∧ isDelimiter (utf16 ";") t = false

/-- What it means that the parser reads a phrase of each kind, calls included. -/
def ReadsPhrase : Phrase → List Token → Prop
  | .primary, ts => Reads parsePrimary 2 (FollowCall 0) ts
  | .level k, ts => Reads (levelMethod k) (3 + k) (FollowCall k) ts
  | .tail k, ts => Reads (loopMethod k) 1 (FollowCall (k + 1)) ts
  | .arguments, ts =>
    Reads parseArgumentList 11 (fun t => FollowCall 6 t ∧ isDelimiter (utf16 ",") t = false) ts

/-- The operands before the last one are unary-level expressions, each followed by a
binary operator. -/
def WellFormedOperands : List (List Token × Token) → Prop
  | [] => True
  | (e, op) :: ps =>
    Grammar (.level 0) e ∧ isBinaryOperator op = true ∧ WellFormedOperands ps

/-- The token kinds of an expression that ends with a call; the operands before the
call and its arguments may hold further calls. -/
structure TrailingCall.WellFormed (e : TrailingCall) : Prop where
  operands : WellFormedOperands e.operands
  unaries : ∀ u ∈ e.unaries, isUnaryOperator u = true
  name : e.name.type = .IDENTIFIER
  lparen : isDelimiter (utf16 "(") e.lparen = true
  args : e.args = [] ∨ Grammar .arguments e.args
  rparen : isDelimiter (utf16 ")") e.rparen = true
  semi : isDelimiter (utf16 ";") e.semi = true

/-! # Theorems -/

/-! ## The lexer: every pass moves on, and the loops end -/

theorem drop_eq_getD_cons (line : JSString) (col : Nat) (h : col < line.length) :
    line.drop col = line.getD col 0 :: line.drop (col + 1) := by
  rw [List.getD_eq_getElem line 0 h]
  exact List.drop_eq_getElem_cons h

theorem getD_of_drop_eq {line : JSString} {col a : Nat} {rest : JSString}
    (h : line.drop col = a :: rest) : line.getD col 0 = a ∧ col < line.length := by
  have hlt : col < line.length := by
    by_contra hc
    rw [List.drop_eq_nil_of_le (by omega)] at h
    cases h
  rw [drop_eq_getD_cons line col hlt] at h
  injection h with h1 _
  exact ⟨h1, hlt⟩

theorem length_of_drop_eq {line : JSString} {col : Nat} {rest : JSString}
    (h : line.drop col = rest) (hlt : col ≤ line.length) : line.length = col + rest.length := by
  subst h
  rw [List.length_drop]
  omega

theorem isDigit_ne_point {ch : Nat} (h : isDigit ch = true) : ch ≠ 46 := by
  simp [isDigit] at h
  omega

theorem scanNumber_cons_digit (ch : Nat) (rest : JSString) (isFloat : Bool)
    (h : isDigit ch = true) :
    scanNumber (ch :: rest) isFloat =
      ⟨ch :: (scanNumber rest isFloat).num, (scanNumber rest isFloat).isFloat,
        (scanNumber rest isFloat).secondPoint⟩ := by
  simp [scanNumber, h, isDigit_ne_point h]

theorem scanNumber_length_le (l : JSString) (isFloat : Bool) :
    (scanNumber l isFloat).num.length ≤ l.length := by
  induction l generalizing isFloat with
  | nil => simp [scanNumber]
  | cons ch rest ih =>
    simp only [scanNumber]
    split
    · split
      · split
        · simp
        · simpa using ih true
      · simpa using ih isFloat
    · simp

theorem length_takeWhile_le (p : Nat → Bool) (l : JSString) :
    (l.takeWhile p).length ≤ l.length :=
  (List.takeWhile_sublist p).length_le

theorem isIdentPart_of_isIdentStart {ch : Nat} (h : isIdentStart ch = true) :
    isIdentPart ch = true := by
  simp [isIdentStart] at h
  simp [isIdentPart]
  omega

/-- One pass of the scanning loop either is the `break` of a `//` comment or leaves
the column strictly larger, and never beyond the end of the line. -/
theorem scanStep_progress (lineNum : Nat) (line : JSString) (col : Nat)
    (h : col < line.length) :
    (scanStep lineNum line col = .stop ∧ line.getD col 0 = 47 ∧ line.getD (col + 1) 0 = 47) ∨
    ∃ col1 ts es, scanStep lineNum line col = .next col1 ts es ∧ col < col1 ∧
      col1 ≤ line.length := by
  have hd := drop_eq_getD_cons line col h
  unfold scanStep
  simp only []
  split
  · exact Or.inr ⟨_, _, _, rfl, by omega, by omega⟩
  split
  · rename_i h2
    exact Or.inl ⟨rfl, h2.1, h2.2.2⟩
  split
  · split
    · rename_i h4
      refine Or.inr ⟨_, _, _, rfl, by omega, ?_⟩
      have := length_takeWhile_le (fun ch => ch != 34) (line.drop (col + 1))
      rw [List.length_drop] at this
      omega
    · rename_i h4
      exact Or.inr ⟨_, _, _, rfl, by omega, by omega⟩
  split
  · rename_i hdig
    refine Or.inr ⟨_, _, _, rfl, ?_, ?_⟩
    · rw [hd, scanNumber_cons_digit _ _ _ hdig]
      simp
    · have := scanNumber_length_le (line.drop col) false
      rw [List.length_drop] at this
      omega
  split
  · rename_i hid
    refine Or.inr ⟨_, _, _, rfl, ?_, ?_⟩
    · rw [hd, List.takeWhile_cons, if_pos (isIdentPart_of_isIdentStart hid)]
      simp
    · have := length_takeWhile_le isIdentPart (line.drop col)
      rw [List.length_drop] at this
      omega
  split
  · rename_i h7
    exact Or.inr ⟨_, _, _, rfl, by omega, by omega⟩
  split
  · exact Or.inr ⟨_, _, _, rfl, by omega, by omega⟩
  · exact Or.inr ⟨_, _, _, rfl, by omega, by omega⟩

/-- With more fuel than columns left, the per-line loop ends. -/
theorem scanLine_total (lineNum : Nat) (line : JSString) :
    ∀ (fuel col : Nat) (toks : List Token) (errs : List CompilerError),
      line.length - col < fuel → ∃ r, scanLine lineNum line fuel col toks errs = some r := by
  intro fuel
  induction fuel with
  | zero => intro col toks errs h; omega
  | succ fuel ih =>
    intro col toks errs h
    by_cases hlt : col < line.length
    · rcases scanStep_progress lineNum line col hlt with ⟨hs, _⟩ | ⟨col1, ts, es, hs, h1, _⟩
      · refine ⟨(toks, errs), ?_⟩
        rw [scanLine, if_pos hlt, hs]
      · obtain ⟨r, hr⟩ := ih col1 (toks ++ ts) (errs ++ es) (by omega)
        refine ⟨r, ?_⟩
        rw [scanLine, if_pos hlt, hs]
        exact hr
    · refine ⟨(toks, errs), ?_⟩
      rw [scanLine, if_neg hlt]

theorem scanLines_total : ∀ (lines : List JSString) (lineNum : Nat) (toks : List Token)
    (errs : List CompilerError), ∃ r, scanLines lineNum lines toks errs = some r := by
  intro lines
  induction lines with
  | nil => intro lineNum toks errs; exact ⟨_, rfl⟩
  | cons line rest ih =>
    intro lineNum toks errs
    obtain ⟨⟨t1, e1⟩, h1⟩ := scanLine_total lineNum line (line.length + 1) 0 toks errs (by omega)
    simp only [scanLines, h1]
    exact ih _ _ _

theorem tokenize_total (c : MiniCCompiler) (code : JSString) :
    ∃ toks c1, tokenize c code = some (toks, c1) := by
  obtain ⟨⟨t, e⟩, h⟩ := scanLines_total (splitLines code) 0 [] c.errors
  exact ⟨t, { c with errors := e }, by simp only [tokenize, h]⟩

/-! ## The parser: the utility methods -/

theorem ParserDiagnostic.suggestion_ne {e : CompilerError} (h : ParserDiagnostic e) :
    e.suggestion ≠ [] := h.2

theorem Ext.same (c : MiniCCompiler) : Ext c c :=
  ⟨rfl, rfl, rfl, [], by simp, by simp⟩

theorem Ext.chain {a b c : MiniCCompiler} (h1 : Ext a b) (h2 : Ext b c) : Ext a c := by
  obtain ⟨es1, he1, hg1⟩ := h1.errors
  obtain ⟨es2, he2, hg2⟩ := h2.errors
  refine ⟨h2.tokens.trans h1.tokens, h2.warnings.trans h1.warnings,
    h2.output.trans h1.output, es1 ++ es2, ?_, ?_⟩
  · rw [he2, he1, List.append_assoc]
  · intro e he
    rcases List.mem_append.1 he with h | h
    · exact hg1 e h
    · exact hg2 e h

theorem Ext.tokens_length {c c1 : MiniCCompiler} (h : Ext c c1) : c1.tokens.length = c.tokens.length := by
  rw [h.tokens]

theorem Adv.len {d : Nat} {c c1 : MiniCCompiler} (h : Adv d c c1) :
    c1.tokens.length = c.tokens.length := h.ext.tokens_length

theorem Adv.stay (c : MiniCCompiler) : Adv 0 c c := ⟨Ext.same c, by omega⟩

theorem Adv.andThen {d1 d2 : Nat} {a b c : MiniCCompiler} (h1 : Adv d1 a b) (h2 : Adv d2 b c) :
    Adv (d1 + d2) a c :=
  ⟨h1.ext.chain h2.ext, by have := h1.cursor; have := h2.cursor; omega⟩

theorem Adv.mono {d1 d2 : Nat} {a b : MiniCCompiler} (h : Adv d1 a b) (hd : d2 ≤ d1) :
    Adv d2 a b :=
  ⟨h.ext, by have := h.cursor; omega⟩

theorem adv_advance (c : MiniCCompiler) : Adv 1 c (advance c) :=
  ⟨⟨rfl, rfl, rfl, [], by simp [advance], by simp⟩, by simp [advance]⟩

theorem retreat_advance (c : MiniCCompiler) : retreat (advance c) = c := by
  cases c
  simp [retreat, advance]

theorem adv_setSymbol (c : MiniCCompiler) (name : JSString) (info : SymbolInfo) :
    Adv 0 c (setSymbol c name info) :=
  ⟨⟨rfl, rfl, rfl, [], by simp [setSymbol], by simp⟩, by simp [setSymbol]⟩

theorem adv_syntaxError (c : MiniCCompiler) (message suggestion : JSString)
    (h : suggestion ≠ []) : Adv 0 c (syntaxError c message suggestion) :=
  ⟨⟨rfl, rfl, rfl, _, rfl, by simpa [ParserDiagnostic] using h⟩, by simp [syntaxError]⟩

theorem undeclared_variable_message (name : JSString) :
    utf16 "Undeclared " <+: utf16 "Undeclared variable: " ++ name :=
  ⟨utf16 "variable: " ++ name, by
    rw [show utf16 "Undeclared variable: " = utf16 "Undeclared " ++ utf16 "variable: " from
      by decide, List.append_assoc]⟩

theorem undeclared_function_message (name : JSString) :
    utf16 "Undeclared " <+: utf16 "Undeclared function: " ++ name :=
  ⟨utf16 "function: " ++ name, by
    rw [show utf16 "Undeclared function: " = utf16 "Undeclared " ++ utf16 "function: " from
      by decide, List.append_assoc]⟩

theorem adv_semanticError (c : MiniCCompiler) (message suggestion : JSString)
    (hm : utf16 "Undeclared " <+: message) (h : suggestion ≠ []) :
    Adv 0 c (semanticError c message suggestion) :=
  ⟨⟨rfl, rfl, rfl, _, rfl, by
      intro e he
      rw [List.mem_singleton.1 he]
      exact ⟨Or.inr ⟨rfl, hm⟩, h⟩⟩, by simp [semanticError]⟩

theorem add_text_ne_nil (value : JSString) : utf16 "Add " ++ value ≠ [] := by
  have h : utf16 "Add " = [65, 100, 100, 32] := by decide
  simp [h]

theorem adv_consumeToken (c : MiniCCompiler) (type : TokenType) (value : JSString) :
    Adv 0 c (consumeToken c type value).2 := by
  unfold consumeToken
  simp only []
  split
  · exact (adv_advance c).mono (by omega)
  · exact adv_syntaxError c _ _ (add_text_ne_nil value)

theorem adv_consumeToken_of_check (c : MiniCCompiler) (type : TokenType) (value : JSString)
    (h : checkToken c type value = true) : Adv 1 c (consumeToken c type value).2 := by
  unfold consumeToken
  simp only [checkToken, Bool.and_eq_true, decide_eq_true_eq] at h ⊢
  rw [if_pos h]
  exact adv_advance c

theorem lt_of_checkTokenType {c : MiniCCompiler} {type : TokenType}
    (h : checkTokenType c type = true) (ht : type ≠ .EOF) :
    c.currentToken < c.tokens.length := by
  by_contra hc
  have : getCurrentToken c = eofToken := by
    unfold getCurrentToken
    rw [if_pos (by omega)]
  simp [checkTokenType, this, eofToken] at h
  exact ht h.symm

theorem lt_of_checkToken {c : MiniCCompiler} {type : TokenType} {value : JSString}
    (h : checkToken c type value = true) (ht : type ≠ .EOF) :
    c.currentToken < c.tokens.length := by
  refine @lt_of_checkTokenType c type ?_ ht
  simp only [checkToken, Bool.and_eq_true, decide_eq_true_eq] at h
  simp [checkTokenType, h.1]

/-! ## The parser: every method returns, given fuel for the tokens left -/

/-- A precedence level `f` that runs `next` and then its own loop. -/
theorem level_spec {f next loop : Nat → MiniCCompiler → Option MiniCCompiler} {r rn : Nat}
    (n : Nat) (hf : ∀ c, f (n + 1) c = (next n c).bind (loop n))
    (hn : Spec next rn (fun _ => True) (Adv 0) n)
    (hl : Spec loop 1 (fun _ => True) (Adv 0) n) (hr : rn < r) (hr1 : 1 < r) :
    Spec f r (fun _ => True) (Adv 0) (n + 1) := by
  intro c _ hB
  obtain ⟨c1, h1, a1⟩ := hn c trivial (by omega)
  have l1 := a1.len
  have k1 := a1.cursor
  obtain ⟨c2, h2, a2⟩ := hl c1 trivial (by omega)
  exact ⟨c2, by rw [hf, h1]; exact h2, (a1.andThen a2).mono (by omega)⟩

/-- The loop of a precedence level: while `cond` holds, skip the operator and run
`next`. -/
theorem loop_spec {next loop : Nat → MiniCCompiler → Option MiniCCompiler} {rn : Nat}
    (n : Nat) (cond : MiniCCompiler → Bool)
    (hcond : ∀ c, cond c = true → c.currentToken < c.tokens.length)
    (hloop : ∀ c, loop (n + 1) c =
      if cond c = true then (next n (advance c)).bind (loop n) else some c)
    (hn : Spec next rn (fun _ => True) (Adv 0) n)
    (hl : Spec loop 1 (fun _ => True) (Adv 0) n) (hr : rn ≤ 31) :
    Spec loop 1 (fun _ => True) (Adv 0) (n + 1) := by
  intro c _ hB
  by_cases hc : cond c = true
  · have hlt := hcond c hc
    have a0 := adv_advance c
    have l0 := a0.len
    have k0 := a0.cursor
    obtain ⟨c1, h1, a1⟩ := hn (advance c) trivial (by omega)
    have l1 := a1.len
    have k1 := a1.cursor
    obtain ⟨c2, h2, a2⟩ := hl c1 trivial (by omega)
    exact ⟨c2, by rw [hloop, if_pos hc, h1]; exact h2,
      (a0.andThen (a1.andThen a2)).mono (by omega)⟩
  · exact ⟨c, by rw [hloop, if_neg hc], Adv.stay c⟩

theorem lt_of_checkToken_or {c : MiniCCompiler} {t1 t2 : TokenType} {v1 v2 : JSString}
    (h : (checkToken c t1 v1 || checkToken c t2 v2) = true) (h1 : t1 ≠ .EOF) (h2 : t2 ≠ .EOF) :
    c.currentToken < c.tokens.length := by
  rcases Bool.or_eq_true_iff.1 h with h | h
  · exact lt_of_checkToken h h1
  · exact lt_of_checkToken h h2

theorem parseExpression_spec (n : Nat) (ih : AllSpecs n) :
    Spec parseExpression 10 (fun _ => True) (Adv 0) (n + 1) := by
  intro c _ hB
  obtain ⟨c1, h1, a1⟩ := ih.parseLogicalOr c trivial (by omega)
  exact ⟨c1, by rw [parseExpression]; exact h1, a1⟩

theorem parseLogicalOr_spec (n : Nat) (ih : AllSpecs n) :
    Spec parseLogicalOr 9 (fun _ => True) (Adv 0) (n + 1) :=
  level_spec n (fun c => by rw [parseLogicalOr]; rfl) ih.parseLogicalAnd ih.parseLogicalOrLoop
    (by omega) (by omega)

theorem parseLogicalOrLoop_spec (n : Nat) (ih : AllSpecs n) :
    Spec parseLogicalOrLoop 1 (fun _ => True) (Adv 0) (n + 1) :=
  loop_spec n (fun c => checkToken c .OPERATOR (utf16 "||"))
    (fun _ h => lt_of_checkToken h (by decide))
    (fun c => by rw [parseLogicalOrLoop]; rfl) ih.parseLogicalAnd ih.parseLogicalOrLoop
    (by omega)

theorem parseLogicalAnd_spec (n : Nat) (ih : AllSpecs n) :
    Spec parseLogicalAnd 8 (fun _ => True) (Adv 0) (n + 1) :=
  level_spec n (fun c => by rw [parseLogicalAnd]; rfl) ih.parseEquality ih.parseLogicalAndLoop
    (by omega) (by omega)

theorem parseLogicalAndLoop_spec (n : Nat) (ih : AllSpecs n) :
    Spec parseLogicalAndLoop 1 (fun _ => True) (Adv 0) (n + 1) :=
  loop_spec n (fun c => checkToken c .OPERATOR (utf16 "&&"))
    (fun _ h => lt_of_checkToken h (by decide))
    (fun c => by rw [parseLogicalAndLoop]; rfl) ih.parseEquality ih.parseLogicalAndLoop
    (by omega)

theorem parseEquality_spec (n : Nat) (ih : AllSpecs n) :
    Spec parseEquality 7 (fun _ => True) (Adv 0) (n + 1) :=
  level_spec n (fun c => by rw [parseEquality]; rfl) ih.parseRelational ih.parseEqualityLoop
    (by omega) (by omega)

theorem parseEqualityLoop_spec (n : Nat) (ih : AllSpecs n) :
    Spec parseEqualityLoop 1 (fun _ => True) (Adv 0) (n + 1) :=
  loop_spec n
    (fun c => checkToken c .OPERATOR (utf16 "==") || checkToken c .OPERATOR (utf16 "!="))
    (fun _ h => lt_of_checkToken_or h (by decide) (by decide))
    (fun c => by rw [parseEqualityLoop]; rfl) ih.parseRelational ih.parseEqualityLoop
    (by omega)

theorem parseRelational_spec (n : Nat) (ih : AllSpecs n) :
    Spec parseRelational 6 (fun _ => True) (Adv 0) (n + 1) :=
  level_spec n (fun c => by rw [parseRelational]; rfl) ih.parseAdditive ih.parseRelationalLoop
    (by omega) (by omega)

theorem parseRelationalLoop_spec (n : Nat) (ih : AllSpecs n) :
    Spec parseRelationalLoop 1 (fun _ => True) (Adv 0) (n + 1) :=
  loop_spec n
    (fun c => checkToken c .OPERATOR (utf16 "<") || checkToken c .OPERATOR (utf16 ">")
      || checkToken c .OPERATOR (utf16 "<=") || checkToken c .OPERATOR (utf16 ">="))
    (fun _ h => by
      rcases Bool.or_eq_true_iff.1 h with h | h
      · rcases Bool.or_eq_true_iff.1 h with h | h
        · exact lt_of_checkToken_or h (by decide) (by decide)
        · exact lt_of_checkToken h (by decide)
      · exact lt_of_checkToken h (by decide))
    (fun c => by rw [parseRelationalLoop]; rfl) ih.parseAdditive ih.parseRelationalLoop
    (by omega)

theorem parseAdditive_spec (n : Nat) (ih : AllSpecs n) :
    Spec parseAdditive 5 (fun _ => True) (Adv 0) (n + 1) :=
  level_spec n (fun c => by rw [parseAdditive]; rfl) ih.parseMultiplicative
    ih.parseAdditiveLoop (by omega) (by omega)

theorem parseAdditiveLoop_spec (n : Nat) (ih : AllSpecs n) :
    Spec parseAdditiveLoop 1 (fun _ => True) (Adv 0) (n + 1) :=
  loop_spec n
    (fun c => checkToken c .OPERATOR (utf16 "+") || checkToken c .OPERATOR (utf16 "-"))
    (fun _ h => lt_of_checkToken_or h (by decide) (by decide))
    (fun c => by rw [parseAdditiveLoop]; rfl) ih.parseMultiplicative ih.parseAdditiveLoop
    (by omega)

theorem parseMultiplicative_spec (n : Nat) (ih : AllSpecs n) :
    Spec parseMultiplicative 4 (fun _ => True) (Adv 0) (n + 1) :=
  level_spec n (fun c => by rw [parseMultiplicative]; rfl) ih.parseUnary
    ih.parseMultiplicativeLoop (by omega) (by omega)

theorem parseMultiplicativeLoop_spec (n : Nat) (ih : AllSpecs n) :
    Spec parseMultiplicativeLoop 1 (fun _ => True) (Adv 0) (n + 1) :=
  loop_spec n
    (fun c => checkToken c .OPERATOR (utf16 "*") || checkToken c .OPERATOR (utf16 "/"))
    (fun _ h => lt_of_checkToken_or h (by decide) (by decide))
    (fun c => by rw [parseMultiplicativeLoop]; rfl) ih.parseUnary ih.parseMultiplicativeLoop
    (by omega)

theorem parseUnary_spec (n : Nat) (ih : AllSpecs n) :
    Spec parseUnary 3 (fun _ => True) (Adv 0) (n + 1) := by
  intro c _ hB
  rw [parseUnary]
  split
  · rename_i hc
    have hlt : c.currentToken < c.tokens.length := by
      rcases Bool.or_eq_true_iff.1 hc with h | h
      · exact lt_of_checkToken_or h (by decide) (by decide)
      · exact lt_of_checkToken h (by decide)
    have a0 := adv_advance c
    have l0 := a0.len
    have k0 := a0.cursor
    obtain ⟨c1, h1, a1⟩ := ih.parseUnary (advance c) trivial (by omega)
    exact ⟨c1, h1, (a0.andThen a1).mono (by omega)⟩
  · exact ih.parsePrimary c trivial (by omega)
/-- Sequencing: `o` runs from `c0`, which is `d0` past `c`, and the rest runs from
wherever `o` ends. -/
theorem runs_bind {d0 d1 d : Nat} {c c0 : MiniCCompiler} {o : Option MiniCCompiler}
    {g : MiniCCompiler → Option MiniCCompiler} (A : Adv d0 c c0)
    (h : ∃ c1, o = some c1 ∧ Adv d1 c0 c1)
    (k : ∀ c1, Adv (d0 + d1) c c1 → ∃ c2, g c1 = some c2 ∧ Adv d c c2) :
    ∃ c2, o.bind g = some c2 ∧ Adv d c c2 := by
  obtain ⟨c1, h1, a1⟩ := h
  obtain ⟨c2, h2, a2⟩ := k c1 (A.andThen a1)
  exact ⟨c2, by rw [h1]; exact h2, a2⟩

theorem runs_some {d0 d : Nat} {c c0 : MiniCCompiler} (A : Adv d0 c c0) (hd : d ≤ d0) :
    ∃ c2, some c0 = some c2 ∧ Adv d c c2 :=
  ⟨c0, rfl, A.mono hd⟩

/-- Running `o` from `c0`, which is `d0` past `c`, as the last step. -/
theorem runs_last {d0 d1 d : Nat} {c c0 : MiniCCompiler} {o : Option MiniCCompiler}
    (A : Adv d0 c c0) (h : ∃ c1, o = some c1 ∧ Adv d1 c0 c1) (hd : d ≤ d0 + d1) :
    ∃ c2, o = some c2 ∧ Adv d c c2 := by
  obtain ⟨c1, h1, a1⟩ := h
  exact ⟨c1, h1, (A.andThen a1).mono hd⟩

theorem parsePrimary_spec (n : Nat) (ih : AllSpecs n) :
    Spec parsePrimary 2 (fun _ => True) (Adv 0) (n + 1) := by
  intro c _ hB
  rw [parsePrimary]
  simp only [Option.bind_eq_bind]
  split
  · exact runs_some (adv_advance c) (by omega)
  split
  · rename_i hid
    have hlt := lt_of_checkTokenType hid (by decide)
    have a1 : Adv 0 c (if (!c.symbolTable.has (getCurrentToken c).value) = true then
        semanticError c (utf16 "Undeclared variable: " ++ (getCurrentToken c).value)
          (utf16 "Declare variable before use") else c) ∧
        (if (!c.symbolTable.has (getCurrentToken c).value) = true then
        semanticError c (utf16 "Undeclared variable: " ++ (getCurrentToken c).value)
          (utf16 "Declare variable before use") else c).currentToken = c.currentToken := by
      split
      · exact ⟨adv_semanticError c _ _ (undeclared_variable_message _) (by decide), rfl⟩
      · exact ⟨Adv.stay c, rfl⟩
    generalize (if (!c.symbolTable.has (getCurrentToken c).value) = true then
        semanticError c (utf16 "Undeclared variable: " ++ (getCurrentToken c).value)
          (utf16 "Declare variable before use") else c) = c1 at a1 ⊢
    obtain ⟨a1, k1⟩ := a1
    have l1 := a1.len
    split
    · rw [retreat_advance]
      exact runs_last a1 (ih.parseFunctionCall c1 (by omega) (by omega)) (by omega)
    · exact runs_some (a1.andThen (adv_advance c1)) (by omega)
  split
  · rename_i hp
    have hlt := lt_of_checkToken hp (by decide)
    have a1 := adv_consumeToken_of_check c _ _ hp
    have l1 := a1.len
    have k1 := a1.cursor
    refine runs_bind a1 (ih.parseExpression _ trivial (by omega)) (fun c2 a2 => ?_)
    exact runs_some (a2.andThen (adv_consumeToken c2 _ _)) (by omega)
  · exact runs_some (adv_syntaxError c _ _ (by decide)) (by omega)
/-- An optional step followed by the rest: `o` runs from `c0` only when `cond`
holds. -/
theorem runs_opt_bind {d0 d : Nat} {c c0 : MiniCCompiler} {o : Option MiniCCompiler}
    {g : MiniCCompiler → Option MiniCCompiler} (cond : Bool) (A : Adv d0 c c0)
    (h : cond = true → ∃ c1, o = some c1 ∧ Adv 0 c0 c1)
    (k : ∀ c1, Adv d0 c c1 → ∃ c2, g c1 = some c2 ∧ Adv d c c2) :
    ∃ c2, (if cond = true then o.bind g else (some c0).bind g) = some c2 ∧ Adv d c c2 := by
  by_cases hc : cond = true
  · rw [if_pos hc]
    exact runs_bind A (h hc) (fun c1 a1 => k c1 a1)
  · rw [if_neg hc]
    exact k c0 A

theorem parseFunctionCall_spec (n : Nat) (ih : AllSpecs n) :
    Spec parseFunctionCall 1 (fun c => c.currentToken < c.tokens.length) (Adv 1) (n + 1) := by
  intro c hpre hB
  rw [parseFunctionCall]
  simp only [Option.bind_eq_bind]
  have a2 : Adv 1 c (if (!(advance c).symbolTable.has (getCurrentToken c).value &&
        !([utf16 "printf", utf16 "scanf"].contains (getCurrentToken c).value)) = true then
        semanticError (advance c) (utf16 "Undeclared function: " ++ (getCurrentToken c).value)
          (utf16 "Declare function before use") else advance c) := by
    split
    · exact ((adv_advance c).andThen
        (adv_semanticError _ _ _ (undeclared_function_message _) (by decide))).mono (by omega)
    · exact adv_advance c
  generalize (if (!(advance c).symbolTable.has (getCurrentToken c).value &&
        !([utf16 "printf", utf16 "scanf"].contains (getCurrentToken c).value)) = true then
        semanticError (advance c) (utf16 "Undeclared function: " ++ (getCurrentToken c).value)
          (utf16 "Declare function before use") else advance c) = c2 at a2 ⊢
  have a3 := a2.andThen (adv_consumeToken c2 .DELIMITER (utf16 "("))
  generalize (consumeToken c2 .DELIMITER (utf16 "(")).2 = c3 at a3 ⊢
  have l3 := a3.len
  have k3 := a3.cursor
  refine runs_opt_bind _ a3 (fun _ => ih.parseArgumentList c3 trivial (by omega))
    (fun c4 a4 => ?_)
  exact runs_some ((a4.andThen (adv_consumeToken c4 _ _)).andThen (adv_consumeToken _ _ _))
    (by omega)

theorem parseArgumentList_spec (n : Nat) (ih : AllSpecs n) :
    Spec parseArgumentList 11 (fun _ => True) (Adv 0) (n + 1) := by
  intro c _ hB
  rw [parseArgumentList]
  simp only [Option.bind_eq_bind]
  refine runs_bind (Adv.stay c) (ih.parseExpression c trivial (by omega)) (fun c1 a1 => ?_)
  have l1 := a1.len
  have k1 := a1.cursor
  split
  · rename_i hc
    have hlt := lt_of_checkToken hc (by decide)
    have a2 := a1.andThen (adv_advance c1)
    have l2 := a2.len
    have k2 := a2.cursor
    split
    · exact runs_last a2 (ih.parseArgumentList _ trivial (by omega)) (by omega)
    · exact runs_some a2 (by omega)
  · exact runs_some a1 (by omega)

theorem parseAssignment_spec (n : Nat) (ih : AllSpecs n) (varName : JSString) :
    Spec (fun n => parseAssignment n varName) 11 (fun _ => True) (Adv 1) (n + 1) := by
  intro c _ hB
  simp only []
  rw [parseAssignment]
  simp only [Option.bind_eq_bind]
  have a1 : Adv 0 c (if (!c.symbolTable.has varName) = true then
      semanticError c (utf16 "Undeclared variable: " ++ varName)
        (utf16 "Declare variable before use") else c) := by
    split
    · exact adv_semanticError c _ _ (undeclared_variable_message _) (by decide)
    · exact Adv.stay c
  generalize (if (!c.symbolTable.has varName) = true then
      semanticError c (utf16 "Undeclared variable: " ++ varName)
        (utf16 "Declare variable before use") else c) = c1 at a1 ⊢
  have a2 := a1.andThen (adv_advance c1)
  have l2 := a2.len
  have k2 := a2.cursor
  refine runs_bind a2 (ih.parseExpression _ trivial (by omega)) (fun c3 a3 => ?_)
  exact runs_some (a3.andThen (adv_consumeToken c3 _ _)) (by omega)

theorem parseReturnStatement_spec (n : Nat) (ih : AllSpecs n) :
    Spec parseReturnStatement 11 (fun c => checkToken c .KEYWORD (utf16 "return") = true)
      (Adv 1) (n + 1) := by
  intro c hpre hB
  rw [parseReturnStatement]
  simp only [Option.bind_eq_bind]
  have a1 := adv_consumeToken_of_check c .KEYWORD (utf16 "return") hpre
  generalize (consumeToken c .KEYWORD (utf16 "return")).2 = c1 at a1 ⊢
  have l1 := a1.len
  have k1 := a1.cursor
  refine runs_opt_bind _ a1 (fun _ => ih.parseExpression c1 trivial (by omega))
    (fun c2 a2 => ?_)
  exact runs_some (a2.andThen (adv_consumeToken c2 _ _)) (by omega)

theorem parseDeclarationLoop_spec (n : Nat) (ih : AllSpecs n) (type : JSString) :
    Spec (fun n => parseDeclarationLoop n type) 1 (fun _ => True) (Adv 0) (n + 1) := by
  intro c _ hB
  simp only []
  rw [parseDeclarationLoop]
  simp only [Option.bind_eq_bind]
  split
  · rename_i hc
    have hlt := lt_of_checkToken hc (by decide)
    have a1 := adv_advance c
    have l1 := a1.len
    have k1 := a1.cursor
    split
    · rename_i hid
      have hlt1 := lt_of_checkTokenType hid (by decide)
      have a2 := (a1.andThen (adv_setSymbol (advance c) (getCurrentToken (advance c)).value
        (.variable type))).andThen (adv_advance _)
      generalize advance (setSymbol (advance c) (getCurrentToken (advance c)).value
        (.variable type)) = c2 at a2 ⊢
      have l2 := a2.len
      have k2 := a2.cursor
      refine runs_opt_bind _ a2 (fun he => ?_) (fun c3 a3 => ?_)
      · have hlt2 := lt_of_checkToken he (by decide)
        have a := adv_advance c2
        have := a.len
        have := a.cursor
        exact runs_last a (ih.parseExpression _ trivial (by omega)) (by omega)
      have l3 := a3.len
      have k3 := a3.cursor
      exact runs_last a3 (ih.parseDeclarationLoop type c3 trivial (by omega)) (by omega)
    · have a2 := a1.andThen (adv_syntaxError (advance c) (utf16 "Expected identifier")
        (utf16 "Add variable name after comma") (by decide))
      generalize syntaxError (advance c) (utf16 "Expected identifier")
        (utf16 "Add variable name after comma") = c2 at a2 ⊢
      have l2 := a2.len
      have k2 := a2.cursor
      exact runs_last a2 (ih.parseDeclarationLoop type c2 trivial (by omega)) (by omega)
  · exact runs_some (Adv.stay c) (by omega)

theorem parseDeclaration_spec (n : Nat) (ih : AllSpecs n) (type name : JSString) :
    Spec (fun n => parseDeclaration n type name) 11 (fun _ => True) (Adv 0) (n + 1) := by
  intro c _ hB
  simp only []
  rw [parseDeclaration]
  simp only [Option.bind_eq_bind]
  have a1 := adv_setSymbol c name (.variable type)
  generalize setSymbol c name (.variable type) = c1 at a1 ⊢
  have l1 := a1.len
  have k1 := a1.cursor
  refine runs_opt_bind _ a1 (fun he => ?_) (fun c2 a2 => ?_)
  · have hlt2 := lt_of_checkToken he (by decide)
    have a := adv_advance c1
    have := a.len
    have := a.cursor
    exact runs_last a (ih.parseExpression _ trivial (by omega)) (by omega)
  have l2 := a2.len
  have k2 := a2.cursor
  refine runs_bind a2 (ih.parseDeclarationLoop type c2 trivial (by omega)) (fun c3 a3 => ?_)
  exact runs_some (a3.andThen (adv_consumeToken c3 _ _)) (by omega)
theorem checkToken_of_type_value {c : MiniCCompiler} {type : TokenType} {value : JSString}
    (h : checkTokenType c type = true) (hv : (getCurrentToken c).value = value) :
    checkToken c type value = true := by
  simp only [checkTokenType, decide_eq_true_eq] at h
  simp [checkToken, h, hv]

theorem blockOrStatement_runs (n : Nat) (ih : AllSpecs n) (c : MiniCCompiler)
    (hB : 15 + 32 * (c.tokens.length - c.currentToken) ≤ n) :
    ∃ c1, blockOrStatement (parseBlockStatement n) (parseStatement n) c = some c1 ∧
      Adv 0 c c1 := by
  unfold blockOrStatement
  simp only [Option.bind_eq_bind]
  split
  · rename_i hc
    have a1 := adv_consumeToken_of_check c _ _ hc
    have l1 := a1.len
    have k1 := a1.cursor
    refine runs_bind a1 (ih.parseBlockStatement _ trivial (by omega)) (fun c2 a2 => ?_)
    exact runs_some (a2.andThen (adv_consumeToken c2 _ _)) (by omega)
  · exact runs_last (Adv.stay c) (ih.parseStatement c trivial (by omega)) (by omega)

theorem parseParameterList_runs : ∀ (n : Nat) (c : MiniCCompiler),
    1 + 32 * (c.tokens.length - c.currentToken) ≤ n →
      ∃ c1, parseParameterList n c = some c1 ∧ Adv 0 c c1 := by
  intro n
  induction n with
  | zero => intro c h; omega
  | succ n ih =>
    intro c hB
    rw [parseParameterList]
    simp only []
    split
    · rename_i hk
      have hlt := lt_of_checkTokenType hk (by decide)
      have a2 : Adv 1 c (if checkTokenType (advance c) .IDENTIFIER = true then
          advance (setSymbol (advance c) (getCurrentToken (advance c)).value
            (.parameter (getCurrentToken c).value))
          else syntaxError (advance c) (utf16 "Expected parameter name")
            (utf16 "Add parameter name after type")) := by
        split
        · exact (((adv_advance c).andThen (adv_setSymbol _ _ _)).andThen (adv_advance _)).mono
            (by omega)
        · exact ((adv_advance c).andThen (adv_syntaxError _ _ _ (by decide))).mono (by omega)
      generalize (if checkTokenType (advance c) .IDENTIFIER = true then
          advance (setSymbol (advance c) (getCurrentToken (advance c)).value
            (.parameter (getCurrentToken c).value))
          else syntaxError (advance c) (utf16 "Expected parameter name")
            (utf16 "Add parameter name after type")) = c2 at a2 ⊢
      split
      · have a3 := a2.andThen (adv_advance c2)
        have l3 := a3.len
        have k3 := a3.cursor
        split
        · exact runs_last a3 (ih _ (by omega)) (by omega)
        · exact runs_some a3 (by omega)
      · exact runs_some a2 (by omega)
    · exact runs_some (adv_syntaxError c _ _ (by decide)) (by omega)

theorem parseDeclarationOrFunction_spec (n : Nat) (ih : AllSpecs n) :
    Spec parseDeclarationOrFunction 12 (fun _ => True) (Adv 1) (n + 1) := by
  intro c _ hB
  rw [parseDeclarationOrFunction]
  simp only []
  have a1 := adv_advance c
  split
  · exact runs_some (a1.andThen (adv_syntaxError _ _ _ (by decide))) (by omega)
  · rename_i hid
    have hid : checkTokenType (advance c) .IDENTIFIER = true := by simpa using hid
    have hlt := lt_of_checkTokenType hid (by decide)
    have a2 := a1.andThen (adv_advance (advance c))
    have l1 := a1.len
    have k1 := a1.cursor
    have l2 := a2.len
    have k2 := a2.cursor
    split
    · exact runs_last a2 (ih.parseFunction _ _ _ trivial (by omega)) (by omega)
    split
    · exact runs_last a2 (ih.parseDeclaration _ _ _ trivial (by omega)) (by omega)
    · exact runs_some (a2.andThen (adv_syntaxError _ _ _ (by decide))) (by omega)

theorem parseIfStatement_spec (n : Nat) (ih : AllSpecs n) :
    Spec parseIfStatement 13 (fun c => checkToken c .KEYWORD (utf16 "if") = true) (Adv 1)
      (n + 1) := by
  intro c hpre hB
  have hlt := lt_of_checkToken hpre (by decide)
  rw [parseIfStatement]
  simp only [Option.bind_eq_bind]
  have a2 := (adv_consumeToken_of_check c _ _ hpre).andThen (adv_consumeToken _ .DELIMITER
    (utf16 "("))
  have l2 := a2.len
  have k2 := a2.cursor
  refine runs_bind a2 (ih.parseExpression _ trivial (by omega)) (fun c3 a3 => ?_)
  have a4 := a3.andThen (adv_consumeToken c3 .DELIMITER (utf16 ")"))
  have l4 := a4.len
  have k4 := a4.cursor
  refine runs_bind a4 (blockOrStatement_runs n ih _ (by omega)) (fun c5 a5 => ?_)
  split
  · have a6 := a5.andThen (adv_advance c5)
    have l6 := a6.len
    have k6 := a6.cursor
    exact runs_last a6 (blockOrStatement_runs n ih _ (by omega)) (by omega)
  · exact runs_some a5 (by omega)

theorem parseWhileStatement_spec (n : Nat) (ih : AllSpecs n) :
    Spec parseWhileStatement 13 (fun c => checkToken c .KEYWORD (utf16 "while") = true) (Adv 1)
      (n + 1) := by
  intro c hpre hB
  have hlt := lt_of_checkToken hpre (by decide)
  rw [parseWhileStatement]
  simp only [Option.bind_eq_bind]
  have a2 := (adv_consumeToken_of_check c _ _ hpre).andThen (adv_consumeToken _ .DELIMITER
    (utf16 "("))
  have l2 := a2.len
  have k2 := a2.cursor
  refine runs_bind a2 (ih.parseExpression _ trivial (by omega)) (fun c3 a3 => ?_)
  have a4 := a3.andThen (adv_consumeToken c3 .DELIMITER (utf16 ")"))
  have l4 := a4.len
  have k4 := a4.cursor
  exact runs_last a4 (blockOrStatement_runs n ih _ (by omega)) (by omega)

theorem parseForStatement_spec (n : Nat) (ih : AllSpecs n) :
    Spec parseForStatement 13 (fun c => checkToken c .KEYWORD (utf16 "for") = true) (Adv 1)
      (n + 1) := by
  intro c hpre hB
  have hlt := lt_of_checkToken hpre (by decide)
  rw [parseForStatement]
  simp only [Option.bind_eq_bind]
  have a2 := (adv_consumeToken_of_check c _ _ hpre).andThen (adv_consumeToken _ .DELIMITER
    (utf16 "("))
  generalize (consumeToken (consumeToken c .KEYWORD (utf16 "for")).2 .DELIMITER
    (utf16 "(")).2 = c2 at a2 ⊢
  have l2 := a2.len
  have k2 := a2.cursor
  have rest : ∀ c3, Adv (1 + 0) c c3 →
      ∃ c9, ((if (!checkToken c3 .DELIMITER (utf16 ";")) = true then
          (parseExpression n c3).bind fun c4 =>
            if (!checkToken (consumeToken c4 .DELIMITER (utf16 ";")).2 .DELIMITER (utf16 ")"))
                = true then
              (parseExpression n (consumeToken c4 .DELIMITER (utf16 ";")).2).bind fun c6 =>
                blockOrStatement (parseBlockStatement n) (parseStatement n)
                  (consumeToken c6 .DELIMITER (utf16 ")")).2
            else
              (some (consumeToken c4 .DELIMITER (utf16 ";")).2).bind fun c6 =>
                blockOrStatement (parseBlockStatement n) (parseStatement n)
                  (consumeToken c6 .DELIMITER (utf16 ")")).2
        else
          (some c3).bind fun c4 =>
            if (!checkToken (consumeToken c4 .DELIMITER (utf16 ";")).2 .DELIMITER (utf16 ")"))
                = true then
              (parseExpression n (consumeToken c4 .DELIMITER (utf16 ";")).2).bind fun c6 =>
                blockOrStatement (parseBlockStatement n) (parseStatement n)
                  (consumeToken c6 .DELIMITER (utf16 ")")).2
            else
              (some (consumeToken c4 .DELIMITER (utf16 ";")).2).bind fun c6 =>
                blockOrStatement (parseBlockStatement n) (parseStatement n)
                  (consumeToken c6 .DELIMITER (utf16 ")")).2) = some c9) ∧ Adv 1 c c9 := by
    intro c3 a3
    have l3 := a3.len
    have k3 := a3.cursor
    refine runs_opt_bind _ a3 (fun _ => ih.parseExpression c3 trivial (by omega))
      (fun c4 a4 => ?_)
    have a5 := a4.andThen (adv_consumeToken c4 .DELIMITER (utf16 ";"))
    generalize (consumeToken c4 .DELIMITER (utf16 ";")).2 = c5 at a5 ⊢
    have l5 := a5.len
    have k5 := a5.cursor
    refine runs_opt_bind _ a5 (fun _ => ih.parseExpression c5 trivial (by omega))
      (fun c6 a6 => ?_)
    have a7 := a6.andThen (adv_consumeToken c6 .DELIMITER (utf16 ")"))
    have l7 := a7.len
    have k7 := a7.cursor
    exact runs_last a7 (blockOrStatement_runs n ih _ (by omega)) (by omega)
  split
  · exact runs_bind a2 (ih.parseStatement c2 trivial (by omega))
      (fun c3 a3 => rest c3 (a3.mono (by omega)))
  · exact rest _ ((a2.andThen (adv_advance c2)).mono (by omega))
theorem parseStatement_spec (n : Nat) (ih : AllSpecs n) :
    Spec parseStatement 14 (fun _ => True) (Adv 1) (n + 1) := by
  intro c _ hB
  rw [parseStatement]
  simp only []
  split
  · rename_i hk
    have hlt := lt_of_checkTokenType hk (by decide)
    split
    · exact ih.parseDeclarationOrFunction c trivial (by omega)
    split
    · rename_i hv
      exact ih.parseIfStatement c (checkToken_of_type_value hk hv) (by omega)
    split
    · rename_i hv
      exact ih.parseWhileStatement c (checkToken_of_type_value hk hv) (by omega)
    split
    · rename_i hv
      exact ih.parseForStatement c (checkToken_of_type_value hk hv) (by omega)
    split
    · rename_i hv
      exact ih.parseReturnStatement c (checkToken_of_type_value hk hv) (by omega)
    split
    · exact ih.parseFunctionCall c hlt (by omega)
    · exact runs_some ((adv_syntaxError c _ _ (by decide)).andThen (adv_advance _)) (by omega)
  split
  · rename_i hk hid
    have hlt := lt_of_checkTokenType hid (by decide)
    have a1 := adv_advance c
    have l1 := a1.len
    have k1 := a1.cursor
    split
    · rw [retreat_advance]
      exact ih.parseFunctionCall c hlt (by omega)
    split
    · exact runs_last a1 (ih.parseAssignment _ _ trivial (by omega)) (by omega)
    · exact runs_some (a1.andThen (adv_syntaxError _ _ _ (by decide))) (by omega)
  · exact runs_some ((adv_syntaxError c _ _ (by decide)).andThen (adv_advance _)) (by omega)

theorem parseBlockStatement_spec (n : Nat) (ih : AllSpecs n) :
    Spec parseBlockStatement 15 (fun _ => True) (Adv 0) (n + 1) := by
  intro c _ hB
  rw [parseBlockStatement]
  simp only [Option.bind_eq_bind]
  split
  · rename_i hc
    have hlt : c.currentToken < c.tokens.length := by
      simpa using (Bool.and_eq_true_iff.1 hc).2
    refine runs_bind (Adv.stay c) (ih.parseStatement c trivial (by omega)) (fun c1 a1 => ?_)
    have l1 := a1.len
    have k1 := a1.cursor
    exact runs_last a1 (ih.parseBlockStatement c1 trivial (by omega)) (by omega)
  · exact runs_some (Adv.stay c) (by omega)

theorem parseFunction_spec (n : Nat) (ih : AllSpecs n) (returnType name : JSString) :
    Spec (fun n => parseFunction n returnType name) 16 (fun _ => True) (Adv 0) (n + 1) := by
  intro c _ hB
  simp only []
  rw [parseFunction]
  simp only [Option.bind_eq_bind]
  have a2 := (adv_setSymbol c name (.function returnType)).andThen
    (adv_consumeToken _ .DELIMITER (utf16 "("))
  generalize (consumeToken (setSymbol c name (.function returnType)) .DELIMITER
    (utf16 "(")).2 = c2 at a2 ⊢
  have l2 := a2.len
  have k2 := a2.cursor
  refine runs_opt_bind _ a2 (fun _ => parseParameterList_runs n c2 (by omega))
    (fun c3 a3 => ?_)
  have a5 := (a3.andThen (adv_consumeToken c3 .DELIMITER (utf16 ")"))).andThen
    (adv_consumeToken _ .DELIMITER (utf16 "\x7b"))
  have l5 := a5.len
  have k5 := a5.cursor
  refine runs_bind a5 (ih.parseBlockStatement _ trivial (by omega)) (fun c6 a6 => ?_)
  exact runs_some (a6.andThen (adv_consumeToken c6 _ _)) (by omega)

theorem adv_parseInclude (c : MiniCCompiler)
    (h : checkToken c .KEYWORD (utf16 "include") = true) : Adv 1 c (parseInclude c) := by
  have h0 : (consumeToken c .DELIMITER (utf16 "#")).2 =
      syntaxError c (utf16 "Expected " ++ utf16 "#") (utf16 "Add " ++ utf16 "#") := by
    simp only [checkToken, Bool.and_eq_true, decide_eq_true_eq] at h
    unfold consumeToken
    simp [h.1]
  have a1 : Adv 0 c (consumeToken c .DELIMITER (utf16 "#")).2 := adv_consumeToken _ _ _
  have h1 : checkToken (consumeToken c .DELIMITER (utf16 "#")).2 .KEYWORD (utf16 "include")
      = true := by
    rw [h0]; exact h
  have a2 := a1.andThen (adv_consumeToken_of_check _ _ _ h1)
  unfold parseInclude
  simp only []
  generalize (consumeToken (consumeToken c .DELIMITER (utf16 "#")).2 .KEYWORD
    (utf16 "include")).2 = c2 at a2 ⊢
  split
  · have a3 := a2.andThen (adv_consumeToken c2 .OPERATOR (utf16 "<"))
    generalize (consumeToken c2 .OPERATOR (utf16 "<")).2 = c3 at a3 ⊢
    have a4 : Adv 0 c3 (if (!checkTokenType c3 .IDENTIFIER) = true then
        syntaxError c3 (utf16 "Expected header name") (utf16 "Add header name like stdio.h")
        else advance c3) := by
      split
      · exact adv_syntaxError _ _ _ (by decide)
      · exact (adv_advance c3).mono (by omega)
    exact ((a3.andThen a4).andThen (adv_consumeToken _ _ _)).mono (by omega)
  · exact (a2.andThen (adv_syntaxError _ _ _ (by decide))).mono (by omega)

theorem parseProgram_spec (n : Nat) (ih : AllSpecs n) :
    Spec parseProgram 17 (fun _ => True)
      (fun c c1 => Adv 0 c c1 ∧ c1.tokens.length ≤ c1.currentToken) (n + 1) := by
  intro c _ hB
  rw [parseProgram]
  simp only [Option.bind_eq_bind]
  split
  · rename_i hlt
    split
    · rename_i hinc
      have a1 := adv_parseInclude c hinc
      have l1 := a1.len
      have k1 := a1.cursor
      obtain ⟨c2, h2, a2, e2⟩ := ih.parseProgram (parseInclude c) trivial (by omega)
      exact ⟨c2, h2, (a1.andThen a2).mono (by omega), e2⟩
    split
    · obtain ⟨c1, h1, a1⟩ := ih.parseDeclarationOrFunction c trivial (by omega)
      have l1 := a1.len
      have k1 := a1.cursor
      obtain ⟨c2, h2, a2, e2⟩ := ih.parseProgram c1 trivial (by omega)
      exact ⟨c2, by rw [h1]; exact h2, (a1.andThen a2).mono (by omega), e2⟩
    · have a1 := (adv_syntaxError c (utf16 "Expected declaration or function")
        (utf16 "Add proper function or variable declaration") (by decide)).andThen
        (adv_advance _)
      generalize advance (syntaxError c (utf16 "Expected declaration or function")
        (utf16 "Add proper function or variable declaration")) = c1 at a1 ⊢
      have l1 := a1.len
      have k1 := a1.cursor
      obtain ⟨c2, h2, a2, e2⟩ := ih.parseProgram c1 trivial (by omega)
      exact ⟨c2, h2, (a1.andThen a2).mono (by omega), e2⟩
  · exact ⟨c, rfl, Adv.stay c, by omega⟩

/-- Every parser method returns when its fuel covers the tokens left. -/
theorem allSpecs : ∀ n, AllSpecs n := by
  intro n
  induction n with
  | zero =>
    constructor <;> (unfold Spec; intros; omega)
  | succ n ih =>
    exact
      { parseFunctionCall := parseFunctionCall_spec n ih
        parsePrimary := parsePrimary_spec n ih
        parseUnary := parseUnary_spec n ih
        parseMultiplicativeLoop := parseMultiplicativeLoop_spec n ih
        parseMultiplicative := parseMultiplicative_spec n ih
        parseAdditiveLoop := parseAdditiveLoop_spec n ih
        parseAdditive := parseAdditive_spec n ih
        parseRelationalLoop := parseRelationalLoop_spec n ih
        parseRelational := parseRelational_spec n ih
        parseEqualityLoop := parseEqualityLoop_spec n ih
        parseEquality := parseEquality_spec n ih
        parseLogicalAndLoop := parseLogicalAndLoop_spec n ih
        parseLogicalAnd := parseLogicalAnd_spec n ih
        parseLogicalOrLoop := parseLogicalOrLoop_spec n ih
        parseLogicalOr := parseLogicalOr_spec n ih
        parseExpression := parseExpression_spec n ih
        parseArgumentList := parseArgumentList_spec n ih
        parseAssignment := parseAssignment_spec n ih
        parseReturnStatement := parseReturnStatement_spec n ih
        parseDeclarationLoop := parseDeclarationLoop_spec n ih
        parseDeclaration := parseDeclaration_spec n ih
        parseDeclarationOrFunction := parseDeclarationOrFunction_spec n ih
        parseIfStatement := parseIfStatement_spec n ih
        parseWhileStatement := parseWhileStatement_spec n ih
        parseForStatement := parseForStatement_spec n ih
        parseStatement := parseStatement_spec n ih
        parseBlockStatement := parseBlockStatement_spec n ih
        parseFunction := parseFunction_spec n ih
        parseProgram := parseProgram_spec n ih }

/-- The method `parse` returns on every token list: the cursor ends at or past the
end, and the instance only gains parser diagnostics and symbols. -/
theorem parse_total (c : MiniCCompiler) (tokens : List Token) :
    ∃ c1, parse c tokens = some c1 ∧ c1.tokens = tokens ∧ c1.warnings = c.warnings ∧
      c1.output = c.output ∧ c1.tokens.length ≤ c1.currentToken ∧
      ∃ es, c1.errors = c.errors ++ es ∧ ∀ e ∈ es, ParserDiagnostic e := by
  obtain ⟨c1, h1, a1, e1⟩ := (allSpecs (parseFuel tokens)).parseProgram
    { c with tokens := tokens, currentToken := 0 } trivial
    (by simp only [parseFuel]; omega)
  exact ⟨c1, h1, a1.ext.tokens, a1.ext.warnings, a1.ext.output, e1, a1.ext.errors⟩

/-! ## The driver -/

/-- The result built when `compile` stops after the lexical phase. -/
theorem compile_of_lexical_errors (c0 : MiniCCompiler) (code : JSString) (toks : List Token)
    (c1 : MiniCCompiler) (ht : tokenize (resetForCompile c0) code = some (toks, c1))
    (he : c1.errors ≠ []) :
    compile c0 code = some (⟨false, toks, c1.errors, [], [], [], [phaseLexical]⟩, c1) := by
  have hl : c1.errors.length > 0 := List.length_pos.2 he
  unfold resetForCompile at ht
  simp [compile, ht, hl]

/-- The result built when `compile` stops after the syntax phase. -/
theorem compile_of_syntax_errors (c0 : MiniCCompiler) (code : JSString) (toks : List Token)
    (c1 c2 : MiniCCompiler) (ht : tokenize (resetForCompile c0) code = some (toks, c1))
    (he : c1.errors = []) (hp : parse c1 toks = some c2) (he2 : c2.errors ≠ []) :
    compile c0 code =
      some (⟨false, toks, c2.errors, [], [], [], [phaseLexical, phaseSyntax]⟩, c2) := by
  have hl : c2.errors.length > 0 := List.length_pos.2 he2
  unfold resetForCompile at ht
  simp [compile, ht, he, hp, hl]

/-- The result built when `compile` runs all four phases. -/
theorem compile_of_no_syntax_errors (c0 : MiniCCompiler) (code : JSString) (toks : List Token)
    (c1 c2 : MiniCCompiler) (ht : tokenize (resetForCompile c0) code = some (toks, c1))
    (he : c1.errors = []) (hp : parse c1 toks = some c2) (he2 : c2.errors = []) :
    compile c0 code =
      some (⟨(generateCode (semanticAnalysis c2)).errors.length == 0, toks,
          (generateCode (semanticAnalysis c2)).errors,
          (generateCode (semanticAnalysis c2)).warnings,
          (generateCode (semanticAnalysis c2)).symbolTable,
          (generateCode (semanticAnalysis c2)).output,
          [phaseLexical, phaseSyntax, phaseSemantic, phaseGeneration]⟩,
        generateCode (semanticAnalysis c2)) := by
  unfold resetForCompile at ht
  simp [compile, ht, he, hp, he2]
theorem getCurrentToken_congr {c c1 : MiniCCompiler} (ht : c1.tokens = c.tokens)
    (hc : c1.currentToken = c.currentToken) : getCurrentToken c1 = getCurrentToken c := by
  unfold getCurrentToken
  rw [ht, hc]

theorem getCurrentToken_mk (c : MiniCCompiler) (es ws : List CompilerError)
    (st : SymbolTable) (out : List JSString) :
    getCurrentToken ⟨c.tokens, c.currentToken, es, ws, st, out⟩ = getCurrentToken c :=
  getCurrentToken_congr rfl rfl

/-- The sweep appends one diagnostic per `void` variable, in table order, all at the
position of the current token. -/
theorem semanticAnalysis_eq (c : MiniCCompiler) :
    semanticAnalysis c =
      { c with errors := (c.errors ++ (c.symbolTable.filter isVoidVariable).map
          (fun e => voidDiagnostic (getCurrentToken c) e.1)) } := by
  have key : ∀ (st : SymbolTable) (c : MiniCCompiler),
      st.foldl
        (fun c e =>
          match e.2 with
          | .variable dataType =>
            if dataType = utf16 "void" then
              semanticError c
                (utf16 "Variable \x27" ++ e.1 ++ utf16 "\x27 cannot be of type void")
                (utf16 "Use int, float, or char instead")
            else c
          | _ => c) c =
      { c with errors := (c.errors ++ (st.filter isVoidVariable).map
          (fun e => voidDiagnostic (getCurrentToken c) e.1)) } := by
    intro st
    induction st with
    | nil => intro c; simp
    | cons e rest ih =>
      intro c
      obtain ⟨name, info⟩ := e
      rw [List.foldl_cons, ih]
      rcases info with dataType | dataType | returnType
      · by_cases hv : dataType = utf16 "void"
        · subst hv
          simp [isVoidVariable, getCurrentToken_mk, semanticError, voidDiagnostic]
        · simp [isVoidVariable, hv]
      · simp [isVoidVariable]
      · simp [isVoidVariable]
  exact key c.symbolTable c

theorem generateCode_errors (c : MiniCCompiler) : (generateCode c).errors = c.errors := rfl

theorem generateCode_warnings (c : MiniCCompiler) : (generateCode c).warnings = c.warnings :=
  rfl

theorem generateCode_symbolTable (c : MiniCCompiler) :
    (generateCode c).symbolTable = c.symbolTable := rfl

theorem generateCode_output_ne_nil (c : MiniCCompiler) : (generateCode c).output ≠ [] := by
  simp [generateCode]

/-- The lexer reads the instance only to append to `errors`. -/
theorem tokenize_eq (c : MiniCCompiler) (code : JSString) :
    tokenize c code =
      (scanLines 0 (splitLines code) [] c.errors).map
        (fun p => (p.1, { c with errors := p.2 })) := by
  unfold tokenize
  cases scanLines 0 (splitLines code) [] c.errors with
  | none => rfl
  | some p => rfl

/-- The returned result does not depend on the instance `compile` is run on. -/
theorem compileResult_eq_new (c0 : MiniCCompiler) (code : JSString) :
    compileResult c0 code = compileResult MiniCCompiler.new code := by
  unfold compileResult compile
  simp only [tokenize_eq, MiniCCompiler.new]
  cases scanLines 0 (splitLines code) [] [] with
  | none => rfl
  | some p =>
    obtain ⟨toks, errs⟩ := p
    simp only [Option.map_some', Option.bind_eq_bind, Option.some_bind]
    by_cases he : errs.length > 0
    · simp [he]
    · simp only [he, if_false]
      have hp : parse { c0 with errors := errs, warnings := [], symbolTable := [], output := [] }
          toks = parse ⟨[], 0, errs, [], [], []⟩ toks := rfl
      rw [hp]
/-! ## The lexer: what it appends to `errors` -/

theorem scanStep_errs (lineNum : Nat) (line : JSString) (col col1 : Nat) (ts : List Token)
    (es : List CompilerError) (h : scanStep lineNum line col = .next col1 ts es) :
    ∀ e ∈ es, LexDiagnostic e := by
  unfold scanStep at h
  simp only [] at h
  split at h
  · cases h; simp
  split at h
  · cases h
  split at h
  · split at h
    · cases h
      intro e he
      rw [List.mem_singleton] at he
      subst he
      exact ⟨rfl, by dsimp only; decide⟩
    · cases h; simp
  split at h
  · cases h
    intro e he
    split at he
    · rw [List.mem_singleton] at he
      subst he
      exact ⟨rfl, by dsimp only; decide⟩
    · simp at he
  split at h
  · cases h; simp
  split at h
  · cases h; simp
  split at h
  · cases h; simp
  · cases h
    intro e he
    rw [List.mem_singleton] at he
    subst he
    exact ⟨rfl, by dsimp only; decide⟩

theorem scanLine_errs (lineNum : Nat) (line : JSString) :
    ∀ (fuel col : Nat) (toks : List Token) (errs : List CompilerError)
      (r : List Token × List CompilerError),
      scanLine lineNum line fuel col toks errs = some r →
        ∃ es, r.2 = errs ++ es ∧ ∀ e ∈ es, LexDiagnostic e := by
  intro fuel
  induction fuel with
  | zero => intro col toks errs r h; simp [scanLine] at h
  | succ fuel ih =>
    intro col toks errs r h
    rw [scanLine] at h
    split at h
    · cases hs : scanStep lineNum line col with
      | stop =>
        rw [hs] at h
        cases h
        exact ⟨[], by simp, by simp⟩
      | next col1 ts es =>
        rw [hs] at h
        obtain ⟨es2, h2, g2⟩ := ih col1 _ _ r h
        refine ⟨es ++ es2, by rw [h2, List.append_assoc], ?_⟩
        intro e he
        rcases List.mem_append.1 he with h1 | h1
        · exact scanStep_errs lineNum line col col1 ts es hs e h1
        · exact g2 e h1
    · cases h
      exact ⟨[], by simp, by simp⟩

theorem scanLines_errs : ∀ (lines : List JSString) (lineNum : Nat) (toks : List Token)
    (errs : List CompilerError) (r : List Token × List CompilerError),
    scanLines lineNum lines toks errs = some r →
      ∃ es, r.2 = errs ++ es ∧ ∀ e ∈ es, LexDiagnostic e := by
  intro lines
  induction lines with
  | nil =>
    intro lineNum toks errs r h
    simp only [scanLines] at h
    cases h
    exact ⟨[], by simp, by simp⟩
  | cons line rest ih =>
    intro lineNum toks errs r h
    rw [scanLines] at h
    cases h1 : scanLine lineNum line (line.length + 1) 0 toks errs with
    | none => rw [h1] at h; cases h
    | some p =>
      rw [h1] at h
      obtain ⟨es1, e1, g1⟩ := scanLine_errs lineNum line _ _ _ _ p h1
      obtain ⟨es2, e2, g2⟩ := ih _ _ _ r h
      refine ⟨es1 ++ es2, by rw [e2, e1, List.append_assoc], ?_⟩
      intro e he
      rcases List.mem_append.1 he with h3 | h3
      · exact g1 e h3
      · exact g2 e h3

/-- The lexer changes the instance only by appending lexical diagnostics. -/
theorem tokenize_errs (c : MiniCCompiler) (code : JSString) (toks : List Token)
    (c1 : MiniCCompiler) (h : tokenize c code = some (toks, c1)) :
    ∃ es, c1 = { c with errors := c.errors ++ es } ∧ ∀ e ∈ es, LexDiagnostic e := by
  rw [tokenize_eq] at h
  cases hs : scanLines 0 (splitLines code) [] c.errors with
  | none => rw [hs] at h; cases h
  | some p =>
    rw [hs] at h
    obtain ⟨es, e1, g1⟩ := scanLines_errs _ _ _ _ p hs
    simp only [Option.map_some', Option.some.injEq, Prod.mk.injEq] at h
    exact ⟨es, by rw [← h.2, e1], g1⟩

/-! ## The lexer: accumulators and single passes -/

theorem Scans.of_end {lineNum : Nat} {line : JSString} {col : Nat} (h : line.length ≤ col) :
    Scans lineNum line col [] [] := by
  intro fuel toks errs hf
  cases fuel with
  | zero => omega
  | succ fuel =>
    rw [scanLine, if_neg (by omega)]
    simp

theorem Scans.of_stop {lineNum : Nat} {line : JSString} {col : Nat} (hlt : col < line.length)
    (h : scanStep lineNum line col = .stop) : Scans lineNum line col [] [] := by
  intro fuel toks errs hf
  cases fuel with
  | zero => omega
  | succ fuel =>
    rw [scanLine, if_pos hlt, h]
    simp

theorem Scans.of_next {lineNum : Nat} {line : JSString} {col col1 : Nat} {ts ts1 : List Token}
    {es es1 : List CompilerError} (hlt : col < line.length)
    (h : scanStep lineNum line col = .next col1 ts es)
    (h1 : Scans lineNum line col1 ts1 es1) : Scans lineNum line col (ts ++ ts1) (es ++ es1) := by
  intro fuel toks errs hf
  have hp : col < col1 := by
    rcases scanStep_progress lineNum line col hlt with ⟨hs, _⟩ | ⟨c1, t1, e1, hs, hc, _⟩
    · rw [h] at hs; cases hs
    · rw [h] at hs; cases hs; exact hc
  cases fuel with
  | zero => omega
  | succ fuel =>
    rw [scanLine, if_pos hlt, h]
    simp only []
    rw [h1 fuel _ _ (by omega), List.append_assoc, List.append_assoc]

/-- On every line and from every column the loop pushes some tokens and diagnostics,
whatever it was handed. -/
theorem scans_exists (lineNum : Nat) (line : JSString) :
    ∀ (k col : Nat), line.length - col ≤ k → ∃ ts es, Scans lineNum line col ts es := by
  intro k
  induction k with
  | zero => intro col h; exact ⟨[], [], Scans.of_end (by omega)⟩
  | succ k ih =>
    intro col h
    by_cases hlt : col < line.length
    · rcases scanStep_progress lineNum line col hlt with ⟨hs, _⟩ | ⟨c1, t1, e1, hs, hc, _⟩
      · exact ⟨[], [], Scans.of_stop hlt hs⟩
      · obtain ⟨ts, es, h1⟩ := ih c1 (by omega)
        exact ⟨_, _, Scans.of_next hlt hs h1⟩
    · exact ⟨[], [], Scans.of_end (by omega)⟩

theorem scanLines_acc : ∀ (lines : List JSString) (lineNum : Nat) (toks : List Token)
    (errs : List CompilerError),
    scanLines lineNum lines toks errs =
      (scanLines lineNum lines [] []).map (fun p => (toks ++ p.1, errs ++ p.2)) := by
  intro lines
  induction lines with
  | nil => intro lineNum toks errs; simp [scanLines]
  | cons line rest ih =>
    intro lineNum toks errs
    obtain ⟨ts, es, hs⟩ := scans_exists lineNum line (line.length) 0 (by omega)
    rw [scanLines, scanLines, hs _ toks errs (by omega), hs _ [] [] (by omega)]
    simp only [List.nil_append]
    rw [ih _ (toks ++ ts) (errs ++ es), ih _ ts es]
    cases scanLines (lineNum + 1) rest [] [] with
    | none => rfl
    | some p => simp [List.append_assoc]

/-- The method `tokenize` in terms of the lexer run on its own. -/
theorem tokenize_eq_lex (c : MiniCCompiler) (code : JSString) :
    tokenize c code = (lex code).map (fun p => (p.1, { c with errors := c.errors ++ p.2 })) := by
  rw [tokenize_eq, scanLines_acc, lex]
  cases scanLines 0 (splitLines code) [] [] with
  | none => rfl
  | some p => simp

theorem tokenize_of_lex {code : JSString} {toks : List Token} (c : MiniCCompiler)
    (h : lex code = some (toks, [])) : tokenize c code = some (toks, c) := by
  rw [tokenize_eq_lex, h]
  simp
/-! ## The claims -/

theorem exists_of_map_eq_some {α β : Type} {o : Option α} {f : α → β} {b : β}
    (h : o.map f = some b) : ∃ a, o = some a ∧ f a = b := by
  cases o with
  | none => cases h
  | some a => exact ⟨a, rfl, by simpa using h⟩

/-- The three ways `compile` ends, in terms of the lexer and the parser. -/
theorem compile_cases (c0 : MiniCCompiler) (code : JSString) :
    ∃ toks c1, tokenize (resetForCompile c0) code = some (toks, c1) ∧
      ((c1.errors ≠ [] ∧
          compile c0 code = some (⟨false, toks, c1.errors, [], [], [], [phaseLexical]⟩, c1)) ∨
        (c1.errors = [] ∧ ∃ c2, parse c1 toks = some c2 ∧
          ((c2.errors ≠ [] ∧
              compile c0 code =
                some (⟨false, toks, c2.errors, [], [], [], [phaseLexical, phaseSyntax]⟩, c2)) ∨
            (c2.errors = [] ∧
              compile c0 code =
                some (⟨(generateCode (semanticAnalysis c2)).errors.length == 0, toks,
                    (generateCode (semanticAnalysis c2)).errors,
                    (generateCode (semanticAnalysis c2)).warnings,
                    (generateCode (semanticAnalysis c2)).symbolTable,
                    (generateCode (semanticAnalysis c2)).output,
                    [phaseLexical, phaseSyntax, phaseSemantic, phaseGeneration]⟩,
                  generateCode (semanticAnalysis c2)))))) := by
  obtain ⟨toks, c1, ht⟩ := tokenize_total (resetForCompile c0) code
  refine ⟨toks, c1, ht, ?_⟩
  by_cases he : c1.errors = []
  · obtain ⟨c2, hp, -⟩ := parse_total c1 toks
    refine Or.inr ⟨he, c2, hp, ?_⟩
    by_cases he2 : c2.errors = []
    · exact Or.inr ⟨he2, compile_of_no_syntax_errors c0 code toks c1 c2 ht he hp he2⟩
    · exact Or.inl ⟨he2, compile_of_syntax_errors c0 code toks c1 c2 ht he hp he2⟩
  · exact Or.inl ⟨he, compile_of_lexical_errors c0 code toks c1 ht he⟩

theorem compile_total (c0 : MiniCCompiler) (code : JSString) :
    ∃ r cf, compile c0 code = some (r, cf) := by
  obtain ⟨toks, c1, -, h⟩ := compile_cases c0 code
  rcases h with ⟨-, hc⟩ | ⟨-, c2, -, ⟨-, hc⟩ | ⟨-, hc⟩⟩ <;> exact ⟨_, _, hc⟩

/-- C1: for every source string and every instance, `compile` returns a result, and
its `success` is `true` if and only if its `errors` is empty, whichever phase
`compile` stopped after. -/
theorem compile_success_iff_no_errors (c0 : MiniCCompiler) (code : JSString) :
    ∃ r, compileResult c0 code = some r ∧ (r.success = true ↔ r.errors = []) := by
  obtain ⟨toks, c1, -, h⟩ := compile_cases c0 code
  rcases h with ⟨he, hc⟩ | ⟨-, c2, -, ⟨he, hc⟩ | ⟨-, hc⟩⟩
  · exact ⟨_, by rw [compileResult, hc]; rfl, by simpa using he⟩
  · exact ⟨_, by rw [compileResult, hc]; rfl, by simpa using he⟩
  · exact ⟨_, by rw [compileResult, hc]; rfl, by simp⟩

/-- C2: the phases of `compile(s)` are fixed by the first stage that leaves a
diagnostic. With `toks`, `c1` what `tokenize` returns on the reset instance: if `c1`
has a diagnostic the phases are `[lexical]` and the instance is left as the lexer
left it (the parser is not run); otherwise `parse` returns some `c2`, and the phases
are `[lexical, syntax]` if `c2` has a diagnostic and all four otherwise, in which
case `generatedCode` is the non-empty output of `generateCode` run after the
semantic sweep. On `"void x;"` all four phases run, `generatedCode` is not empty and
`success` is `false`. -/
theorem compile_phases (c0 : MiniCCompiler) (code : JSString) :
    (resetForCompile c0).errors = [] ∧
    (∃ toks c1 r cf, tokenize (resetForCompile c0) code = some (toks, c1) ∧
      compile c0 code = some (r, cf) ∧
      (c1.errors ≠ [] → r.phases = [phaseLexical] ∧ cf = c1) ∧
      (c1.errors = [] → ∃ c2, parse c1 toks = some c2 ∧
        (c2.errors ≠ [] → r.phases = [phaseLexical, phaseSyntax]) ∧
        (c2.errors = [] →
          r.phases = [phaseLexical, phaseSyntax, phaseSemantic, phaseGeneration] ∧
          r.generatedCode = (generateCode (semanticAnalysis c2)).output ∧
          r.generatedCode ≠ []))) ∧
    ∃ r, compileResult c0 (utf16 "void x;") = some r ∧
      r.phases = [phaseLexical, phaseSyntax, phaseSemantic, phaseGeneration] ∧
      r.generatedCode ≠ [] ∧ r.success = false := by
  refine ⟨rfl, ?_, ?_⟩
  · obtain ⟨toks, c1, ht, h⟩ := compile_cases c0 code
    rcases h with ⟨he, hc⟩ | ⟨he, c2, hp, ⟨he2, hc⟩ | ⟨he2, hc⟩⟩
    · exact ⟨toks, c1, _, _, ht, hc, fun _ => ⟨rfl, rfl⟩, fun h => absurd h he⟩
    · exact ⟨toks, c1, _, _, ht, hc, fun h => absurd he h,
        fun _ => ⟨c2, hp, fun _ => rfl, fun h => absurd h he2⟩⟩
    · exact ⟨toks, c1, _, _, ht, hc, fun h => absurd he h,
        fun _ => ⟨c2, hp, fun h => absurd he2 h,
          fun _ => ⟨rfl, rfl, generateCode_output_ne_nil _⟩⟩⟩
  · have h : (compileResult MiniCCompiler.new (utf16 "void x;")).map
        (fun r => (r.phases, !r.generatedCode.isEmpty, r.success)) =
        some ([phaseLexical, phaseSyntax, phaseSemantic, phaseGeneration], true, false) := by
      decide!
    rw [compileResult_eq_new]
    obtain ⟨r, hr, hf⟩ := exists_of_map_eq_some h
    simp only [Prod.mk.injEq] at hf
    refine ⟨r, hr, hf.1, ?_, hf.2.2⟩
    intro hn
    rw [hn] at hf
    simp at hf

/-- Witness of C2 on a source with a lexical error: only the lexical phase runs. -/
theorem compile_phases_witness :
    ∃ r, compileResult MiniCCompiler.new (utf16 "int @;") = some r ∧
      r.phases = [phaseLexical] := by
  obtain ⟨-, ⟨toks, c1, r, cf, ht, hc, h1, -⟩, -⟩ :=
    compile_phases MiniCCompiler.new (utf16 "int @;")
  have hl : lex (utf16 "int @;") = some
      ([⟨.KEYWORD, utf16 "int", 1, 0⟩, ⟨.DELIMITER, utf16 ";", 1, 5⟩],
       [⟨.LEXICAL, utf16 "Invalid character: \x27@\x27", 1, 4,
          utf16 "Remove or replace invalid character"⟩]) := by decide!
  rw [tokenize_eq_lex, hl] at ht
  simp only [Option.map_some', Option.some.injEq, Prod.mk.injEq] at ht
  have he : c1.errors ≠ [] := by
    rw [← ht.2]
    simp [resetForCompile]
  exact ⟨r, by rw [compileResult, hc]; rfl, (h1 he).1⟩

/-- C7: the result of `compile` is a function of the source text only: run on any two
instances, whatever their tokens, cursor, errors, warnings, symbol table and
output, it returns equal results (all seven fields); in particular compiling the
same input twice in a row gives the same result. -/
theorem compile_state_independent (c1 c2 : MiniCCompiler) (code : JSString) :
    compileResult c1 code = compileResult c2 code ∧
    ∀ r cf, compile c1 code = some (r, cf) → compileResult cf code = some r := by
  refine ⟨by rw [compileResult_eq_new c1, compileResult_eq_new c2], ?_⟩
  intro r cf h
  rw [compileResult_eq_new cf, ← compileResult_eq_new c1, compileResult, h]
  rfl

/-- Witness of C7: compiling `"int x = 5;"` on a fresh instance and again on the
instance it leaves behind gives the same result. -/
theorem compile_state_independent_witness :
    ∃ r cf, compile MiniCCompiler.new (utf16 "int x = 5;") = some (r, cf) ∧
      compileResult cf (utf16 "int x = 5;") = some r := by
  obtain ⟨r, cf, h1⟩ := compile_total MiniCCompiler.new (utf16 "int x = 5;")
  exact ⟨r, cf, h1, (compile_state_independent MiniCCompiler.new cf _).2 r cf h1⟩
theorem voidDiagnostic_message_contains (token : Token) (name : JSString) :
    utf16 "cannot be of type void" <:+: (voidDiagnostic token name).message := by
  have h : utf16 "\x27 cannot be of type void" = utf16 "\x27 " ++ utf16 "cannot be of type void" := by
    decide
  refine ⟨utf16 "Variable \x27" ++ name ++ utf16 "\x27 ", [], ?_⟩
  simp only [voidDiagnostic, h, List.append_assoc, List.append_nil]

/-- C5: when neither `tokenize` nor `parse` leaves a diagnostic, the errors of
`compile` are exactly one `SEMANTIC` diagnostic, with a message that contains
"cannot be of type void", for each symbol-table entry that is a `variable` of
declared type `void`, in table order; entries of role `function` or `parameter` raise
none. -/
theorem compile_void_variables (c0 : MiniCCompiler) (code : JSString) (toks : List Token)
    (c1 c2 : MiniCCompiler) (ht : tokenize (resetForCompile c0) code = some (toks, c1))
    (he : c1.errors = []) (hp : parse c1 toks = some c2) (he2 : c2.errors = []) :
    (∃ r, compileResult c0 code = some r ∧ r.symbolTable = c2.symbolTable ∧
      r.errors = (c2.symbolTable.filter isVoidVariable).map
        (fun e => voidDiagnostic (getCurrentToken c2) e.1) ∧
      r.success = r.errors.isEmpty) ∧
    (∀ name info, isVoidVariable (name, info) = true ↔ info = .variable (utf16 "void")) ∧
    (∀ name dataType, isVoidVariable (name, .function dataType) = false ∧
      isVoidVariable (name, .parameter dataType) = false) ∧
    ∀ token name, (voidDiagnostic token name).type = .SEMANTIC ∧
      utf16 "cannot be of type void" <:+: (voidDiagnostic token name).message := by
  refine ⟨?_, ?_, ?_, ?_⟩
  · have hc := compile_of_no_syntax_errors c0 code toks c1 c2 ht he hp he2
    refine ⟨_, by rw [compileResult, hc]; rfl, ?_, ?_, ?_⟩
    · rw [generateCode_symbolTable, semanticAnalysis_eq]
    · rw [generateCode_errors, semanticAnalysis_eq, he2]
      simp
    · simp only [generateCode_errors]
      cases (semanticAnalysis c2).errors <;> rfl
  · intro name info
    simp [isVoidVariable]
  · intro name dataType
    simp [isVoidVariable]
  · intro token name
    exact ⟨rfl, voidDiagnostic_message_contains token name⟩

/-- Witness of C5: `compile("void x;")` returns `success = false` and exactly one
diagnostic, the one for `x`, placed at the end-of-input token. -/
theorem compile_void_variables_witness :
    ∃ r, compileResult MiniCCompiler.new (utf16 "void x;") = some r ∧
      r.errors = [voidDiagnostic eofToken (utf16 "x")] ∧ r.success = false := by
  have ht : tokenize (resetForCompile MiniCCompiler.new) (utf16 "void x;") =
      some ([⟨.KEYWORD, utf16 "void", 1, 0⟩, ⟨.IDENTIFIER, utf16 "x", 1, 5⟩,
        ⟨.DELIMITER, utf16 ";", 1, 6⟩], MiniCCompiler.new) := by decide!
  have hp : parse MiniCCompiler.new [⟨.KEYWORD, utf16 "void", 1, 0⟩,
      ⟨.IDENTIFIER, utf16 "x", 1, 5⟩, ⟨.DELIMITER, utf16 ";", 1, 6⟩] =
      some ⟨[⟨.KEYWORD, utf16 "void", 1, 0⟩, ⟨.IDENTIFIER, utf16 "x", 1, 5⟩,
        ⟨.DELIMITER, utf16 ";", 1, 6⟩], 3, [], [], [(utf16 "x", .variable (utf16 "void"))],
        []⟩ := by decide!
  obtain ⟨⟨r, hr, -, h1, h2⟩, -⟩ :=
    compile_void_variables MiniCCompiler.new (utf16 "void x;") _ _ _ ht rfl hp rfl
  have h3 : r.errors = [voidDiagnostic eofToken (utf16 "x")] := by
    rw [h1]
    decide!
  exact ⟨r, hr, h3, by rw [h2, h3]; rfl⟩

/-- C8: every diagnostic in the `errors` of a result of `compile` has a non-empty
suggestion; a failing `consumeToken` appends one diagnostic whose suggestion is
"Add " followed by the expected value. -/
theorem diagnostics_have_suggestions (c0 : MiniCCompiler) (code : JSString) :
    (∃ r, compileResult c0 code = some r ∧ ∀ e ∈ r.errors, e.suggestion ≠ []) ∧
    ∀ (c : MiniCCompiler) (type : TokenType) (value : JSString),
      checkToken c type value = false →
        ∃ e, (consumeToken c type value).2.errors = c.errors ++ [e] ∧
          e.suggestion = utf16 "Add " ++ value ∧ e.suggestion ≠ [] := by
  constructor
  · obtain ⟨toks, c1, ht, h⟩ := compile_cases c0 code
    obtain ⟨es1, hc1, g1⟩ := tokenize_errs _ _ _ _ ht
    have hce : c1.errors = es1 := by rw [hc1]; simp [resetForCompile]
    rcases h with ⟨-, hc⟩ | ⟨he, c2, hp, ⟨-, hc⟩ | ⟨he2, hc⟩⟩
    · refine ⟨_, by rw [compileResult, hc]; rfl, ?_⟩
      intro e hm
      exact (g1 e (by simpa [hce] using hm)).2
    · refine ⟨_, by rw [compileResult, hc]; rfl, ?_⟩
      obtain ⟨c2', hp', -, -, -, -, es2, hc2, g2⟩ := parse_total c1 toks
      rw [hp] at hp'
      cases hp'
      intro e hm
      have hm : e ∈ c2.errors := hm
      rw [hc2, he] at hm
      exact (g2 e (by simpa using hm)).2
    · refine ⟨_, by rw [compileResult, hc]; rfl, ?_⟩
      intro e hm
      have hm : e ∈ (generateCode (semanticAnalysis c2)).errors := hm
      rw [generateCode_errors, semanticAnalysis_eq, he2] at hm
      simp only [List.nil_append, List.mem_map] at hm
      obtain ⟨x, -, rfl⟩ := hm
      show utf16 "Use int, float, or char instead" ≠ []
      decide
  · intro c type value h
    refine ⟨⟨.SYNTAX, utf16 "Expected " ++ value, (getCurrentToken c).line,
      (getCurrentToken c).column, utf16 "Add " ++ value⟩, ?_, rfl, add_text_ne_nil value⟩
    have h2 : ¬((getCurrentToken c).type = type ∧ (getCurrentToken c).value = value) := by
      simpa [checkToken] using h
    unfold consumeToken
    simp only []
    rw [if_neg h2]
    rfl

/-- Witness of C8: at the end of the input `consumeToken('DELIMITER', ';')` fails and
appends a diagnostic that suggests "Add ;". -/
theorem diagnostics_have_suggestions_witness :
    ∃ e, (consumeToken MiniCCompiler.new .DELIMITER (utf16 ";")).2.errors = [e] ∧
      e.suggestion = utf16 "Add ;" := by
  obtain ⟨e, h1, h2, -⟩ := (diagnostics_have_suggestions MiniCCompiler.new []).2
    MiniCCompiler.new .DELIMITER (utf16 ";") (by decide)
  have h3 : utf16 "Add " ++ utf16 ";" = utf16 "Add ;" := by decide
  exact ⟨e, h1, by rw [h2, h3]⟩

/-- C9: on every input `tokenize` returns a token list, and every pass through the
body of the per-line loop, entered at a column inside the line, either is the
`break` of a `//` comment or leaves the column strictly larger (and within the
line), the pass over an unrecognised character included. -/
theorem tokenize_terminates (c : MiniCCompiler) (code : JSString) :
    (∃ toks c1, tokenize c code = some (toks, c1)) ∧
    ∀ (lineNum : Nat) (line : JSString) (col : Nat), col < line.length →
      (scanStep lineNum line col = .stop ∧ line.getD col 0 = 47 ∧
        line.getD (col + 1) 0 = 47) ∨
      ∃ col1 ts es, scanStep lineNum line col = .next col1 ts es ∧ col < col1 ∧
        col1 ≤ line.length :=
  ⟨tokenize_total c code, fun lineNum line col h => scanStep_progress lineNum line col h⟩

/-- Witness of C9: on the line `"a @"` the pass that meets `@` at column 2 moves on. -/
theorem tokenize_terminates_witness :
    (scanStep 0 (utf16 "a @") 2 = .stop ∧ (utf16 "a @").getD 2 0 = 47 ∧
        (utf16 "a @").getD (2 + 1) 0 = 47) ∨
      ∃ col1 ts es, scanStep 0 (utf16 "a @") 2 = .next col1 ts es ∧ 2 < col1 ∧
        col1 ≤ (utf16 "a @").length :=
  (tokenize_terminates MiniCCompiler.new []).2 0 (utf16 "a @") 2 (by decide)
theorem drop_eq_cons_cons_of_take_two {line : JSString} {col a b : Nat}
    (h : (line.drop col).take 2 = [a, b]) :
    ∃ rest, line.drop col = a :: b :: rest := by
  cases hd : line.drop col with
  | nil => rw [hd] at h; cases h
  | cons x l1 =>
    cases l1 with
    | nil => rw [hd] at h; cases h
    | cons y l2 =>
      rw [hd] at h
      simp only [List.take_succ_cons, List.take_zero, List.cons.injEq, and_true] at h
      exact ⟨l2, by rw [h.1, h.2]⟩

/-- The pass over a two-character operator `[a, b]` that starts at column `col`. -/
theorem scanStep_two_char (lineNum : Nat) (line : JSString) (col : Nat) (op : JSString)
    (hd : (line.drop col).take 2 = op) (hlen : op.length = 2)
    (h1 : isWhitespace (op.getD 0 0) = false) (h2 : op.getD 0 0 ≠ 47)
    (h3 : op.getD 0 0 ≠ 34) (h4 : isDigit (op.getD 0 0) = false)
    (h5 : isIdentStart (op.getD 0 0) = false) (h6 : operators.contains op = true) :
    scanStep lineNum line col = .next (col + 2) [⟨.OPERATOR, op, lineNum + 1, col⟩] [] := by
  obtain ⟨a, b, rfl⟩ : ∃ a b, op = [a, b] := by
    match op, hlen with
    | [a, b], _ => exact ⟨a, b, rfl⟩
  obtain ⟨rest, hr⟩ := drop_eq_cons_cons_of_take_two hd
  obtain ⟨hg, hlt⟩ := getD_of_drop_eq hr
  have hl := length_of_drop_eq hr (by omega)
  simp only [List.getD_cons_zero] at h1 h2 h3 h4 h5
  have hl2 : col + 1 < line.length := by
    rw [hl]
    simp
  unfold scanStep
  simp only [hg, h1, h2, h3, h4, h5, hd, h6, hl2, false_and, and_self, if_true, if_false,
    Bool.false_eq_true]

/-- C10: for each two-character operator `op`, a pass of the scanning loop entered at
a column where the next two characters of the line are `op` pushes exactly one
token, `OPERATOR op` at that column, no diagnostic, and moves on by two; in
particular `tokenize("<=")` returns the single token `OPERATOR "<="` at line 1,
column 0, and leaves the instance (and so its diagnostics) as it was. -/
theorem two_char_operator_preferred (c : MiniCCompiler) (lineNum : Nat) (line : JSString)
    (col : Nat) (op : JSString) (hop : op ∈ twoCharOperators)
    (h : (line.drop col).take 2 = op) :
    scanStep lineNum line col = .next (col + 2) [⟨.OPERATOR, op, lineNum + 1, col⟩] [] ∧
    tokenize c (utf16 "<=") = some ([⟨.OPERATOR, utf16 "<=", 1, 0⟩], c) := by
  have key : ∀ op ∈ twoCharOperators, op.length = 2 ∧ isWhitespace (op.getD 0 0) = false ∧
      op.getD 0 0 ≠ 47 ∧ op.getD 0 0 ≠ 34 ∧ isDigit (op.getD 0 0) = false ∧
      isIdentStart (op.getD 0 0) = false ∧ operators.contains op = true := by decide
  obtain ⟨k0, k1, k2, k3, k4, k5, k6⟩ := key op hop
  exact ⟨scanStep_two_char lineNum line col op h k0 k1 k2 k3 k4 k5 k6,
    tokenize_of_lex c (by decide!)⟩

/-- Witness of C10: in `"a>=b"` the pass at column 1 pushes the one token `>=`. -/
theorem two_char_operator_preferred_witness :
    scanStep 0 (utf16 "a>=b") 1 = .next 3 [⟨.OPERATOR, utf16 ">=", 1, 1⟩] [] :=
  (two_char_operator_preferred MiniCCompiler.new 0 (utf16 "a>=b") 1 (utf16 ">=")
    (by decide) (by decide)).1

/-! ## The parser on given tokens -/

theorem getCurrentToken_of_drop {c : MiniCCompiler} {t : Token} {l : List Token}
    (h : c.tokens.drop c.currentToken = t :: l) :
    getCurrentToken c = t ∧ c.currentToken < c.tokens.length ∧
      c.tokens.drop (c.currentToken + 1) = l := by
  have hlt : c.currentToken < c.tokens.length := by
    by_contra hc
    rw [List.drop_eq_nil_of_le (by omega)] at h
    cases h
  rw [List.drop_eq_getElem_cons hlt] at h
  injection h with h1 h2
  refine ⟨?_, hlt, h2⟩
  unfold getCurrentToken
  rw [if_neg (by omega), List.getD_eq_getElem _ _ hlt, h1]

theorem checkTokenType_eq (c : MiniCCompiler) (type : TokenType) :
    checkTokenType c type = decide ((getCurrentToken c).type = type) := rfl

theorem checkToken_eq (c : MiniCCompiler) (type : TokenType) (value : JSString) :
    checkToken c type value =
      (decide ((getCurrentToken c).type = type) && decide ((getCurrentToken c).value = value)) :=
  rfl

/-- What `parsePrimary` does on an identifier that is not in the symbol table and is
not followed by `(`. -/
theorem parsePrimary_undeclared (n : Nat) (c : MiniCCompiler)
    (hid : checkTokenType c .IDENTIFIER = true)
    (hs : c.symbolTable.has (getCurrentToken c).value = false)
    (hp : checkToken (advance c) .DELIMITER (utf16 "(") = false) :
    parsePrimary (n + 1) c =
      some { c with
        currentToken := c.currentToken + 1
        errors := c.errors ++
          [⟨.SEMANTIC, utf16 "Undeclared variable: " ++ (getCurrentToken c).value,
            (getCurrentToken c).line, (getCurrentToken c).column,
            utf16 "Declare variable before use"⟩] } := by
  have ht : (getCurrentToken c).type = .IDENTIFIER := by
    simpa [checkTokenType_eq] using hid
  have h0 : (checkTokenType c .INTEGER || checkTokenType c .FLOAT ||
      checkTokenType c .STRING) = false := by
    simp [checkTokenType_eq, ht]
  have hg : getCurrentToken (advance (semanticError c
      (utf16 "Undeclared variable: " ++ (getCurrentToken c).value)
      (utf16 "Declare variable before use"))) = getCurrentToken (advance c) :=
    getCurrentToken_congr rfl rfl
  have hp2 : checkToken (advance (semanticError c
      (utf16 "Undeclared variable: " ++ (getCurrentToken c).value)
      (utf16 "Declare variable before use"))) .DELIMITER (utf16 "(") = false := by
    rw [checkToken_eq, hg, ← checkToken_eq]
    exact hp
  rw [parsePrimary, if_neg (by rw [h0]; simp), if_pos hid]
  simp only [hs, Bool.not_false, if_true]
  rw [if_neg (by rw [hp2]; simp)]
  rfl
/-- C4: `compile("int main() { return y; }")` returns `success = false` and exactly
one diagnostic, of kind `SEMANTIC`, whose message names `y` and whose line and
column are those of the token `y`; and in general `parsePrimary`, on an identifier
that is not in the symbol table and is not followed by `(`, appends exactly one
`SEMANTIC` diagnostic at that identifier and moves the cursor past it. -/
theorem undeclared_identifier_diagnostic (c0 : MiniCCompiler) :
    (∃ r, compileResult c0 (utf16 "int main() { return y; }") = some r ∧
      r.success = false ∧ r.tokens[6]? = some ⟨.IDENTIFIER, utf16 "y", 1, 20⟩ ∧
      r.errors = [⟨.SEMANTIC, utf16 "Undeclared variable: " ++ utf16 "y", 1, 20,
        utf16 "Declare variable before use"⟩]) ∧
    ∀ (n : Nat) (c : MiniCCompiler), checkTokenType c .IDENTIFIER = true →
      c.symbolTable.has (getCurrentToken c).value = false →
      checkToken (advance c) .DELIMITER (utf16 "(") = false →
        parsePrimary (n + 1) c =
          some { c with
            currentToken := c.currentToken + 1
            errors := c.errors ++
              [⟨.SEMANTIC, utf16 "Undeclared variable: " ++ (getCurrentToken c).value,
                (getCurrentToken c).line, (getCurrentToken c).column,
                utf16 "Declare variable before use"⟩] } := by
  refine ⟨?_, fun n c h1 h2 h3 => parsePrimary_undeclared n c h1 h2 h3⟩
  have h : (compileResult MiniCCompiler.new (utf16 "int main() { return y; }")).map
      (fun r => (r.success, r.tokens[6]?, r.errors)) =
      some (false, some ⟨.IDENTIFIER, utf16 "y", 1, 20⟩,
        [⟨.SEMANTIC, utf16 "Undeclared variable: " ++ utf16 "y", 1, 20,
          utf16 "Declare variable before use"⟩]) := by decide!
  rw [compileResult_eq_new]
  obtain ⟨r, hr, hf⟩ := exists_of_map_eq_some h
  simp only [Prod.mk.injEq] at hf
  exact ⟨r, hr, hf.1, hf.2.1, hf.2.2⟩

/-- Witness of C4: `parsePrimary` on the tokens `y ;` with an empty symbol table. -/
theorem undeclared_identifier_diagnostic_witness :
    parsePrimary 1 ⟨[⟨.IDENTIFIER, utf16 "y", 1, 0⟩, ⟨.DELIMITER, utf16 ";", 1, 1⟩], 0, [], [],
        [], []⟩ =
      some ⟨[⟨.IDENTIFIER, utf16 "y", 1, 0⟩, ⟨.DELIMITER, utf16 ";", 1, 1⟩], 1,
        [⟨.SEMANTIC, utf16 "Undeclared variable: y", 1, 0, utf16 "Declare variable before use"⟩],
        [], [], []⟩ :=
  (undeclared_identifier_diagnostic MiniCCompiler.new).2 0
    ⟨[⟨.IDENTIFIER, utf16 "y", 1, 0⟩, ⟨.DELIMITER, utf16 ";", 1, 1⟩], 0, [], [], [], []⟩
    (by decide) (by decide) (by decide)

theorem drop_advance_of_drop {c : MiniCCompiler} {t : Token} {l : List Token}
    (h : c.tokens.drop c.currentToken = t :: l) :
    (advance c).tokens.drop (advance c).currentToken = l :=
  (getCurrentToken_of_drop h).2.2

/-- The method `parseParameterList` on a well-formed parameter list that is not followed by a
comma: every pair is recorded, in order, and the cursor ends behind the list. -/
theorem parseParameterList_wellFormed :
    ∀ (more : List (Token × Token × Token)) (first : Token × Token) (c : MiniCCompiler)
      (rest : List Token) (fuel : Nat),
      WellFormedParams first more →
      c.tokens.drop c.currentToken = paramListTokens first more ++ rest →
      (∀ t, rest.head? = some t → ¬(t.type = .DELIMITER ∧ t.value = utf16 ",")) →
      more.length < fuel →
        parseParameterList fuel c =
          some { c with
            currentToken := c.currentToken + (paramListTokens first more).length
            symbolTable := recordParams c.symbolTable first more } := by
  intro more
  induction more with
  | nil =>
    intro first c rest fuel hw hd hr hf
    obtain ⟨ty, nm⟩ := first
    obtain ⟨hty, hnm⟩ := hw
    cases fuel with
    | zero => omega
    | succ fuel =>
      simp only [paramListTokens, List.cons_append, List.nil_append] at hd
      obtain ⟨g0, l0, d0⟩ := getCurrentToken_of_drop hd
      have d1 : (advance c).tokens.drop (advance c).currentToken = nm :: rest := d0
      obtain ⟨g1, l1, d1'⟩ := getCurrentToken_of_drop d1
      have hk : checkTokenType c .KEYWORD = true := by simp [checkTokenType_eq, g0, hty]
      have hi : checkTokenType (advance c) .IDENTIFIER = true := by
        simp [checkTokenType_eq, g1, hnm]
      have hc : checkToken (advance (setSymbol (advance c) nm.value (.parameter ty.value)))
          .DELIMITER (utf16 ",") = false := by
        rw [checkToken_eq]
        cases hrest : rest with
        | nil =>
          have : getCurrentToken (advance (setSymbol (advance c) nm.value
              (.parameter ty.value))) = eofToken := by
            unfold getCurrentToken
            rw [if_pos]
            have := congrArg List.length d1'
            rw [hrest, List.length_drop] at this
            simp only [List.length_nil] at this
            show (advance c).tokens.length ≤ (advance c).currentToken + 1
            omega
          rw [this]
          decide
        | cons t rest1 =>
          have d2 : (advance (setSymbol (advance c) nm.value (.parameter ty.value))).tokens.drop
              (advance (setSymbol (advance c) nm.value (.parameter ty.value))).currentToken
              = t :: rest1 := by
            rw [← hrest]; exact d1'
          obtain ⟨g2, -, -⟩ := getCurrentToken_of_drop d2
          rw [g2]
          have := hr t (by rw [hrest]; rfl)
          simpa using this
      rw [parseParameterList, if_pos hk]
      simp only [hi, if_true, g0, g1]
      rw [if_neg (by rw [hc]; simp)]
      simp [advance, setSymbol, recordParams, paramListTokens]
  | cons triple more ih =>
    intro first c rest fuel hw hd hr hf
    obtain ⟨ty, nm⟩ := first
    obtain ⟨comma, ty1, nm1⟩ := triple
    obtain ⟨hty, hnm, hct, hcv, hw1⟩ := hw
    cases fuel with
    | zero => omega
    | succ fuel =>
      simp only [paramListTokens, List.cons_append] at hd
      obtain ⟨g0, l0, d0⟩ := getCurrentToken_of_drop hd
      have d1 : (advance c).tokens.drop (advance c).currentToken =
          nm :: comma :: (paramListTokens (ty1, nm1) more ++ rest) := d0
      obtain ⟨g1, l1, d1'⟩ := getCurrentToken_of_drop d1
      have hk : checkTokenType c .KEYWORD = true := by simp [checkTokenType_eq, g0, hty]
      have hi : checkTokenType (advance c) .IDENTIFIER = true := by
        simp [checkTokenType_eq, g1, hnm]
      have d2 : (advance (setSymbol (advance c) nm.value (.parameter ty.value))).tokens.drop
          (advance (setSymbol (advance c) nm.value (.parameter ty.value))).currentToken
          = comma :: (paramListTokens (ty1, nm1) more ++ rest) := d1'
      obtain ⟨g2, l2, d2'⟩ := getCurrentToken_of_drop d2
      have hc : checkToken (advance (setSymbol (advance c) nm.value (.parameter ty.value)))
          .DELIMITER (utf16 ",") = true := by
        simp [checkToken_eq, g2, hct, hcv]
      have d3 : (advance (advance (setSymbol (advance c) nm.value
          (.parameter ty.value)))).tokens.drop
          (advance (advance (setSymbol (advance c) nm.value
          (.parameter ty.value)))).currentToken = paramListTokens (ty1, nm1) more ++ rest :=
        d2'
      have l3 : (advance (advance (setSymbol (advance c) nm.value
          (.parameter ty.value)))).currentToken <
          (advance (advance (setSymbol (advance c) nm.value
          (.parameter ty.value)))).tokens.length := by
        have hne : paramListTokens (ty1, nm1) more ++ rest ≠ [] := by
          cases more with
          | nil => simp [paramListTokens]
          | cons a b => obtain ⟨x, y, z⟩ := a; simp [paramListTokens]
        by_contra hcon
        rw [List.drop_eq_nil_of_le (by omega)] at d3
        exact hne d3.symm
      rw [parseParameterList, if_pos hk]
      simp only [hi, if_true, g0, g1]
      rw [if_pos hc, if_pos l3, ih (ty1, nm1) _ rest fuel hw1 d3 hr (by simp at hf; omega)]
      simp [advance, setSymbol, recordParams, paramListTokens]
      omega
/-- C6: `compile("int f(int a) { return a + 1; }")` returns `success = true`, no
diagnostics and a symbol table with exactly `f`, a function returning `int`, and
`a`, a parameter of type `int`; and in general `parseParameterList`, on `type name`
pairs separated by commas, records every pair in order as a parameter with that
type and leaves the cursor behind the list. -/
theorem parameters_recorded (c0 : MiniCCompiler) :
    (∃ r, compileResult c0 (utf16 "int f(int a) { return a + 1; }") = some r ∧
      r.success = true ∧ r.errors = [] ∧
      r.symbolTable =
        [(utf16 "f", .function (utf16 "int")), (utf16 "a", .parameter (utf16 "int"))]) ∧
    ∀ (more : List (Token × Token × Token)) (first : Token × Token) (c : MiniCCompiler)
      (rest : List Token) (fuel : Nat),
      WellFormedParams first more →
      c.tokens.drop c.currentToken = paramListTokens first more ++ rest →
      (∀ t, rest.head? = some t → ¬(t.type = .DELIMITER ∧ t.value = utf16 ",")) →
      more.length < fuel →
        parseParameterList fuel c =
          some { c with
            currentToken := c.currentToken + (paramListTokens first more).length
            symbolTable := recordParams c.symbolTable first more } := by
  refine ⟨?_, parseParameterList_wellFormed⟩
  have h : (compileResult MiniCCompiler.new (utf16 "int f(int a) { return a + 1; }")).map
      (fun r => (r.success, r.errors, r.symbolTable)) =
      some (true, [],
        [(utf16 "f", .function (utf16 "int")), (utf16 "a", .parameter (utf16 "int"))]) := by
    decide!
  rw [compileResult_eq_new]
  obtain ⟨r, hr, hf⟩ := exists_of_map_eq_some h
  simp only [Prod.mk.injEq] at hf
  exact ⟨r, hr, hf.1, hf.2.1, hf.2.2⟩

/-- Witness of C6: on the tokens `int a , float b )` the two pairs are recorded and
the cursor stops at `)`. -/
theorem parameters_recorded_witness :
    parseParameterList 2
        ⟨[⟨.KEYWORD, utf16 "int", 1, 0⟩, ⟨.IDENTIFIER, utf16 "a", 1, 4⟩,
          ⟨.DELIMITER, utf16 ",", 1, 5⟩, ⟨.KEYWORD, utf16 "float", 1, 7⟩,
          ⟨.IDENTIFIER, utf16 "b", 1, 13⟩, ⟨.DELIMITER, utf16 ")", 1, 14⟩], 0, [], [], [], []⟩ =
      some ⟨[⟨.KEYWORD, utf16 "int", 1, 0⟩, ⟨.IDENTIFIER, utf16 "a", 1, 4⟩,
          ⟨.DELIMITER, utf16 ",", 1, 5⟩, ⟨.KEYWORD, utf16 "float", 1, 7⟩,
          ⟨.IDENTIFIER, utf16 "b", 1, 13⟩, ⟨.DELIMITER, utf16 ")", 1, 14⟩], 5, [], [],
        [(utf16 "a", .parameter (utf16 "int")), (utf16 "b", .parameter (utf16 "float"))], []⟩ :=
  (parameters_recorded MiniCCompiler.new).2
    [(⟨.DELIMITER, utf16 ",", 1, 5⟩, ⟨.KEYWORD, utf16 "float", 1, 7⟩,
      ⟨.IDENTIFIER, utf16 "b", 1, 13⟩)]
    (⟨.KEYWORD, utf16 "int", 1, 0⟩, ⟨.IDENTIFIER, utf16 "a", 1, 4⟩)
    ⟨[⟨.KEYWORD, utf16 "int", 1, 0⟩, ⟨.IDENTIFIER, utf16 "a", 1, 4⟩,
      ⟨.DELIMITER, utf16 ",", 1, 5⟩, ⟨.KEYWORD, utf16 "float", 1, 7⟩,
      ⟨.IDENTIFIER, utf16 "b", 1, 13⟩, ⟨.DELIMITER, utf16 ")", 1, 14⟩], 0, [], [], [], []⟩
    [⟨.DELIMITER, utf16 ")", 1, 14⟩] 2 ⟨rfl, rfl, rfl, rfl, rfl, rfl⟩ rfl
    (by intro t h; cases h; decide) (by decide)

/-! ## The lexer on given text -/

theorem takeWhile_append_of_stop (p : Nat → Bool) (w rest : JSString)
    (hw : ∀ ch ∈ w, p ch = true) (hr : ∀ t, rest.head? = some t → p t = false) :
    (w ++ rest).takeWhile p = w := by
  induction w with
  | nil =>
    cases rest with
    | nil => rfl
    | cons t r => simp [List.takeWhile_cons, hr t rfl]
  | cons ch w ih =>
    rw [List.cons_append, List.takeWhile_cons, if_pos (hw ch (List.mem_cons_self _ _)),
      ih (fun x hx => hw x (List.mem_cons_of_mem _ hx))]

theorem scanNumber_digits (n rest : JSString) (isFloat : Bool)
    (hn : ∀ ch ∈ n, isDigit ch = true)
    (hr : ∀ t, rest.head? = some t → isDigit t = false ∧ t ≠ 46) :
    scanNumber (n ++ rest) isFloat = ⟨n, isFloat, false⟩ := by
  induction n with
  | nil =>
    cases rest with
    | nil => rfl
    | cons t r =>
      obtain ⟨h1, h2⟩ := hr t rfl
      simp [scanNumber, h1, h2]
  | cons ch n ih =>
    rw [List.cons_append, scanNumber_cons_digit _ _ _ (hn ch (List.mem_cons_self _ _)),
      ih (fun x hx => hn x (List.mem_cons_of_mem _ hx))]

theorem drop_of_eq_append {line suf : JSString} {col : Nat} (pre : JSString)
    (hl : line = pre ++ suf) (hc : col = pre.length) : line.drop col = suf := by
  rw [hl, hc, List.drop_left]

theorem isIdentStart_facts {ch : Nat} (h : isIdentStart ch = true) :
    isWhitespace ch = false ∧ ch ≠ 47 ∧ ch ≠ 34 ∧ isDigit ch = false := by
  simp only [isIdentStart, Bool.or_eq_true, Bool.and_eq_true, decide_eq_true_eq] at h
  refine ⟨?_, by omega, by omega, ?_⟩
  · simp only [isWhitespace, Bool.or_eq_false_iff, Bool.and_eq_false_imp, decide_eq_false_iff_not,
      decide_eq_true_eq]
    omega
  · simp only [isDigit, Bool.and_eq_false_imp, decide_eq_false_iff_not, decide_eq_true_eq]
    omega

theorem isDigit_facts {ch : Nat} (h : isDigit ch = true) :
    isWhitespace ch = false ∧ ch ≠ 47 ∧ ch ≠ 34 := by
  simp only [isDigit, Bool.and_eq_true, decide_eq_true_eq] at h
  refine ⟨?_, by omega, by omega⟩
  simp only [isWhitespace, Bool.or_eq_false_iff, Bool.and_eq_false_imp, decide_eq_false_iff_not,
    decide_eq_true_eq]
  omega

/-- The pass over a whitespace character. -/
theorem scanStep_whitespace (lineNum : Nat) (line : JSString) (col ch : Nat) (rest : JSString)
    (hd : line.drop col = ch :: rest) (hw : isWhitespace ch = true) :
    scanStep lineNum line col = .next (col + 1) [] [] := by
  obtain ⟨hg, -⟩ := getD_of_drop_eq hd
  unfold scanStep
  simp only [hg, hw, if_true]

/-- The pass over an identifier or keyword `w` that ends where `rest` begins. -/
theorem scanStep_word (lineNum : Nat) (line : JSString) (col : Nat) (w rest : JSString)
    (hd : line.drop col = w ++ rest) (hw : isIdentifierText w = true)
    (hr : ∀ t, rest.head? = some t → isIdentPart t = false) :
    scanStep lineNum line col =
      .next (col + w.length)
        [⟨if keywords.contains w then .KEYWORD else .IDENTIFIER, w, lineNum + 1, col⟩] [] := by
  cases w with
  | nil => simp [isIdentifierText] at hw
  | cons ch w1 =>
    simp only [isIdentifierText, Bool.and_eq_true, List.all_eq_true] at hw
    obtain ⟨hs, hp⟩ := hw
    obtain ⟨f1, f2, f3, f4⟩ := isIdentStart_facts hs
    obtain ⟨hg, -⟩ := getD_of_drop_eq (by rw [hd]; rfl)
    have ht : (line.drop col).takeWhile isIdentPart = ch :: w1 := by
      rw [hd]
      apply takeWhile_append_of_stop _ _ _ _ hr
      intro x hx
      rcases List.mem_cons.1 hx with rfl | hx
      · exact isIdentPart_of_isIdentStart hs
      · exact hp x hx
    unfold scanStep
    simp only [hg, f1, f2, f3, f4, hs, ht, false_and, if_true, if_false, Bool.false_eq_true,
      Nat.add_sub_cancel]

/-- The pass over a run of digits `n` that ends where `rest` begins. -/
theorem scanStep_integer (lineNum : Nat) (line : JSString) (col : Nat) (n rest : JSString)
    (hd : line.drop col = n ++ rest) (hne : n ≠ []) (hn : ∀ ch ∈ n, isDigit ch = true)
    (hr : ∀ t, rest.head? = some t → isDigit t = false ∧ t ≠ 46) :
    scanStep lineNum line col = .next (col + n.length) [⟨.INTEGER, n, lineNum + 1, col⟩] [] := by
  cases n with
  | nil => exact absurd rfl hne
  | cons ch n1 =>
    have hdg := hn ch (List.mem_cons_self _ _)
    obtain ⟨f1, f2, f3⟩ := isDigit_facts hdg
    obtain ⟨hg, -⟩ := getD_of_drop_eq (by rw [hd]; rfl)
    have hsn := scanNumber_digits (ch :: n1) rest false hn hr
    unfold scanStep
    simp only [hg, f1, f2, f3, hdg, hd, hsn, false_and, if_true, if_false, Bool.false_eq_true,
      Nat.add_sub_cancel]

/-- The pass over a one-character operator or delimiter `ch` that does not start a
comment or a two-character operator. -/
theorem scanStep_single (lineNum : Nat) (line : JSString) (col ch : Nat) (rest : JSString)
    (hd : line.drop col = ch :: rest) (h1 : isWhitespace ch = false)
    (h2 : ch = 47 → rest.head? ≠ some 47) (h3 : ch ≠ 34) (h4 : isDigit ch = false)
    (h5 : isIdentStart ch = false)
    (h6 : rest = [] ∨ operators.contains ((ch :: rest).take 2) = false)
    (h7 : operators.contains [ch] = true ∨ delimiters.contains [ch] = true) :
    scanStep lineNum line col =
      .next (col + 1)
        [⟨if delimiters.contains [ch] then .DELIMITER else .OPERATOR, [ch], lineNum + 1, col⟩]
        [] := by
  obtain ⟨hg, hlt⟩ := getD_of_drop_eq hd
  have hl := length_of_drop_eq hd (by omega)
  have hc : ¬(ch = 47 ∧ col + 1 < line.length ∧ line.getD (col + 1) 0 = 47) := by
    rintro ⟨e1, e2, e3⟩
    have hd1 : line.drop (col + 1) = rest := by
      have := drop_eq_getD_cons line col hlt
      rw [hd] at this
      injection this with _ h
      exact h.symm
    have := drop_eq_getD_cons line (col + 1) e2
    rw [hd1, e3] at this
    exact h2 e1 (by rw [this]; rfl)
  have hc2 : ¬(col + 1 < line.length ∧ operators.contains ((line.drop col).take 2) = true) := by
    rintro ⟨e1, e2⟩
    rcases h6 with h | h
    · rw [hl, h] at e1
      simp at e1
    · rw [hd, h] at e2
      cases e2
  unfold scanStep
  simp only [hg, h1, hc, h3, h4, h5, hc2, h7, if_true, if_false, Bool.false_eq_true]
theorem splitLines_of_no_newline (s : JSString) (h : ∀ ch ∈ s, ch ≠ 10) :
    splitLines s = [s] := by
  induction s with
  | nil => rfl
  | cons ch rest ih =>
    rw [splitLines, if_neg (h ch (List.mem_cons_self _ _)),
      ih (fun x hx => h x (List.mem_cons_of_mem _ hx))]

theorem isIdentPart_ne_newline {ch : Nat} (h : isIdentPart ch = true) : ch ≠ 10 := by
  simp only [isIdentPart, Bool.or_eq_true, Bool.and_eq_true, decide_eq_true_eq] at h
  omega

theorem isDigit_ne_newline {ch : Nat} (h : isDigit ch = true) : ch ≠ 10 := by
  simp only [isDigit, Bool.and_eq_true, decide_eq_true_eq] at h
  omega

theorem isIdentPart_of_mem_identifier {x : JSString} (hx : isIdentifierText x = true) :
    ∀ ch ∈ x, isIdentPart ch = true := by
  cases x with
  | nil => simp
  | cons c0 x1 =>
    simp only [isIdentifierText, Bool.and_eq_true, List.all_eq_true] at hx
    intro ch hch
    rcases List.mem_cons.1 hch with rfl | h
    · exact isIdentPart_of_isIdentStart hx.1
    · exact hx.2 ch h

/-- A one-line source is lexed by the per-line loop on line 0. -/
theorem lex_of_scans (line : JSString) (ts : List Token) (es : List CompilerError)
    (hn : ∀ ch ∈ line, ch ≠ 10) (h : Scans 0 line 0 ts es) : lex line = some (ts, es) := by
  rw [lex, splitLines_of_no_newline line hn, scanLines, h _ [] [] (by omega)]
  rfl

/-- The tokens of `int x = n;`. -/
theorem lex_int_declaration (x n : JSString) (hx : isIdentifierText x = true)
    (hk : keywords.contains x = false) (hne : n ≠ []) (hn : ∀ ch ∈ n, isDigit ch = true) :
    lex (utf16 "int " ++ x ++ utf16 " = " ++ n ++ utf16 ";") =
      some ([⟨.KEYWORD, utf16 "int", 1, 0⟩, ⟨.IDENTIFIER, x, 1, 4⟩,
          ⟨.OPERATOR, utf16 "=", 1, 5 + x.length⟩, ⟨.INTEGER, n, 1, 7 + x.length⟩,
          ⟨.DELIMITER, utf16 ";", 1, 7 + x.length + n.length⟩], []) := by
  have e1 : utf16 "int " = [105, 110, 116, 32] := by decide
  have e2 : utf16 " = " = [32, 61, 32] := by decide
  have e3 : utf16 ";" = [59] := by decide
  have e4 : utf16 "int" = [105, 110, 116] := by decide
  have e5 : utf16 "=" = [61] := by decide
  rw [e1, e2, e3, e4, e5]
  generalize hline : [105, 110, 116, 32] ++ x ++ [32, 61, 32] ++ n ++ [59] = line
  have hxp := isIdentPart_of_mem_identifier hx
  apply lex_of_scans
  · intro ch hch
    rw [← hline] at hch
    simp only [List.mem_append, List.mem_cons, List.mem_singleton, List.not_mem_nil,
      or_false] at hch
    rcases hch with (((h | h) | h) | h) | h
    · omega
    · exact isIdentPart_ne_newline (hxp ch h)
    · omega
    · exact isDigit_ne_newline (hn ch h)
    · omega
  have hlen : line.length = 8 + x.length + n.length := by
    rw [← hline]
    simp only [List.length_append, List.length_cons, List.length_nil]
    omega
  -- the pass over `;`
  have s8 : Scans 0 line (7 + x.length + n.length) [⟨.DELIMITER, [59], 1,
      7 + x.length + n.length⟩] [] := by
    have hd : line.drop (7 + x.length + n.length) = [59] :=
      drop_of_eq_append ([105, 110, 116, 32] ++ x ++ [32, 61, 32] ++ n) hline.symm
        (by simp only [List.length_append, List.length_cons, List.length_nil]; omega)
    have := Scans.of_next (by omega)
      (scanStep_single 0 line _ 59 [] hd (by decide) (by decide) (by decide) (by decide)
        (by decide) (Or.inl rfl) (by decide))
      (show Scans 0 line (7 + x.length + n.length + 1) [] [] from Scans.of_end (by omega))
    simpa using this
  -- the pass over the digits
  have s7 : Scans 0 line (7 + x.length) [⟨.INTEGER, n, 1, 7 + x.length⟩,
      ⟨.DELIMITER, [59], 1, 7 + x.length + n.length⟩] [] := by
    have hd : line.drop (7 + x.length) = n ++ [59] :=
      drop_of_eq_append ([105, 110, 116, 32] ++ x ++ [32, 61, 32])
        (by simp [← hline])
        (by simp only [List.length_append, List.length_cons, List.length_nil]; omega)
    have := Scans.of_next (by omega)
      (scanStep_integer 0 line _ n [59] hd hne hn (by intro t h; cases h; decide)) s8
    simpa using this
  have s6 : Scans 0 line (6 + x.length) [⟨.INTEGER, n, 1, 7 + x.length⟩,
      ⟨.DELIMITER, [59], 1, 7 + x.length + n.length⟩] [] := by
    have hd : line.drop (6 + x.length) = 32 :: (n ++ [59]) :=
      drop_of_eq_append ([105, 110, 116, 32] ++ x ++ [32, 61])
        (by simp [← hline])
        (by simp only [List.length_append, List.length_cons, List.length_nil]; omega)
    have := Scans.of_next (by omega) (scanStep_whitespace 0 line _ 32 _ hd (by decide))
      (show Scans 0 line (6 + x.length + 1) _ _ from by
        rw [show 6 + x.length + 1 = 7 + x.length from by omega]; exact s7)
    simpa using this
  have s5 : Scans 0 line (5 + x.length) [⟨.OPERATOR, [61], 1, 5 + x.length⟩,
      ⟨.INTEGER, n, 1, 7 + x.length⟩, ⟨.DELIMITER, [59], 1, 7 + x.length + n.length⟩] [] := by
    have hd : line.drop (5 + x.length) = 61 :: (32 :: (n ++ [59])) :=
      drop_of_eq_append ([105, 110, 116, 32] ++ x ++ [32])
        (by simp [← hline])
        (by simp only [List.length_append, List.length_cons, List.length_nil]; omega)
    have := Scans.of_next (by omega)
      (scanStep_single 0 line _ 61 _ hd (by decide) (fun h => absurd h (by decide))
        (by decide) (by decide) (by decide)
        (Or.inr (show operators.contains [61, 32] = false from by decide)) (by decide))
      (show Scans 0 line (5 + x.length + 1) _ _ from by
        rw [show 5 + x.length + 1 = 6 + x.length from by omega]; exact s6)
    simpa using this
  have s4 : Scans 0 line (4 + x.length) [⟨.OPERATOR, [61], 1, 5 + x.length⟩,
      ⟨.INTEGER, n, 1, 7 + x.length⟩, ⟨.DELIMITER, [59], 1, 7 + x.length + n.length⟩] [] := by
    have hd : line.drop (4 + x.length) = 32 :: (61 :: 32 :: (n ++ [59])) :=
      drop_of_eq_append ([105, 110, 116, 32] ++ x)
        (by simp [← hline])
        (by simp only [List.length_append, List.length_cons, List.length_nil])
    have := Scans.of_next (by omega) (scanStep_whitespace 0 line _ 32 _ hd (by decide))
      (show Scans 0 line (4 + x.length + 1) _ _ from by
        rw [show 4 + x.length + 1 = 5 + x.length from by omega]; exact s5)
    simpa using this
  have s3 : Scans 0 line 4 [⟨.IDENTIFIER, x, 1, 4⟩, ⟨.OPERATOR, [61], 1, 5 + x.length⟩,
      ⟨.INTEGER, n, 1, 7 + x.length⟩, ⟨.DELIMITER, [59], 1, 7 + x.length + n.length⟩] [] := by
    have hd : line.drop 4 = x ++ (32 :: 61 :: 32 :: (n ++ [59])) :=
      drop_of_eq_append ([105, 110, 116, 32])
        (by simp [← hline])
        rfl
    have := Scans.of_next (by omega)
      (scanStep_word 0 line 4 x _ hd hx (by intro t h; cases h; decide)) s4
    have hk1 : x ∉ keywords := by simpa using hk
    simpa [hk1] using this
  have s2 : Scans 0 line 3 [⟨.IDENTIFIER, x, 1, 4⟩, ⟨.OPERATOR, [61], 1, 5 + x.length⟩,
      ⟨.INTEGER, n, 1, 7 + x.length⟩, ⟨.DELIMITER, [59], 1, 7 + x.length + n.length⟩] [] := by
    have hd : line.drop 3 = 32 :: (x ++ (32 :: 61 :: 32 :: (n ++ [59]))) :=
      drop_of_eq_append ([105, 110, 116])
        (by simp [← hline])
        rfl
    have := Scans.of_next (by omega) (scanStep_whitespace 0 line 3 32 _ hd (by decide)) s3
    simpa using this
  have hd : line.drop 0 = [105, 110, 116] ++ (32 :: (x ++ (32 :: 61 :: 32 :: (n ++ [59])))) := by
    rw [← hline]
    simp only [List.drop_zero, List.append_assoc, List.cons_append, List.nil_append]
  have := Scans.of_next (by omega)
    (scanStep_word 0 line 0 [105, 110, 116] _ hd (by decide) (by intro t h; cases h; decide)) s2
  have hkw : [105, 110, 116] ∈ keywords := by decide
  simpa [hkw] using this

/-- What `parse` does on the five tokens of `int x = n;`, whatever their columns. -/
theorem parse_int_declaration (c : MiniCCompiler) (x n : JSString) (a b d : Nat)
    (he : c.errors = []) (hw : c.warnings = []) (hs : c.symbolTable = [])
    (ho : c.output = []) :
    parse c
        [⟨.KEYWORD, utf16 "int", 1, 0⟩, ⟨.IDENTIFIER, x, 1, 4⟩, ⟨.OPERATOR, utf16 "=", 1, a⟩,
          ⟨.INTEGER, n, 1, b⟩, ⟨.DELIMITER, utf16 ";", 1, d⟩] =
      some ⟨[⟨.KEYWORD, utf16 "int", 1, 0⟩, ⟨.IDENTIFIER, x, 1, 4⟩,
          ⟨.OPERATOR, utf16 "=", 1, a⟩, ⟨.INTEGER, n, 1, b⟩, ⟨.DELIMITER, utf16 ";", 1, d⟩], 5, [],
        [], [(x, .variable (utf16 "int"))], []⟩ := by
  obtain ⟨ts0, k0, es, ws, st, out⟩ := c
  simp only at he hw hs ho
  subst he hw hs ho
  rfl

/-- C3: for every identifier `x` that is not a keyword and every non-empty string of
digits `n`, `compile("int x = n;")` returns `success = true`, no diagnostics, and a
symbol table whose only entry is `x`, a variable of declared type `int`. -/
theorem compile_int_declaration (c0 : MiniCCompiler) (x n : JSString)
    (hx : isIdentifierText x = true) (hk : keywords.contains x = false) (hne : n ≠ [])
    (hn : ∀ ch ∈ n, isDigit ch = true) :
    ∃ r, compileResult c0 (utf16 "int " ++ x ++ utf16 " = " ++ n ++ utf16 ";") = some r ∧
      r.success = true ∧ r.errors = [] ∧ r.symbolTable = [(x, .variable (utf16 "int"))] := by
  have hl := lex_int_declaration x n hx hk hne hn
  have ht := tokenize_of_lex (resetForCompile c0) hl
  have hp := parse_int_declaration (resetForCompile c0) x n (5 + x.length) (7 + x.length)
    (7 + x.length + n.length) rfl rfl rfl rfl
  have hc := compile_of_no_syntax_errors c0 _ _ _ _ ht rfl hp rfl
  refine ⟨_, by rw [compileResult, hc]; rfl, ?_, ?_, ?_⟩
  · simp [generateCode_errors, semanticAnalysis_eq, isVoidVariable]
    decide
  · simp [generateCode_errors, semanticAnalysis_eq, isVoidVariable]
    decide
  · simp [generateCode_symbolTable, semanticAnalysis_eq]

/-- Witness of C3: `compile("int x = 5;")`. -/
theorem compile_int_declaration_witness :
    ∃ r, compileResult MiniCCompiler.new (utf16 "int x = 5;") = some r ∧
      r.success = true ∧ r.errors = [] ∧
      r.symbolTable = [(utf16 "x", .variable (utf16 "int"))] := by
  have h := compile_int_declaration MiniCCompiler.new (utf16 "x") (utf16 "5") (by decide)
    (by decide) (by decide) (by decide)
  have e : utf16 "int " ++ utf16 "x" ++ utf16 " = " ++ utf16 "5" ++ utf16 ";" =
      utf16 "int x = 5;" := by decide
  rw [e] at h
  exact h

/-! ## The lexer: line numbers -/

/-- The line number enters a pass only through the `line` field of what it pushes. -/
theorem scanStep_shiftLine (k d : Nat) (line : JSString) (col : Nat) :
    scanStep (k + d) line col = (scanStep k line col).shiftLine d := by
  have e : k + d + 1 = k + 1 + d := by omega
  unfold scanStep
  simp only [e]
  repeat' split
  all_goals rfl
theorem Scans.shiftLine {k : Nat} {line : JSString} {col : Nat} {ts : List Token}
    {es : List CompilerError} (d : Nat) (h : Scans k line col ts es) :
    Scans (k + d) line col (ts.map (Token.shiftLine d)) (es.map (CompilerError.shiftLine d)) := by
  have key : ∀ (n col : Nat) (ts : List Token) (es : List CompilerError),
      line.length - col ≤ n → Scans k line col ts es →
      Scans (k + d) line col (ts.map (Token.shiftLine d))
        (es.map (CompilerError.shiftLine d)) := by
    intro n
    induction n with
    | zero =>
      intro col ts es hn h
      have h1 := h 1 [] [] (by omega)
      rw [scanLine, if_neg (by omega)] at h1
      simp only [List.nil_append, Option.some.injEq, Prod.mk.injEq] at h1
      rw [← h1.1, ← h1.2]
      exact Scans.of_end (by omega)
    | succ n ih =>
      intro col ts es hn h
      by_cases hlt : col < line.length
      · have h1 := h (line.length - col + 1) [] [] (by omega)
        rw [scanLine, if_pos hlt] at h1
        rcases scanStep_progress k line col hlt with ⟨hs, _⟩ | ⟨c1, t1, e1, hs, hc, _⟩
        · rw [hs] at h1
          simp only [List.nil_append, Option.some.injEq, Prod.mk.injEq] at h1
          rw [← h1.1, ← h1.2]
          refine Scans.of_stop hlt ?_
          rw [scanStep_shiftLine, hs]
          rfl
        · rw [hs] at h1
          simp only [List.nil_append] at h1
          obtain ⟨t2, e2, h2⟩ := scans_exists k line (line.length) c1 (by omega)
          rw [h2 _ t1 e1 (by omega)] at h1
          simp only [Option.some.injEq, Prod.mk.injEq] at h1
          rw [← h1.1, ← h1.2, List.map_append, List.map_append]
          refine Scans.of_next hlt ?_ (ih c1 t2 e2 (by omega) h2)
          rw [scanStep_shiftLine, hs]
          rfl
      · have h1 := h 1 [] [] (by omega)
        rw [scanLine, if_neg hlt] at h1
        simp only [List.nil_append, Option.some.injEq, Prod.mk.injEq] at h1
        rw [← h1.1, ← h1.2]
        exact Scans.of_end (by omega)
  exact key _ col ts es (Nat.le_refl _) h

/-- Reading the same lines `d` line numbers later moves every token and diagnostic
`d` lines down. -/
theorem scanLines_shiftLine (d : Nat) : ∀ (lines : List JSString) (k : Nat),
    scanLines (k + d) lines [] [] =
      (scanLines k lines [] []).map
        (fun p => (p.1.map (Token.shiftLine d), p.2.map (CompilerError.shiftLine d))) := by
  intro lines
  induction lines with
  | nil => intro k; rfl
  | cons line rest ih =>
    intro k
    obtain ⟨ts, es, hs⟩ := scans_exists k line (line.length) 0 (by omega)
    have hs2 := hs.shiftLine d
    rw [scanLines, scanLines, hs _ [] [] (by omega), hs2 _ [] [] (by omega)]
    simp only [List.nil_append]
    rw [scanLines_acc rest (k + 1) ts es, scanLines_acc rest (k + d + 1),
      show k + d + 1 = k + 1 + d from by omega, ih (k + 1)]
    cases scanLines (k + 1) rest [] [] with
    | none => rfl
    | some p => simp

theorem splitLines_append_newline (l r : JSString) (h : ∀ ch ∈ l, ch ≠ 10) :
    splitLines (l ++ 10 :: r) = l :: splitLines r := by
  induction l with
  | nil => simp [splitLines]
  | cons ch l ih =>
    rw [List.cons_append, splitLines, if_neg (h ch (List.mem_cons_self _ _)),
      ih (fun x hx => h x (List.mem_cons_of_mem _ hx))]

/-- A first line `l` that pushes `ts` and `es`, followed by the text `r`. -/
theorem lex_first_line (l r : JSString) (ts : List Token) (es : List CompilerError)
    (hn : ∀ ch ∈ l, ch ≠ 10) (h : Scans 0 l 0 ts es) :
    lex (l ++ 10 :: r) =
      (lex r).map (fun p => (ts ++ p.1.map (Token.shiftLine 1),
        es ++ p.2.map (CompilerError.shiftLine 1))) := by
  rw [lex, splitLines_append_newline l r hn, scanLines, h _ [] [] (by omega)]
  simp only [List.nil_append]
  rw [scanLines_acc, show 0 + 1 = 0 + 1 from rfl, scanLines_shiftLine 1 (splitLines r) 0, lex]
  cases scanLines 0 (splitLines r) [] [] with
  | none => rfl
  | some p => rfl

theorem takeWhile_eq_self_of_all (p : Nat → Bool) (l : JSString) (h : ∀ ch ∈ l, p ch = true) :
    l.takeWhile p = l := by
  have := takeWhile_append_of_stop p l [] h (by intro t ht; cases ht)
  simpa using this

/-- The pass over an opening quote that has no closing quote on its line. -/
theorem scanStep_unterminated (k : Nat) (s : JSString) (hq : ∀ ch ∈ s, ch ≠ 34) :
    scanStep k (34 :: s) 0 = .next (s.length + 1) [] [unterminatedDiagnostic (k + 1)
      (s.length + 1)] := by
  have ht : (List.drop (0 + 1) (34 :: s)).takeWhile (fun ch => ch != 34) = s := by
    apply takeWhile_eq_self_of_all
    intro ch hch
    simpa using hq ch hch
  have hw : isWhitespace 34 = false := by decide
  unfold scanStep
  simp only [List.getD_cons_zero, hw, ht, List.length_cons, unterminatedDiagnostic]
  simp [Nat.add_comm]

theorem scans_unterminated (k : Nat) (s : JSString) (hq : ∀ ch ∈ s, ch ≠ 34) :
    Scans k (34 :: s) 0 [] [unterminatedDiagnostic (k + 1) (s.length + 1)] := by
  have := Scans.of_next (by simp) (scanStep_unterminated k s hq)
    (show Scans k (34 :: s) (s.length + 1) [] [] from Scans.of_end (by simp))
  simpa using this

theorem lex_total (code : JSString) : ∃ toks es, lex code = some (toks, es) := by
  obtain ⟨⟨t, e⟩, h⟩ := scanLines_total (splitLines code) 0 [] []
  exact ⟨t, e, h⟩

/-- C11: for every text `s` without `"` and without newline, `tokenize('"' ++ s)`
returns no token and appends exactly one diagnostic, the `LEXICAL` "Unterminated
string literal" on line 1; and for every further text `r`,
`tokenize('"' ++ s ++ newline ++ r)` returns the tokens of `tokenize(r)` and appends
that diagnostic followed by the diagnostics of `tokenize(r)`, all of them one line
further down. -/
theorem unterminated_string_literal (c : MiniCCompiler) (s : JSString)
    (hq : ∀ ch ∈ s, ch ≠ 34) (hn : ∀ ch ∈ s, ch ≠ 10) :
    tokenize c (34 :: s) =
      some ([], { c with errors := c.errors ++ [unterminatedDiagnostic 1 (s.length + 1)] }) ∧
    (unterminatedDiagnostic 1 (s.length + 1)).type = .LEXICAL ∧
    (unterminatedDiagnostic 1 (s.length + 1)).message = utf16 "Unterminated string literal" ∧
    ∀ r : JSString, ∃ toks es,
      tokenize c r = some (toks, { c with errors := c.errors ++ es }) ∧
      tokenize c (34 :: s ++ 10 :: r) =
        some (toks.map (Token.shiftLine 1),
          { c with errors := (c.errors ++ unterminatedDiagnostic 1 (s.length + 1) ::
            es.map (CompilerError.shiftLine 1)) }) := by
  have hs := scans_unterminated 0 s hq
  have hn1 : ∀ ch ∈ (34 :: s : JSString), ch ≠ 10 := by
    intro ch hch
    rcases List.mem_cons.1 hch with rfl | h
    · decide
    · exact hn ch h
  refine ⟨?_, rfl, rfl, ?_⟩
  · rw [tokenize_eq_lex, lex_of_scans _ _ _ hn1 hs]
    rfl
  · intro r
    obtain ⟨toks, es, hl⟩ := lex_total r
    refine ⟨toks, es, by rw [tokenize_eq_lex, hl]; rfl, ?_⟩
    have := lex_first_line (34 :: s) r _ _ hn1 hs
    rw [hl] at this
    rw [tokenize_eq_lex, this]
    rfl

/-- Witness of C11: `"ab` followed by the line `x`. -/
theorem unterminated_string_literal_witness :
    tokenize MiniCCompiler.new (utf16 "\"ab\nx") =
      some ([⟨.IDENTIFIER, utf16 "x", 2, 0⟩],
        { MiniCCompiler.new with errors := [unterminatedDiagnostic 1 3] }) := by
  obtain ⟨toks, es, h1, h2⟩ := (unterminated_string_literal MiniCCompiler.new (utf16 "ab")
    (by decide) (by decide)).2.2.2 (utf16 "x")
  have hx : tokenize MiniCCompiler.new (utf16 "x") =
      some ([⟨.IDENTIFIER, utf16 "x", 1, 0⟩], MiniCCompiler.new) := by decide!
  rw [hx] at h1
  simp only [Option.some.injEq, Prod.mk.injEq] at h1
  obtain ⟨rfl, h3⟩ := h1
  have h4 : es = [] := by
    have := congrArg MiniCCompiler.errors h3
    simpa [MiniCCompiler.new] using this.symm
  subst h4
  exact h2

/-! ## The lexer: the first pass on the first line -/

theorem splitLines_head (code : JSString) :
    ∃ ls, splitLines code = code.takeWhile (fun ch => ch != 10) :: ls := by
  induction code with
  | nil => exact ⟨[], rfl⟩
  | cons ch rest ih =>
    obtain ⟨ls, h⟩ := ih
    by_cases hc : ch = 10
    · subst hc
      exact ⟨splitLines rest, by simp [splitLines]⟩
    · refine ⟨ls, ?_⟩
      rw [splitLines, if_neg hc, h]
      simp [List.takeWhile_cons, hc]

/-- What the first pass on the first line pushes comes first in the result of the
lexer. -/
theorem lex_of_first_pass (code : JSString) (col1 : Nat) (ts : List Token)
    (es : List CompilerError)
    (hlt : 0 < (code.takeWhile (fun ch => ch != 10)).length)
    (h : scanStep 0 (code.takeWhile (fun ch => ch != 10)) 0 = .next col1 ts es) :
    ∃ toks1 es1, lex code = some (ts ++ toks1, es ++ es1) := by
  obtain ⟨ls, hl⟩ := splitLines_head code
  have hp : 0 < col1 := by
    rcases scanStep_progress 0 _ 0 hlt with ⟨hs, _⟩ | ⟨c1, t1, e1, hs, hc, _⟩
    · rw [h] at hs; cases hs
    · rw [h] at hs; cases hs; exact hc
  obtain ⟨t2, e2, h2⟩ := scans_exists 0 (code.takeWhile (fun ch => ch != 10)) _ col1
    (Nat.le_refl _)
  have h3 := Scans.of_next hlt h h2
  obtain ⟨⟨t4, e4⟩, h4⟩ := scanLines_total ls 1 [] []
  refine ⟨t2 ++ t4, e2 ++ e4, ?_⟩
  rw [lex, hl, scanLines, h3 _ [] [] (by omega)]
  simp only [List.nil_append]
  rw [scanLines_acc, h4]
  simp [List.append_assoc]

theorem scanNumber_digits_append (d l : JSString) (isFloat : Bool)
    (hd : ∀ ch ∈ d, isDigit ch = true) :
    scanNumber (d ++ l) isFloat =
      ⟨d ++ (scanNumber l isFloat).num, (scanNumber l isFloat).isFloat,
        (scanNumber l isFloat).secondPoint⟩ := by
  induction d with
  | nil => rfl
  | cons ch d ih =>
    rw [List.cons_append, scanNumber_cons_digit _ _ _ (hd ch (List.mem_cons_self _ _)),
      ih (fun x hx => hd x (List.mem_cons_of_mem _ hx))]
    rfl

theorem scanNumber_two_points (d1 d2 l : JSString) (h1 : ∀ ch ∈ d1, isDigit ch = true)
    (h2 : ∀ ch ∈ d2, isDigit ch = true) :
    scanNumber (d1 ++ 46 :: (d2 ++ 46 :: l)) false = ⟨d1 ++ 46 :: d2, true, true⟩ := by
  have e1 : ∀ l' : JSString, scanNumber (46 :: l') false =
      ⟨46 :: (scanNumber l' true).num, (scanNumber l' true).isFloat,
        (scanNumber l' true).secondPoint⟩ := by
    intro l'
    simp [scanNumber, isDigit]
  have e2 : scanNumber (46 :: l) true = ⟨[], true, true⟩ := by
    simp [scanNumber, isDigit]
  rw [scanNumber_digits_append d1 _ false h1, e1, scanNumber_digits_append d2 _ true h2, e2]
  simp

/-- The pass over `d1.d2.` at the start of a line: the literal ends at the second
point, and the token pushed for `d1.d2` has kind `FLOAT`. -/
theorem scanStep_two_points (k : Nat) (d1 d2 l : JSString) (hne : d1 ≠ [])
    (h1 : ∀ ch ∈ d1, isDigit ch = true) (h2 : ∀ ch ∈ d2, isDigit ch = true) :
    scanStep k (d1 ++ 46 :: (d2 ++ 46 :: l)) 0 =
      .next (d1.length + 1 + d2.length) [⟨.FLOAT, d1 ++ 46 :: d2, k + 1, 0⟩]
        [secondPointDiagnostic (k + 1) (d1.length + 1 + d2.length)] := by
  have hsn := scanNumber_two_points d1 d2 l h1 h2
  cases d1 with
  | nil => exact absurd rfl hne
  | cons ch d =>
    have hdg := h1 ch (List.mem_cons_self _ _)
    obtain ⟨f1, f2, f3⟩ := isDigit_facts hdg
    have hlen : (ch :: d ++ 46 :: d2).length = (ch :: d).length + 1 + d2.length := by
      simp only [List.length_append, List.length_cons]
      omega
    unfold scanStep
    simp only [List.cons_append, List.getD_cons_zero, f1, f2, f3, hdg, List.drop_zero,
      false_and, if_true, if_false, Bool.false_eq_true]
    have hsn1 : scanNumber (ch :: (d ++ 46 :: (d2 ++ 46 :: l))) false =
        ⟨ch :: (d ++ 46 :: d2), true, true⟩ := hsn
    have hlen1 : (ch :: (d ++ 46 :: d2)).length = (ch :: d).length + 1 + d2.length := hlen
    simp only [hsn1, if_true, Nat.zero_add, hlen1, Nat.sub_self, secondPointDiagnostic]
theorem isDigit_bne_newline {ch : Nat} (h : isDigit ch = true) : (ch != 10) = true := by
  simpa using isDigit_ne_newline h

theorem takeWhile_two_points (d1 d2 rest : JSString) (h1 : ∀ ch ∈ d1, isDigit ch = true)
    (h2 : ∀ ch ∈ d2, isDigit ch = true) :
    (d1 ++ 46 :: (d2 ++ 46 :: rest)).takeWhile (fun ch => ch != 10) =
      d1 ++ 46 :: (d2 ++ 46 :: rest.takeWhile (fun ch => ch != 10)) := by
  rw [List.takeWhile_append_of_pos (fun a ha => isDigit_bne_newline (h1 a ha)),
    List.takeWhile_cons, if_pos (by decide),
    List.takeWhile_append_of_pos (fun a ha => isDigit_bne_newline (h2 a ha)),
    List.takeWhile_cons, if_pos (by decide)]

/-- C12 (amended): when a numeric literal meets a second `.`, `tokenize` appends a
`LEXICAL` diagnostic at the column of that point and ends the literal there, and
the token pushed for the text accumulated so far has kind `FLOAT`: for every input
`d1 . d2 . rest` with `d1` a non-empty run of digits and `d2` a run of digits, the
first token is `FLOAT d1.d2` at line 1, column 0, and the first diagnostic is
"Invalid number format" at the column of the second point. -/
theorem second_point_token_is_float (c : MiniCCompiler) (d1 d2 rest : JSString)
    (hne : d1 ≠ []) (h1 : ∀ ch ∈ d1, isDigit ch = true) (h2 : ∀ ch ∈ d2, isDigit ch = true) :
    (secondPointDiagnostic 1 (d1.length + 1 + d2.length)).type = .LEXICAL ∧
    ∃ toks es, tokenize c (d1 ++ 46 :: (d2 ++ 46 :: rest)) =
      some (⟨.FLOAT, d1 ++ 46 :: d2, 1, 0⟩ :: toks,
        { c with errors :=
          (c.errors ++ secondPointDiagnostic 1 (d1.length + 1 + d2.length) :: es) }) := by
  refine ⟨rfl, ?_⟩
  have hs := scanStep_two_points 0 d1 d2 (rest.takeWhile (fun ch => ch != 10)) hne h1 h2
  rw [← takeWhile_two_points d1 d2 rest h1 h2] at hs
  have hlt : 0 < ((d1 ++ 46 :: (d2 ++ 46 :: rest)).takeWhile (fun ch => ch != 10)).length := by
    rw [takeWhile_two_points d1 d2 rest h1 h2]
    simp
  obtain ⟨toks, es, hl⟩ := lex_of_first_pass _ _ _ _ hlt hs
  refine ⟨toks, es, ?_⟩
  rw [tokenize_eq_lex, hl]
  rfl

/-- Witness of C12 (amended): `1.2.3`. -/
theorem second_point_token_is_float_witness :
    ∃ toks es, tokenize MiniCCompiler.new (utf16 "1.2.3") =
      some (⟨.FLOAT, utf16 "1.2", 1, 0⟩ :: toks,
        { MiniCCompiler.new with errors := secondPointDiagnostic 1 3 :: es }) := by
  obtain ⟨-, toks, es, h⟩ := second_point_token_is_float MiniCCompiler.new (utf16 "1")
    (utf16 "2") (utf16 "3") (by decide) (by decide) (by decide)
  exact ⟨toks, es, h⟩

/-- Counterexample to C12 as stated: the first token of `tokenize("1.2.3")` has text
`1.2` and kind `FLOAT`, not `INTEGER`. -/
theorem second_point_token_counterexample :
    (∃ toks c1, tokenize MiniCCompiler.new (utf16 "1.2.3") =
      some (⟨.FLOAT, utf16 "1.2", 1, 0⟩ :: toks, c1)) ∧
    ¬ ∃ t toks c1, tokenize MiniCCompiler.new (utf16 "1.2.3") = some (t :: toks, c1) ∧
      t.value = utf16 "1.2" ∧ t.type = .INTEGER := by
  have h : tokenize MiniCCompiler.new (utf16 "1.2.3") =
      some ([⟨.FLOAT, utf16 "1.2", 1, 0⟩, ⟨.INTEGER, utf16 "3", 1, 4⟩],
        { MiniCCompiler.new with errors := [secondPointDiagnostic 1 3,
          ⟨.LEXICAL, utf16 "Invalid character: \x27.\x27", 1, 3,
            utf16 "Remove or replace invalid character"⟩] }) := by decide!
  refine ⟨⟨_, _, h⟩, ?_⟩
  rintro ⟨t, toks, c1, h1, -, h3⟩
  rw [h] at h1
  simp only [Option.some.injEq, Prod.mk.injEq, List.cons.injEq] at h1
  rw [← h1.1.1] at h3
  cases h3

/-! ## The lexer: where the tokens stand -/

theorem take_length_of_initial {l1 l : JSString} (h : l1 <+: l) : l.take l1.length = l1 := by
  obtain ⟨r, rfl⟩ := h
  simp

theorem scanNumber_initial (l : JSString) (isFloat : Bool) :
    (scanNumber l isFloat).num <+: l := by
  induction l generalizing isFloat with
  | nil => simp [scanNumber]
  | cons ch rest ih =>
    simp only [scanNumber]
    split
    · split
      · split
        · exact List.nil_prefix
        · exact (List.prefix_cons_inj ch).2 (ih true)
      · exact (List.prefix_cons_inj ch).2 (ih isFloat)
    · exact List.nil_prefix

/-- Every token pushed by a pass stands where its position says. -/
theorem scanStep_tokens (k : Nat) (line : JSString) (col col1 : Nat) (ts : List Token)
    (es : List CompilerError) (hlt : col < line.length)
    (h : scanStep k line col = .next col1 ts es) : ∀ t ∈ ts, TokenOnLine k line t := by
  have hd := drop_eq_getD_cons line col hlt
  unfold scanStep at h
  simp only [] at h
  split at h
  · cases h; simp
  split at h
  · cases h
  split at h
  · rename_i hq
    split at h
    · cases h; simp
    · cases h
      intro t ht
      rw [List.mem_singleton] at ht
      subst ht
      have hc : col + 1 + ((line.drop (col + 1)).takeWhile (fun ch => ch != 34)).length + 1 -
          ((line.drop (col + 1)).takeWhile (fun ch => ch != 34)).length - 1 = col + 1 := by
        omega
      refine ⟨rfl, ?_, fun _ => ?_⟩
      · simp only [TextAt, hc]
        exact take_length_of_initial (List.takeWhile_prefix _)
      · simp only [hc]
        exact ⟨by omega, hq⟩
  split at h
  · cases h
    intro t ht
    rw [List.mem_singleton] at ht
    subst ht
    refine ⟨rfl, ?_, fun hs => ?_⟩
    · simp only [TextAt, Nat.add_sub_cancel]
      exact take_length_of_initial (scanNumber_initial _ _)
    · simp only at hs
      split at hs <;> cases hs
  split at h
  · cases h
    intro t ht
    rw [List.mem_singleton] at ht
    subst ht
    refine ⟨rfl, ?_, fun hs => ?_⟩
    · simp only [TextAt, Nat.add_sub_cancel]
      exact take_length_of_initial (List.takeWhile_prefix _)
    · simp only at hs
      split at hs <;> cases hs
  split at h
  · cases h
    intro t ht
    rw [List.mem_singleton] at ht
    subst ht
    refine ⟨rfl, ?_, fun hs => by cases hs⟩
    simp only [TextAt]
    exact take_length_of_initial (List.take_prefix _ _)
  split at h
  · cases h
    intro t ht
    rw [List.mem_singleton] at ht
    subst ht
    refine ⟨rfl, ?_, fun hs => ?_⟩
    · simp only [TextAt, hd]
      simp
    · simp only at hs
      split at hs <;> cases hs
  · cases h; simp

theorem scanLine_tokens (k : Nat) (line : JSString) :
    ∀ (fuel col : Nat) (toks : List Token) (errs : List CompilerError)
      (r : List Token × List CompilerError),
      scanLine k line fuel col toks errs = some r →
        ∀ t ∈ r.1, t ∈ toks ∨ TokenOnLine k line t := by
  intro fuel
  induction fuel with
  | zero => intro col toks errs r h; simp [scanLine] at h
  | succ fuel ih =>
    intro col toks errs r h
    rw [scanLine] at h
    split at h
    · rename_i hlt
      cases hs : scanStep k line col with
      | stop =>
        rw [hs] at h
        cases h
        exact fun t ht => Or.inl ht
      | next col1 ts es =>
        rw [hs] at h
        intro t ht
        rcases ih col1 _ _ r h t ht with h1 | h1
        · rcases List.mem_append.1 h1 with h2 | h2
          · exact Or.inl h2
          · exact Or.inr (scanStep_tokens k line col col1 ts es hlt hs t h2)
        · exact Or.inr h1
    · cases h
      exact fun t ht => Or.inl ht

theorem scanLines_tokens : ∀ (lines : List JSString) (k : Nat) (toks : List Token)
    (errs : List CompilerError) (r : List Token × List CompilerError),
    scanLines k lines toks errs = some r →
      ∀ t ∈ r.1, t ∈ toks ∨
        ∃ i line, lines[i]? = some line ∧ TokenOnLine (k + i) line t := by
  intro lines
  induction lines with
  | nil =>
    intro k toks errs r h
    simp only [scanLines] at h
    cases h
    exact fun t ht => Or.inl ht
  | cons line rest ih =>
    intro k toks errs r h
    rw [scanLines] at h
    cases h1 : scanLine k line (line.length + 1) 0 toks errs with
    | none => rw [h1] at h; cases h
    | some p =>
      rw [h1] at h
      intro t ht
      rcases ih (k + 1) _ _ r h t ht with h2 | ⟨i, l, hi, hl⟩
      · rcases scanLine_tokens k line _ _ _ _ p h1 t h2 with h3 | h3
        · exact Or.inl h3
        · exact Or.inr ⟨0, line, by simp, h3⟩
      · refine Or.inr ⟨i + 1, l, by simpa using hi, ?_⟩
        rw [show k + (i + 1) = k + 1 + i from by omega]
        exact hl

/-- Every token of the lexer stands, in the line its line number names, where its
column says. -/
theorem lex_tokens (code : JSString) (toks : List Token) (es : List CompilerError)
    (h : lex code = some (toks, es)) :
    ∀ t ∈ toks, 1 ≤ t.line ∧ ∃ line, (splitLines code)[t.line - 1]? = some line ∧
      TokenOnLine (t.line - 1) line t := by
  intro t ht
  rcases scanLines_tokens _ _ _ _ _ h t ht with h1 | ⟨i, l, hi, hl⟩
  · cases h1
  · have e : t.line = i + 1 := by simpa using hl.1
    refine ⟨by omega, l, ?_, ?_⟩
    · rw [e]; simpa using hi
    · rw [e]; simpa using hl

theorem lex_of_tokenize {c c1 : MiniCCompiler} {code : JSString} {toks : List Token}
    (h : tokenize c code = some (toks, c1)) : ∃ es, lex code = some (toks, es) := by
  rw [tokenize_eq_lex] at h
  cases hl : lex code with
  | none => rw [hl] at h; cases h
  | some p =>
    rw [hl] at h
    simp only [Option.map_some', Option.some.injEq, Prod.mk.injEq] at h
    exact ⟨p.2, by rw [← h.1]⟩

/-- C13: for every source and every token of kind other than `STRING` that
`tokenize` returns, the token's line is the 1-based index of a line of the source,
and the substring of that line that starts at the token's 0-based column and has the
length of the token's text is the token's text. -/
theorem token_position (c : MiniCCompiler) (code : JSString) (toks : List Token)
    (c1 : MiniCCompiler) (h : tokenize c code = some (toks, c1)) :
    ∀ t ∈ toks, t.type ≠ .STRING →
      1 ≤ t.line ∧ ∃ line, (splitLines code)[t.line - 1]? = some line ∧
        (line.drop t.column).take t.value.length = t.value := by
  obtain ⟨es, hl⟩ := lex_of_tokenize h
  intro t ht _
  obtain ⟨h1, line, h2, h3⟩ := lex_tokens code toks es hl t ht
  exact ⟨h1, line, h2, h3.2.1⟩

/-- Witness of C13: the token `x` of the second line of `"int\n  x"`. -/
theorem token_position_witness :
    1 ≤ 2 ∧ ∃ line, (splitLines (utf16 "int\n  x"))[2 - 1]? = some line ∧
      (line.drop 2).take (utf16 "x").length = utf16 "x" :=
  token_position MiniCCompiler.new (utf16 "int\n  x")
    [⟨.KEYWORD, utf16 "int", 1, 0⟩, ⟨.IDENTIFIER, utf16 "x", 2, 2⟩] MiniCCompiler.new
    (by decide!) ⟨.IDENTIFIER, utf16 "x", 2, 2⟩ (by decide) (by decide)

/-- Counterexample to C14 as stated: the token of `tokenize("\"ab\"")` has column 1,
not 0, and the character at column 1 of the line is `a`, not the opening quote. -/
theorem string_token_column_counterexample :
    tokenize MiniCCompiler.new (utf16 "\"ab\"") =
        some ([⟨.STRING, utf16 "ab", 1, 1⟩], MiniCCompiler.new) ∧
      (utf16 "\"ab\"").getD 1 0 = 97 ∧ (utf16 "\"ab\"").getD 0 0 = 34 :=
  ⟨tokenize_of_lex MiniCCompiler.new (by decide!), by decide, by decide⟩

/-- C14 (amended to the column after the opening quote): for every source string
and every `STRING` token that `tokenize` produces, the token's column is the index of
the first character after the literal's opening quote: the character just before the
column is the opening `"`, and the token's text starts at the column; the token of
`tokenize("\"ab\"")` has column 1. -/
theorem string_token_column (c : MiniCCompiler) :
    tokenize c (utf16 "\"ab\"") = some ([⟨.STRING, utf16 "ab", 1, 1⟩], c) ∧
    ∀ (code : JSString) (toks : List Token) (c1 : MiniCCompiler),
      tokenize c code = some (toks, c1) → ∀ t ∈ toks, t.type = .STRING →
        ∃ line, (splitLines code)[t.line - 1]? = some line ∧ 1 ≤ t.column ∧
          line.getD (t.column - 1) 0 = 34 ∧
          (line.drop t.column).take t.value.length = t.value := by
  refine ⟨tokenize_of_lex c (by decide!), ?_⟩
  intro code toks c1 h t ht hs
  obtain ⟨es, hl⟩ := lex_of_tokenize h
  obtain ⟨-, line, h2, h3⟩ := lex_tokens code toks es hl t ht
  exact ⟨line, h2, (h3.2.2 hs).1, (h3.2.2 hs).2, h3.2.1⟩

/-- Witness of C14: in `x = "ab"` the quote opens at column 4 and the token has
column 5. -/
theorem string_token_column_witness :
    ∃ line, (splitLines (utf16 "x = \"ab\""))[1 - 1]? = some line ∧ 1 ≤ 5 ∧
      line.getD (5 - 1) 0 = 34 ∧ (line.drop 5).take (utf16 "ab").length = utf16 "ab" :=
  (string_token_column MiniCCompiler.new).2 (utf16 "x = \"ab\"")
    [⟨.IDENTIFIER, utf16 "x", 1, 0⟩, ⟨.OPERATOR, utf16 "=", 1, 2⟩,
      ⟨.STRING, utf16 "ab", 1, 5⟩] MiniCCompiler.new (by decide!)
    ⟨.STRING, utf16 "ab", 1, 5⟩ (by decide) rfl

/-! ## The lexer: line comments -/

theorem scanNumber_append_slash (l r : JSString) (isFloat : Bool) :
    scanNumber (l ++ 47 :: r) isFloat = scanNumber l isFloat := by
  induction l generalizing isFloat with
  | nil => simp [scanNumber, isDigit]
  | cons ch l ih =>
    simp only [List.cons_append, scanNumber, List.append_eq, ih]

theorem takeWhile_append_slash (l r : JSString) :
    (l ++ 47 :: r).takeWhile isIdentPart = l.takeWhile isIdentPart := by
  induction l with
  | nil =>
    have : isIdentPart 47 = false := by decide
    simp [List.takeWhile_cons, this]
  | cons ch l ih =>
    simp only [List.cons_append, List.takeWhile_cons, ih]

theorem operators_not_ending_in_slash (ch : Nat) : operators.contains [ch, 47] = false := by
  have key : ∀ op ∈ operators, op.getD 1 0 ≠ 47 := by decide
  cases h : operators.contains [ch, 47] with
  | false => rfl
  | true =>
    have hm : [ch, 47] ∈ operators := by simpa using h
    exact absurd rfl (key _ hm)

/-- The pass at the start of a `//` comment is the `break`. -/
theorem scanStep_comment (k : Nat) (line : JSString) (col : Nat) (r : JSString)
    (hd : line.drop col = 47 :: 47 :: r) : scanStep k line col = .stop := by
  obtain ⟨hg, hlt⟩ := getD_of_drop_eq hd
  have hl := length_of_drop_eq hd (by omega)
  have hd1 : line.drop (col + 1) = 47 :: r := by
    have := drop_eq_getD_cons line col hlt
    rw [hd] at this
    injection this with _ h
    exact h.symm
  obtain ⟨hg1, hlt1⟩ := getD_of_drop_eq hd1
  have hw : isWhitespace 47 = false := by decide
  unfold scanStep
  simp only [hg, hg1, hw, hlt1, and_self, if_true, if_false, Bool.false_eq_true]

/-- Inside a text without `"` and `/`, a pass does not see a `//` comment appended
to the line. -/
theorem scanStep_append_comment (k : Nat) (l r : JSString) (col : Nat)
    (hl : ∀ ch ∈ l, ch ≠ 34 ∧ ch ≠ 47) (hlt : col < l.length) :
    scanStep k (l ++ 47 :: 47 :: r) col = scanStep k l col := by
  have hmem : l.getD col 0 ∈ l := by
    rw [List.getD_eq_getElem l 0 hlt]
    exact List.getElem_mem _
  obtain ⟨n34, n47⟩ := hl _ hmem
  have e1 : (l ++ 47 :: 47 :: r).getD col 0 = l.getD col 0 := by
    rw [List.getD_eq_getElem _ 0 (by simp; omega), List.getD_eq_getElem l 0 hlt,
      List.getElem_append_left hlt]
  have e2 : (l ++ 47 :: 47 :: r).drop col = l.drop col ++ 47 :: 47 :: r :=
    List.drop_append_of_le_length (by omega)
  have e4 : scanNumber ((l ++ 47 :: 47 :: r).drop col) false = scanNumber (l.drop col) false := by
    rw [e2, scanNumber_append_slash]
  have e5 : ((l ++ 47 :: 47 :: r).drop col).takeWhile isIdentPart =
      (l.drop col).takeWhile isIdentPart := by
    rw [e2, takeWhile_append_slash]
  by_cases h2 : col + 1 < l.length
  · have h2' : col + 1 < (l ++ 47 :: 47 :: r).length := by simp; omega
    have e6 : ((l ++ 47 :: 47 :: r).drop col).take 2 = (l.drop col).take 2 := by
      rw [e2, List.take_append_of_le_length]
      rw [List.length_drop]
      omega
    unfold scanStep
    simp only [e1, n34, n47, e4, e5, e6, h2, h2', false_and, true_and, if_false]
  · have h2' : col + 1 < (l ++ 47 :: 47 :: r).length := by simp; omega
    have hd := drop_eq_getD_cons l col hlt
    have hd1 : l.drop (col + 1) = [] := List.drop_eq_nil_of_le (by omega)
    have e6 : ((l ++ 47 :: 47 :: r).drop col).take 2 = [l.getD col 0, 47] := by
      rw [e2, hd, hd1]
      rfl
    have e7 := operators_not_ending_in_slash (l.getD col 0)
    unfold scanStep
    simp only [e1, n34, n47, e4, e5, e6, e7, h2, h2', false_and, and_false, true_and, if_false,
      Bool.false_eq_true]

theorem scans_append_comment (k : Nat) (l r : JSString) (hl : ∀ ch ∈ l, ch ≠ 34 ∧ ch ≠ 47) :
    ∀ (n col : Nat), l.length - col ≤ n → col ≤ l.length →
      ∃ ts es, Scans k l col ts es ∧ Scans k (l ++ 47 :: 47 :: r) col ts es := by
  intro n
  induction n with
  | zero =>
    intro col hn hc
    have hcol : col = l.length := by omega
    refine ⟨[], [], Scans.of_end (by omega), ?_⟩
    refine Scans.of_stop (by simp; omega) (scanStep_comment k _ col r ?_)
    rw [hcol, List.drop_left]
  | succ n ih =>
    intro col hn hc
    by_cases hlt : col < l.length
    · rcases scanStep_progress k l col hlt with ⟨hs, h47, _⟩ | ⟨c1, t1, e1, hs, hp, hle⟩
      · have hmem : l.getD col 0 ∈ l := by
          rw [List.getD_eq_getElem l 0 hlt]
          exact List.getElem_mem _
        exact absurd h47 (hl _ hmem).2
      · obtain ⟨ts, es, h1, h2⟩ := ih c1 (by omega) hle
        refine ⟨t1 ++ ts, e1 ++ es, Scans.of_next hlt hs h1, ?_⟩
        refine Scans.of_next (by simp; omega) ?_ h2
        rw [scanStep_append_comment k l r col hl hlt, hs]
    · have hcol : col = l.length := by omega
      refine ⟨[], [], Scans.of_end (by omega), ?_⟩
      refine Scans.of_stop (by simp; omega) (scanStep_comment k _ col r ?_)
      rw [hcol, List.drop_left]

theorem splitLines_append_text (t : JSString) (ht : ∀ ch ∈ t, ch ≠ 10) (p : JSString) :
    ∃ init last, splitLines p = init ++ [last] ∧ splitLines (p ++ t) = init ++ [last ++ t] ∧
      ∀ ch ∈ last, ch ∈ p := by
  induction p with
  | nil =>
    exact ⟨[], [], rfl, by simpa using splitLines_of_no_newline t ht, by simp⟩
  | cons ch p ih =>
    obtain ⟨init, last, h1, h2, h3⟩ := ih
    by_cases hc : ch = 10
    · subst hc
      refine ⟨[] :: init, last, ?_, ?_, fun x hx => List.mem_cons_of_mem _ (h3 x hx)⟩
      · simp [splitLines, h1]
      · simp [splitLines, h2]
    · cases init with
      | nil =>
        refine ⟨[], ch :: last, ?_, ?_, ?_⟩
        · rw [splitLines, if_neg hc, h1]; rfl
        · rw [List.cons_append, splitLines, if_neg hc, h2]; rfl
        · intro x hx
          rcases List.mem_cons.1 hx with rfl | hx
          · exact List.mem_cons_self _ _
          · exact List.mem_cons_of_mem _ (h3 x hx)
      | cons i0 init1 =>
        refine ⟨(ch :: i0) :: init1, last, ?_, ?_, fun x hx => List.mem_cons_of_mem _ (h3 x hx)⟩
        · rw [splitLines, if_neg hc, h1]; rfl
        · rw [List.cons_append, splitLines, if_neg hc, h2]; rfl

theorem scanLines_append_comment (last r : JSString) (hl : ∀ ch ∈ last, ch ≠ 34 ∧ ch ≠ 47) :
    ∀ (init : List JSString) (k : Nat) (toks : List Token) (errs : List CompilerError),
      scanLines k (init ++ [last ++ 47 :: 47 :: r]) toks errs =
        scanLines k (init ++ [last]) toks errs := by
  intro init
  induction init with
  | nil =>
    intro k toks errs
    obtain ⟨ts, es, h1, h2⟩ := scans_append_comment k last r hl _ 0 (Nat.le_refl _)
      (Nat.zero_le _)
    simp only [List.nil_append]
    rw [scanLines, scanLines, h1 _ toks errs (by omega), h2 _ toks errs (by omega)]
  | cons line init ih =>
    intro k toks errs
    simp only [List.cons_append]
    rw [scanLines, scanLines]
    cases scanLine k line (line.length + 1) 0 toks errs with
    | none => rfl
    | some p => exact ih _ _ _

/-- C15: a `//` outside a string literal discards the rest of its line: for every
text `p` without `"` (code 34) and `/` (code 47) and every text `r` without newline,
`tokenize(p ++ "//" ++ r)` returns the same tokens and appends the same diagnostics
as `tokenize(p)`. -/
theorem line_comment_discarded (c : MiniCCompiler) (p r : JSString)
    (hp : ∀ ch ∈ p, ch ≠ 34 ∧ ch ≠ 47) (hr : ∀ ch ∈ r, ch ≠ 10) :
    tokenize c (p ++ utf16 "//" ++ r) = tokenize c p := by
  have e : p ++ utf16 "//" ++ r = p ++ 47 :: 47 :: r := by
    rw [show utf16 "//" = [47, 47] from by decide]
    simp
  rw [e]
  have ht : ∀ ch ∈ (47 :: 47 :: r : JSString), ch ≠ 10 := by
    intro ch hch
    simp only [List.mem_cons] at hch
    rcases hch with rfl | rfl | h
    · decide
    · decide
    · exact hr ch h
  obtain ⟨init, last, h1, h2, h3⟩ := splitLines_append_text _ ht p
  rw [tokenize_eq, tokenize_eq, h1, h2,
    scanLines_append_comment last r (fun ch hch => hp ch (h3 ch hch))]

/-- Witness of C15: `int x // "y` gives what `int x ` gives. -/
theorem line_comment_discarded_witness :
    tokenize MiniCCompiler.new (utf16 "int x // \"y") =
      tokenize MiniCCompiler.new (utf16 "int x ") := by
  have h := line_comment_discarded MiniCCompiler.new (utf16 "int x ") (utf16 " \"y")
    (by decide) (by decide)
  have e : utf16 "int x " ++ utf16 "//" ++ utf16 " \"y" = utf16 "int x // \"y" := by decide
  rw [e] at h
  exact h

/-! ## The lexer: invalid characters -/

theorem operators_first_char (op : JSString) (h : op ∈ operators) :
    operators.contains [op.getD 0 0] = true ∨ op.getD 0 0 = 38 ∨ op.getD 0 0 = 124 := by
  revert op
  decide

/-- The pass of the per-line loop at a character that no branch accepts. -/
theorem scanStep_invalid (k : Nat) (line : JSString) (col : Nat) (hlt : col < line.length)
    (hc : isInvalidChar (line.getD col 0) = true) :
    scanStep k line col = .next (col + 1) [] [invalidCharDiagnostic (k + 1) col (line.getD col 0)] := by
  simp only [isInvalidChar, Bool.and_eq_true, Bool.not_eq_true', bne_iff_ne, ne_eq] at hc
  obtain ⟨⟨⟨⟨⟨⟨⟨hw, h34⟩, hd⟩, hi⟩, ho⟩, hdl⟩, h38⟩, h124⟩ := hc
  have h47 : line.getD col 0 ≠ 47 := by
    intro h
    rw [h] at ho
    revert ho
    decide
  have h2 : operators.contains ((line.drop col).take 2) = false := by
    cases h : operators.contains ((line.drop col).take 2) with
    | false => rfl
    | true =>
      have hm : (line.drop col).take 2 ∈ operators := by simpa using h
      have hf : ((line.drop col).take 2).getD 0 0 = line.getD col 0 := by
        rw [drop_eq_getD_cons line col hlt]
        rfl
      rcases operators_first_char _ hm with h1 | h1 | h1
      · rw [hf, ho] at h1; cases h1
      · rw [hf] at h1; exact absurd h1 h38
      · rw [hf] at h1; exact absurd h1 h124
  unfold scanStep
  simp only [hw, h34, hd, hi, ho, hdl, h2, h47, false_and, and_false, or_self, if_false,
    Bool.false_eq_true, invalidCharDiagnostic]

theorem isInvalidChar_ne_newline (ch : Nat) (h : isInvalidChar ch = true) : ch ≠ 10 := by
  rintro rfl
  revert h
  decide

theorem scans_invalid (k : Nat) :
    ∀ (s pre : JSString), (∀ ch ∈ s, isInvalidChar ch = true) →
      Scans k (pre ++ s) pre.length [] (invalidCharDiagnostics (k + 1) pre.length s) := by
  intro s
  induction s with
  | nil =>
    intro pre _
    exact Scans.of_end (by simp)
  | cons ch s ih =>
    intro pre hs
    have hlt : pre.length < (pre ++ ch :: s).length := by simp
    have hg : (pre ++ ch :: s).getD pre.length 0 = ch := by
      rw [List.getD_eq_getElem _ 0 hlt]
      exact List.getElem_append_right (Nat.le_refl _) |>.trans (by simp)
    have hstep := scanStep_invalid k (pre ++ ch :: s) pre.length hlt
      (by rw [hg]; exact hs ch (List.mem_cons_self _ _))
    rw [hg] at hstep
    have hrest := ih (pre ++ [ch]) (fun x hx => hs x (List.mem_cons_of_mem _ hx))
    rw [List.append_assoc, List.length_append] at hrest
    exact Scans.of_next hlt hstep hrest

theorem invalidCharDiagnostics_length (line : Nat) (s : JSString) :
    ∀ col, (invalidCharDiagnostics line col s).length = s.length := by
  induction s with
  | nil => intro col; rfl
  | cons ch s ih => intro col; simp [invalidCharDiagnostics, ih]

theorem invalidCharDiagnostics_column (line : Nat) (s : JSString) :
    ∀ col, (invalidCharDiagnostics line col s).map (fun e => e.column) =
      List.range' col s.length := by
  induction s with
  | nil => intro col; rfl
  | cons ch s ih =>
    intro col
    simp [invalidCharDiagnostics, ih, List.range', invalidCharDiagnostic]

/-- C16: a character that is not whitespace, not `"`, not a digit, letter or
underscore, not a one-character operator, not a delimiter and not `&` or `|` gets
exactly one LEXICAL invalid-character diagnostic at its line and column and no
token, and scanning continues at the next column; a line of n such characters
yields no token and n diagnostics at columns 0..n-1; `@x` yields one diagnostic and
the token IDENTIFIER `x` at column 1. -/
theorem invalid_character_diagnostic :
    (∀ ch : Nat, ch ∈ utf16 "@$.%" → isInvalidChar ch = true) ∧
    (∀ (k : Nat) (line : JSString) (col : Nat), col < line.length →
      isInvalidChar (line.getD col 0) = true →
        scanStep k line col =
          .next (col + 1) [] [invalidCharDiagnostic (k + 1) col (line.getD col 0)] ∧
        (invalidCharDiagnostic (k + 1) col (line.getD col 0)).type = .LEXICAL) ∧
    (∀ (c : MiniCCompiler) (s : JSString), (∀ ch ∈ s, isInvalidChar ch = true) →
      tokenize c s =
          some ([], { c with errors := c.errors ++ invalidCharDiagnostics 1 0 s }) ∧
        (invalidCharDiagnostics 1 0 s).length = s.length ∧
        (invalidCharDiagnostics 1 0 s).map (fun e => e.column) = List.range s.length ∧
        ∀ e ∈ invalidCharDiagnostics 1 0 s, e.type = .LEXICAL ∧ e.line = 1) ∧
    (∀ c : MiniCCompiler, tokenize c (utf16 "@x") =
      some ([⟨.IDENTIFIER, utf16 "x", 1, 1⟩],
        { c with errors := c.errors ++ [invalidCharDiagnostic 1 0 64] })) := by
  refine ⟨by decide, ?_, ?_, ?_⟩
  · intro k line col hlt hc
    exact ⟨scanStep_invalid k line col hlt hc, rfl⟩
  · intro c s hs
    have hl : lex s = some ([], invalidCharDiagnostics 1 0 s) :=
      lex_of_scans s [] _ (fun ch hch => isInvalidChar_ne_newline ch (hs ch hch))
        (scans_invalid 0 s [] hs)
    refine ⟨?_, invalidCharDiagnostics_length 1 s 0, ?_, ?_⟩
    · rw [tokenize_eq_lex, hl]
      rfl
    · rw [invalidCharDiagnostics_column, List.range_eq_range']
    · have : ∀ (s : JSString) (col : Nat), ∀ e ∈ invalidCharDiagnostics 1 col s,
          e.type = .LEXICAL ∧ e.line = 1 := by
        intro s
        induction s with
        | nil => intro col e he; cases he
        | cons ch s ih =>
          intro col e he
          rcases List.mem_cons.1 he with rfl | he
          · exact ⟨rfl, rfl⟩
          · exact ih _ e he
      exact this s 0
  · intro c
    have hl : lex (utf16 "@x") =
        some ([⟨.IDENTIFIER, utf16 "x", 1, 1⟩], [invalidCharDiagnostic 1 0 64]) := by
      decide!
    rw [tokenize_eq_lex, hl]
    rfl

/-- Witness of C16: the line `@$.%` gives no token and four diagnostics, at columns
0, 1, 2 and 3. -/
theorem invalid_character_diagnostic_witness :
    tokenize MiniCCompiler.new (utf16 "@$.%") =
        some ([], { MiniCCompiler.new with
          errors := MiniCCompiler.new.errors ++ invalidCharDiagnostics 1 0 (utf16 "@$.%") }) ∧
      (invalidCharDiagnostics 1 0 (utf16 "@$.%")).map (fun e => e.column) = [0, 1, 2, 3] := by
  have h := invalid_character_diagnostic.2.2.1 MiniCCompiler.new (utf16 "@$.%") (by decide)
  exact ⟨h.1, by decide⟩

/-! ## The parser: include directives and recorded types -/

theorem parseInclude_after_hash (h : JSString) (p : Nat → Nat × Nat) (es : List CompilerError) :
    parseInclude ⟨includeTokens h p, 1, es, [], [], []⟩ =
      ⟨includeTokens h p, 5,
        es ++ [⟨.SYNTAX, utf16 "Expected #", (p 1).1, (p 1).2, utf16 "Add #"⟩], [], [], []⟩ := by
  have s1 : (consumeToken ⟨includeTokens h p, 1, es, [], [], []⟩ .DELIMITER (utf16 "#")).2 =
      ⟨includeTokens h p, 1,
        es ++ [⟨.SYNTAX, utf16 "Expected #", (p 1).1, (p 1).2, utf16 "Add #"⟩], [], [], []⟩ := rfl
  generalize es ++ [(⟨.SYNTAX, utf16 "Expected #", (p 1).1, (p 1).2, utf16 "Add #"⟩ : CompilerError)] = es1 at s1 ⊢
  have s2 : (consumeToken ⟨includeTokens h p, 1, es1, [], [], []⟩ .KEYWORD (utf16 "include")).2 =
      ⟨includeTokens h p, 2, es1, [], [], []⟩ := rfl
  have s3 : checkToken ⟨includeTokens h p, 2, es1, [], [], []⟩ .OPERATOR (utf16 "<") = true := rfl
  have s4 : (consumeToken ⟨includeTokens h p, 2, es1, [], [], []⟩ .OPERATOR (utf16 "<")).2 =
      ⟨includeTokens h p, 3, es1, [], [], []⟩ := rfl
  have s5 : checkTokenType ⟨includeTokens h p, 3, es1, [], [], []⟩ .IDENTIFIER = true := rfl
  have s6 : advance ⟨includeTokens h p, 3, es1, [], [], []⟩ =
      ⟨includeTokens h p, 4, es1, [], [], []⟩ := rfl
  have s7 : (consumeToken ⟨includeTokens h p, 4, es1, [], [], []⟩ .OPERATOR (utf16 ">")).2 =
      ⟨includeTokens h p, 5, es1, [], [], []⟩ := rfl
  simp only [parseInclude, s1, s2, s3, s4, s5, s6, s7, if_true, Bool.not_true, Bool.false_eq_true,
    if_false]

/-- What `parse` does on the five tokens of an include directive. -/
theorem parse_include_tokens (h : JSString) (p : Nat → Nat × Nat) :
    parse MiniCCompiler.new (includeTokens h p) = some ⟨includeTokens h p, 5, 
        [⟨.SYNTAX, utf16 "Expected declaration or function", (p 0).1, (p 0).2,
            utf16 "Add proper function or variable declaration"⟩,
         ⟨.SYNTAX, utf16 "Expected #", (p 1).1, (p 1).2, utf16 "Add #"⟩], [], [], []⟩ := by
  have e0 : parseFuel (includeTokens h p) = 189 + 3 := rfl
  have l0 : (includeTokens h p).length = 5 := rfl
  have c1 : checkToken ⟨includeTokens h p, 0, [], [], [], []⟩ .KEYWORD (utf16 "include") = false := rfl
  have c2 : checkTokenType ⟨includeTokens h p, 0, [], [], [], []⟩ .KEYWORD = false := rfl
  have e1 : advance (syntaxError ⟨includeTokens h p, 0, [], [], [], []⟩
     (utf16 "Expected declaration or function") (utf16 "Add proper function or variable declaration")) =
     ⟨includeTokens h p, 1, 
        [] ++ [⟨.SYNTAX, utf16 "Expected declaration or function", (p 0).1, (p 0).2,
            utf16 "Add proper function or variable declaration"⟩], [], [], []⟩ := rfl
  have c3 : checkToken ⟨includeTokens h p, 1, [] ++ [⟨.SYNTAX, utf16 "Expected declaration or function", (p 0).1, (p 0).2,
            utf16 "Add proper function or variable declaration"⟩], [], [], []⟩ .KEYWORD (utf16 "include") = true := rfl
  show parseProgram (parseFuel (includeTokens h p)) ⟨includeTokens h p, 0, [], [], [], []⟩ = _
  rw [e0, parseProgram]
  simp only [c1, c2, e1, l0, Nat.zero_lt_succ, if_true, if_false, Bool.false_eq_true]
  rw [parseProgram]
  simp only [c3, l0, parseInclude_after_hash, if_true, Nat.one_lt_ofNat]
  rw [parseProgram]
  simp only [l0, Nat.lt_irrefl, if_false]
  rfl

/-- C17 (the code departs from the claim): on the tokens `#`, `include`, `<`, `h`,
`>` of an include directive, `parse` consumes all five tokens but appends two
SYNTAX diagnostics: `parseProgram` enters `parseInclude` only at the keyword
`include`, so the `#` before it is reported as "Expected declaration or function",
and `parseInclude`, which starts with `consumeToken('DELIMITER', '#')`, then
reports "Expected #" at the keyword. -/
theorem include_directive_diagnostics (h : JSString) (p : Nat → Nat × Nat) :
    ∃ c1, parse MiniCCompiler.new (includeTokens h p) = some c1 ∧
      c1.currentToken = 5 ∧
      c1.errors =
        [⟨.SYNTAX, utf16 "Expected declaration or function", (p 0).1, (p 0).2,
            utf16 "Add proper function or variable declaration"⟩,
         ⟨.SYNTAX, utf16 "Expected #", (p 1).1, (p 1).2, utf16 "Add #"⟩] ∧
      (compileResult MiniCCompiler.new (utf16 "#include <h>")).map
          (fun r => (r.success, r.errors.map (fun e => (e.type, e.message)))) =
        some (false, [(.SYNTAX, utf16 "Expected declaration or function"),
          (.SYNTAX, utf16 "Expected #")]) :=
  ⟨_, parse_include_tokens h p, rfl, rfl, by decide!⟩

/-- C18 (the code departs from the claim): `parseProgram` and `parseParameterList`
take any KEYWORD token as a type: the tokens of `return x;` record `x` as a variable
of type `return`, and `compile("int f(if a) \x7b \x7d")` succeeds with `a` recorded
as a parameter of type `if`; neither is one of `int`, `float`, `char`, `void`. -/
theorem keyword_recorded_as_type (x : JSString) (p : Nat → Nat × Nat) :
    (∃ c1, parse MiniCCompiler.new
        [⟨.KEYWORD, utf16 "return", (p 0).1, (p 0).2⟩, ⟨.IDENTIFIER, x, (p 1).1, (p 1).2⟩,
         ⟨.DELIMITER, utf16 ";", (p 2).1, (p 2).2⟩] = some c1 ∧
      c1.errors = [] ∧ c1.symbolTable = [(x, .variable (utf16 "return"))] ∧
      ∃ e ∈ c1.symbolTable, e.2.hasTypeKeyword = false) ∧
    (compileResult MiniCCompiler.new (utf16 "return x;")).map
        (fun r => (r.success, r.errors, r.symbolTable)) =
      some (true, [], [(utf16 "x", .variable (utf16 "return"))]) ∧
    (compileResult MiniCCompiler.new (utf16 "int f(if a) \x7b \x7d")).map
        (fun r => (r.success, r.errors, r.symbolTable)) =
      some (true, [], [(utf16 "f", .function (utf16 "int")),
        (utf16 "a", .parameter (utf16 "if"))]) ∧
    typeKeywords.contains (utf16 "return") = false ∧
    typeKeywords.contains (utf16 "if") = false := by
  refine ⟨⟨_, rfl, rfl, rfl, ?_⟩, by decide!, by decide!, by decide, by decide⟩
  exact ⟨(x, .variable (utf16 "return")), List.mem_singleton.2 rfl,
    show typeKeywords.contains (utf16 "return") = false from by decide⟩

/-! ## The parser on call-free expressions -/

theorem getCurrentToken_of_drop_eq {c : MiniCCompiler} {rest : List Token}
    (h : c.tokens.drop c.currentToken = rest) : getCurrentToken c = rest.headD eofToken := by
  cases rest with
  | nil =>
    have hle : c.tokens.length ≤ c.currentToken := List.drop_eq_nil_iff.1 h
    unfold getCurrentToken
    rw [if_pos hle]
    rfl
  | cons t l => exact (getCurrentToken_of_drop h).1

theorem length_of_drop_append {c : MiniCCompiler} {ts rest : List Token}
    (h : c.tokens.drop c.currentToken = ts ++ rest) :
    c.tokens.length - c.currentToken = ts.length + rest.length := by
  have := congrArg List.length h
  simpa using this

theorem afterTokens_drop {c : MiniCCompiler} {ts rest : List Token}
    (h : c.tokens.drop c.currentToken = ts ++ rest) :
    (afterTokens c ts).tokens.drop (afterTokens c ts).currentToken = rest := by
  show c.tokens.drop (c.currentToken + ts.length) = rest
  rw [← List.drop_drop, h, List.drop_left]

theorem afterTokens_append (c : MiniCCompiler) (ts tl : List Token) :
    afterTokens (afterTokens c ts) tl = afterTokens c (ts ++ tl) := by
  simp [afterTokens, undeclaredVariables, Nat.add_assoc]

theorem afterTokens_advance (c : MiniCCompiler) (t : Token) (ts : List Token)
    (ht : t.type ≠ .IDENTIFIER) : afterTokens (advance c) ts = afterTokens c (t :: ts) := by
  simp [afterTokens, advance, undeclaredVariables, List.filter_cons, ht, Nat.add_assoc,
    Nat.add_comm 1]

theorem afterTokens_one (c : MiniCCompiler) (t : Token) (ht : t.type ≠ .IDENTIFIER) :
    advance c = afterTokens c [t] := by
  simp [afterTokens, advance, undeclaredVariables, List.filter_cons, ht]

theorem afterTokens_snoc (c : MiniCCompiler) (t : Token) (ts : List Token)
    (ht : t.type ≠ .IDENTIFIER) : advance (afterTokens c ts) = afterTokens c (ts ++ [t]) := by
  rw [afterTokens_one _ t ht, afterTokens_append]

theorem afterTokens_nil (c : MiniCCompiler) : afterTokens c [] = c := by
  cases c
  simp [afterTokens, undeclaredVariables]

theorem type_of_isLevelOperator {k : Nat} {t : Token} (h : isLevelOperator k t = true) :
    t.type = .OPERATOR ∧ t.value ∈ levelOperators k := by
  obtain ⟨v, hv, h1⟩ := List.any_eq_true.1 h
  simp only [Bool.and_eq_true, decide_eq_true_eq] at h1
  exact ⟨h1.1, h1.2 ▸ hv⟩

theorem type_of_isUnaryOperator {t : Token} (h : isUnaryOperator t = true) :
    t.type = .OPERATOR := by
  obtain ⟨v, _, h1⟩ := List.any_eq_true.1 h
  simp only [Bool.and_eq_true, decide_eq_true_eq] at h1
  exact h1.1

theorem isLevelOperator_of_type {k : Nat} {t : Token} (h : t.type ≠ .OPERATOR) :
    isLevelOperator k t = false := by
  cases hk : isLevelOperator k t with
  | false => rfl
  | true => exact absurd (type_of_isLevelOperator hk).1 h

theorem isUnaryOperator_of_type {t : Token} (h : t.type ≠ .OPERATOR) :
    isUnaryOperator t = false := by
  cases hk : isUnaryOperator t with
  | false => rfl
  | true => exact absurd (type_of_isUnaryOperator hk) h

theorem levelOperators_disjoint :
    ∀ k < 6, ∀ j < 6, j ≠ k → ∀ v ∈ levelOperators k, v ∉ levelOperators j := by
  have key : ∀ k : Fin 6, ∀ j : Fin 6, j ≠ k →
      ∀ v ∈ levelOperators k.val, v ∉ levelOperators j.val := by
    decide
  intro k hk j hj hjk
  exact key ⟨k, hk⟩ ⟨j, hj⟩ (fun h => hjk (congrArg Fin.val h))

theorem isLevelOperator_other {k j : Nat} {t : Token} (hk : k < 6) (hj : j < 6) (hjk : j ≠ k)
    (h : isLevelOperator k t = true) : isLevelOperator j t = false := by
  cases hj1 : isLevelOperator j t with
  | false => rfl
  | true =>
    exact absurd (type_of_isLevelOperator hj1).2
      (levelOperators_disjoint k hk j hj hjk _ (type_of_isLevelOperator h).2)

theorem followOk_of_operator {k : Nat} {t : Token} (hk : k < 6)
    (h : isLevelOperator k t = true) : FollowOk k t := by
  refine ⟨?_, fun j hj => isLevelOperator_other hk (by omega) (by omega) h⟩
  have ht := (type_of_isLevelOperator h).1
  simp [isDelimiter, ht]

theorem FollowOk.weaken {m k : Nat} {t : Token} (h : FollowOk m t) (hk : k ≤ m) : FollowOk k t :=
  ⟨h.1, fun j hj => h.2 j (by omega)⟩

theorem followOk_of_delimiter {m : Nat} {t : Token} (ht : t.type = .DELIMITER)
    (hv : t.value ≠ utf16 "(") : FollowOk m t := by
  refine ⟨by simp [isDelimiter, hv], fun j _ => isLevelOperator_of_type (by rw [ht]; decide)⟩

/-- The first token of a primary expression is not an operator. -/
theorem CallFree.head_of_primary {ts : List Token} (h : CallFree .primary ts) :
    ∃ t ts1, ts = t :: ts1 ∧ t.type ≠ .OPERATOR ∧ isDelimiter (utf16 ")") t = false := by
  cases h with
  | literal t ht =>
    refine ⟨t, [], rfl, ?_, ?_⟩
    · intro h1
      simp [isLiteral, h1] at ht
    · cases hd : isDelimiter (utf16 ")") t with
      | false => rfl
      | true =>
        simp only [isDelimiter, Bool.and_eq_true, decide_eq_true_eq] at hd
        simp [isLiteral, hd.1] at ht
  | identifier t ht =>
    exact ⟨t, [], rfl, by rw [ht]; decide, by simp [isDelimiter, ht]⟩
  | paren l r ts hl hr hts =>
    simp only [isDelimiter, Bool.and_eq_true, decide_eq_true_eq] at hl
    refine ⟨l, ts ++ [r], rfl, by rw [hl.1]; decide, ?_⟩
    have : utf16 "(" ≠ utf16 ")" := by decide
    simp [isDelimiter, hl.2, this]

/-- A phrase other than an operator tail is not empty and does not start with `)`. -/
theorem CallFree.head {kd : Phrase} {ts : List Token} (h : CallFree kd ts) :
    (∀ k, kd ≠ .tail k) → ∃ t ts1, ts = t :: ts1 ∧ isDelimiter (utf16 ")") t = false := by
  induction h with
  | literal t ht =>
    intro _
    obtain ⟨t1, ts1, h1, _, h2⟩ := CallFree.head_of_primary (CallFree.literal t ht)
    exact ⟨t1, ts1, h1, h2⟩
  | identifier t ht =>
    intro _
    obtain ⟨t1, ts1, h1, _, h2⟩ := CallFree.head_of_primary (CallFree.identifier t ht)
    exact ⟨t1, ts1, h1, h2⟩
  | paren l r ts hl hr hts _ =>
    intro _
    obtain ⟨t1, ts1, h1, _, h2⟩ := CallFree.head_of_primary (CallFree.paren l r ts hl hr hts)
    exact ⟨t1, ts1, h1, h2⟩
  | operand ts _ ih =>
    intro _
    exact ih (fun k hk => by cases hk)
  | unary t ts ht _ _ =>
    intro _
    have := type_of_isUnaryOperator ht
    exact ⟨t, ts, rfl, by simp [isDelimiter, this]⟩
  | binary k ts tl _ _ _ ih _ =>
    intro _
    obtain ⟨t1, ts1, h1, h2⟩ := ih (fun k hk => by cases hk)
    exact ⟨t1, ts1 ++ tl, by rw [h1]; rfl, h2⟩
  | done k _ =>
    intro h
    exact absurd rfl (h k)
  | more k t ts tl _ _ _ _ _ _ =>
    intro h
    exact absurd rfl (h k)
  | last ts _ ih =>
    intro _
    exact ih (fun k hk => by cases hk)
  | comma ts t tl _ _ _ ih _ =>
    intro _
    obtain ⟨t1, ts1, h1, h2⟩ := ih (fun k hk => by cases hk)
    exact ⟨t1, ts1 ++ t :: tl, by rw [h1]; rfl, h2⟩

/-- The token after an operand of level `k` inside level `k + 1`. -/
theorem followOk_tail {k : Nat} {tl rest : List Token} (hk : k < 6) (h : CallFree (.tail k) tl)
    (hok : FollowOk (k + 1) (rest.headD eofToken)) :
    FollowOk k ((tl ++ rest).headD eofToken) := by
  cases h with
  | done => exact hok.weaken (by omega)
  | more _ t ts tl1 _ ht _ _ => exact followOk_of_operator hk ht

/-- A precedence level that runs `sub` and then its loop. -/
theorem parses_level {f sub loop : Nat → MiniCCompiler → Option MiniCCompiler} {r : Nat}
    {ok okSub : Token → Prop} {ts tl : List Token}
    (hf : ∀ n c, f (n + 1) c = (sub n c).bind (loop n))
    (hs : Parses sub r okSub ts) (hl : Parses loop 1 ok tl) (hr : 1 ≤ r)
    (hfo : ∀ rest, ok (rest.headD eofToken) → okSub ((tl ++ rest).headD eofToken)) :
    Parses f (r + 1) ok (ts ++ tl) := by
  intro c rest n hd hok hB
  obtain ⟨m, rfl⟩ : ∃ m, n = m + 1 := ⟨n - 1, by omega⟩
  have hd1 : c.tokens.drop c.currentToken = ts ++ (tl ++ rest) := by
    rw [hd, List.append_assoc]
  have hlen := length_of_drop_append hd1
  rw [hf, hs c (tl ++ rest) m hd1 (hfo rest hok) (by omega), Option.some_bind,
    hl (afterTokens c ts) rest m (afterTokens_drop hd1) hok
      (by show 1 + 32 * (c.tokens.length - (c.currentToken + ts.length)) ≤ m; omega),
    afterTokens_append]

/-- The loop of a precedence level at a token that is not one of its operators. -/
theorem parses_loop_nil {sub loop : Nat → MiniCCompiler → Option MiniCCompiler}
    (isOp : Token → Bool) {ok : Token → Prop}
    (hloop : ∀ n c, loop (n + 1) c =
      if isOp (getCurrentToken c) = true then (sub n (advance c)).bind (loop n) else some c)
    (hno : ∀ t, ok t → isOp t = false) : Parses loop 1 ok [] := by
  intro c rest n hd hok hB
  obtain ⟨m, rfl⟩ : ∃ m, n = m + 1 := ⟨n - 1, by omega⟩
  rw [hloop, getCurrentToken_of_drop_eq hd, List.nil_append, hno _ hok, afterTokens_nil]
  rfl

/-- The loop of a precedence level at one of its operators: the operator is
skipped, `sub` reads the operand and the loop goes on. -/
theorem parses_loop_cons {sub loop : Nat → MiniCCompiler → Option MiniCCompiler} {r : Nat}
    (isOp : Token → Bool) {ok okSub : Token → Prop} {t : Token} {ts tl : List Token}
    (hloop : ∀ n c, loop (n + 1) c =
      if isOp (getCurrentToken c) = true then (sub n (advance c)).bind (loop n) else some c)
    (ht : isOp t = true) (hty : t.type ≠ .IDENTIFIER)
    (hs : Parses sub r okSub ts) (hl : Parses loop 1 ok tl) (hr : r ≤ 32)
    (hfo : ∀ rest, ok (rest.headD eofToken) → okSub ((tl ++ rest).headD eofToken)) :
    Parses loop 1 ok (t :: ts ++ tl) := by
  intro c rest n hd hok hB
  obtain ⟨m, rfl⟩ : ∃ m, n = m + 1 := ⟨n - 1, by omega⟩
  have hd1 : c.tokens.drop c.currentToken = t :: (ts ++ (tl ++ rest)) := by
    rw [hd]
    simp
  obtain ⟨hg, hlt, hd2⟩ := getCurrentToken_of_drop hd1
  have hlen := length_of_drop_append (show c.tokens.drop c.currentToken =
    (t :: ts) ++ (tl ++ rest) from hd1)
  simp only [List.length_cons, List.length_append] at hlen
  have hd3 : (advance c).tokens.drop (advance c).currentToken = ts ++ (tl ++ rest) := hd2
  rw [hloop, hg, if_pos ht,
    hs (advance c) (tl ++ rest) m hd3 (hfo rest hok)
      (by show r + 32 * (c.tokens.length - (c.currentToken + 1)) ≤ m; omega),
    Option.some_bind,
    hl (afterTokens (advance c) ts) rest m (afterTokens_drop hd3) hok
      (by show 1 + 32 * (c.tokens.length - (c.currentToken + 1 + ts.length)) ≤ m; omega),
    afterTokens_append, afterTokens_advance c t _ hty]
  rfl

theorem levelMethod_succ (k : Nat) (hk : k < 6) (n : Nat) (c : MiniCCompiler) :
    levelMethod (k + 1) (n + 1) c = (levelMethod k n c).bind (loopMethod k n) := by
  interval_cases k
  · show parseMultiplicative (n + 1) c = _
    rw [parseMultiplicative]; rfl
  · show parseAdditive (n + 1) c = _
    rw [parseAdditive]; rfl
  · show parseRelational (n + 1) c = _
    rw [parseRelational]; rfl
  · show parseEquality (n + 1) c = _
    rw [parseEquality]; rfl
  · show parseLogicalAnd (n + 1) c = _
    rw [parseLogicalAnd]; rfl
  · show parseLogicalOr (n + 1) c = _
    rw [parseLogicalOr]; rfl

theorem loopMethod_succ (k : Nat) (hk : k < 6) (n : Nat) (c : MiniCCompiler) :
    loopMethod k (n + 1) c =
      if isLevelOperator k (getCurrentToken c) = true then
        (levelMethod k n (advance c)).bind (loopMethod k n)
      else some c := by
  interval_cases k
  · show parseMultiplicativeLoop (n + 1) c = _
    have hc : (checkToken c .OPERATOR (utf16 "*") || checkToken c .OPERATOR (utf16 "/")) =
        isLevelOperator 0 (getCurrentToken c) := by
      simp [checkToken_eq, isLevelOperator, levelOperators]
    rw [parseMultiplicativeLoop, hc]; rfl
  · show parseAdditiveLoop (n + 1) c = _
    have hc : (checkToken c .OPERATOR (utf16 "+") || checkToken c .OPERATOR (utf16 "-")) =
        isLevelOperator 1 (getCurrentToken c) := by
      simp [checkToken_eq, isLevelOperator, levelOperators]
    rw [parseAdditiveLoop, hc]; rfl
  · show parseRelationalLoop (n + 1) c = _
    have hc : (checkToken c .OPERATOR (utf16 "<") || checkToken c .OPERATOR (utf16 ">")
        || checkToken c .OPERATOR (utf16 "<=") || checkToken c .OPERATOR (utf16 ">=")) =
        isLevelOperator 2 (getCurrentToken c) := by
      simp [checkToken_eq, isLevelOperator, levelOperators, Bool.or_assoc]
    rw [parseRelationalLoop, hc]; rfl
  · show parseEqualityLoop (n + 1) c = _
    have hc : (checkToken c .OPERATOR (utf16 "==") || checkToken c .OPERATOR (utf16 "!=")) =
        isLevelOperator 3 (getCurrentToken c) := by
      simp [checkToken_eq, isLevelOperator, levelOperators]
    rw [parseEqualityLoop, hc]; rfl
  · show parseLogicalAndLoop (n + 1) c = _
    have hc : checkToken c .OPERATOR (utf16 "&&") = isLevelOperator 4 (getCurrentToken c) := by
      simp [checkToken_eq, isLevelOperator, levelOperators]
    rw [parseLogicalAndLoop, hc]; rfl
  · show parseLogicalOrLoop (n + 1) c = _
    have hc : checkToken c .OPERATOR (utf16 "||") = isLevelOperator 5 (getCurrentToken c) := by
      simp [checkToken_eq, isLevelOperator, levelOperators]
    rw [parseLogicalOrLoop, hc]; rfl

theorem parseUnary_succ (n : Nat) (c : MiniCCompiler) :
    parseUnary (n + 1) c =
      if isUnaryOperator (getCurrentToken c) = true then parseUnary n (advance c)
      else parsePrimary n c := by
  have hc : (checkToken c .OPERATOR (utf16 "!") || checkToken c .OPERATOR (utf16 "-")
      || checkToken c .OPERATOR (utf16 "+")) = isUnaryOperator (getCurrentToken c) := by
    simp [checkToken_eq, isUnaryOperator, Bool.or_assoc]
  rw [parseUnary, hc]

theorem ne_identifier_of_isLiteral {t : Token} (h : isLiteral t = true) :
    t.type ≠ .IDENTIFIER := by
  intro h1
  simp [isLiteral, h1] at h

theorem parses_literal (t : Token) (ht : isLiteral t = true) :
    Parses parsePrimary 2 (FollowOk 0) [t] := by
  intro c rest n hd hok hB
  obtain ⟨m, rfl⟩ : ∃ m, n = m + 1 := ⟨n - 1, by omega⟩
  obtain ⟨hg, _, _⟩ := getCurrentToken_of_drop (show c.tokens.drop c.currentToken = t :: rest from hd)
  have h0 : (checkTokenType c .INTEGER || checkTokenType c .FLOAT ||
      checkTokenType c .STRING) = true := by
    simp only [checkTokenType_eq, hg]
    exact ht
  rw [parsePrimary, if_pos h0, afterTokens_one c t (ne_identifier_of_isLiteral ht)]

theorem parses_identifier (t : Token) (ht : t.type = .IDENTIFIER) :
    Parses parsePrimary 2 (FollowOk 0) [t] := by
  intro c rest n hd hok hB
  obtain ⟨m, rfl⟩ : ∃ m, n = m + 1 := ⟨n - 1, by omega⟩
  obtain ⟨hg, _, hd2⟩ :=
    getCurrentToken_of_drop (show c.tokens.drop c.currentToken = t :: rest from hd)
  have h0 : (checkTokenType c .INTEGER || checkTokenType c .FLOAT ||
      checkTokenType c .STRING) = false := by
    simp [checkTokenType_eq, hg, ht]
  have h1 : checkTokenType c .IDENTIFIER = true := by
    simp [checkTokenType_eq, hg, ht]
  have h2 : ∀ c1 : MiniCCompiler, c1.tokens = c.tokens → c1.currentToken = c.currentToken →
      checkToken (advance c1) .DELIMITER (utf16 "(") = false := by
    intro c1 e1 e2
    have hd3 : (advance c1).tokens.drop (advance c1).currentToken = rest := by
      show c1.tokens.drop (c1.currentToken + 1) = rest
      rw [e1, e2, hd2]
    rw [checkToken_eq, getCurrentToken_of_drop_eq hd3]
    exact hok.1
  rw [parsePrimary]
  simp only [h0, h1, hg, if_true, if_false, Bool.false_eq_true]
  by_cases hs : c.symbolTable.has t.value = true
  · simp only [hs, Bool.not_true, if_false, Bool.false_eq_true, h2 c rfl rfl]
    simp [afterTokens, advance, undeclaredVariables, ht, hs]
  · have hs1 : c.symbolTable.has t.value = false := by simpa using hs
    simp only [hs1, Bool.not_false, if_true, h2 (semanticError c _ _) rfl rfl, if_false,
      Bool.false_eq_true]
    simp [afterTokens, advance, semanticError, undeclaredVariables, ht, hs1, hg,
      undeclaredVariableDiagnostic]

theorem parses_paren (l r : Token) (ts : List Token) (hl : isDelimiter (utf16 "(") l = true)
    (hr : isDelimiter (utf16 ")") r = true) (hts : Parses parseLogicalOr 9 (FollowOk 6) ts) :
    Parses parsePrimary 2 (FollowOk 0) (l :: ts ++ [r]) := by
  intro c rest n hd hok hB
  obtain ⟨m, rfl⟩ : ∃ m, n = m + 1 := ⟨n - 1, by omega⟩
  have hd1 : c.tokens.drop c.currentToken = l :: (ts ++ (r :: rest)) := by
    rw [hd]; simp
  obtain ⟨hg, hlt, hd2⟩ := getCurrentToken_of_drop hd1
  have hl1 := hl
  have hr1 := hr
  simp only [isDelimiter, Bool.and_eq_true, decide_eq_true_eq] at hl1 hr1
  have h0 : (checkTokenType c .INTEGER || checkTokenType c .FLOAT ||
      checkTokenType c .STRING) = false := by
    simp [checkTokenType_eq, hg, hl1.1]
  have h1 : checkTokenType c .IDENTIFIER = false := by
    simp [checkTokenType_eq, hg, hl1.1]
  have h2 : checkToken c .DELIMITER (utf16 "(") = true := by
    rw [checkToken_eq, hg]; exact hl
  have h3 : (consumeToken c .DELIMITER (utf16 "(")).2 = advance c := by
    simp [consumeToken, hg, hl1.1, hl1.2]
  have hne : l.type ≠ .IDENTIFIER := by rw [hl1.1]; decide
  have hner : r.type ≠ .IDENTIFIER := by rw [hr1.1]; decide
  have hd3 : (advance c).tokens.drop (advance c).currentToken = ts ++ (r :: rest) := hd2
  have hlen := length_of_drop_append (show c.tokens.drop c.currentToken =
    (l :: ts) ++ (r :: rest) from hd1)
  simp only [List.length_cons] at hlen
  obtain ⟨m1, rfl⟩ : ∃ m1, m = m1 + 1 := ⟨m - 1, by omega⟩
  have hfr : FollowOk 6 ((r :: rest).headD eofToken) :=
    followOk_of_delimiter (t := r) hr1.1 (by rw [hr1.2]; decide)
  have h4 : parseExpression (m1 + 1) (advance c) = some (afterTokens (advance c) ts) := by
    rw [parseExpression]
    exact hts (advance c) (r :: rest) m1 hd3 hfr
      (by show 9 + 32 * (c.tokens.length - (c.currentToken + 1)) ≤ m1; omega)
  have hd4 := afterTokens_drop hd3
  have hg4 := (getCurrentToken_of_drop hd4).1
  have h5 : (consumeToken (afterTokens (advance c) ts) .DELIMITER (utf16 ")")).2 =
      advance (afterTokens (advance c) ts) := by
    simp [consumeToken, hg4, hr1.1, hr1.2]
  rw [parsePrimary]
  simp only [h0, h1, h2, h3, h4, h5, if_true, if_false, Bool.false_eq_true, Option.bind_eq_bind,
    Option.some_bind]
  rw [afterTokens_snoc _ r _ hner, afterTokens_advance c l _ hne]
  rfl

theorem parses_operand (ts : List Token) (h : CallFree .primary ts)
    (hp : Parses parsePrimary 2 (FollowOk 0) ts) : Parses parseUnary 3 (FollowOk 0) ts := by
  intro c rest n hd hok hB
  obtain ⟨m, rfl⟩ : ∃ m, n = m + 1 := ⟨n - 1, by omega⟩
  obtain ⟨t, ts1, rfl, hty, _⟩ := CallFree.head_of_primary h
  obtain ⟨hg, _, _⟩ := getCurrentToken_of_drop
    (show c.tokens.drop c.currentToken = t :: (ts1 ++ rest) from hd)
  rw [parseUnary_succ, hg, isUnaryOperator_of_type hty]
  exact hp c rest m hd hok (by omega)

theorem parses_unary (t : Token) (ts : List Token) (ht : isUnaryOperator t = true)
    (hp : Parses parseUnary 3 (FollowOk 0) ts) : Parses parseUnary 3 (FollowOk 0) (t :: ts) := by
  intro c rest n hd hok hB
  obtain ⟨m, rfl⟩ : ∃ m, n = m + 1 := ⟨n - 1, by omega⟩
  have hd1 : c.tokens.drop c.currentToken = t :: (ts ++ rest) := hd
  obtain ⟨hg, hlt, hd2⟩ := getCurrentToken_of_drop hd1
  have hne : t.type ≠ .IDENTIFIER := by rw [type_of_isUnaryOperator ht]; decide
  rw [parseUnary_succ, hg, if_pos ht,
    hp (advance c) rest m hd2
      hok (by show 3 + 32 * (c.tokens.length - (c.currentToken + 1)) ≤ m; omega),
    afterTokens_advance c t _ hne]

theorem followOk_comma {t : Token} (ht : isDelimiter (utf16 ",") t = true) : FollowOk 6 t := by
  simp only [isDelimiter, Bool.and_eq_true, decide_eq_true_eq] at ht
  exact followOk_of_delimiter ht.1 (by rw [ht.2]; decide)

theorem parseExpression_of_parses {ts : List Token} (h : Parses parseLogicalOr 9 (FollowOk 6) ts) :
    Parses parseExpression 10 (FollowOk 6) ts := by
  intro c rest n hd hok hB
  obtain ⟨m, rfl⟩ : ∃ m, n = m + 1 := ⟨n - 1, by omega⟩
  rw [parseExpression]
  exact h c rest m hd hok (by omega)

theorem parses_last (ts : List Token) (h : Parses parseLogicalOr 9 (FollowOk 6) ts) :
    Parses parseArgumentList 11
      (fun t => FollowOk 6 t ∧ isDelimiter (utf16 ",") t = false) ts := by
  intro c rest n hd hok hB
  obtain ⟨m, rfl⟩ : ∃ m, n = m + 1 := ⟨n - 1, by omega⟩
  have h1 := parseExpression_of_parses h c rest m hd hok.1 (by omega)
  have h2 : checkToken (afterTokens c ts) .DELIMITER (utf16 ",") = false := by
    rw [checkToken_eq, getCurrentToken_of_drop_eq (afterTokens_drop hd)]
    exact hok.2
  rw [parseArgumentList]
  simp only [h1, h2, Option.bind_eq_bind, Option.some_bind, if_false, Bool.false_eq_true]

theorem parses_comma (ts : List Token) (t : Token) (tl : List Token)
    (h : Parses parseLogicalOr 9 (FollowOk 6) ts) (ht : isDelimiter (utf16 ",") t = true)
    (htl : CallFree .arguments tl)
    (hl : Parses parseArgumentList 11
      (fun t => FollowOk 6 t ∧ isDelimiter (utf16 ",") t = false) tl) :
    Parses parseArgumentList 11
      (fun t => FollowOk 6 t ∧ isDelimiter (utf16 ",") t = false) (ts ++ t :: tl) := by
  intro c rest n hd hok hB
  obtain ⟨m, rfl⟩ : ∃ m, n = m + 1 := ⟨n - 1, by omega⟩
  have hd1 : c.tokens.drop c.currentToken = ts ++ (t :: (tl ++ rest)) := by
    rw [hd]; simp
  have hlen := length_of_drop_append hd1
  simp only [List.length_cons, List.length_append] at hlen
  have h1 := parseExpression_of_parses h c (t :: (tl ++ rest)) m hd1 (followOk_comma ht)
    (by omega)
  have hd2 := afterTokens_drop hd1
  obtain ⟨hg, _, hd3⟩ := getCurrentToken_of_drop hd2
  have h2 : checkToken (afterTokens c ts) .DELIMITER (utf16 ",") = true := by
    rw [checkToken_eq, hg]
    exact ht
  have ht1 := ht
  simp only [isDelimiter, Bool.and_eq_true, decide_eq_true_eq] at ht1
  have hne : t.type ≠ .IDENTIFIER := by rw [ht1.1]; decide
  have hd4 : (advance (afterTokens c ts)).tokens.drop (advance (afterTokens c ts)).currentToken =
      tl ++ rest := hd3
  obtain ⟨t1, tl1, htl1, _⟩ := htl.head (fun k hk => by cases hk)
  have h3 : (advance (afterTokens c ts)).currentToken <
      (advance (afterTokens c ts)).tokens.length := by
    rw [htl1] at hd4
    exact (getCurrentToken_of_drop hd4).2.1
  have h4 := hl (advance (afterTokens c ts)) rest m hd4 hok
    (by show 11 + 32 * (c.tokens.length - (c.currentToken + ts.length + 1)) ≤ m; omega)
  rw [parseArgumentList]
  simp only [h1, h2, h3, h4, Option.bind_eq_bind, Option.some_bind, if_true]
  rw [afterTokens_snoc _ t _ hne, afterTokens_append]
  simp

/-- The parser reads every call-free phrase: it returns with the cursor behind the
phrase and with one diagnostic for each undeclared identifier in it. -/
theorem callFree_parses {kd : Phrase} {ts : List Token} (h : CallFree kd ts) :
    ParsesPhrase kd ts := by
  induction h with
  | literal t ht => exact parses_literal t ht
  | identifier t ht => exact parses_identifier t ht
  | paren l r ts hl hr _ ih => exact parses_paren l r ts hl hr ih
  | operand ts h ih => exact parses_operand ts h ih
  | unary t ts ht _ ih => exact parses_unary t ts ht ih
  | binary k ts tl hk _ htl ih1 ih2 =>
    exact parses_level (levelMethod_succ k hk) ih1 ih2 (show 1 ≤ 3 + k by omega)
      (fun rest hok => followOk_tail hk htl hok)
  | done k hk =>
    exact parses_loop_nil (isLevelOperator k) (loopMethod_succ k hk)
      (fun t ht => ht.2 k (by omega))
  | more k t ts tl hk ht _ htl ih1 ih2 =>
    exact parses_loop_cons (isLevelOperator k) (loopMethod_succ k hk) ht
      (by rw [(type_of_isLevelOperator ht).1]; decide) ih1 ih2
      (show 3 + k ≤ 32 by omega) (fun rest hok => followOk_tail hk htl hok)
  | last ts _ ih => exact parses_last ts ih
  | comma ts t tl _ ht htl ih1 ih2 => exact parses_comma ts t tl ih1 ht htl ih2

theorem CallFree.up {k : Nat} {ts : List Token} (h : CallFree (.level k) ts) (hk : k < 6) :
    CallFree (.level (k + 1)) ts := by
  have := CallFree.binary k ts [] hk h (CallFree.done k hk)
  rwa [List.append_nil] at this

theorem CallFree.expression {ts : List Token} (h : CallFree .primary ts) :
    CallFree (.level 6) ts :=
  (((((CallFree.operand ts h).up (by decide)).up (by decide)).up (by decide)).up
    (by decide)).up (by decide) |>.up (by decide)

theorem ite_bind_eq {α β : Type} (b : Bool) (x : Option α) (y : α) (k : α → Option β) (r : α)
    (h : (if b = true then x else some y) = some r) :
    (if b = true then x.bind k else (some y).bind k) = k r := by
  cases b
  · simp only [Bool.false_eq_true, if_false] at h ⊢
    rw [h, Option.some_bind]
  · simp only [if_true] at h ⊢
    rw [h, Option.some_bind]

theorem consumeToken_of_delimiter {c : MiniCCompiler} {t : Token} {l : List Token}
    {v : JSString} (hd : c.tokens.drop c.currentToken = t :: l) (ht : isDelimiter v t = true) :
    (consumeToken c .DELIMITER v).2 = advance c ∧
      (advance c).tokens.drop (advance c).currentToken = l := by
  obtain ⟨hg, _, hd2⟩ := getCurrentToken_of_drop hd
  simp only [isDelimiter, Bool.and_eq_true, decide_eq_true_eq] at ht
  refine ⟨?_, hd2⟩
  simp [consumeToken, hg, ht.1, ht.2]

/-- The method `parseFunctionCall` on `name ( args ) ;` with call-free arguments: the
callee is checked, the arguments are read, and the cursor ends behind the `;`. -/
theorem parseFunctionCall_callFree (c : MiniCCompiler) (name lp rp semi : Token)
    (args rest : List Token) (n : Nat)
    (hd : c.tokens.drop c.currentToken = name :: lp :: (args ++ rp :: semi :: rest))
    (hlp : isDelimiter (utf16 "(") lp = true) (hrp : isDelimiter (utf16 ")") rp = true)
    (hsemi : isDelimiter (utf16 ";") semi = true)
    (hargs : args = [] ∨ CallFree .arguments args)
    (hB : 1 + 32 * (c.tokens.length - c.currentToken) ≤ n) :
    parseFunctionCall n c =
      some { c with
        currentToken := c.currentToken + args.length + 4
        errors := c.errors ++ (calleeDiagnostics c.symbolTable name.value lp ++
          undeclaredVariables c.symbolTable args) } := by
  obtain ⟨m, rfl⟩ : ∃ m, n = m + 1 := ⟨n - 1, by omega⟩
  obtain ⟨hg, hlt, hd1⟩ := getCurrentToken_of_drop hd
  have hd1a : (advance c).tokens.drop (advance c).currentToken =
      lp :: (args ++ rp :: semi :: rest) := hd1
  have hg1 := (getCurrentToken_of_drop hd1a).1
  have hlen := length_of_drop_append (show c.tokens.drop c.currentToken =
    (name :: lp :: args) ++ (rp :: semi :: rest) from hd)
  simp only [List.length_cons] at hlen
  -- the check of the callee
  have e2 : (if (!(advance c).symbolTable.has name.value &&
        !([utf16 "printf", utf16 "scanf"].contains name.value)) = true then
        semanticError (advance c) (utf16 "Undeclared function: " ++ name.value)
          (utf16 "Declare function before use")
      else advance c) =
      ⟨c.tokens, c.currentToken + 1,
        c.errors ++ calleeDiagnostics c.symbolTable name.value lp, c.warnings, c.symbolTable,
        c.output⟩ := by
    have hst : (advance c).symbolTable = c.symbolTable := rfl
    rw [hst]
    unfold calleeDiagnostics
    split
    · simp only [semanticError, hg1, undeclaredFunctionDiagnostic]
      rfl
    · simp [advance]
  generalize hc2 : (⟨c.tokens, c.currentToken + 1,
      c.errors ++ calleeDiagnostics c.symbolTable name.value lp, c.warnings, c.symbolTable,
      c.output⟩ : MiniCCompiler) = c2 at e2
  have hd2 : c2.tokens.drop c2.currentToken = lp :: (args ++ rp :: semi :: rest) := by
    rw [← hc2]; exact hd1
  obtain ⟨e3, hd3⟩ := consumeToken_of_delimiter hd2 hlp
  -- the arguments
  have e4 : (if (!checkToken (advance c2) .DELIMITER (utf16 ")")) = true then
        parseArgumentList m (advance c2)
      else some (advance c2)) = some (afterTokens (advance c2) args) := by
    rcases hargs with rfl | hargs
    · have hg3 := (getCurrentToken_of_drop
        (show (advance c2).tokens.drop (advance c2).currentToken = rp :: semi :: rest
          from hd3)).1
      have : checkToken (advance c2) .DELIMITER (utf16 ")") = true := by
        rw [checkToken_eq, hg3]; exact hrp
      simp only [this, Bool.not_true, Bool.false_eq_true, if_false, afterTokens_nil]
    · obtain ⟨t1, ts1, ht1, hnp⟩ := hargs.head (fun k hk => by cases hk)
      have hg3 : getCurrentToken (advance c2) = t1 := by
        rw [ht1] at hd3
        exact (getCurrentToken_of_drop hd3).1
      have : checkToken (advance c2) .DELIMITER (utf16 ")") = false := by
        rw [checkToken_eq, hg3]; exact hnp
      simp only [this, Bool.not_false, if_true]
      have hrp1 := hrp
      simp only [isDelimiter, Bool.and_eq_true, decide_eq_true_eq] at hrp1
      refine callFree_parses hargs (advance c2) (rp :: semi :: rest) m hd3
        ⟨followOk_of_delimiter (t := rp) hrp1.1 (by rw [hrp1.2]; decide), ?_⟩ ?_
      · have : utf16 ")" ≠ utf16 "," := by decide
        simp [isDelimiter, hrp1.2, this]
      · show 11 + 32 * (c2.tokens.length - (c2.currentToken + 1)) ≤ m
        rw [← hc2]
        show 11 + 32 * (c.tokens.length - (c.currentToken + 1 + 1)) ≤ m
        omega
  have hd4 := afterTokens_drop hd3
  obtain ⟨e5, hd5⟩ := consumeToken_of_delimiter hd4 hrp
  obtain ⟨e6, _⟩ := consumeToken_of_delimiter hd5 hsemi
  rw [parseFunctionCall]
  simp only [hg, e2, e3, Option.bind_eq_bind]
  rw [ite_bind_eq _ _ _ _ _ e4]
  simp only [e5, e6]
  rw [← hc2]
  simp [afterTokens, advance, List.append_assoc]
  omega

/-- In statement position an identifier followed by `(`, and the keywords `printf`
and `scanf`, are handed to `parseFunctionCall` with the cursor on the name. -/
theorem parseStatement_call (c : MiniCCompiler) (name lp : Token) (l : List Token) (n : Nat)
    (hd : c.tokens.drop c.currentToken = name :: lp :: l)
    (hname : (name.type = .IDENTIFIER ∧ isDelimiter (utf16 "(") lp = true) ∨
      (name.type = .KEYWORD ∧ (name.value = utf16 "printf" ∨ name.value = utf16 "scanf"))) :
    parseStatement (n + 1) c = parseFunctionCall n c := by
  obtain ⟨hg, _, hd1⟩ := getCurrentToken_of_drop hd
  rcases hname with ⟨hty, hlp⟩ | ⟨hty, hv⟩
  · have h0 : checkTokenType c .KEYWORD = false := by simp [checkTokenType_eq, hg, hty]
    have h1 : checkTokenType c .IDENTIFIER = true := by simp [checkTokenType_eq, hg, hty]
    have h2 : checkToken (advance c) .DELIMITER (utf16 "(") = true := by
      rw [checkToken_eq, (getCurrentToken_of_drop (show (advance c).tokens.drop
        (advance c).currentToken = lp :: l from hd1)).1]
      exact hlp
    rw [parseStatement]
    simp only [h0, h1, h2, if_true, if_false, Bool.false_eq_true, retreat_advance]
  · have h0 : checkTokenType c .KEYWORD = true := by simp [checkTokenType_eq, hg, hty]
    rw [parseStatement]
    simp only [h0, hg, if_true]
    rcases hv with hv | hv
    · rw [hv, if_neg (by decide), if_neg (by decide), if_neg (by decide), if_neg (by decide),
        if_neg (by decide), if_pos (by decide)]
    · rw [hv, if_neg (by decide), if_neg (by decide), if_neg (by decide), if_neg (by decide),
        if_neg (by decide), if_pos (by decide)]

theorem undeclaredVariables_type (st : SymbolTable) (ts : List Token) :
    ∀ e ∈ undeclaredVariables st ts, e.type = .SEMANTIC ∧
      ∃ t ∈ ts, e.message = utf16 "Undeclared variable: " ++ t.value := by
  intro e he
  obtain ⟨t, ht, rfl⟩ := List.mem_map.1 he
  exact ⟨rfl, t, (List.mem_filter.1 ht).1, rfl⟩

theorem undeclared_messages_differ (x y : JSString) :
    utf16 "Undeclared variable: " ++ x ≠ utf16 "Undeclared function: " ++ y := by
  intro h
  have h1 := congrArg (List.take 12) h
  rw [List.take_append_of_le_length (by decide), List.take_append_of_le_length (by decide)] at h1
  revert h1
  decide

theorem calleeDiagnostics_eq (st : SymbolTable) (name : JSString) (t : Token) :
    (st.has name = false ∧ name ≠ utf16 "printf" ∧ name ≠ utf16 "scanf" →
      calleeDiagnostics st name t = [undeclaredFunctionDiagnostic name t]) ∧
    (st.has name = true ∨ name = utf16 "printf" ∨ name = utf16 "scanf" →
      calleeDiagnostics st name t = []) := by
  constructor
  · rintro ⟨h1, h2, h3⟩
    simp [calleeDiagnostics, h1, h2, h3]
  · rintro (h | h | h)
    · simp [calleeDiagnostics, h]
    · simp [calleeDiagnostics, h]
    · simp [calleeDiagnostics, h]

/-- C20 on arguments without calls: for a call statement
`name ( args ) ;` in statement position, where `name` is an identifier or one of the
keywords `printf`, `scanf` and `args` is empty or a list of call-free expressions,
`parseStatement` runs `parseFunctionCall`, which returns with the cursor behind the
`;`; the diagnostics it appends are the callee diagnostics followed by one
"Undeclared variable" diagnostic per undeclared identifier in `args`; they are all
SEMANTIC (none is SYNTAX), and an "Undeclared function: name" diagnostic is among
them if and only if `name` is not in the symbol table and is not `printf` or
`scanf`. `compile("int main() \x7b g(); \x7d")` has exactly one diagnostic, of
kind SEMANTIC, and `compile("int main() \x7b printf(\"hi\"); \x7d")` has none. -/
theorem call_statement_diagnostics (c : MiniCCompiler) (name lp rp semi : Token)
    (args rest : List Token) (n : Nat)
    (hd : c.tokens.drop c.currentToken = name :: lp :: (args ++ rp :: semi :: rest))
    (hname : name.type = .IDENTIFIER ∨
      (name.type = .KEYWORD ∧ (name.value = utf16 "printf" ∨ name.value = utf16 "scanf")))
    (hlp : isDelimiter (utf16 "(") lp = true) (hrp : isDelimiter (utf16 ")") rp = true)
    (hsemi : isDelimiter (utf16 ";") semi = true)
    (hargs : args = [] ∨ CallFree .arguments args)
    (hB : 1 + 32 * (c.tokens.length - c.currentToken) ≤ n) :
    parseStatement (n + 1) c = parseFunctionCall n c ∧
    parseFunctionCall n c =
      some { c with
        currentToken := c.currentToken + args.length + 4
        errors := c.errors ++ (calleeDiagnostics c.symbolTable name.value lp ++
          undeclaredVariables c.symbolTable args) } ∧
    ((∃ e ∈ calleeDiagnostics c.symbolTable name.value lp ++
          undeclaredVariables c.symbolTable args,
        e.message = utf16 "Undeclared function: " ++ name.value) ↔
      (c.symbolTable.has name.value = false ∧ name.value ≠ utf16 "printf" ∧
        name.value ≠ utf16 "scanf")) ∧
    (∀ e ∈ calleeDiagnostics c.symbolTable name.value lp ++
        undeclaredVariables c.symbolTable args, e.type = .SEMANTIC) ∧
    (compileResult MiniCCompiler.new (utf16 "int main() \x7b g(); \x7d")).map
        (fun r => r.errors.map (fun e => (e.type, e.message))) =
      some [(.SEMANTIC, utf16 "Undeclared function: g")] ∧
    (compileResult MiniCCompiler.new (utf16 "int main() \x7b printf(\"hi\"); \x7d")).map
        (fun r => r.errors) = some [] := by
  refine ⟨?_, parseFunctionCall_callFree c name lp rp semi args rest n hd hlp hrp hsemi hargs hB,
    ?_, ?_, by decide!, by decide!⟩
  · apply parseStatement_call c name lp _ n hd
    rcases hname with h | h
    · exact Or.inl ⟨h, hlp⟩
    · exact Or.inr h
  · constructor
    · rintro ⟨e, he, hm⟩
      rcases List.mem_append.1 he with he | he
      · by_cases hc : c.symbolTable.has name.value = false ∧ name.value ≠ utf16 "printf" ∧
            name.value ≠ utf16 "scanf"
        · exact hc
        · have : calleeDiagnostics c.symbolTable name.value lp = [] := by
            apply (calleeDiagnostics_eq _ _ _).2
            by_contra hn
            apply hc
            refine ⟨?_, fun h => hn (Or.inr (Or.inl h)), fun h => hn (Or.inr (Or.inr h))⟩
            cases hh : c.symbolTable.has name.value with
            | false => rfl
            | true => exact absurd (Or.inl hh) hn
          rw [this] at he
          cases he
      · obtain ⟨_, t, _, ht⟩ := undeclaredVariables_type _ _ e he
        rw [hm] at ht
        exact absurd ht.symm (undeclared_messages_differ _ _)
    · intro hc
      refine ⟨undeclaredFunctionDiagnostic name.value lp, ?_, rfl⟩
      rw [(calleeDiagnostics_eq _ _ _).1 hc]
      exact List.mem_append_left _ (List.mem_singleton.2 rfl)
  · intro e he
    rcases List.mem_append.1 he with he | he
    · unfold calleeDiagnostics at he
      split at he
      · rw [List.mem_singleton.1 he]; rfl
      · cases he
    · exact (undeclaredVariables_type _ _ e he).1

/-- Witness of C20: the call statement `g(1 + x);` with an empty symbol table is
read through its `;` and gets the diagnostic for `g` followed by the one for `x`. -/
theorem call_statement_diagnostics_witness :
    parseFunctionCall 225 ⟨callExampleTokens, 0, [], [], [], []⟩ =
      some ⟨callExampleTokens, 7,
        [undeclaredFunctionDiagnostic (utf16 "g") ⟨.DELIMITER, utf16 "(", 1, 1⟩,
          undeclaredVariableDiagnostic ⟨.IDENTIFIER, utf16 "x", 1, 6⟩], [], [], []⟩ := by
  have h1 : CallFree (.level 1) [⟨.INTEGER, utf16 "1", 1, 2⟩] :=
    (CallFree.operand _ (CallFree.literal _ (by decide))).up (by decide)
  have hx : CallFree (.level 1) [⟨.IDENTIFIER, utf16 "x", 1, 6⟩] :=
    (CallFree.operand _ (CallFree.identifier _ rfl)).up (by decide)
  have h2 : CallFree (.level 2) [⟨.INTEGER, utf16 "1", 1, 2⟩, ⟨.OPERATOR, utf16 "+", 1, 4⟩,
      ⟨.IDENTIFIER, utf16 "x", 1, 6⟩] :=
    CallFree.binary 1 _ _ (by decide) h1
      (CallFree.more 1 ⟨.OPERATOR, utf16 "+", 1, 4⟩ _ [] (by decide) (by decide) hx
        (CallFree.done 1 (by decide)))
  have h6 := (((h2.up (by decide)).up (by decide)).up (by decide)).up (by decide)
  have h := (call_statement_diagnostics ⟨callExampleTokens, 0, [], [], [], []⟩
    ⟨.IDENTIFIER, utf16 "g", 1, 0⟩ ⟨.DELIMITER, utf16 "(", 1, 1⟩ ⟨.DELIMITER, utf16 ")", 1, 7⟩
    ⟨.DELIMITER, utf16 ";", 1, 8⟩
    [⟨.INTEGER, utf16 "1", 1, 2⟩, ⟨.OPERATOR, utf16 "+", 1, 4⟩, ⟨.IDENTIFIER, utf16 "x", 1, 6⟩]
    [] 225 rfl (Or.inl rfl) (by decide) (by decide) (by decide)
    (Or.inr (CallFree.last _ h6)) (by decide)).2.1
  rw [h]
  decide

/-- C20, the input on which the code departs from it: in the call statement
`f(f());` with `f` declared, the call in the argument is handed by `parsePrimary` to
`parseFunctionCall`, the method for call statements, which demands a `;` behind the
`)`, so a SYNTAX diagnostic "Expected ;" is added; the same happens in
`compile("int f() \x7b f(f()); \x7d")`. -/
theorem call_statement_counterexample :
    (parseStatement 226
        ⟨nestedCallTokens, 0, [], [], [(utf16 "f", .function (utf16 "int"))], []⟩).map
        (fun c => (c.currentToken, c.errors)) =
      some (7, [⟨.SYNTAX, utf16 "Expected ;", 1, 5, utf16 "Add ;"⟩]) ∧
    (compileResult MiniCCompiler.new (utf16 "int f() \x7b f(f()); \x7d")).map
        (fun r => r.errors.map (fun e => (e.type, e.message))) =
      some [(.SYNTAX, utf16 "Expected ;")] := by
  constructor
  · decide!
  · decide!

/-! ## A function that calls itself -/

/-- The tokens of `int f() \x7b f(); \x7d`. -/
theorem lex_self_call (f : JSString) (hf : isIdentifierText f = true)
    (hk : keywords.contains f = false) :
    lex (utf16 "int " ++ f ++ utf16 "() \x7b " ++ f ++ utf16 "(); \x7d") =
      some (selfCallTokens f (selfCallPositions f.length), []) := by
  have e1 : utf16 "int " = [105, 110, 116, 32] := by decide
  have e2 : utf16 "() \x7b " = [40, 41, 32, 123, 32] := by decide
  have e3 : utf16 "(); \x7d" = [40, 41, 59, 32, 125] := by decide
  have e4 : utf16 "int" = [105, 110, 116] := by decide
  have e5 : utf16 "(" = [40] := by decide
  have e6 : utf16 ")" = [41] := by decide
  have e7 : utf16 "\x7b" = [123] := by decide
  have e8 : utf16 "\x7d" = [125] := by decide
  have e9 : utf16 ";" = [59] := by decide
  simp only [selfCallTokens, selfCallPositions, e1, e2, e3, e4, e5, e6, e7, e8, e9, List.getD_cons_zero,
    List.getD_cons_succ]
  generalize hline : [105, 110, 116, 32] ++ f ++ [40, 41, 32, 123, 32] ++ f ++
    [40, 41, 59, 32, 125] = line
  have hfp := isIdentPart_of_mem_identifier hf
  have hk1 : f ∉ keywords := by simpa using hk
  apply lex_of_scans
  · intro ch hch
    rw [← hline] at hch
    simp only [List.mem_append, List.mem_cons, List.mem_singleton, List.not_mem_nil,
      or_false] at hch
    rcases hch with (((h | h) | h) | h) | h
    · omega
    · exact isIdentPart_ne_newline (hfp ch h)
    · omega
    · exact isIdentPart_ne_newline (hfp ch h)
    · omega
  have hlen : line.length = 14 + f.length + f.length := by
    rw [← hline]
    simp only [List.length_append, List.length_cons, List.length_nil]
    omega
  have s14 : Scans 0 line (14 + f.length + f.length) [] [] := Scans.of_end (by omega)
  have s13 : Scans 0 line (13 + f.length + f.length)
      [⟨.DELIMITER, [125], 1, 13 + f.length + f.length⟩] [] := by
    have hd : line.drop (13 + f.length + f.length) =
        125 :: ([]) :=
      drop_of_eq_append ([105, 110, 116] ++ [32] ++ f ++ [40] ++ [41] ++ [32] ++ [123] ++ [32] ++
      f ++ [40] ++ [41] ++ [59] ++ [32])
        (by simp [← hline])
        (by simp only [List.length_append, List.length_cons, List.length_nil]; omega)
    have := Scans.of_next (by omega)
      (scanStep_single 0 line _ 125 _ hd (by decide) (fun h => absurd h (by decide))
        (by decide) (by decide) (by decide)
        (Or.inl rfl) (by decide))
      (show Scans 0 line (13 + f.length + f.length + 1) _ _ from by
        rw [show 13 + f.length + f.length + 1 = 14 + f.length + f.length from by omega]
        exact s14)
    simpa using this
  have s12 : Scans 0 line (12 + f.length + f.length)
      [⟨.DELIMITER, [125], 1, 13 + f.length + f.length⟩] [] := by
    have hd : line.drop (12 + f.length + f.length) =
        32 :: ([125]) :=
      drop_of_eq_append ([105, 110, 116] ++ [32] ++ f ++ [40] ++ [41] ++ [32] ++ [123] ++ [32] ++
      f ++ [40] ++ [41] ++ [59])
        (by simp [← hline])
        (by simp only [List.length_append, List.length_cons, List.length_nil]; omega)
    have := Scans.of_next (by omega)
      (scanStep_whitespace 0 line _ 32 _ hd (by decide))
      (show Scans 0 line (12 + f.length + f.length + 1) _ _ from by
        rw [show 12 + f.length + f.length + 1 = 13 + f.length + f.length from by omega]
        exact s13)
    simpa using this
  have s11 : Scans 0 line (11 + f.length + f.length)
      [⟨.DELIMITER, [59], 1, 11 + f.length + f.length⟩, ⟨.DELIMITER, [125], 1, 13 + f.length +
      f.length⟩] [] := by
    have hd : line.drop (11 + f.length + f.length) =
        59 :: ([32] ++ [125]) :=
      drop_of_eq_append ([105, 110, 116] ++ [32] ++ f ++ [40] ++ [41] ++ [32] ++ [123] ++ [32] ++
      f ++ [40] ++ [41])
        (by simp [← hline])
        (by simp only [List.length_append, List.length_cons, List.length_nil]; omega)
    have := Scans.of_next (by omega)
      (scanStep_single 0 line _ 59 _ hd (by decide) (fun h => absurd h (by decide))
        (by decide) (by decide) (by decide)
        (Or.inr (show operators.contains [59, 32] = false from by decide)) (by decide))
      (show Scans 0 line (11 + f.length + f.length + 1) _ _ from by
        rw [show 11 + f.length + f.length + 1 = 12 + f.length + f.length from by omega]
        exact s12)
    simpa using this
  have s10 : Scans 0 line (10 + f.length + f.length)
      [⟨.DELIMITER, [41], 1, 10 + f.length + f.length⟩, ⟨.DELIMITER, [59], 1, 11 + f.length +
      f.length⟩, ⟨.DELIMITER, [125], 1, 13 + f.length + f.length⟩] [] := by
    have hd : line.drop (10 + f.length + f.length) =
        41 :: ([59] ++ [32] ++ [125]) :=
      drop_of_eq_append ([105, 110, 116] ++ [32] ++ f ++ [40] ++ [41] ++ [32] ++ [123] ++ [32] ++
      f ++ [40])
        (by simp [← hline])
        (by simp only [List.length_append, List.length_cons, List.length_nil]; omega)
    have := Scans.of_next (by omega)
      (scanStep_single 0 line _ 41 _ hd (by decide) (fun h => absurd h (by decide))
        (by decide) (by decide) (by decide)
        (Or.inr (show operators.contains [41, 59] = false from by decide)) (by decide))
      (show Scans 0 line (10 + f.length + f.length + 1) _ _ from by
        rw [show 10 + f.length + f.length + 1 = 11 + f.length + f.length from by omega]
        exact s11)
    simpa using this
  have s9 : Scans 0 line (9 + f.length + f.length)
      [⟨.DELIMITER, [40], 1, 9 + f.length + f.length⟩, ⟨.DELIMITER, [41], 1, 10 + f.length +
      f.length⟩, ⟨.DELIMITER, [59], 1, 11 + f.length + f.length⟩, ⟨.DELIMITER, [125], 1, 13 +
      f.length + f.length⟩] [] := by
    have hd : line.drop (9 + f.length + f.length) =
        40 :: ([41] ++ [59] ++ [32] ++ [125]) :=
      drop_of_eq_append ([105, 110, 116] ++ [32] ++ f ++ [40] ++ [41] ++ [32] ++ [123] ++ [32] ++
      f)
        (by simp [← hline])
        (by simp only [List.length_append, List.length_cons, List.length_nil]; omega)
    have := Scans.of_next (by omega)
      (scanStep_single 0 line _ 40 _ hd (by decide) (fun h => absurd h (by decide))
        (by decide) (by decide) (by decide)
        (Or.inr (show operators.contains [40, 41] = false from by decide)) (by decide))
      (show Scans 0 line (9 + f.length + f.length + 1) _ _ from by
        rw [show 9 + f.length + f.length + 1 = 10 + f.length + f.length from by omega]
        exact s10)
    simpa using this
  have s8 : Scans 0 line (9 + f.length)
      [⟨.IDENTIFIER, f, 1, 9 + f.length⟩, ⟨.DELIMITER, [40], 1, 9 + f.length + f.length⟩,
      ⟨.DELIMITER, [41], 1, 10 + f.length + f.length⟩, ⟨.DELIMITER, [59], 1, 11 + f.length +
      f.length⟩, ⟨.DELIMITER, [125], 1, 13 + f.length + f.length⟩] [] := by
    have hd : line.drop (9 + f.length) =
        f ++ ([40] ++ [41] ++ [59] ++ [32] ++ [125]) :=
      drop_of_eq_append ([105, 110, 116] ++ [32] ++ f ++ [40] ++ [41] ++ [32] ++ [123] ++ [32])
        (by simp [← hline])
        (by simp only [List.length_append, List.length_cons, List.length_nil]; omega)
    have := Scans.of_next (by omega)
      (scanStep_word 0 line (9 + f.length) f _ hd hf
        (by intro t h; cases h; decide))
      (show Scans 0 line (9 + f.length + f.length) _ _ from s9)
    simpa [hk1] using this
  have s7 : Scans 0 line (8 + f.length)
      [⟨.IDENTIFIER, f, 1, 9 + f.length⟩, ⟨.DELIMITER, [40], 1, 9 + f.length + f.length⟩,
      ⟨.DELIMITER, [41], 1, 10 + f.length + f.length⟩, ⟨.DELIMITER, [59], 1, 11 + f.length +
      f.length⟩, ⟨.DELIMITER, [125], 1, 13 + f.length + f.length⟩] [] := by
    have hd : line.drop (8 + f.length) =
        32 :: (f ++ [40] ++ [41] ++ [59] ++ [32] ++ [125]) :=
      drop_of_eq_append ([105, 110, 116] ++ [32] ++ f ++ [40] ++ [41] ++ [32] ++ [123])
        (by simp [← hline])
        (by simp only [List.length_append, List.length_cons, List.length_nil]; omega)
    have := Scans.of_next (by omega)
      (scanStep_whitespace 0 line _ 32 _ hd (by decide))
      (show Scans 0 line (8 + f.length + 1) _ _ from by
        rw [show 8 + f.length + 1 = 9 + f.length from by omega]
        exact s8)
    simpa using this
  have s6 : Scans 0 line (7 + f.length)
      [⟨.DELIMITER, [123], 1, 7 + f.length⟩, ⟨.IDENTIFIER, f, 1, 9 + f.length⟩, ⟨.DELIMITER, [40],
      1, 9 + f.length + f.length⟩, ⟨.DELIMITER, [41], 1, 10 + f.length + f.length⟩, ⟨.DELIMITER,
      [59], 1, 11 + f.length + f.length⟩, ⟨.DELIMITER, [125], 1, 13 + f.length + f.length⟩] [] :=
      by
    have hd : line.drop (7 + f.length) =
        123 :: ([32] ++ f ++ [40] ++ [41] ++ [59] ++ [32] ++ [125]) :=
      drop_of_eq_append ([105, 110, 116] ++ [32] ++ f ++ [40] ++ [41] ++ [32])
        (by simp [← hline])
        (by simp only [List.length_append, List.length_cons, List.length_nil]; omega)
    have := Scans.of_next (by omega)
      (scanStep_single 0 line _ 123 _ hd (by decide) (fun h => absurd h (by decide))
        (by decide) (by decide) (by decide)
        (Or.inr (show operators.contains [123, 32] = false from by decide)) (by decide))
      (show Scans 0 line (7 + f.length + 1) _ _ from by
        rw [show 7 + f.length + 1 = 8 + f.length from by omega]
        exact s7)
    simpa using this
  have s5 : Scans 0 line (6 + f.length)
      [⟨.DELIMITER, [123], 1, 7 + f.length⟩, ⟨.IDENTIFIER, f, 1, 9 + f.length⟩, ⟨.DELIMITER, [40],
      1, 9 + f.length + f.length⟩, ⟨.DELIMITER, [41], 1, 10 + f.length + f.length⟩, ⟨.DELIMITER,
      [59], 1, 11 + f.length + f.length⟩, ⟨.DELIMITER, [125], 1, 13 + f.length + f.length⟩] [] :=
      by
    have hd : line.drop (6 + f.length) =
        32 :: ([123] ++ [32] ++ f ++ [40] ++ [41] ++ [59] ++ [32] ++ [125]) :=
      drop_of_eq_append ([105, 110, 116] ++ [32] ++ f ++ [40] ++ [41])
        (by simp [← hline])
        (by simp only [List.length_append, List.length_cons, List.length_nil]; omega)
    have := Scans.of_next (by omega)
      (scanStep_whitespace 0 line _ 32 _ hd (by decide))
      (show Scans 0 line (6 + f.length + 1) _ _ from by
        rw [show 6 + f.length + 1 = 7 + f.length from by omega]
        exact s6)
    simpa using this
  have s4 : Scans 0 line (5 + f.length)
      [⟨.DELIMITER, [41], 1, 5 + f.length⟩, ⟨.DELIMITER, [123], 1, 7 + f.length⟩, ⟨.IDENTIFIER, f,
      1, 9 + f.length⟩, ⟨.DELIMITER, [40], 1, 9 + f.length + f.length⟩, ⟨.DELIMITER, [41], 1, 10 +
      f.length + f.length⟩, ⟨.DELIMITER, [59], 1, 11 + f.length + f.length⟩, ⟨.DELIMITER, [125],
      1, 13 + f.length + f.length⟩] [] := by
    have hd : line.drop (5 + f.length) =
        41 :: ([32] ++ [123] ++ [32] ++ f ++ [40] ++ [41] ++ [59] ++ [32] ++ [125]) :=
      drop_of_eq_append ([105, 110, 116] ++ [32] ++ f ++ [40])
        (by simp [← hline])
        (by simp only [List.length_append, List.length_cons, List.length_nil]; omega)
    have := Scans.of_next (by omega)
      (scanStep_single 0 line _ 41 _ hd (by decide) (fun h => absurd h (by decide))
        (by decide) (by decide) (by decide)
        (Or.inr (show operators.contains [41, 32] = false from by decide)) (by decide))
      (show Scans 0 line (5 + f.length + 1) _ _ from by
        rw [show 5 + f.length + 1 = 6 + f.length from by omega]
        exact s5)
    simpa using this
  have s3 : Scans 0 line (4 + f.length)
      [⟨.DELIMITER, [40], 1, 4 + f.length⟩, ⟨.DELIMITER, [41], 1, 5 + f.length⟩, ⟨.DELIMITER,
      [123], 1, 7 + f.length⟩, ⟨.IDENTIFIER, f, 1, 9 + f.length⟩, ⟨.DELIMITER, [40], 1, 9 +
      f.length + f.length⟩, ⟨.DELIMITER, [41], 1, 10 + f.length + f.length⟩, ⟨.DELIMITER, [59], 1,
      11 + f.length + f.length⟩, ⟨.DELIMITER, [125], 1, 13 + f.length + f.length⟩] [] := by
    have hd : line.drop (4 + f.length) =
        40 :: ([41] ++ [32] ++ [123] ++ [32] ++ f ++ [40] ++ [41] ++ [59] ++ [32] ++ [125]) :=
      drop_of_eq_append ([105, 110, 116] ++ [32] ++ f)
        (by simp [← hline])
        (by simp only [List.length_append, List.length_cons, List.length_nil])
    have := Scans.of_next (by omega)
      (scanStep_single 0 line _ 40 _ hd (by decide) (fun h => absurd h (by decide))
        (by decide) (by decide) (by decide)
        (Or.inr (show operators.contains [40, 41] = false from by decide)) (by decide))
      (show Scans 0 line (4 + f.length + 1) _ _ from by
        rw [show 4 + f.length + 1 = 5 + f.length from by omega]
        exact s4)
    simpa using this
  have s2 : Scans 0 line (4)
      [⟨.IDENTIFIER, f, 1, 4⟩, ⟨.DELIMITER, [40], 1, 4 + f.length⟩, ⟨.DELIMITER, [41], 1, 5 +
      f.length⟩, ⟨.DELIMITER, [123], 1, 7 + f.length⟩, ⟨.IDENTIFIER, f, 1, 9 + f.length⟩,
      ⟨.DELIMITER, [40], 1, 9 + f.length + f.length⟩, ⟨.DELIMITER, [41], 1, 10 + f.length +
      f.length⟩, ⟨.DELIMITER, [59], 1, 11 + f.length + f.length⟩, ⟨.DELIMITER, [125], 1, 13 +
      f.length + f.length⟩] [] := by
    have hd : line.drop (4) =
        f ++ ([40] ++ [41] ++ [32] ++ [123] ++ [32] ++ f ++ [40] ++ [41] ++ [59] ++ [32] ++ [125])
        :=
      drop_of_eq_append ([105, 110, 116] ++ [32])
        (by simp [← hline])
        (by rfl)
    have := Scans.of_next (by omega)
      (scanStep_word 0 line (4) f _ hd hf
        (by intro t h; cases h; decide))
      (show Scans 0 line (4 + f.length) _ _ from s3)
    simpa [hk1] using this
  have s1 : Scans 0 line (3)
      [⟨.IDENTIFIER, f, 1, 4⟩, ⟨.DELIMITER, [40], 1, 4 + f.length⟩, ⟨.DELIMITER, [41], 1, 5 +
      f.length⟩, ⟨.DELIMITER, [123], 1, 7 + f.length⟩, ⟨.IDENTIFIER, f, 1, 9 + f.length⟩,
      ⟨.DELIMITER, [40], 1, 9 + f.length + f.length⟩, ⟨.DELIMITER, [41], 1, 10 + f.length +
      f.length⟩, ⟨.DELIMITER, [59], 1, 11 + f.length + f.length⟩, ⟨.DELIMITER, [125], 1, 13 +
      f.length + f.length⟩] [] := by
    have hd : line.drop (3) =
        32 :: (f ++ [40] ++ [41] ++ [32] ++ [123] ++ [32] ++ f ++ [40] ++ [41] ++ [59] ++ [32] ++
        [125]) :=
      drop_of_eq_append ([105, 110, 116])
        (by simp [← hline])
        (by rfl)
    have := Scans.of_next (by omega)
      (scanStep_whitespace 0 line _ 32 _ hd (by decide))
      (show Scans 0 line (3 + 1) _ _ from by
        rw [show 3 + 1 = 4 from by omega]
        exact s2)
    simpa using this
  have s0 : Scans 0 line (0)
      [⟨.KEYWORD, [105, 110, 116], 1, 0⟩, ⟨.IDENTIFIER, f, 1, 4⟩, ⟨.DELIMITER, [40], 1, 4 +
      f.length⟩, ⟨.DELIMITER, [41], 1, 5 + f.length⟩, ⟨.DELIMITER, [123], 1, 7 + f.length⟩,
      ⟨.IDENTIFIER, f, 1, 9 + f.length⟩, ⟨.DELIMITER, [40], 1, 9 + f.length + f.length⟩,
      ⟨.DELIMITER, [41], 1, 10 + f.length + f.length⟩, ⟨.DELIMITER, [59], 1, 11 + f.length +
      f.length⟩, ⟨.DELIMITER, [125], 1, 13 + f.length + f.length⟩] [] := by
    have hd : line.drop (0) =
        [105, 110, 116] ++ ([32] ++ f ++ [40] ++ [41] ++ [32] ++ [123] ++ [32] ++ f ++ [40] ++
        [41] ++ [59] ++ [32] ++ [125]) :=
      drop_of_eq_append ([])
        (by simp [← hline])
        (by rfl)
    have := Scans.of_next (by omega)
      (scanStep_word 0 line (0) [105, 110, 116] _ hd (by decide)
        (by intro t h; cases h; decide))
      (show Scans 0 line (0 + [105, 110, 116].length) _ _ from by
        rw [show 0 + [105, 110, 116].length = 3 from rfl]
        exact s1)
    have hkw : [105, 110, 116] ∈ keywords := by decide
    simpa [hkw] using this
  exact s0

/-- What `parse` does on the ten tokens of `int f() \x7b f(); \x7d`, whatever their
positions: the call finds `f` in the symbol table. -/
theorem parse_self_call (c : MiniCCompiler) (f : JSString) (p : Nat → Nat × Nat)
    (he : c.errors = []) (hw : c.warnings = []) (hs : c.symbolTable = [])
    (ho : c.output = []) :
    parse c (selfCallTokens f p) =
      some ⟨selfCallTokens f p, 10, [], [], [(f, .function (utf16 "int"))], []⟩ := by
  obtain ⟨ts0, k0, es, ws, st, out⟩ := c
  simp only at he hw hs ho
  subst he hw hs ho
  have hlen : (selfCallTokens f p).length = 10 := rfl
  -- the top level: a declaration that starts with the keyword `int`
  have p1 : parseProgram 352 ⟨selfCallTokens f p, 0, [], [], [], []⟩ =
      (parseDeclarationOrFunction 351 ⟨selfCallTokens f p, 0, [], [], [], []⟩).bind
        (parseProgram 351) := by
    have c1 : checkToken ⟨selfCallTokens f p, 0, [], [], [], []⟩ .KEYWORD (utf16 "include") =
        false := rfl
    have c2 : checkTokenType ⟨selfCallTokens f p, 0, [], [], [], []⟩ .KEYWORD = true := rfl
    show parseProgram (351 + 1) _ = _
    rw [parseProgram]
    simp only [c1, c2, hlen, Nat.zero_lt_succ, if_true, if_false, Bool.false_eq_true]
    rfl
  -- `int f (` starts a function
  have p2 : parseDeclarationOrFunction 351 ⟨selfCallTokens f p, 0, [], [], [], []⟩ =
      parseFunction 350 (utf16 "int") f ⟨selfCallTokens f p, 2, [], [], [], []⟩ := by
    have c1 : checkTokenType (advance ⟨selfCallTokens f p, 0, [], [], [], []⟩) .IDENTIFIER =
        true := rfl
    have c2 : checkToken (advance (advance ⟨selfCallTokens f p, 0, [], [], [], []⟩)) .DELIMITER
        (utf16 "(") = true := rfl
    show parseDeclarationOrFunction (350 + 1) _ = _
    rw [parseDeclarationOrFunction]
    simp only [c1, c2, Bool.not_true, if_true, if_false, Bool.false_eq_true]
    rfl
  -- the name is recorded, then `( ) \x7b` is consumed
  have p3 : parseFunction 350 (utf16 "int") f ⟨selfCallTokens f p, 2, [], [], [], []⟩ =
      (parseBlockStatement 349
        ⟨selfCallTokens f p, 5, [], [], [(f, .function (utf16 "int"))], []⟩).bind
        (fun c6 => some (consumeToken c6 .DELIMITER (utf16 "\x7d")).2) := by
    have c1 : setSymbol ⟨selfCallTokens f p, 2, [], [], [], []⟩ f (.function (utf16 "int")) =
        ⟨selfCallTokens f p, 2, [], [], [(f, .function (utf16 "int"))], []⟩ := rfl
    have c2 : (consumeToken ⟨selfCallTokens f p, 2, [], [], [(f, .function (utf16 "int"))], []⟩
        .DELIMITER (utf16 "(")).2 =
        ⟨selfCallTokens f p, 3, [], [], [(f, .function (utf16 "int"))], []⟩ := rfl
    have c3 : checkToken ⟨selfCallTokens f p, 3, [], [], [(f, .function (utf16 "int"))], []⟩
        .DELIMITER (utf16 ")") = true := rfl
    have c4 : (consumeToken ⟨selfCallTokens f p, 3, [], [], [(f, .function (utf16 "int"))], []⟩
        .DELIMITER (utf16 ")")).2 =
        ⟨selfCallTokens f p, 4, [], [], [(f, .function (utf16 "int"))], []⟩ := rfl
    have c5 : (consumeToken ⟨selfCallTokens f p, 4, [], [], [(f, .function (utf16 "int"))], []⟩
        .DELIMITER (utf16 "\x7b")).2 =
        ⟨selfCallTokens f p, 5, [], [], [(f, .function (utf16 "int"))], []⟩ := rfl
    show parseFunction (349 + 1) _ _ _ = _
    rw [parseFunction]
    simp only [c1, c2, c3, c4, c5, Bool.not_true, if_false, Bool.false_eq_true,
      Option.bind_eq_bind, Option.some_bind]
  -- the body: one statement
  have p4 : parseBlockStatement 349
      ⟨selfCallTokens f p, 5, [], [], [(f, .function (utf16 "int"))], []⟩ =
      (parseStatement 348 ⟨selfCallTokens f p, 5, [], [], [(f, .function (utf16 "int"))], []⟩).bind
        (parseBlockStatement 348) := by
    have c1 : checkToken ⟨selfCallTokens f p, 5, [], [], [(f, .function (utf16 "int"))], []⟩
        .DELIMITER (utf16 "\x7d") = false := rfl
    show parseBlockStatement (348 + 1) _ = _
    rw [parseBlockStatement]
    simp only [c1, hlen, Bool.not_false, Bool.true_and, decide_eq_true_eq, if_true]
    rfl
  -- the call of `f`, which is in the symbol table
  have p5 : parseStatement 348
      ⟨selfCallTokens f p, 5, [], [], [(f, .function (utf16 "int"))], []⟩ =
      some ⟨selfCallTokens f p, 9, [], [], [(f, .function (utf16 "int"))], []⟩ := by
    have hd : (⟨selfCallTokens f p, 5, [], [], [(f, .function (utf16 "int"))], []⟩ :
        MiniCCompiler).tokens.drop 5 =
        ⟨.IDENTIFIER, f, (p 5).1, (p 5).2⟩ :: ⟨.DELIMITER, utf16 "(", (p 6).1, (p 6).2⟩ ::
          ([] ++ ⟨.DELIMITER, utf16 ")", (p 7).1, (p 7).2⟩ ::
            ⟨.DELIMITER, utf16 ";", (p 8).1, (p 8).2⟩ ::
            [⟨.DELIMITER, utf16 "\x7d", (p 9).1, (p 9).2⟩]) := rfl
    have hcd : calleeDiagnostics [(f, .function (utf16 "int"))] f
        ⟨.DELIMITER, utf16 "(", (p 6).1, (p 6).2⟩ = [] :=
      (calleeDiagnostics_eq _ _ _).2 (Or.inl (by simp [SymbolTable.has]))
    show parseStatement (347 + 1) _ = _
    have h1 : isDelimiter (utf16 "(") ⟨.DELIMITER, utf16 "(", (p 6).1, (p 6).2⟩ = true := rfl
    have h2 : isDelimiter (utf16 ")") ⟨.DELIMITER, utf16 ")", (p 7).1, (p 7).2⟩ = true := rfl
    have h3 : isDelimiter (utf16 ";") ⟨.DELIMITER, utf16 ";", (p 8).1, (p 8).2⟩ = true := rfl
    rw [parseStatement_call _ _ _ _ 347 hd (Or.inl ⟨rfl, h1⟩),
      parseFunctionCall_callFree _ _ _ _ _ [] _ 347 hd h1 h2 h3 (Or.inl rfl)
        (by show 1 + 32 * ((selfCallTokens f p).length - 5) ≤ 347; rw [hlen]; omega)]
    simp only [hcd, undeclaredVariables, List.filter_nil, List.map_nil, List.append_nil,
      List.length_nil]
  -- the end of the body and of the program
  have p6 : parseBlockStatement 348
      ⟨selfCallTokens f p, 9, [], [], [(f, .function (utf16 "int"))], []⟩ =
      some ⟨selfCallTokens f p, 9, [], [], [(f, .function (utf16 "int"))], []⟩ := by
    have c1 : checkToken ⟨selfCallTokens f p, 9, [], [], [(f, .function (utf16 "int"))], []⟩
        .DELIMITER (utf16 "\x7d") = true := rfl
    show parseBlockStatement (347 + 1) _ = _
    rw [parseBlockStatement]
    simp only [c1, Bool.not_true, Bool.false_and, if_false, Bool.false_eq_true]
  have p7 : (consumeToken ⟨selfCallTokens f p, 9, [], [], [(f, .function (utf16 "int"))], []⟩
      .DELIMITER (utf16 "\x7d")).2 =
      ⟨selfCallTokens f p, 10, [], [], [(f, .function (utf16 "int"))], []⟩ := rfl
  have p8 : parseProgram 351
      ⟨selfCallTokens f p, 10, [], [], [(f, .function (utf16 "int"))], []⟩ =
      some ⟨selfCallTokens f p, 10, [], [], [(f, .function (utf16 "int"))], []⟩ := by
    show parseProgram (350 + 1) _ = _
    rw [parseProgram]
    simp only [hlen, Nat.lt_irrefl, if_false]
  show parseProgram 352 ⟨selfCallTokens f p, 0, [], [], [], []⟩ = _
  rw [p1, p2, p3, p4, p5, Option.some_bind, p6, Option.some_bind, p7, Option.some_bind, p8]

/-- C19: `parseFunction` records the function name before it parses the body, so a
call of the function inside its own body finds the name: for every identifier `f`
that is not a keyword, `compile("int f() \x7b f(); \x7d")` returns `success = true`
with no diagnostics (so no "Undeclared function" diagnostic) and a symbol table whose
only entry is `f`, a function with return type `int`. -/
theorem compile_self_call (c0 : MiniCCompiler) (f : JSString)
    (hf : isIdentifierText f = true) (hk : keywords.contains f = false) :
    ∃ r, compileResult c0 (utf16 "int " ++ f ++ utf16 "() \x7b " ++ f ++ utf16 "(); \x7d") =
        some r ∧
      r.success = true ∧ r.errors = [] ∧
      r.symbolTable = [(f, .function (utf16 "int"))] := by
  have hl := lex_self_call f hf hk
  have ht := tokenize_of_lex (resetForCompile c0) hl
  have hp := parse_self_call (resetForCompile c0) f (selfCallPositions f.length) rfl rfl rfl rfl
  have hc := compile_of_no_syntax_errors c0 _ _ _ _ ht rfl hp rfl
  refine ⟨_, by rw [compileResult, hc]; rfl, ?_, ?_, ?_⟩
  · simp [generateCode_errors, semanticAnalysis_eq, isVoidVariable]
  · simp [generateCode_errors, semanticAnalysis_eq, isVoidVariable]
  · simp [generateCode_symbolTable, semanticAnalysis_eq]

/-- Witness of C19: `compile("int f() \x7b f(); \x7d")`. -/
theorem compile_self_call_witness :
    ∃ r, compileResult MiniCCompiler.new (utf16 "int f() \x7b f(); \x7d") = some r ∧
      r.success = true ∧ r.errors = [] ∧
      r.symbolTable = [(utf16 "f", .function (utf16 "int"))] := by
  have h := compile_self_call MiniCCompiler.new (utf16 "f") (by decide) (by decide)
  have e : utf16 "int " ++ utf16 "f" ++ utf16 "() \x7b " ++ utf16 "f" ++ utf16 "(); \x7d" =
      utf16 "int f() \x7b f(); \x7d" := by decide
  rw [e] at h
  exact h

/-! ## The utility methods and the top-level loop -/

theorem getCurrentToken_of_exhausted {c : MiniCCompiler} (h : c.tokens.length ≤ c.currentToken) :
    getCurrentToken c = eofToken := by
  unfold getCurrentToken
  rw [if_pos h]

theorem getCurrentToken_of_lt {c : MiniCCompiler} (h : c.currentToken < c.tokens.length) :
    c.tokens[c.currentToken]? = some (getCurrentToken c) := by
  unfold getCurrentToken
  rw [if_neg (by omega), List.getD_eq_getElem?_getD]
  cases hx : c.tokens[c.currentToken]? with
  | none =>
    rw [List.getElem?_eq_none_iff] at hx
    omega
  | some t => rfl

/-- C24: `consumeToken(kind, value)` returns the current token; if that token has
exactly the kind and the value, the cursor advances by exactly one and nothing else
changes (no diagnostic is appended); otherwise exactly one `SYNTAX` diagnostic
"Expected value" at the position of the current token is appended and the cursor is
unchanged. When the input is exhausted the current token is the EOF placeholder, so
every `consumeToken` for a kind other than EOF appends its diagnostic at line 0,
column 0. The symbol table is unchanged in both cases. -/
theorem consumeToken_contract (c : MiniCCompiler) (type : TokenType) (value : JSString) :
    (consumeToken c type value).1 = getCurrentToken c ∧
    ((getCurrentToken c).type = type ∧ (getCurrentToken c).value = value →
      (consumeToken c type value).2 = { c with currentToken := c.currentToken + 1 }) ∧
    (¬((getCurrentToken c).type = type ∧ (getCurrentToken c).value = value) →
      (consumeToken c type value).2 =
        { c with errors := c.errors ++ [expectedDiagnostic value (getCurrentToken c)] }) ∧
    (c.tokens.length ≤ c.currentToken → type ≠ .EOF →
      (consumeToken c type value).2 =
        { c with errors := c.errors ++ [⟨.SYNTAX, utf16 "Expected " ++ value, 0, 0,
          utf16 "Add " ++ value⟩] }) ∧
    (consumeToken c type value).2.symbolTable = c.symbolTable := by
  have h1 : (getCurrentToken c).type = type ∧ (getCurrentToken c).value = value →
      (consumeToken c type value).2 = { c with currentToken := c.currentToken + 1 } := by
    intro h
    unfold consumeToken
    simp only []
    rw [if_pos h]
    rfl
  have h2 : ¬((getCurrentToken c).type = type ∧ (getCurrentToken c).value = value) →
      (consumeToken c type value).2 =
        { c with errors := c.errors ++ [expectedDiagnostic value (getCurrentToken c)] } := by
    intro h
    unfold consumeToken
    simp only []
    rw [if_neg h]
    rfl
  refine ⟨?_, h1, h2, ?_, ?_⟩
  · unfold consumeToken
    simp only []
    split <;> rfl
  · intro he hty
    have hg := getCurrentToken_of_exhausted he
    rw [h2 (by rw [hg]; exact fun h => hty h.1.symm), hg]
    rfl
  · by_cases h : (getCurrentToken c).type = type ∧ (getCurrentToken c).value = value
    · rw [h1 h]
    · rw [h2 h]

/-- Witness of C24: at `;` the call `consumeToken('DELIMITER', ';')` moves the cursor
from 0 to 1 and appends nothing. -/
theorem consumeToken_contract_witness :
    (consumeToken ⟨[⟨.DELIMITER, utf16 ";", 1, 0⟩], 0, [], [], [], []⟩ .DELIMITER
        (utf16 ";")).2 = ⟨[⟨.DELIMITER, utf16 ";", 1, 0⟩], 1, [], [], [], []⟩ :=
  (consumeToken_contract ⟨[⟨.DELIMITER, utf16 ";", 1, 0⟩], 0, [], [], [], []⟩ .DELIMITER
    (utf16 ";")).2.1 (by decide)

/-- The top-level loop on tokens none of which is a keyword. -/
theorem parseProgram_no_keyword :
    ∀ (ts : List Token) (c : MiniCCompiler) (n : Nat),
      c.tokens.drop c.currentToken = ts → (∀ t ∈ ts, t.type ≠ .KEYWORD) → ts.length < n →
        parseProgram n c =
          some { c with
            currentToken := c.currentToken + ts.length
            errors := c.errors ++ ts.map topLevelDiagnostic } := by
  intro ts
  induction ts with
  | nil =>
    intro c n hd _ hn
    obtain ⟨m, rfl⟩ : ∃ m, n = m + 1 := ⟨n - 1, by omega⟩
    have hle : c.tokens.length ≤ c.currentToken := List.drop_eq_nil_iff.1 hd
    rw [parseProgram, if_neg (by omega)]
    simp
  | cons t ts ih =>
    intro c n hd hk hn
    obtain ⟨m, rfl⟩ : ∃ m, n = m + 1 := ⟨n - 1, by omega⟩
    obtain ⟨hg, hlt, hd1⟩ := getCurrentToken_of_drop hd
    have hty := hk t (List.mem_cons_self _ _)
    have h1 : checkToken c .KEYWORD (utf16 "include") = false := by
      simp [checkToken_eq, hg, hty]
    have h2 : checkTokenType c .KEYWORD = false := by
      simp [checkTokenType_eq, hg, hty]
    rw [parseProgram, if_pos hlt]
    simp only [h1, h2, if_false, Bool.false_eq_true]
    rw [ih _ m (by exact hd1) (fun x hx => hk x (List.mem_cons_of_mem _ hx))
      (by simp only [List.length_cons] at hn; omega)]
    simp [advance, syntaxError, hg, topLevelDiagnostic, Nat.add_assoc, Nat.add_comm 1]

/-- C22: top-level recovery skips exactly one token per error: on a token sequence
without a KEYWORD token, `parse` appends exactly one `SYNTAX` diagnostic per token, in
token order, each at the line and column of its token, leaves the cursor at the end
of the sequence, and leaves the symbol table (and everything else) unchanged. -/
theorem top_level_recovery (c : MiniCCompiler) (tokens : List Token)
    (h : ∀ t ∈ tokens, t.type ≠ .KEYWORD) :
    parse c tokens =
      some { c with
        tokens := tokens
        currentToken := tokens.length
        errors := c.errors ++ tokens.map topLevelDiagnostic } := by
  unfold parse
  rw [parseProgram_no_keyword tokens { c with tokens := tokens, currentToken := 0 }
    (parseFuel tokens) rfl h (by simp only [parseFuel]; omega)]
  simp

/-- Witness of C22: the two tokens of `x 1`. -/
theorem top_level_recovery_witness :
    parse MiniCCompiler.new [⟨.IDENTIFIER, utf16 "x", 1, 0⟩, ⟨.INTEGER, utf16 "1", 1, 2⟩] =
      some ⟨[⟨.IDENTIFIER, utf16 "x", 1, 0⟩, ⟨.INTEGER, utf16 "1", 1, 2⟩], 2,
        [topLevelDiagnostic ⟨.IDENTIFIER, utf16 "x", 1, 0⟩,
          topLevelDiagnostic ⟨.INTEGER, utf16 "1", 1, 2⟩], [], [], []⟩ :=
  top_level_recovery MiniCCompiler.new _ (by decide)
/-! ## The driver: faults, sweep positions and early stops -/

theorem message_not_undeclared (name : JSString) :
    ¬ utf16 "Undeclared " <+: utf16 "Variable \x27" ++ name ++
      utf16 "\x27 cannot be of type void" := by
  rintro ⟨t, ht⟩
  have h1 := congrArg List.head? ht
  rw [show utf16 "Undeclared " = 85 :: utf16 "ndeclared " from by decide,
    show utf16 "Variable \x27" = 86 :: utf16 "ariable \x27" from by decide] at h1
  simp at h1

/-- The diagnostics in the result of `compile`: those of the lexer if it left any,
else those of the parser if it left any, else those of the sweep, which are all
placed at the EOF placeholder. -/
theorem compile_errors_cases (c0 : MiniCCompiler) (code : JSString) :
    ∃ r, compileResult c0 code = some r ∧
      ((r.phases = [phaseLexical] ∧ r.symbolTable = [] ∧ r.generatedCode = [] ∧
          ∀ e ∈ r.errors, LexDiagnostic e) ∨
        (r.phases = [phaseLexical, phaseSyntax] ∧ r.symbolTable = [] ∧ r.generatedCode = [] ∧
          ∀ e ∈ r.errors, ParserDiagnostic e) ∨
        (r.phases = [phaseLexical, phaseSyntax, phaseSemantic, phaseGeneration] ∧
          ∀ e ∈ r.errors, ∃ name, e = voidDiagnostic eofToken name)) := by
  obtain ⟨toks, c1, ht, h⟩ := compile_cases c0 code
  obtain ⟨es1, hc1, g1⟩ := tokenize_errs _ _ _ _ ht
  have hce : c1.errors = es1 := by rw [hc1]; simp [resetForCompile]
  rcases h with ⟨-, hc⟩ | ⟨he, c2, hp, h⟩
  · refine ⟨_, by rw [compileResult, hc]; rfl, Or.inl ⟨rfl, rfl, rfl, ?_⟩⟩
    intro e hm
    exact g1 e (by simpa [hce] using hm)
  · obtain ⟨c2', hp', htk, -, -, hcur, es2, hc2, g2⟩ := parse_total c1 toks
    rw [hp] at hp'
    cases hp'
    rcases h with ⟨-, hc⟩ | ⟨he2, hc⟩
    · refine ⟨_, by rw [compileResult, hc]; rfl, Or.inr (Or.inl ⟨rfl, rfl, rfl, ?_⟩)⟩
      intro e hm
      have hm : e ∈ c2.errors := hm
      rw [hc2, he] at hm
      exact g2 e (by simpa using hm)
    · refine ⟨_, by rw [compileResult, hc]; rfl, Or.inr (Or.inr ⟨rfl, ?_⟩)⟩
      intro e hm
      have hm : e ∈ (generateCode (semanticAnalysis c2)).errors := hm
      rw [generateCode_errors, semanticAnalysis_eq, he2,
        getCurrentToken_of_exhausted hcur] at hm
      simp only [List.nil_append, List.mem_map] at hm
      obtain ⟨x, -, rfl⟩ := hm
      exact ⟨x.1, rfl⟩

/-- C30: whenever `compile` stops after the lexical or the syntax phase, the
`symbolTable` and the `generatedCode` of the result are empty, whatever the parser
had recorded: for every source whose result has fewer than four phases the result has
no symbol; `compile("int main() \x7b return y; \x7d")` stops after the syntax phase
with an empty `symbolTable`, while the instance holds the entry for `main`. -/
theorem early_stop_empty_table (c0 : MiniCCompiler) (code : JSString) :
    (∃ r, compileResult c0 code = some r ∧
      (r.phases.length < 4 → r.symbolTable = [] ∧ r.generatedCode = [])) ∧
    (compile MiniCCompiler.new (utf16 "int main() \x7b return y; \x7d")).map
        (fun p => (p.1.phases.length, p.1.symbolTable, p.2.symbolTable)) =
      some (2, [], [(utf16 "main", .function (utf16 "int"))]) ∧
    (compileResult MiniCCompiler.new (utf16 "int main() \x7b return y; \x7d")).map
        (fun r => r.generatedCode) = some [] := by
  refine ⟨?_, by decide!, by decide!⟩
  obtain ⟨r, hr, h⟩ := compile_errors_cases c0 code
  refine ⟨r, hr, ?_⟩
  intro h4
  rcases h with ⟨-, h1, h2, -⟩ | ⟨-, h1, h2, -⟩ | ⟨hp, -⟩
  · exact ⟨h1, h2⟩
  · exact ⟨h1, h2⟩
  · rw [hp] at h4
    exact absurd h4 (by decide)

/-- Witness of C30: `compile("@")` stops after the lexical phase with an empty
symbol table and no generated code. -/
theorem early_stop_empty_table_witness :
    ∃ r, compileResult MiniCCompiler.new (utf16 "@") = some r ∧ r.phases.length = 1 ∧
      r.symbolTable = [] ∧ r.generatedCode = [] := by
  obtain ⟨r, hr, h⟩ := (early_stop_empty_table MiniCCompiler.new (utf16 "@")).1
  have hp : (compileResult MiniCCompiler.new (utf16 "@")).map (fun r => r.phases.length) =
      some 1 := by decide!
  rw [hr] at hp
  have hp1 : r.phases.length = 1 := by simpa using hp
  exact ⟨r, hr, hp1, h (by omega)⟩

/-! ## The parser: every loop iteration moves the cursor -/

/-- One iteration of the top-level loop. -/
theorem parseProgram_iteration (n : Nat) (c : MiniCCompiler)
    (hlt : c.currentToken < c.tokens.length)
    (hB : 17 + 32 * (c.tokens.length - c.currentToken) ≤ n + 1) :
    ∃ c1, c.currentToken + 1 ≤ c1.currentToken ∧ c1.tokens = c.tokens ∧
      parseProgram (n + 1) c = parseProgram n c1 := by
  rw [parseProgram, if_pos hlt]
  split
  · rename_i hinc
    have a1 := adv_parseInclude c hinc
    exact ⟨_, a1.cursor, a1.ext.tokens, rfl⟩
  split
  · obtain ⟨c1, h1, a1⟩ := (allSpecs n).parseDeclarationOrFunction c trivial (by omega)
    exact ⟨c1, a1.cursor, a1.ext.tokens, by rw [h1]; rfl⟩
  · exact ⟨advance (syntaxError c (utf16 "Expected declaration or function")
      (utf16 "Add proper function or variable declaration")), Nat.le_refl _, rfl, rfl⟩

/-- One iteration of the loop of `parseBlockStatement`. -/
theorem parseBlockStatement_iteration (n : Nat) (c : MiniCCompiler)
    (hc : (!checkToken c .DELIMITER (utf16 "\x7d") &&
      decide (c.currentToken < c.tokens.length)) = true)
    (hB : 15 + 32 * (c.tokens.length - c.currentToken) ≤ n + 1) :
    ∃ c1, c.currentToken + 1 ≤ c1.currentToken ∧ c1.tokens = c.tokens ∧
      parseBlockStatement (n + 1) c = parseBlockStatement n c1 := by
  rw [parseBlockStatement, if_pos hc]
  obtain ⟨c1, h1, a1⟩ := (allSpecs n).parseStatement c trivial (by omega)
  exact ⟨c1, a1.cursor, a1.ext.tokens, by rw [h1]; rfl⟩

/-- One iteration of the loop of `parseDeclaration`. -/
theorem parseDeclarationLoop_iteration (n : Nat) (type : JSString) (c : MiniCCompiler)
    (hc : checkToken c .DELIMITER (utf16 ",") = true)
    (hB : 1 + 32 * (c.tokens.length - c.currentToken) ≤ n + 1) :
    ∃ c1, c.currentToken + 1 ≤ c1.currentToken ∧ c1.tokens = c.tokens ∧
      parseDeclarationLoop (n + 1) type c = parseDeclarationLoop n type c1 := by
  have hlt := lt_of_checkToken hc (by decide)
  rw [parseDeclarationLoop, if_pos hc]
  simp only [Option.bind_eq_bind]
  split
  · have a2 := ((adv_advance c).andThen (adv_setSymbol (advance c)
      (getCurrentToken (advance c)).value (.variable type))).andThen (adv_advance _)
    generalize advance (setSymbol (advance c) (getCurrentToken (advance c)).value
      (.variable type)) = c2 at a2 ⊢
    have l2 := a2.len
    have k2 := a2.cursor
    split
    · rename_i he
      have hlt2 := lt_of_checkToken he (by decide)
      have a := adv_advance c2
      have := a.len
      have := a.cursor
      obtain ⟨c3, h3, a3⟩ := (allSpecs n).parseExpression (advance c2) trivial (by omega)
      have k3 := a3.cursor
      exact ⟨c3, by omega, ((a2.andThen a).andThen a3).ext.tokens, by rw [h3]; rfl⟩
    · exact ⟨c2, by omega, a2.ext.tokens, rfl⟩
  · exact ⟨syntaxError (advance c) (utf16 "Expected identifier")
      (utf16 "Add variable name after comma"), Nat.le_refl _, rfl, rfl⟩

/-- One pass through the body of the loop of `parseParameterList`: the loop ends,
or it goes on from a later cursor. -/
theorem parseParameterList_iteration (n : Nat) (c : MiniCCompiler) :
    (∃ c1, c.currentToken ≤ c1.currentToken ∧ parseParameterList (n + 1) c = some c1) ∨
    ∃ c1, c.currentToken + 1 ≤ c1.currentToken ∧ c1.tokens = c.tokens ∧
      parseParameterList (n + 1) c = parseParameterList n c1 := by
  rw [parseParameterList]
  simp only []
  split
  · have a2 : Adv 1 c (if checkTokenType (advance c) .IDENTIFIER = true then
        advance (setSymbol (advance c) (getCurrentToken (advance c)).value
          (.parameter (getCurrentToken c).value))
        else syntaxError (advance c) (utf16 "Expected parameter name")
          (utf16 "Add parameter name after type")) := by
      split
      · exact (((adv_advance c).andThen (adv_setSymbol _ _ _)).andThen (adv_advance _)).mono
          (by omega)
      · exact ((adv_advance c).andThen (adv_syntaxError _ _ _ (by decide))).mono (by omega)
    generalize (if checkTokenType (advance c) .IDENTIFIER = true then
        advance (setSymbol (advance c) (getCurrentToken (advance c)).value
          (.parameter (getCurrentToken c).value))
        else syntaxError (advance c) (utf16 "Expected parameter name")
          (utf16 "Add parameter name after type")) = c2 at a2 ⊢
    have k2 := a2.cursor
    split
    · have a3 := a2.andThen (adv_advance c2)
      have k3 := a3.cursor
      split
      · exact Or.inr ⟨_, by omega, a3.ext.tokens, rfl⟩
      · exact Or.inl ⟨_, by omega, rfl⟩
    · exact Or.inl ⟨c2, by omega, rfl⟩
  · exact Or.inl ⟨syntaxError c (utf16 "Expected parameter type")
      (utf16 "Add parameter type (int, float, etc.)"), Nat.le_refl _, rfl⟩

/-- One pass through the body of the loop of `parseArgumentList`: the loop ends, or
it goes on from a later cursor. -/
theorem parseArgumentList_iteration (n : Nat) (c : MiniCCompiler)
    (hB : 11 + 32 * (c.tokens.length - c.currentToken) ≤ n + 1) :
    (∃ c1, c.currentToken ≤ c1.currentToken ∧ parseArgumentList (n + 1) c = some c1) ∨
    ∃ c1, c.currentToken + 1 ≤ c1.currentToken ∧ c1.tokens = c.tokens ∧
      parseArgumentList (n + 1) c = parseArgumentList n c1 := by
  obtain ⟨c1, h1, a1⟩ := (allSpecs n).parseExpression c trivial (by omega)
  have k1 := a1.cursor
  rw [parseArgumentList]
  simp only [Option.bind_eq_bind, h1, Option.some_bind]
  split
  · have a2 := a1.andThen (adv_advance c1)
    have k2 := a2.cursor
    split
    · exact Or.inr ⟨_, by omega, a2.ext.tokens, rfl⟩
    · exact Or.inl ⟨_, by omega, rfl⟩
  · exact Or.inl ⟨c1, by omega, rfl⟩

/-! ## The parser on comma-chained declarations -/

/-- The optional `= literal` behind a declared name. -/
theorem parseInitialiser_literal (c : MiniCCompiler) (init : Option (Token × Token))
    (t : Token) (l : List Token) (n : Nat)
    (hd : c.tokens.drop c.currentToken = initialiserTokens init ++ t :: l)
    (hi : WellFormedInitialiser init) (ht : t.type = .DELIMITER) (hv : t.value ≠ utf16 "(")
    (hB : 10 + 32 * (c.tokens.length - c.currentToken) ≤ n) :
    (if checkToken c .OPERATOR (utf16 "=") = true then parseExpression n (advance c)
      else some c) =
      some { c with currentToken := c.currentToken + (initialiserTokens init).length } := by
  rcases init with _ | ⟨eq, lit⟩
  · have hg := (getCurrentToken_of_drop (show c.tokens.drop c.currentToken = t :: l from hd)).1
    have h0 : checkToken c .OPERATOR (utf16 "=") = false := by
      simp [checkToken_eq, hg, ht]
    rw [h0, if_neg (by decide)]
    rfl
  · obtain ⟨h1, h2, h3⟩ := hi
    have hd0 : c.tokens.drop c.currentToken = eq :: lit :: t :: l := hd
    obtain ⟨hg, hlt, hd1⟩ := getCurrentToken_of_drop hd0
    have h0 : checkToken c .OPERATOR (utf16 "=") = true := by
      simp [checkToken_eq, hg, h1, h2]
    have hlen := length_of_drop_append (show c.tokens.drop c.currentToken =
      [eq, lit] ++ t :: l from hd0)
    simp only [List.length_cons, List.length_nil] at hlen
    have hp := parseExpression_of_parses
      (callFree_parses (CallFree.expression (CallFree.literal lit h3)))
      (advance c) (t :: l) n hd1 (followOk_of_delimiter (t := t) ht hv)
      (by show 10 + 32 * (c.tokens.length - (c.currentToken + 1)) ≤ n; omega)
    rw [h0, if_pos rfl, hp]
    simp [afterTokens, advance, undeclaredVariables, initialiserTokens,
      ne_identifier_of_isLiteral h3, Nat.add_assoc]

/-- The first token behind the declarators is a delimiter other than `(`. -/
theorem head_moreDeclaratorTokens (more : List (Token × Declarator)) (semi : Token)
    (rest : List Token) (hm : WellFormedDeclarators more)
    (hs : isDelimiter (utf16 ";") semi = true) :
    ∃ t l, moreDeclaratorTokens more ++ semi :: rest = t :: l ∧ t.type = .DELIMITER ∧
      t.value ≠ utf16 "(" := by
  cases more with
  | nil =>
    simp only [isDelimiter, Bool.and_eq_true, decide_eq_true_eq] at hs
    exact ⟨semi, rest, rfl, hs.1, by rw [hs.2]; decide⟩
  | cons p more =>
    obtain ⟨comma, d⟩ := p
    have hc := hm.1
    simp only [isDelimiter, Bool.and_eq_true, decide_eq_true_eq] at hc
    exact ⟨comma, _, rfl, hc.1, by rw [hc.2]; decide⟩

/-- The loop of `parseDeclaration` on the declarators after the first. -/
theorem parseDeclarationLoop_declarators (type : JSString) :
    ∀ (more : List (Token × Declarator)) (c : MiniCCompiler) (semi : Token)
      (rest : List Token) (n : Nat),
      c.tokens.drop c.currentToken = moreDeclaratorTokens more ++ semi :: rest →
      WellFormedDeclarators more → isDelimiter (utf16 ";") semi = true →
      11 + 32 * (c.tokens.length - c.currentToken) ≤ n →
        parseDeclarationLoop n type c =
          some { c with
            currentToken := c.currentToken + (moreDeclaratorTokens more).length
            symbolTable := recordDeclarators type c.symbolTable (more.map Prod.snd) } := by
  intro more
  induction more with
  | nil =>
    intro c semi rest n hd _ hs hB
    obtain ⟨m, rfl⟩ : ∃ m, n = m + 1 := ⟨n - 1, by omega⟩
    have hg := (getCurrentToken_of_drop
      (show c.tokens.drop c.currentToken = semi :: rest from hd)).1
    have hs1 := hs
    simp only [isDelimiter, Bool.and_eq_true, decide_eq_true_eq] at hs1
    have h0 : checkToken c .DELIMITER (utf16 ",") = false := by
      have : utf16 ";" ≠ utf16 "," := by decide
      simp [checkToken_eq, hg, hs1.2, this]
    rw [parseDeclarationLoop, h0, if_neg (by decide)]
    rfl
  | cons p more ih =>
    intro c semi rest n hd hm hs hB
    obtain ⟨comma, name, init⟩ := p
    obtain ⟨hc, hname0, hinit0, hmore⟩ := hm
    have hname : name.type = .IDENTIFIER := hname0
    have hinit : WellFormedInitialiser init := hinit0
    obtain ⟨m, rfl⟩ : ∃ m, n = m + 1 := ⟨n - 1, by omega⟩
    have hd0 : c.tokens.drop c.currentToken =
        comma :: name :: (initialiserTokens init ++
          (moreDeclaratorTokens more ++ semi :: rest)) := by
      rw [hd]
      simp [moreDeclaratorTokens, declaratorTokens]
    obtain ⟨hg, hlt, hd1⟩ := getCurrentToken_of_drop hd0
    have hd1a : (advance c).tokens.drop (advance c).currentToken =
        name :: (initialiserTokens init ++ (moreDeclaratorTokens more ++ semi :: rest)) := hd1
    obtain ⟨hg1, hlt1, hd2⟩ := getCurrentToken_of_drop hd1a
    have hlen := length_of_drop_append (show c.tokens.drop c.currentToken =
      (comma :: name :: initialiserTokens init) ++
        (moreDeclaratorTokens more ++ semi :: rest) from hd0)
    simp only [List.length_cons, List.length_append] at hlen
    have h0 : checkToken c .DELIMITER (utf16 ",") = true := by
      rw [checkToken_eq, hg]; exact hc
    have h1 : checkTokenType (advance c) .IDENTIFIER = true := by
      simp [checkTokenType_eq, hg1, hname]
    obtain ⟨t, l, htl, hty, hv⟩ := head_moreDeclaratorTokens more semi rest hmore hs
    generalize hc2 : advance (setSymbol (advance c) name.value (.variable type)) = c2
    have hc2t : c2.tokens = c.tokens := by rw [← hc2]; rfl
    have hc2c : c2.currentToken = c.currentToken + 2 := by rw [← hc2]; rfl
    have hd3 : c2.tokens.drop c2.currentToken =
        initialiserTokens init ++ t :: l := by
      rw [hc2t, hc2c, ← htl]
      exact hd2
    have hp := parseInitialiser_literal c2 init t l m hd3 hinit hty hv
      (by rw [hc2t, hc2c]; omega)
    generalize hc3 : ({ c2 with currentToken := c2.currentToken +
      (initialiserTokens init).length } : MiniCCompiler) = c3 at hp
    have hc3t : c3.tokens = c.tokens := by rw [← hc3]; exact hc2t
    have hc3c : c3.currentToken = c.currentToken + 2 + (initialiserTokens init).length := by
      rw [← hc3]
      show c2.currentToken + _ = _
      rw [hc2c]
    have hd4 : c3.tokens.drop c3.currentToken = moreDeclaratorTokens more ++ semi :: rest := by
      rw [hc3t, hc3c, ← List.drop_drop, ← List.drop_drop]
      rw [show c.tokens.drop c.currentToken = [comma, name] ++ (initialiserTokens init ++
        (moreDeclaratorTokens more ++ semi :: rest)) from hd0]
      simp
    have hrec := ih c3 semi rest m hd4 hmore hs (by rw [hc3t, hc3c]; omega)
    rw [parseDeclarationLoop, h0, if_pos rfl]
    simp only [h1, if_true, hg1, hc2, Option.bind_eq_bind]
    rw [ite_bind_eq _ _ _ _ _ hp, hrec, ← hc3, ← hc2]
    simp [advance, setSymbol, recordDeclarators, moreDeclaratorTokens, declaratorTokens,
      Nat.add_assoc, Nat.add_comm, Nat.add_left_comm]
/-- The method `parseDeclarationOrFunction` on a comma-chained declaration with
literal initialisers: every name is recorded and nothing else changes. -/
theorem parseDeclarationOrFunction_declarators (c : MiniCCompiler) (ty : Token)
    (first : Declarator) (more : List (Token × Declarator)) (semi : Token) (rest : List Token)
    (n : Nat)
    (hd : c.tokens.drop c.currentToken = declarationTokens ty first more semi ++ rest)
    (hname : first.1.type = .IDENTIFIER) (hinit : WellFormedInitialiser first.2)
    (hmore : WellFormedDeclarators more) (hs : isDelimiter (utf16 ";") semi = true)
    (hB : 13 + 32 * (c.tokens.length - c.currentToken) ≤ n) :
    parseDeclarationOrFunction n c =
      some { c with
        currentToken := c.currentToken + (declarationTokens ty first more semi).length
        symbolTable :=
          recordDeclarators ty.value c.symbolTable (first :: more.map Prod.snd) } := by
  obtain ⟨name, init⟩ := first
  have hname : name.type = .IDENTIFIER := hname
  have hinit : WellFormedInitialiser init := hinit
  obtain ⟨m, rfl⟩ : ∃ m, n = m + 2 := ⟨n - 2, by omega⟩
  have hd0 : c.tokens.drop c.currentToken =
      ty :: name :: (initialiserTokens init ++
        (moreDeclaratorTokens more ++ semi :: rest)) := by
    rw [hd]
    simp [declarationTokens, declaratorTokens]
  obtain ⟨hg, hlt, hd1⟩ := getCurrentToken_of_drop hd0
  have hd1a : (advance c).tokens.drop (advance c).currentToken =
      name :: (initialiserTokens init ++ (moreDeclaratorTokens more ++ semi :: rest)) := hd1
  obtain ⟨hg1, hlt1, hd2⟩ := getCurrentToken_of_drop hd1a
  have hlen := length_of_drop_append (show c.tokens.drop c.currentToken =
    (ty :: name :: initialiserTokens init) ++
      (moreDeclaratorTokens more ++ semi :: rest) from hd0)
  simp only [List.length_cons, List.length_append] at hlen
  have h1 : checkTokenType (advance c) .IDENTIFIER = true := by
    simp [checkTokenType_eq, hg1, hname]
  obtain ⟨t, l, htl, hty, hv⟩ := head_moreDeclaratorTokens more semi rest hmore hs
  have hd2a : (advance (advance c)).tokens.drop (advance (advance c)).currentToken =
      initialiserTokens init ++ t :: l := by rw [← htl]; exact hd2
  -- the token behind the name is `=`, `,` or `;`
  have hnext : ∃ u, getCurrentToken (advance (advance c)) = u ∧
      ((u.type = .OPERATOR ∧ u.value = utf16 "=") ∨
        (u.type = .DELIMITER ∧ (u.value = utf16 "," ∨ u.value = utf16 ";"))) := by
    rcases init with _ | ⟨eq, lit⟩
    · refine ⟨t, (getCurrentToken_of_drop
        (show _ = t :: l from hd2a)).1, Or.inr ⟨hty, ?_⟩⟩
      cases more with
      | nil =>
        have hs1 := hs
        simp only [isDelimiter, Bool.and_eq_true, decide_eq_true_eq] at hs1
        have : semi = t := by
          have := htl
          simp only [moreDeclaratorTokens, List.nil_append, List.cons.injEq] at this
          exact this.1
        rw [← this]
        exact Or.inr hs1.2
      | cons p more =>
        obtain ⟨comma, d⟩ := p
        have hc := hmore.1
        simp only [isDelimiter, Bool.and_eq_true, decide_eq_true_eq] at hc
        have : comma = t := by
          have := htl
          simp only [moreDeclaratorTokens, List.cons_append, List.cons.injEq] at this
          exact this.1
        rw [← this]
        exact Or.inl hc.2
    · exact ⟨eq, (getCurrentToken_of_drop
        (show _ = eq :: (lit :: t :: l) from hd2a)).1, Or.inl ⟨hinit.1, hinit.2.1⟩⟩
  obtain ⟨u, hu, hcase⟩ := hnext
  have h2 : checkToken (advance (advance c)) .DELIMITER (utf16 "(") = false := by
    rw [checkToken_eq, hu]
    rcases hcase with ⟨ht, _⟩ | ⟨_, hv | hv⟩
    · simp [ht]
    · have : utf16 "," ≠ utf16 "(" := by decide
      simp [hv, this]
    · have : utf16 ";" ≠ utf16 "(" := by decide
      simp [hv, this]
  have h3 : (checkToken (advance (advance c)) .OPERATOR (utf16 "=") ||
      checkToken (advance (advance c)) .DELIMITER (utf16 ";") ||
      checkToken (advance (advance c)) .DELIMITER (utf16 ",")) = true := by
    simp only [checkToken_eq, hu]
    rcases hcase with ⟨ht, hv⟩ | ⟨ht, hv | hv⟩ <;> simp [ht, hv]
  -- the body of `parseDeclaration`
  generalize hc1 : setSymbol (advance (advance c)) name.value (.variable ty.value) = c1
  have hc1t : c1.tokens = c.tokens := by rw [← hc1]; rfl
  have hc1c : c1.currentToken = c.currentToken + 2 := by rw [← hc1]; rfl
  have hd3 : c1.tokens.drop c1.currentToken = initialiserTokens init ++ t :: l := by
    rw [hc1t, hc1c]; exact hd2a
  have hp := parseInitialiser_literal c1 init t l m hd3 hinit hty hv
    (by rw [hc1t, hc1c]; omega)
  generalize hc2 : ({ c1 with currentToken := c1.currentToken +
    (initialiserTokens init).length } : MiniCCompiler) = c2 at hp
  have hc2t : c2.tokens = c.tokens := by rw [← hc2]; exact hc1t
  have hc2c : c2.currentToken = c.currentToken + 2 + (initialiserTokens init).length := by
    rw [← hc2]
    show c1.currentToken + _ = _
    rw [hc1c]
  have hd4 : c2.tokens.drop c2.currentToken = moreDeclaratorTokens more ++ semi :: rest := by
    rw [hc2t, hc2c, ← List.drop_drop, ← List.drop_drop]
    rw [show c.tokens.drop c.currentToken = [ty, name] ++ (initialiserTokens init ++
      (moreDeclaratorTokens more ++ semi :: rest)) from hd0]
    simp
  have hloop := parseDeclarationLoop_declarators ty.value more c2 semi rest m hd4 hmore hs
    (by rw [hc2t, hc2c]; omega)
  generalize hc3 : ({ c2 with
    currentToken := c2.currentToken + (moreDeclaratorTokens more).length
    symbolTable := recordDeclarators ty.value c2.symbolTable (more.map Prod.snd) } :
      MiniCCompiler) = c3 at hloop
  have hd5 : c3.tokens.drop c3.currentToken = semi :: rest := by
    rw [← hc3]
    show c2.tokens.drop (c2.currentToken + _) = _
    rw [← List.drop_drop, hd4]
    simp
  have hsemi := (consumeToken_of_delimiter hd5 hs).1
  rw [parseDeclarationOrFunction]
  simp only [h1, Bool.not_true, Bool.false_eq_true, if_false, h2, h3, if_true, hg, hg1]
  rw [parseDeclaration, hc1]
  simp only [Option.bind_eq_bind]
  rw [ite_bind_eq _ _ _ _ _ hp, hloop]
  simp only [Option.some_bind, hsemi]
  rw [← hc3, ← hc2, ← hc1]
  simp [advance, setSymbol, recordDeclarators, declarationTokens, declaratorTokens,
    Nat.add_assoc, Nat.add_comm, Nat.add_left_comm]
/-- The method `parse` on the tokens of one comma-chained declaration. -/
theorem parse_declarators (c : MiniCCompiler) (ty : Token) (first : Declarator)
    (more : List (Token × Declarator)) (semi : Token)
    (hty : ty.type = .KEYWORD) (hinc : ty.value ≠ utf16 "include")
    (hname : first.1.type = .IDENTIFIER) (hinit : WellFormedInitialiser first.2)
    (hmore : WellFormedDeclarators more) (hs : isDelimiter (utf16 ";") semi = true) :
    parse c (declarationTokens ty first more semi) =
      some { c with
        tokens := declarationTokens ty first more semi
        currentToken := (declarationTokens ty first more semi).length
        symbolTable :=
          recordDeclarators ty.value c.symbolTable (first :: more.map Prod.snd) } := by
  generalize hc0 : ({ c with
    tokens := declarationTokens ty first more semi
    currentToken := 0 } : MiniCCompiler) = c0
  have ht0 : c0.tokens = declarationTokens ty first more semi := by rw [← hc0]
  have hk0 : c0.currentToken = 0 := by rw [← hc0]
  have hd : c0.tokens.drop c0.currentToken = declarationTokens ty first more semi ++ [] := by
    rw [ht0, hk0]; simp
  have hd1 : c0.tokens.drop c0.currentToken =
      ty :: (declaratorTokens first ++ moreDeclaratorTokens more ++ [semi]) := by
    rw [ht0, hk0]; simp [declarationTokens]
  obtain ⟨hg, hlt, -⟩ := getCurrentToken_of_drop hd1
  have hp := parseDeclarationOrFunction_declarators c0 ty first more semi []
    (parseFuel (declarationTokens ty first more semi) - 1) hd hname hinit hmore hs
    (by rw [ht0, hk0, parseFuel]; omega)
  have h1 : checkToken c0 .KEYWORD (utf16 "include") = false := by
    simp [checkToken_eq, hg, hinc]
  have h2 : checkTokenType c0 .KEYWORD = true := by
    simp [checkTokenType_eq, hg, hty]
  obtain ⟨m, hm⟩ : ∃ m, parseFuel (declarationTokens ty first more semi) = m + 2 :=
    ⟨parseFuel (declarationTokens ty first more semi) - 2, by rw [parseFuel]; omega⟩
  rw [parse, hc0, hm]
  rw [hm] at hp
  rw [parseProgram, if_pos hlt, h1, if_neg (by decide), h2, if_pos rfl]
  simp only [Option.bind_eq_bind]
  rw [show m + 2 - 1 = m + 1 from rfl] at hp
  rw [hp, Option.some_bind, parseProgram, if_neg (by simp [ht0, hk0])]
  rw [← hc0]
  simp

/-- C21: a comma-chained declaration records every name with the same type:
`compile("int a = 1, b, c = 3;")` returns `success = true`, no diagnostics and a
symbol table with exactly `a`, `b` and `c`, each a variable of declared type `int`;
in general, on the tokens of `T x1 [= e1], ..., xn [= en];` (a keyword `T` other than
`include`, identifiers `xi`, literal initialisers) `parse` consumes every token,
records every `xi` in order as a variable of declared type `T`, and leaves the
diagnostics as they were. -/
theorem comma_chained_declaration :
    (compileResult MiniCCompiler.new (utf16 "int a = 1, b, c = 3;")).map
        (fun r => (r.success, r.errors, r.symbolTable)) =
      some (true, [], [(utf16 "a", .variable (utf16 "int")),
        (utf16 "b", .variable (utf16 "int")), (utf16 "c", .variable (utf16 "int"))]) ∧
    ∀ (c : MiniCCompiler) (ty : Token) (first : Declarator)
      (more : List (Token × Declarator)) (semi : Token),
      ty.type = .KEYWORD → ty.value ≠ utf16 "include" →
      first.1.type = .IDENTIFIER → WellFormedInitialiser first.2 →
      WellFormedDeclarators more → isDelimiter (utf16 ";") semi = true →
        ∃ c1, parse c (declarationTokens ty first more semi) = some c1 ∧
          c1.currentToken = (declarationTokens ty first more semi).length ∧
          c1.errors = c.errors ∧
          c1.symbolTable =
            recordDeclarators ty.value c.symbolTable (first :: more.map Prod.snd) := by
  refine ⟨by decide!, ?_⟩
  intro c ty first more semi hty hinc hname hinit hmore hs
  exact ⟨_, parse_declarators c ty first more semi hty hinc hname hinit hmore hs,
    rfl, rfl, rfl⟩

/-- Witness of C21: the eleven tokens of `int a = 1, b, c = 3;` record `a`, `b`
and `c` as variables of type `int`. -/
theorem comma_chained_declaration_witness :
    ∃ c1, parse MiniCCompiler.new
        (declarationTokens ⟨.KEYWORD, utf16 "int", 1, 0⟩
          (⟨.IDENTIFIER, utf16 "a", 1, 4⟩,
            some (⟨.OPERATOR, utf16 "=", 1, 6⟩, ⟨.INTEGER, utf16 "1", 1, 8⟩))
          [(⟨.DELIMITER, utf16 ",", 1, 9⟩, ⟨.IDENTIFIER, utf16 "b", 1, 11⟩, none),
            (⟨.DELIMITER, utf16 ",", 1, 12⟩, ⟨.IDENTIFIER, utf16 "c", 1, 14⟩,
              some (⟨.OPERATOR, utf16 "=", 1, 16⟩, ⟨.INTEGER, utf16 "3", 1, 18⟩))]
          ⟨.DELIMITER, utf16 ";", 1, 19⟩) = some c1 ∧
      c1.currentToken = 11 ∧ c1.errors = [] ∧
      c1.symbolTable = [(utf16 "a", .variable (utf16 "int")),
        (utf16 "b", .variable (utf16 "int")), (utf16 "c", .variable (utf16 "int"))] :=
  comma_chained_declaration.2 MiniCCompiler.new ⟨.KEYWORD, utf16 "int", 1, 0⟩
    (⟨.IDENTIFIER, utf16 "a", 1, 4⟩,
      some (⟨.OPERATOR, utf16 "=", 1, 6⟩, ⟨.INTEGER, utf16 "1", 1, 8⟩))
    [(⟨.DELIMITER, utf16 ",", 1, 9⟩, ⟨.IDENTIFIER, utf16 "b", 1, 11⟩, none),
      (⟨.DELIMITER, utf16 ",", 1, 12⟩, ⟨.IDENTIFIER, utf16 "c", 1, 14⟩,
        some (⟨.OPERATOR, utf16 "=", 1, 16⟩, ⟨.INTEGER, utf16 "3", 1, 18⟩))]
    ⟨.DELIMITER, utf16 ";", 1, 19⟩ rfl (by decide) rfl ⟨rfl, rfl, rfl⟩
    ⟨rfl, rfl, trivial, rfl, rfl, ⟨rfl, rfl, rfl⟩, trivial⟩ rfl

/-! ## Two runs of the parser side by side -/

theorem optSim_some {R : MiniCCompiler → MiniCCompiler → Prop} {a b : MiniCCompiler}
    (h : R a b) : OptSim R (some a) (some b) := by
  intro r hr
  cases hr
  exact ⟨b, rfl, h⟩

theorem optSim_none {R : MiniCCompiler → MiniCCompiler → Prop} (y : Option MiniCCompiler) :
    OptSim R none y := by
  intro r hr
  cases hr

theorem optSim_bind {R : MiniCCompiler → MiniCCompiler → Prop} {x y : Option MiniCCompiler}
    {f g : MiniCCompiler → Option MiniCCompiler} (h : OptSim R x y)
    (k : ∀ a b, R a b → OptSim R (f a) (g b)) : OptSim R (x.bind f) (y.bind g) := by
  intro r hr
  cases x with
  | none => cases hr
  | some a =>
    obtain ⟨b, hb, hab⟩ := h a rfl
    rw [hb]
    exact k a b hab r hr

theorem optSim_ite {R : MiniCCompiler → MiniCCompiler → Prop} {p q : Prop} [Decidable p]
    [Decidable q] {x x2 y y2 : Option MiniCCompiler} (hpq : q ↔ p) (h1 : p → OptSim R x y)
    (h2 : ¬p → OptSim R x2 y2) :
    OptSim R (if p then x else x2) (if q then y else y2) := by
  by_cases hp : p
  · rw [if_pos hp, if_pos (hpq.2 hp)]
    exact h1 hp
  · rw [if_neg hp, if_neg (fun hq => hp (hpq.1 hq))]
    exact h2 hp

/-- The shape `let x ← if b then f else some y; k x` of the optional parts. -/
theorem optSim_opt_bind {R : MiniCCompiler → MiniCCompiler → Prop} {p q : Prop} [Decidable p]
    [Decidable q] {x y : Option MiniCCompiler} {a b : MiniCCompiler}
    {f g : MiniCCompiler → Option MiniCCompiler} (hpq : q ↔ p) (h1 : p → OptSim R x y)
    (h2 : R a b) (k : ∀ a b, R a b → OptSim R (f a) (g b)) :
    OptSim R (if p then x.bind f else (some a).bind f)
      (if q then y.bind g else (some b).bind g) :=
  optSim_ite hpq (fun hp => optSim_bind (h1 hp) k) (fun _ => k a b h2)

theorem Simulation.current {R : MiniCCompiler → MiniCCompiler → Prop} (S : Simulation R)
    {c c' : MiniCCompiler} (h : R c c') : getCurrentToken c' = getCurrentToken c := by
  rw [getCurrentToken, getCurrentToken, S.tokens c c' h, S.cursor c c' h]

theorem Simulation.checkToken {R : MiniCCompiler → MiniCCompiler → Prop} (S : Simulation R)
    {c c' : MiniCCompiler} (h : R c c') (type : TokenType) (value : JSString) :
    MiniC.checkToken c' type value = MiniC.checkToken c type value := by
  rw [checkToken_eq, checkToken_eq, S.current h]

theorem Simulation.checkTokenType {R : MiniCCompiler → MiniCCompiler → Prop}
    (S : Simulation R) {c c' : MiniCCompiler} (h : R c c') (type : TokenType) :
    MiniC.checkTokenType c' type = MiniC.checkTokenType c type := by
  rw [checkTokenType_eq, checkTokenType_eq, S.current h]

theorem Simulation.inside {R : MiniCCompiler → MiniCCompiler → Prop} (S : Simulation R)
    {c c' : MiniCCompiler} (h : R c c') :
    c'.currentToken < c'.tokens.length ↔ c.currentToken < c.tokens.length := by
  rw [S.tokens c c' h, S.cursor c c' h]

theorem Simulation.consumeToken {R : MiniCCompiler → MiniCCompiler → Prop} (S : Simulation R)
    {c c' : MiniCCompiler} (h : R c c') (type : TokenType) (value : JSString) :
    R (MiniC.consumeToken c type value).2 (MiniC.consumeToken c' type value).2 := by
  rw [MiniC.consumeToken, MiniC.consumeToken, S.current h]
  split
  · exact S.adv _ _ h
  · exact S.syn _ _ _ _ h

theorem Simulation.parseInclude {R : MiniCCompiler → MiniCCompiler → Prop} (S : Simulation R)
    {c c' : MiniCCompiler} (h : R c c') : R (MiniC.parseInclude c) (MiniC.parseInclude c') := by
  have h1 := S.consumeToken h .DELIMITER (utf16 "#")
  have h2 := S.consumeToken h1 .KEYWORD (utf16 "include")
  have h3 := S.consumeToken h2 .OPERATOR (utf16 "<")
  rw [MiniC.parseInclude, MiniC.parseInclude]
  simp only [S.checkToken h2, S.checkTokenType h3]
  split
  · split
    · exact S.consumeToken (S.syn _ _ _ _ h3) _ _
    · exact S.consumeToken (S.adv _ _ h3) _ _
  · exact S.syn _ _ _ _ h2

theorem Simulation.blockOrStatement {R : MiniCCompiler → MiniCCompiler → Prop}
    (S : Simulation R) {f g f2 g2 : MiniCCompiler → Option MiniCCompiler} (hb : Sim R f g)
    (hs : Sim R f2 g2) : Sim R (MiniC.blockOrStatement f f2) (MiniC.blockOrStatement g g2) := by
  intro c c' h
  rw [MiniC.blockOrStatement, MiniC.blockOrStatement]
  simp only [Option.bind_eq_bind]
  refine optSim_ite (by rw [S.checkToken h]) (fun _ => ?_) (fun _ => hs c c' h)
  refine optSim_bind (hb _ _ (S.consumeToken h _ _)) (fun a b hab => ?_)
  exact optSim_some (S.consumeToken hab _ _)

theorem parsePrimary_sim {R : MiniCCompiler → MiniCCompiler → Prop} (S : Simulation R)
    {n m : Nat} (ih : AllSim R n m) : Sim R (parsePrimary (n + 1)) (parsePrimary (m + 1)) := by
  intro c c' h
  rw [parsePrimary, parsePrimary]
  simp only [Option.bind_eq_bind]
  refine optSim_ite (by simp only [S.checkTokenType h]) (fun _ => optSim_some (S.adv _ _ h))
    (fun _ => ?_)
  refine optSim_ite (by simp only [S.checkTokenType h]) (fun _ => ?_) (fun _ => ?_)
  · rw [S.current h]
    have h1 := S.sem c c' (fun st => !st.has (getCurrentToken c).value)
      (utf16 "Undeclared variable: " ++ (getCurrentToken c).value)
      (utf16 "Declare variable before use") h
    have h2 := S.adv _ _ h1
    refine optSim_ite (by rw [S.checkToken h2]) (fun _ => ?_) (fun _ => optSim_some h2)
    exact ih.parseFunctionCall _ _ (S.ret _ _ h2)
  · refine optSim_ite (by rw [S.checkToken h]) (fun _ => ?_)
      (fun _ => optSim_some (S.syn _ _ _ _ h))
    refine optSim_bind (ih.parseExpression _ _ (S.consumeToken h _ _)) (fun a b hab => ?_)
    exact optSim_some (S.consumeToken hab _ _)
theorem level_sim {R : MiniCCompiler → MiniCCompiler → Prop} (S : Simulation R)
    {n m : Nat} (ih : AllSim R n m) (k : Nat) (hk : k ≤ 6) :
    Sim R (levelMethod k (n + 1)) (levelMethod k (m + 1)) := by
  intro c c' h
  cases k with
  | zero =>
    show OptSim R (parseUnary (n + 1) c) (parseUnary (m + 1) c')
    rw [parseUnary_succ, parseUnary_succ, S.current h]
    exact optSim_ite Iff.rfl (fun _ => ih.level 0 (by omega) _ _ (S.adv _ _ h))
      (fun _ => ih.parsePrimary _ _ h)
  | succ k =>
    rw [levelMethod_succ k (by omega), levelMethod_succ k (by omega)]
    exact optSim_bind (ih.level k (by omega) _ _ h) (ih.loop k (by omega))

theorem loop_sim {R : MiniCCompiler → MiniCCompiler → Prop} (S : Simulation R)
    {n m : Nat} (ih : AllSim R n m) (k : Nat) (hk : k < 6) :
    Sim R (loopMethod k (n + 1)) (loopMethod k (m + 1)) := by
  intro c c' h
  rw [loopMethod_succ k hk, loopMethod_succ k hk, S.current h]
  exact optSim_ite Iff.rfl
    (fun _ => optSim_bind (ih.level k (by omega) _ _ (S.adv _ _ h)) (ih.loop k hk))
    (fun _ => optSim_some h)

theorem parseExpression_sim {R : MiniCCompiler → MiniCCompiler → Prop}
    {n m : Nat} (ih : AllSim R n m) :
    Sim R (parseExpression (n + 1)) (parseExpression (m + 1)) := by
  intro c c' h
  rw [parseExpression, parseExpression]
  exact ih.level 6 (Nat.le_refl 6) c c' h

theorem parseAssignment_sim {R : MiniCCompiler → MiniCCompiler → Prop} (S : Simulation R)
    {n m : Nat} (ih : AllSim R n m) (x : JSString) :
    Sim R (parseAssignment (n + 1) x) (parseAssignment (m + 1) x) := by
  intro c c' h
  rw [parseAssignment, parseAssignment]
  simp only [Option.bind_eq_bind]
  have h1 := S.sem c c' (fun st => !st.has x) (utf16 "Undeclared variable: " ++ x)
    (utf16 "Declare variable before use") h
  exact optSim_bind (ih.parseExpression _ _ (S.adv _ _ h1))
    (fun a b hab => optSim_some (S.consumeToken hab _ _))

theorem parseArgumentList_sim {R : MiniCCompiler → MiniCCompiler → Prop} (S : Simulation R)
    {n m : Nat} (ih : AllSim R n m) :
    Sim R (parseArgumentList (n + 1)) (parseArgumentList (m + 1)) := by
  intro c c' h
  rw [parseArgumentList, parseArgumentList]
  simp only [Option.bind_eq_bind]
  refine optSim_bind (ih.parseExpression _ _ h) (fun a b hab => ?_)
  refine optSim_ite (by rw [S.checkToken hab]) (fun _ => ?_) (fun _ => optSim_some hab)
  exact optSim_ite (S.inside (S.adv _ _ hab))
    (fun _ => ih.parseArgumentList _ _ (S.adv _ _ hab)) (fun _ => optSim_some (S.adv _ _ hab))

theorem parseFunctionCall_sim {R : MiniCCompiler → MiniCCompiler → Prop} (S : Simulation R)
    {n m : Nat} (ih : AllSim R n m) :
    Sim R (parseFunctionCall (n + 1)) (parseFunctionCall (m + 1)) := by
  intro c c' h
  rw [parseFunctionCall, parseFunctionCall]
  simp only [Option.bind_eq_bind]
  rw [S.current h]
  have h2 := S.sem _ _ (fun st => !st.has (getCurrentToken c).value &&
      !([utf16 "printf", utf16 "scanf"].contains (getCurrentToken c).value))
    (utf16 "Undeclared function: " ++ (getCurrentToken c).value)
    (utf16 "Declare function before use") (S.adv _ _ h)
  have h3 := S.consumeToken h2 .DELIMITER (utf16 "(")
  refine optSim_opt_bind (by rw [S.checkToken h3]) (fun _ => ih.parseArgumentList _ _ h3) h3
    (fun a b hab => ?_)
  exact optSim_some (S.consumeToken (S.consumeToken hab _ _) _ _)

theorem parseReturnStatement_sim {R : MiniCCompiler → MiniCCompiler → Prop}
    (S : Simulation R) {n m : Nat} (ih : AllSim R n m) :
    Sim R (parseReturnStatement (n + 1)) (parseReturnStatement (m + 1)) := by
  intro c c' h
  rw [parseReturnStatement, parseReturnStatement]
  simp only [Option.bind_eq_bind]
  have h1 := S.consumeToken h .KEYWORD (utf16 "return")
  exact optSim_opt_bind (by rw [S.checkToken h1]) (fun _ => ih.parseExpression _ _ h1) h1
    (fun a b hab => optSim_some (S.consumeToken hab _ _))

theorem parseForStatement_sim {R : MiniCCompiler → MiniCCompiler → Prop} (S : Simulation R)
    {n m : Nat} (ih : AllSim R n m) :
    Sim R (parseForStatement (n + 1)) (parseForStatement (m + 1)) := by
  intro c c' h
  rw [parseForStatement, parseForStatement]
  simp only [Option.bind_eq_bind]
  have h2 := S.consumeToken (S.consumeToken h .KEYWORD (utf16 "for")) .DELIMITER (utf16 "(")
  refine optSim_opt_bind (by rw [S.checkToken h2]) (fun _ => ih.parseStatement _ _ h2)
    (S.adv _ _ h2) (fun a3 b3 h3 => ?_)
  refine optSim_opt_bind (by rw [S.checkToken h3]) (fun _ => ih.parseExpression _ _ h3) h3
    (fun a4 b4 h4 => ?_)
  have h5 := S.consumeToken h4 .DELIMITER (utf16 ";")
  refine optSim_opt_bind (by rw [S.checkToken h5]) (fun _ => ih.parseExpression _ _ h5) h5
    (fun a6 b6 h6 => ?_)
  exact S.blockOrStatement ih.parseBlockStatement ih.parseStatement _ _
    (S.consumeToken h6 _ _)

theorem parseWhileStatement_sim {R : MiniCCompiler → MiniCCompiler → Prop}
    (S : Simulation R) {n m : Nat} (ih : AllSim R n m) :
    Sim R (parseWhileStatement (n + 1)) (parseWhileStatement (m + 1)) := by
  intro c c' h
  rw [parseWhileStatement, parseWhileStatement]
  simp only [Option.bind_eq_bind]
  have h2 := S.consumeToken (S.consumeToken h .KEYWORD (utf16 "while")) .DELIMITER (utf16 "(")
  exact optSim_bind (ih.parseExpression _ _ h2) (fun a b hab =>
    S.blockOrStatement ih.parseBlockStatement ih.parseStatement _ _ (S.consumeToken hab _ _))

theorem parseIfStatement_sim {R : MiniCCompiler → MiniCCompiler → Prop} (S : Simulation R)
    {n m : Nat} (ih : AllSim R n m) :
    Sim R (parseIfStatement (n + 1)) (parseIfStatement (m + 1)) := by
  intro c c' h
  rw [parseIfStatement, parseIfStatement]
  simp only [Option.bind_eq_bind]
  have h2 := S.consumeToken (S.consumeToken h .KEYWORD (utf16 "if")) .DELIMITER (utf16 "(")
  refine optSim_bind (ih.parseExpression _ _ h2) (fun a3 b3 h3 => ?_)
  refine optSim_bind (S.blockOrStatement ih.parseBlockStatement ih.parseStatement _ _
    (S.consumeToken h3 _ _)) (fun a5 b5 h5 => ?_)
  exact optSim_ite (by rw [S.checkToken h5])
    (fun _ => S.blockOrStatement ih.parseBlockStatement ih.parseStatement _ _ (S.adv _ _ h5))
    (fun _ => optSim_some h5)

theorem parseStatement_sim {R : MiniCCompiler → MiniCCompiler → Prop} (S : Simulation R)
    {n m : Nat} (ih : AllSim R n m) :
    Sim R (parseStatement (n + 1)) (parseStatement (m + 1)) := by
  intro c c' h
  rw [parseStatement, parseStatement]
  simp only [Option.bind_eq_bind]
  rw [S.current h]
  have h1 := S.adv _ _ h
  refine optSim_ite (by rw [S.checkTokenType h]) (fun _ => ?_) (fun _ => ?_)
  · refine optSim_ite Iff.rfl (fun _ => ih.parseDeclarationOrFunction _ _ h) (fun _ => ?_)
    refine optSim_ite Iff.rfl (fun _ => ih.parseIfStatement _ _ h) (fun _ => ?_)
    refine optSim_ite Iff.rfl (fun _ => ih.parseWhileStatement _ _ h) (fun _ => ?_)
    refine optSim_ite Iff.rfl (fun _ => ih.parseForStatement _ _ h) (fun _ => ?_)
    refine optSim_ite Iff.rfl (fun _ => ih.parseReturnStatement _ _ h) (fun _ => ?_)
    refine optSim_ite Iff.rfl (fun _ => ih.parseFunctionCall _ _ h) (fun _ => ?_)
    exact optSim_some (S.adv _ _ (S.syn _ _ _ _ h))
  · refine optSim_ite (by rw [S.checkTokenType h]) (fun _ => ?_)
      (fun _ => optSim_some (S.adv _ _ (S.syn _ _ _ _ h)))
    refine optSim_ite (by rw [S.checkToken h1])
      (fun _ => ih.parseFunctionCall _ _ (S.ret _ _ h1)) (fun _ => ?_)
    exact optSim_ite (by simp only [S.checkToken h1])
      (fun _ => ih.parseAssignment _ _ _ h1) (fun _ => optSim_some (S.syn _ _ _ _ h1))

theorem parseBlockStatement_sim {R : MiniCCompiler → MiniCCompiler → Prop}
    (S : Simulation R) {n m : Nat} (ih : AllSim R n m) :
    Sim R (parseBlockStatement (n + 1)) (parseBlockStatement (m + 1)) := by
  intro c c' h
  rw [parseBlockStatement, parseBlockStatement]
  simp only [Option.bind_eq_bind]
  exact optSim_ite (by rw [S.checkToken h, S.tokens c c' h, S.cursor c c' h])
    (fun _ => optSim_bind (ih.parseStatement _ _ h) ih.parseBlockStatement)
    (fun _ => optSim_some h)

theorem parseDeclarationLoop_sim {R : MiniCCompiler → MiniCCompiler → Prop}
    (S : Simulation R) {n m : Nat} (ih : AllSim R n m) (t : JSString) :
    Sim R (parseDeclarationLoop (n + 1) t) (parseDeclarationLoop (m + 1) t) := by
  intro c c' h
  rw [parseDeclarationLoop, parseDeclarationLoop]
  simp only [Option.bind_eq_bind]
  have h1 := S.adv _ _ h
  rw [S.current h1]
  have h2 := S.adv _ _ (S.set _ _ (getCurrentToken (advance c)).value (.variable t) h1)
  refine optSim_ite (by rw [S.checkToken h]) (fun _ => ?_) (fun _ => optSim_some h)
  refine optSim_ite (by rw [S.checkTokenType h1]) (fun _ => ?_)
    (fun _ => ih.parseDeclarationLoop t _ _ (S.syn _ _ _ _ h1))
  exact optSim_opt_bind (by rw [S.checkToken h2])
    (fun _ => ih.parseExpression _ _ (S.adv _ _ h2)) h2 (ih.parseDeclarationLoop t)

theorem parseDeclaration_sim {R : MiniCCompiler → MiniCCompiler → Prop} (S : Simulation R)
    {n m : Nat} (ih : AllSim R n m) (t x : JSString) :
    Sim R (parseDeclaration (n + 1) t x) (parseDeclaration (m + 1) t x) := by
  intro c c' h
  rw [parseDeclaration, parseDeclaration]
  simp only [Option.bind_eq_bind]
  have h1 := S.set _ _ x (.variable t) h
  exact optSim_opt_bind (by rw [S.checkToken h1])
    (fun _ => ih.parseExpression _ _ (S.adv _ _ h1)) h1
    (fun a b hab => optSim_bind (ih.parseDeclarationLoop t _ _ hab)
      (fun a b hab => optSim_some (S.consumeToken hab _ _)))

theorem parseFunction_sim {R : MiniCCompiler → MiniCCompiler → Prop} (S : Simulation R)
    {n m : Nat} (ih : AllSim R n m) (t x : JSString) :
    Sim R (parseFunction (n + 1) t x) (parseFunction (m + 1) t x) := by
  intro c c' h
  rw [parseFunction, parseFunction]
  simp only [Option.bind_eq_bind]
  have h2 := S.consumeToken (S.set _ _ x (.function t) h) .DELIMITER (utf16 "(")
  exact optSim_opt_bind (by rw [S.checkToken h2])
    (fun _ => ih.parseParameterList _ _ h2) h2
    (fun a b hab => optSim_bind
      (ih.parseBlockStatement _ _ (S.consumeToken (S.consumeToken hab _ _) _ _))
      (fun a b hab => optSim_some (S.consumeToken hab _ _)))

theorem parseDeclarationOrFunction_sim {R : MiniCCompiler → MiniCCompiler → Prop}
    (S : Simulation R) {n m : Nat} (ih : AllSim R n m) :
    Sim R (parseDeclarationOrFunction (n + 1)) (parseDeclarationOrFunction (m + 1)) := by
  intro c c' h
  rw [parseDeclarationOrFunction, parseDeclarationOrFunction]
  simp only [Option.bind_eq_bind]
  have h1 := S.adv _ _ h
  have h2 := S.adv _ _ h1
  rw [S.current h, S.current h1]
  refine optSim_ite (by rw [S.checkTokenType h1]) (fun _ => optSim_some (S.syn _ _ _ _ h1))
    (fun _ => ?_)
  refine optSim_ite (by rw [S.checkToken h2]) (fun _ => ih.parseFunction _ _ _ _ h2)
    (fun _ => ?_)
  exact optSim_ite (by simp only [S.checkToken h2]) (fun _ => ih.parseDeclaration _ _ _ _ h2)
    (fun _ => optSim_some (S.syn _ _ _ _ h2))

theorem parseProgram_sim {R : MiniCCompiler → MiniCCompiler → Prop} (S : Simulation R)
    {n m : Nat} (ih : AllSim R n m) :
    Sim R (parseProgram (n + 1)) (parseProgram (m + 1)) := by
  intro c c' h
  rw [parseProgram, parseProgram]
  simp only [Option.bind_eq_bind]
  refine optSim_ite (S.inside h) (fun _ => ?_) (fun _ => optSim_some h)
  refine optSim_ite (by rw [S.checkToken h])
    (fun _ => ih.parseProgram _ _ (S.parseInclude h)) (fun _ => ?_)
  exact optSim_ite (by rw [S.checkTokenType h])
    (fun _ => optSim_bind (ih.parseDeclarationOrFunction _ _ h) ih.parseProgram)
    (fun _ => ih.parseProgram _ _ (S.adv _ _ (S.syn _ _ _ _ h)))

theorem parseParameterList_sim {R : MiniCCompiler → MiniCCompiler → Prop}
    (S : Simulation R) {n m : Nat} (ih : AllSim R n m) :
    Sim R (parseParameterList (n + 1)) (parseParameterList (m + 1)) := by
  intro c c' h
  rw [parseParameterList, parseParameterList]
  simp only [Option.bind_eq_bind]
  have h1 := S.adv _ _ h
  rw [S.current h, S.current h1, S.checkTokenType h1]
  refine optSim_ite (by rw [S.checkTokenType h]) (fun _ => ?_)
    (fun _ => optSim_some (S.syn _ _ _ _ h))
  have h2 : R
      (if checkTokenType (advance c) .IDENTIFIER = true then
        advance (setSymbol (advance c) (getCurrentToken (advance c)).value
          (.parameter (getCurrentToken c).value))
      else syntaxError (advance c) (utf16 "Expected parameter name")
        (utf16 "Add parameter name after type"))
      (if checkTokenType (advance c) .IDENTIFIER = true then
        advance (setSymbol (advance c') (getCurrentToken (advance c)).value
          (.parameter (getCurrentToken c).value))
      else syntaxError (advance c') (utf16 "Expected parameter name")
        (utf16 "Add parameter name after type")) := by
    split
    · exact S.adv _ _ (S.set _ _ _ _ h1)
    · exact S.syn _ _ _ _ h1
  refine optSim_ite (by rw [S.checkToken h2]) (fun _ => ?_) (fun _ => optSim_some h2)
  exact optSim_ite (S.inside (S.adv _ _ h2)) (fun _ => ih.parseParameterList _ _ (S.adv _ _ h2))
    (fun _ => optSim_some (S.adv _ _ h2))

/-- Two runs of any parser method that start in related instances, the second with
at least as much fuel, end in related instances. -/
theorem allSim {R : MiniCCompiler → MiniCCompiler → Prop} (S : Simulation R) :
    ∀ n m, n ≤ m → AllSim R n m := by
  intro n
  induction n with
  | zero =>
    intro m _
    exact
      { parseParameterList := fun _ _ _ => optSim_none _
        parseProgram := fun _ _ _ => optSim_none _
        parseDeclarationOrFunction := fun _ _ _ => optSim_none _
        parseFunction := fun _ _ _ _ _ => optSim_none _
        parseDeclaration := fun _ _ _ _ _ => optSim_none _
        parseDeclarationLoop := fun _ _ _ _ => optSim_none _
        parseBlockStatement := fun _ _ _ => optSim_none _
        parseStatement := fun _ _ _ => optSim_none _
        parseIfStatement := fun _ _ _ => optSim_none _
        parseWhileStatement := fun _ _ _ => optSim_none _
        parseForStatement := fun _ _ _ => optSim_none _
        parseReturnStatement := fun _ _ _ => optSim_none _
        parseFunctionCall := fun _ _ _ => optSim_none _
        parseArgumentList := fun _ _ _ => optSim_none _
        parseAssignment := fun _ _ _ _ => optSim_none _
        parseExpression := fun _ _ _ => optSim_none _
        level := fun k hk _ _ _ => by
          have : ∀ c, levelMethod k 0 c = none := by
            intro c
            interval_cases k <;> rfl
          rw [this]
          exact optSim_none _
        loop := fun k hk _ _ _ => by
          have : ∀ c, loopMethod k 0 c = none := by
            intro c
            interval_cases k <;> rfl
          rw [this]
          exact optSim_none _
        parsePrimary := fun _ _ _ => optSim_none _ }
  | succ n ih =>
    intro m hm
    obtain ⟨m, rfl⟩ : ∃ k, m = k + 1 := ⟨m - 1, by omega⟩
    have ih := ih m (by omega)
    exact
      { parseParameterList := parseParameterList_sim S ih
        parseProgram := parseProgram_sim S ih
        parseDeclarationOrFunction := parseDeclarationOrFunction_sim S ih
        parseFunction := parseFunction_sim S ih
        parseDeclaration := parseDeclaration_sim S ih
        parseDeclarationLoop := parseDeclarationLoop_sim S ih
        parseBlockStatement := parseBlockStatement_sim S ih
        parseStatement := parseStatement_sim S ih
        parseIfStatement := parseIfStatement_sim S ih
        parseWhileStatement := parseWhileStatement_sim S ih
        parseForStatement := parseForStatement_sim S ih
        parseReturnStatement := parseReturnStatement_sim S ih
        parseFunctionCall := parseFunctionCall_sim S ih
        parseArgumentList := parseArgumentList_sim S ih
        parseAssignment := parseAssignment_sim S ih
        parseExpression := parseExpression_sim ih
        level := level_sim S ih
        loop := loop_sim S ih
        parsePrimary := parsePrimary_sim S ih }
/-! ## The symbol table does not steer the parser -/

/-- Every parser step keeps the tokens, the cursor and the `SYNTAX` diagnostics of
two instances equal, whatever their symbol tables hold. -/
theorem simulation_sameSyntax : Simulation SameSyntax where
  tokens := fun _ _ h => h.1
  cursor := fun _ _ h => h.2.1
  adv := fun c c' h => ⟨h.1, by show c'.currentToken + 1 = c.currentToken + 1; rw [h.2.1],
    h.2.2⟩
  ret := fun c c' h => ⟨h.1, by show c'.currentToken - 1 = c.currentToken - 1; rw [h.2.1],
    h.2.2⟩
  syn := fun c c' m s h => by
    have hg : getCurrentToken c' = getCurrentToken c := by
      rw [getCurrentToken, getCurrentToken, h.1, h.2.1]
    refine ⟨h.1, h.2.1, ?_⟩
    show (c'.errors ++ _).filter _ = (c.errors ++ _).filter _
    rw [List.filter_append, List.filter_append, h.2.2, hg]
  set := fun _ _ _ _ h => h
  sem := fun c c' p m s h => by
    have e1 : ∀ d : MiniCCompiler, SameSyntax d (semanticError d m s) := fun d =>
      ⟨rfl, rfl, by
        show (d.errors ++ _).filter _ = _
        rw [List.filter_append]
        simp [isSyntaxDiagnostic]⟩
    have e2 : ∀ d : MiniCCompiler, SameSyntax (semanticError d m s) d := fun d =>
      ⟨rfl, rfl, ((e1 d).2.2).symm⟩
    have tr : ∀ {a b d : MiniCCompiler}, SameSyntax a b → SameSyntax b d → SameSyntax a d :=
      fun h1 h2 => ⟨h2.1.trans h1.1, h2.2.1.trans h1.2.1, h2.2.2.trans h1.2.2⟩
    by_cases h1 : p c.symbolTable = true <;> by_cases h2 : p c'.symbolTable = true
    · rw [if_pos h1, if_pos h2]; exact tr (e2 c) (tr h (e1 c'))
    · rw [if_pos h1, if_neg h2]; exact tr (e2 c) h
    · rw [if_neg h1, if_pos h2]; exact tr h (e1 c')
    · rw [if_neg h1, if_neg h2]; exact h

/-- C25: semantic checks never change what is recognised. On every token list and
for every two initial symbol tables `parse` returns, ends at the same cursor and
appends diagnostics of kinds `SYNTAX` and `SEMANTIC` only, of which the `SYNTAX`
ones are the same in the same order. The two runs go in step: every statement,
expression, assignment and call that starts with equal cursors and equal `SYNTAX`
diagnostics ends so; an assignment still returns behind its right-hand expression
and `;`, and a call behind its arguments and `;`, whether or not the name is in
the symbol table. -/
theorem semantic_checks_keep_recognition (c : MiniCCompiler) (st st' : SymbolTable)
    (tokens : List Token) :
    (∃ r r' es es', parse { c with symbolTable := st } tokens = some r ∧
      parse { c with symbolTable := st' } tokens = some r' ∧
      r'.currentToken = r.currentToken ∧
      r.errors = c.errors ++ es ∧ r'.errors = c.errors ++ es' ∧
      es'.filter isSyntaxDiagnostic = es.filter isSyntaxDiagnostic ∧
      ∀ e ∈ es ++ es', e.type = .SYNTAX ∨ e.type = .SEMANTIC) ∧
    (∀ n a a' r, SameSyntax a a' → parseStatement n a = some r →
      ∃ r', parseStatement n a' = some r' ∧ SameSyntax r r') ∧
    (∀ n a a' r, SameSyntax a a' → parseExpression n a = some r →
      ∃ r', parseExpression n a' = some r' ∧ SameSyntax r r') ∧
    (∀ n x a a', SameSyntax a a' → 11 + 32 * (a.tokens.length - a.currentToken) ≤ n →
      ∃ r r', parseAssignment n x a = some r ∧ parseAssignment n x a' = some r' ∧
        SameSyntax r r') ∧
    (∀ n a a', SameSyntax a a' → a.currentToken < a.tokens.length →
      1 + 32 * (a.tokens.length - a.currentToken) ≤ n →
      ∃ r r', parseFunctionCall n a = some r ∧ parseFunctionCall n a' = some r' ∧
        SameSyntax r r') := by
  have S := fun n => allSim simulation_sameSyntax n n (Nat.le_refl n)
  refine ⟨?_, fun n a a' r h hr => (S n).parseStatement a a' h r hr,
    fun n a a' r h hr => (S n).parseExpression a a' h r hr, ?_, ?_⟩
  · obtain ⟨r, hr, -, -, -, -, es, he, hes⟩ := parse_total { c with symbolTable := st } tokens
    obtain ⟨r', hr', -, -, -, -, es', he', hes'⟩ :=
      parse_total { c with symbolTable := st' } tokens
    obtain ⟨r2, hr2, h2⟩ := (S (parseFuel tokens)).parseProgram
      { c with symbolTable := st, tokens := tokens, currentToken := 0 }
      { c with symbolTable := st', tokens := tokens, currentToken := 0 }
      ⟨rfl, rfl, rfl⟩ r hr
    have : r2 = r' := Option.some.inj (hr2.symm.trans hr')
    subst this
    refine ⟨r, r2, es, es', hr, hr', h2.2.1, he, he', ?_, ?_⟩
    · have h3 := h2.2.2
      rw [he, he', List.filter_append, List.filter_append] at h3
      exact List.append_cancel_left h3
    · intro e he
      rcases List.mem_append.1 he with h | h
      · rcases (hes e h).1 with h | h
        · exact Or.inl h
        · exact Or.inr h.1
      · rcases (hes' e h).1 with h | h
        · exact Or.inl h
        · exact Or.inr h.1
  · intro n x a a' h hB
    obtain ⟨r, hr, -⟩ := (allSpecs n).parseAssignment x a trivial hB
    obtain ⟨r', hr', h'⟩ := (S n).parseAssignment x a a' h r hr
    exact ⟨r, r', hr, hr', h'⟩
  · intro n a a' h hlt hB
    obtain ⟨r, hr, -⟩ := (allSpecs n).parseFunctionCall a hlt hB
    obtain ⟨r', hr', h'⟩ := (S n).parseFunctionCall a a' h r hr
    exact ⟨r, r', hr, hr', h'⟩

/-- Witness of C25: on the tokens `= 1 ;` the assignment to `x` ends at the same
cursor with the same `SYNTAX` diagnostics whether `x` is declared or not. -/
theorem semantic_checks_keep_recognition_witness :
    ∃ r r',
      parseAssignment 107 (utf16 "x")
        ⟨[⟨.OPERATOR, utf16 "=", 1, 2⟩, ⟨.INTEGER, utf16 "1", 1, 4⟩,
          ⟨.DELIMITER, utf16 ";", 1, 5⟩], 0, [], [], [], []⟩ = some r ∧
      parseAssignment 107 (utf16 "x")
        ⟨[⟨.OPERATOR, utf16 "=", 1, 2⟩, ⟨.INTEGER, utf16 "1", 1, 4⟩,
          ⟨.DELIMITER, utf16 ";", 1, 5⟩], 0, [], [],
          [(utf16 "x", .variable (utf16 "int"))], []⟩ = some r' ∧
      SameSyntax r r' :=
  (semantic_checks_keep_recognition MiniCCompiler.new [] [] []).2.2.2.1 107 (utf16 "x")
    ⟨[⟨.OPERATOR, utf16 "=", 1, 2⟩, ⟨.INTEGER, utf16 "1", 1, 4⟩,
      ⟨.DELIMITER, utf16 ";", 1, 5⟩], 0, [], [], [], []⟩
    ⟨[⟨.OPERATOR, utf16 "=", 1, 2⟩, ⟨.INTEGER, utf16 "1", 1, 4⟩,
      ⟨.DELIMITER, utf16 ";", 1, 5⟩], 0, [], [],
      [(utf16 "x", .variable (utf16 "int"))], []⟩
    ⟨rfl, rfl, rfl⟩ (by decide)

/-! ## The precedence chain and the flat parser -/

/-- Equal instances stay equal: two runs from the same instance differ in fuel only. -/
theorem simulation_eq : Simulation (fun c c' : MiniCCompiler => c = c') where
  tokens := fun _ _ h => by rw [h]
  cursor := fun _ _ h => by rw [h]
  adv := fun _ _ h => by rw [h]
  ret := fun _ _ h => by rw [h]
  syn := fun _ _ _ _ h => by rw [h]
  set := fun _ _ _ _ h => by rw [h]
  sem := fun _ _ _ _ _ h => by rw [h]

/-- More fuel does not change what `parseUnary` returns. -/
theorem parseUnary_fuel {n m : Nat} {c r : MiniCCompiler} (h : parseUnary n c = some r)
    (hm : n ≤ m) : parseUnary m c = some r := by
  obtain ⟨r', hr', hrr⟩ := (allSim simulation_eq n m hm).level 0 (by omega) c c rfl r h
  rw [hrr]
  exact hr'

/-- Whatever the fuel, `parseUnary` returns the same instance. -/
theorem parseUnary_unique {n m : Nat} {c r r' : MiniCCompiler} (h : parseUnary n c = some r)
    (h' : parseUnary m c = some r') : r = r' := by
  have h1 := parseUnary_fuel h (Nat.le_max_left n m)
  have h2 := parseUnary_fuel h' (Nat.le_max_right n m)
  exact Option.some.inj (h1.symm.trans h2)

theorem isBinaryOperator_iff (t : Token) :
    isBinaryOperator t = true ↔ ∃ j, j < 6 ∧ isLevelOperator j t = true := by
  have h : isBinaryOperator t = (isLevelOperator 5 t || isLevelOperator 4 t ||
      isLevelOperator 3 t || isLevelOperator 2 t || isLevelOperator 1 t ||
      isLevelOperator 0 t) := by
    simp [isBinaryOperator, binaryOperators, isLevelOperator, levelOperators, Bool.or_assoc]
  rw [h]
  constructor
  · intro h1
    simp only [Bool.or_eq_true] at h1
    rcases h1 with ((((h1 | h1) | h1) | h1) | h1) | h1
    exacts [⟨5, by omega, h1⟩, ⟨4, by omega, h1⟩, ⟨3, by omega, h1⟩, ⟨2, by omega, h1⟩,
      ⟨1, by omega, h1⟩, ⟨0, by omega, h1⟩]
  · rintro ⟨j, hj, h1⟩
    interval_cases j <;> simp [h1]

theorem FlatSteps.widen {k k' : Nat} (hk : k ≤ k') {a b : MiniCCompiler}
    (h : FlatSteps k a b) : FlatSteps k' a b := by
  induction h with
  | done c => exact .done c
  | step c c1 r j n hj hop hu _ ih => exact .step c c1 r j n (by omega) hop hu ih

theorem FlatSteps.append {k : Nat} {a b d : MiniCCompiler} (h : FlatSteps k a b)
    (h2 : FlatSteps k b d) : FlatSteps k a d := by
  induction h with
  | done c => exact h2
  | step c c1 r j n hj hop hu _ ih => exact .step c c1 d j n hj hop hu (ih h2)

theorem levelMethod_zero_fuel (k : Nat) (c : MiniCCompiler) : levelMethod k 0 c = none := by
  rcases k with _ | _ | _ | _ | _ | _ | _ <;> rfl

theorem loopMethod_zero_fuel (k : Nat) (c : MiniCCompiler) : loopMethod k 0 c = none := by
  rcases k with _ | _ | _ | _ | _ | _ <;> rfl

/-- The loop of level `k + 1`, started where no operator of a lower level stands,
reads operator-operand pairs of the levels up to `k` and stops where none stands. -/
theorem loopMethod_flat (k : Nat) (hk : k < 6)
    (ihk : ∀ m c r, levelMethod k m c = some r →
      ∃ c1 n, parseUnary n c = some c1 ∧ FlatSteps k c1 r ∧
        ∀ j, j < k → isLevelOperator j (getCurrentToken r) = false) :
    ∀ m c r, loopMethod k m c = some r →
      (∀ j, j < k → isLevelOperator j (getCurrentToken c) = false) →
      FlatSteps (k + 1) c r ∧ ∀ j, j < k + 1 → isLevelOperator j (getCurrentToken r) = false := by
  intro m
  induction m with
  | zero =>
    intro c r h
    rw [loopMethod_zero_fuel] at h
    cases h
  | succ m ih =>
    intro c r h hc
    rw [loopMethod_succ k hk] at h
    split at h
    · rename_i hop
      obtain ⟨c2, h2, h3⟩ := Option.bind_eq_some.1 h
      obtain ⟨c1, n, hu, hs, hf⟩ := ihk m _ _ h2
      obtain ⟨hs2, hf2⟩ := ih c2 r h3 hf
      exact ⟨.step c c1 r k n (by omega) hop hu
        ((hs.widen (Nat.le_succ k)).append hs2), hf2⟩
    · rename_i hop
      cases h
      refine ⟨.done c, fun j hj => ?_⟩
      by_cases hjk : j < k
      · exact hc j hjk
      · have : j = k := by omega
        rw [this]
        simpa using hop

/-- The method of level `k` reads a unary operand and then operator-operand pairs of
the levels below `k`, and stops where no operator of these levels stands. -/
theorem levelMethod_flat : ∀ k, k ≤ 6 → ∀ m c r, levelMethod k m c = some r →
    ∃ c1 n, parseUnary n c = some c1 ∧ FlatSteps k c1 r ∧
      ∀ j, j < k → isLevelOperator j (getCurrentToken r) = false := by
  intro k
  induction k with
  | zero =>
    intro _ m c r h
    exact ⟨r, m, h, .done r, fun j hj => absurd hj (by omega)⟩
  | succ k ih =>
    intro hk m c r h
    cases m with
    | zero =>
      rw [levelMethod_zero_fuel] at h
      cases h
    | succ m =>
      rw [levelMethod_succ k (by omega)] at h
      obtain ⟨c2, h2, h3⟩ := Option.bind_eq_some.1 h
      obtain ⟨c1, n, hu, hs, hf⟩ := ih (by omega) m c c2 h2
      obtain ⟨hs2, hf2⟩ := loopMethod_flat k (by omega) (ih (by omega)) m c2 r h3 hf
      exact ⟨c1, n, hu, (hs.widen (Nat.le_succ k)).append hs2, hf2⟩

theorem lt_of_isLevelOperator {c : MiniCCompiler} {j : Nat}
    (h : isLevelOperator j (getCurrentToken c) = true) : c.currentToken < c.tokens.length :=
  lt_of_checkTokenType
    (show checkTokenType c .OPERATOR = true by
      rw [checkTokenType_eq]; exact decide_eq_true (type_of_isLevelOperator h).1)
    (by decide)

/-- The flat loop follows a sequence of operator-operand pairs that ends where no
binary operator stands. -/
theorem parseFlatLoop_of_steps {c r : MiniCCompiler} (h : FlatSteps 6 c r)
    (hf : ∀ j, j < 6 → isLevelOperator j (getCurrentToken r) = false) :
    ∀ n, 4 + 32 * (c.tokens.length - c.currentToken) ≤ n → parseFlatLoop n c = some r := by
  induction h with
  | done c =>
    intro n hB
    obtain ⟨m, rfl⟩ : ∃ m, n = m + 1 := ⟨n - 1, by omega⟩
    have hb : isBinaryOperator (getCurrentToken c) = false := by
      cases hv : isBinaryOperator (getCurrentToken c) with
      | false => rfl
      | true =>
        obtain ⟨j, hj, hop⟩ := (isBinaryOperator_iff _).1 hv
        rw [hf j hj] at hop
        cases hop
    rw [parseFlatLoop, hb, if_neg (by decide)]
  | step c c1 r j n0 hj hop hu _ ih =>
    intro n hB
    obtain ⟨m, rfl⟩ : ∃ m, n = m + 1 := ⟨n - 1, by omega⟩
    have hlt := lt_of_isLevelOperator hop
    have hb : isBinaryOperator (getCurrentToken c) = true :=
      (isBinaryOperator_iff _).2 ⟨j, hj, hop⟩
    obtain ⟨c1', hu', a1⟩ := (allSpecs m).parseUnary (advance c) trivial
      (by show 3 + 32 * (c.tokens.length - (c.currentToken + 1)) ≤ m; omega)
    have : c1' = c1 := parseUnary_unique hu' hu
    subst this
    have ht : c1'.tokens = c.tokens := a1.ext.tokens
    have hk : c.currentToken + 1 ≤ c1'.currentToken := a1.cursor
    rw [parseFlatLoop, hb, if_pos rfl, hu', Option.some_bind]
    exact ih hf m (by rw [ht]; omega)

/-- C27: as a recogniser the precedence chain is a flat parser. On every parser
instance, with the fuel of the totality proof, `parseExpression` and the flat parser
(one unary operand read by `parseUnary`; then, while the current token is one of
`||`, `&&`, `==`, `!=`, `<`, `>`, `<=`, `>=`, `+`, `-`, `*`, `/`, consume it and read
another unary operand) both return, and they return the same instance: the same
cursor, diagnostics and symbol table. -/
theorem precedence_chain_is_flat (c : MiniCCompiler) (n : Nat)
    (hB : 10 + 32 * (c.tokens.length - c.currentToken) ≤ n) :
    ∃ r, parseExpression n c = some r ∧ parseExpressionFlat n c = some r := by
  obtain ⟨r, hr, -⟩ := (allSpecs n).parseExpression c trivial hB
  refine ⟨r, hr, ?_⟩
  obtain ⟨m, rfl⟩ : ∃ m, n = m + 1 := ⟨n - 1, by omega⟩
  rw [parseExpression] at hr
  obtain ⟨c1, n0, hu, hs, hf⟩ := levelMethod_flat 6 (Nat.le_refl 6) m c r hr
  obtain ⟨c1', hu', a1⟩ := (allSpecs m).parseUnary c trivial (by omega)
  have : c1' = c1 := parseUnary_unique hu' hu
  subst this
  have ht : c1'.tokens = c.tokens := a1.ext.tokens
  have hk : c.currentToken + 0 ≤ c1'.currentToken := a1.cursor
  rw [parseExpressionFlat, hu', Option.some_bind]
  exact parseFlatLoop_of_steps hs hf m (by rw [ht]; omega)

/-- Witness of C27: on the tokens of `1 + 2 * 3` both parsers return with the
cursor behind the five tokens. -/
theorem precedence_chain_is_flat_witness :
    ∃ r,
      parseExpression 170
        ⟨[⟨.INTEGER, utf16 "1", 1, 0⟩, ⟨.OPERATOR, utf16 "+", 1, 2⟩,
          ⟨.INTEGER, utf16 "2", 1, 4⟩, ⟨.OPERATOR, utf16 "*", 1, 6⟩,
          ⟨.INTEGER, utf16 "3", 1, 8⟩], 0, [], [], [], []⟩ = some r ∧
      parseExpressionFlat 170
        ⟨[⟨.INTEGER, utf16 "1", 1, 0⟩, ⟨.OPERATOR, utf16 "+", 1, 2⟩,
          ⟨.INTEGER, utf16 "2", 1, 4⟩, ⟨.OPERATOR, utf16 "*", 1, 6⟩,
          ⟨.INTEGER, utf16 "3", 1, 8⟩], 0, [], [], [], []⟩ = some r :=
  precedence_chain_is_flat
    ⟨[⟨.INTEGER, utf16 "1", 1, 0⟩, ⟨.OPERATOR, utf16 "+", 1, 2⟩,
      ⟨.INTEGER, utf16 "2", 1, 4⟩, ⟨.OPERATOR, utf16 "*", 1, 6⟩,
      ⟨.INTEGER, utf16 "3", 1, 8⟩], 0, [], [], [], []⟩ 170 (by decide)

/-! ## A call in expression position takes the terminator of the statement -/

/-- The first token of an operand without a call is not `;`. -/
theorem CallFree.head_ne_semi {ts : List Token} (h : CallFree (.level 0) ts) :
    ∃ t l, ts = t :: l ∧ isDelimiter (utf16 ";") t = false := by
  cases h with
  | operand _ hp =>
    cases hp with
    | literal t ht =>
      refine ⟨t, [], rfl, ?_⟩
      cases hd : isDelimiter (utf16 ";") t with
      | false => rfl
      | true =>
        simp only [isDelimiter, Bool.and_eq_true, decide_eq_true_eq] at hd
        simp [isLiteral, hd.1] at ht
    | identifier t ht => exact ⟨t, [], rfl, by simp [isDelimiter, ht]⟩
    | paren l r ts hl _ _ =>
      refine ⟨l, ts ++ [r], rfl, ?_⟩
      simp only [isDelimiter, Bool.and_eq_true, decide_eq_true_eq] at hl
      have : utf16 "(" ≠ utf16 ";" := by decide
      simp [isDelimiter, hl.2, this]
  | unary t ts ht _ =>
    exact ⟨t, ts, rfl, by simp [isDelimiter, type_of_isUnaryOperator ht]⟩

theorem isLevelOperator_of_not_binary {t : Token} (h : isBinaryOperator t = false) (j : Nat)
    (hj : j < 6) : isLevelOperator j t = false := by
  cases hv : isLevelOperator j t with
  | false => rfl
  | true =>
    rw [(isBinaryOperator_iff t).2 ⟨j, hj, hv⟩] at h
    cases h

theorem type_of_isBinaryOperator {t : Token} (h : isBinaryOperator t = true) :
    t.type = .OPERATOR := by
  obtain ⟨j, _, hj⟩ := (isBinaryOperator_iff t).1 h
  exact (type_of_isLevelOperator hj).1

/-- In expression position an identifier in the symbol table that is followed by
`(` is handed to `parseFunctionCall`, with the cursor back on the name. -/
theorem parsePrimary_call (c : MiniCCompiler) (name lp : Token) (l : List Token) (n : Nat)
    (hd : c.tokens.drop c.currentToken = name :: lp :: l) (hname : name.type = .IDENTIFIER)
    (hlp : isDelimiter (utf16 "(") lp = true) (hdecl : c.symbolTable.has name.value = true) :
    parsePrimary (n + 1) c = parseFunctionCall n c := by
  obtain ⟨hg, _, hd1⟩ := getCurrentToken_of_drop hd
  have h0 : (checkTokenType c .INTEGER || checkTokenType c .FLOAT ||
      checkTokenType c .STRING) = false := by
    simp [checkTokenType_eq, hg, hname]
  have h1 : checkTokenType c .IDENTIFIER = true := by simp [checkTokenType_eq, hg, hname]
  have h2 : checkToken (advance c) .DELIMITER (utf16 "(") = true := by
    rw [checkToken_eq, (getCurrentToken_of_drop (show (advance c).tokens.drop
      (advance c).currentToken = lp :: l from hd1)).1]
    exact hlp
  rw [parsePrimary]
  simp only [h0, h1, hg, hdecl, h2, if_true, if_false, Bool.false_eq_true, Bool.not_true,
    retreat_advance]

/-- Operator-operand pairs that end where no operator of the levels stands lead to
one instance only. -/
theorem FlatSteps.unique {k : Nat} {a b b' : MiniCCompiler} (h : FlatSteps k a b)
    (h' : FlatSteps k a b')
    (hf : ∀ j, j < k → isLevelOperator j (getCurrentToken b) = false)
    (hf' : ∀ j, j < k → isLevelOperator j (getCurrentToken b') = false) : b = b' := by
  induction h with
  | done c =>
    cases h' with
    | done => rfl
    | step _ c1 _ j n hj hop _ _ =>
      rw [hf j hj] at hop
      cases hop
  | step c c1 r j n hj hop hu _ ih =>
    cases h' with
    | done =>
      rw [hf' j hj] at hop
      cases hop
    | step _ c1' _ j' n' _ _ hu' hs' =>
      have : c1 = c1' := parseUnary_unique hu hu'
      subst this
      exact ih hs' hf

/-- A run of the flat parser that ends where no binary operator stands is what
`parseExpression` returns. -/
theorem parseExpression_of_steps {c c1 r : MiniCCompiler} {n0 : Nat}
    (hu : parseUnary n0 c = some c1) (hs : FlatSteps 6 c1 r)
    (hf : ∀ j, j < 6 → isLevelOperator j (getCurrentToken r) = false) (n : Nat)
    (hB : 10 + 32 * (c.tokens.length - c.currentToken) ≤ n) :
    parseExpression n c = some r := by
  obtain ⟨r', hr', -⟩ := (allSpecs n).parseExpression c trivial hB
  obtain ⟨m, rfl⟩ : ∃ m, n = m + 1 := ⟨n - 1, by omega⟩
  have hr2 := hr'
  rw [parseExpression] at hr2
  obtain ⟨c1', n1, hu', hs', hf'⟩ := levelMethod_flat 6 (Nat.le_refl 6) m c r' hr2
  have : c1' = c1 := parseUnary_unique hu' hu
  subst this
  rw [hr', FlatSteps.unique hs' hs hf' hf]

theorem SymbolTable.has_set_of_has (m : SymbolTable) (a b : JSString) (info : SymbolInfo)
    (h : m.has a = true) : (m.set b info).has a = true := by
  unfold SymbolTable.set
  split
  · obtain ⟨e, he, hea⟩ := List.any_eq_true.1 h
    refine List.any_eq_true.2 ⟨if (e.1 == b) = true then (b, info) else e,
      List.mem_map.2 ⟨e, he, rfl⟩, ?_⟩
    by_cases hb : (e.1 == b) = true
    · rw [if_pos hb]
      have h1 : e.1 = b := by simpa using hb
      have h2 : e.1 = a := by simpa using hea
      simp [← h1, h2]
    · rw [if_neg hb]
      exact hea
  · unfold SymbolTable.has
    rw [List.any_append]
    simp only [Bool.or_eq_true]
    exact Or.inl h

/-- A `consumeToken` for `;` at another token appends the diagnostic and stays. -/
theorem consumeToken_of_other {c : MiniCCompiler} {t : Token} {l : List Token}
    (hd : c.tokens.drop c.currentToken = t :: l) (ht : isDelimiter (utf16 ";") t = false) :
    (consumeToken c .DELIMITER (utf16 ";")).2 =
      { c with errors := c.errors ++ [expectedDiagnostic (utf16 ";") t] } := by
  have hg := (getCurrentToken_of_drop hd).1
  have hn : ¬(t.type = .DELIMITER ∧ t.value = utf16 ";") := by
    intro h
    simp [isDelimiter, h.1, h.2] at ht
  unfold consumeToken
  simp only [hg]
  rw [if_neg hn]
  simp only [syntaxError, hg]
  rfl

/-- Counterexample to C26 as stated: after `return f();` a second `;`, after
`return f();` the operator `+` with an operand, and after `int x = f();` a `,` with
a name each take the place of the terminator, and `compile` reports nothing. -/
theorem trailing_call_counterexample :
    (compileResult MiniCCompiler.new
        (utf16 "int f() \x7b return 1; \x7d int g() \x7b return f();; \x7d")).map
      (fun r => (r.success, r.errors)) = some (true, []) ∧
    (compileResult MiniCCompiler.new
        (utf16 "int f() \x7b return 1; \x7d int g() \x7b return f(); + 1; \x7d")).map
      (fun r => (r.success, r.errors)) = some (true, []) ∧
    (compileResult MiniCCompiler.new
        (utf16 "int f() \x7b return 1; \x7d int g() \x7b int x = f(); , y; \x7d")).map
      (fun r => (r.success, r.errors)) = some (true, []) := by
  refine ⟨by decide!, by decide!, by decide!⟩

/-! ## The parser on a bounded call stack -/

theorem follows_done {P : Prop} (a : MiniCCompiler) : Follows P (.done a) (some a) := rfl

theorem follows_stuck {P : Prop} : Follows P .stuck none := rfl

theorem Follows.imp {P Q : Prop} {o : Outcome} {x : Option MiniCCompiler} (h : Follows P o x)
    (hq : Q → P) : Follows Q o x := by
  cases o with
  | done r => exact h
  | thrown r => exact fun q => h (hq q)
  | stuck => exact h

theorem follows_bind {P : Prop} {o : Outcome} {x : Option MiniCCompiler}
    {k : MiniCCompiler → Outcome} {k' : MiniCCompiler → Option MiniCCompiler}
    (h : Follows P o x) (hk : ∀ a, Follows P (k a) (k' a)) :
    Follows P (o.bind k) (x.bind k') := by
  cases o with
  | done r =>
    have hx : x = some r := h
    rw [hx]
    exact hk r
  | thrown r => exact h
  | stuck =>
    have hx : x = none := h
    rw [hx]
    rfl

theorem follows_ite {P p : Prop} [Decidable p] {o o2 : Outcome} {x x2 : Option MiniCCompiler}
    (h1 : p → Follows P o x) (h2 : ¬p → Follows P o2 x2) :
    Follows P (if p then o else o2) (if p then x else x2) := by
  by_cases hp : p
  · rw [if_pos hp, if_pos hp]
    exact h1 hp
  · rw [if_neg hp, if_neg hp]
    exact h2 hp

/-- The shape `let x ← if b then f else some y; k x` of the optional parts. -/
theorem follows_opt_bind {P p : Prop} [Decidable p] {o : Outcome} {x : Option MiniCCompiler}
    {a : MiniCCompiler} {k : MiniCCompiler → Outcome}
    {k' : MiniCCompiler → Option MiniCCompiler} (h1 : p → Follows P o x)
    (hk : ∀ r, Follows P (k r) (k' r)) :
    Follows P ((if p then o else .done a).bind k)
      (if p then x.bind k' else (some a).bind k') := by
  by_cases hp : p
  · rw [if_pos hp, if_pos hp]
    exact follows_bind (h1 hp) hk
  · rw [if_neg hp, if_neg hp]
    exact hk a

/-- A call made with `s` frames left, while the method needs no more than `n`. -/
theorem follows_invoke {n s : Nat} {c : MiniCCompiler} {F : Nat → MiniCCompiler → Outcome}
    {x : Option MiniCCompiler} (h : ∀ s', Follows (n ≤ s') (F s' c) x) :
    Follows (n + 1 ≤ s) (invoke s c F) x := by
  cases s with
  | zero => exact fun h0 => absurd h0 (by omega)
  | succ s' => exact (h s').imp (fun h1 => by omega)

/-- The next pass of a loop, in the same frame. -/
theorem follows_same {n s : Nat} {o : Outcome} {x : Option MiniCCompiler}
    (h : Follows (n ≤ s) o x) : Follows (n + 1 ≤ s) o x :=
  h.imp (fun h1 => by omega)

theorem follows_ofOption {P : Prop} (x : Option MiniCCompiler) :
    Follows P (Outcome.ofOption x) x := by
  cases x <;> rfl

theorem follows_blockOrStatement {n s : Nat} (ih : AllFollows n) (c : MiniCCompiler) :
    Follows (n + 1 ≤ s)
      (Bounded.blockOrStatement s (Bounded.parseBlockStatement n) (Bounded.parseStatement n) c)
      (blockOrStatement (parseBlockStatement n) (parseStatement n) c) := by
  rw [Bounded.blockOrStatement, blockOrStatement]
  simp only [Option.bind_eq_bind]
  refine follows_ite (fun _ => ?_) (fun _ => follows_invoke (fun s' => ih.parseStatement s' c))
  exact follows_bind (follows_invoke (fun s' => ih.parseBlockStatement s' _))
    (fun a => follows_done _)

theorem parseProgram_follows {n : Nat} (ih : AllFollows n) (s : Nat) (c : MiniCCompiler) :
    Follows (n + 1 ≤ s) (Bounded.parseProgram (n + 1) s c) (parseProgram (n + 1) c) := by
  rw [Bounded.parseProgram, parseProgram]
  simp only [Option.bind_eq_bind]
  refine follows_ite (fun _ => ?_) (fun _ => follows_done _)
  refine follows_ite (fun _ => ?_) (fun _ => ?_)
  · show Follows _ _ ((some (parseInclude c)).bind (parseProgram n))
    exact follows_bind (follows_invoke (fun s' => follows_done _))
      (fun a => follows_same (ih.parseProgram s a))
  · refine follows_ite (fun _ => ?_) (fun _ => follows_same (ih.parseProgram s _))
    exact follows_bind (follows_invoke (fun s' => ih.parseDeclarationOrFunction s' c))
      (fun a => follows_same (ih.parseProgram s a))

theorem parseDeclarationOrFunction_follows {n : Nat} (ih : AllFollows n) (s : Nat)
    (c : MiniCCompiler) :
    Follows (n + 1 ≤ s) (Bounded.parseDeclarationOrFunction (n + 1) s c)
      (parseDeclarationOrFunction (n + 1) c) := by
  rw [Bounded.parseDeclarationOrFunction, parseDeclarationOrFunction]
  simp only [Option.bind_eq_bind]
  refine follows_ite (fun _ => follows_done _) (fun _ => ?_)
  refine follows_ite (fun _ => follows_invoke (fun s' => ih.parseFunction _ _ s' _))
    (fun _ => ?_)
  exact follows_ite (fun _ => follows_invoke (fun s' => ih.parseDeclaration _ _ s' _))
    (fun _ => follows_done _)

theorem parseFunction_follows {n : Nat} (ih : AllFollows n) (t x : JSString) (s : Nat)
    (c : MiniCCompiler) :
    Follows (n + 1 ≤ s) (Bounded.parseFunction (n + 1) t x s c) (parseFunction (n + 1) t x c) := by
  rw [Bounded.parseFunction, parseFunction]
  simp only [Option.bind_eq_bind]
  refine follows_opt_bind (fun _ => follows_invoke (fun s' => follows_ofOption _))
    (fun a => ?_)
  exact follows_bind (follows_invoke (fun s' => ih.parseBlockStatement s' _))
    (fun a => follows_done _)

theorem parseDeclaration_follows {n : Nat} (ih : AllFollows n) (t x : JSString) (s : Nat)
    (c : MiniCCompiler) :
    Follows (n + 1 ≤ s) (Bounded.parseDeclaration (n + 1) t x s c)
      (parseDeclaration (n + 1) t x c) := by
  rw [Bounded.parseDeclaration, parseDeclaration]
  simp only [Option.bind_eq_bind]
  refine follows_opt_bind (fun _ => follows_invoke (fun s' => ih.parseExpression s' _))
    (fun a => ?_)
  exact follows_bind (follows_same (ih.parseDeclarationLoop t s a)) (fun a => follows_done _)

theorem parseDeclarationLoop_follows {n : Nat} (ih : AllFollows n) (t : JSString) (s : Nat)
    (c : MiniCCompiler) :
    Follows (n + 1 ≤ s) (Bounded.parseDeclarationLoop (n + 1) t s c)
      (parseDeclarationLoop (n + 1) t c) := by
  rw [Bounded.parseDeclarationLoop, parseDeclarationLoop]
  simp only [Option.bind_eq_bind]
  refine follows_ite (fun _ => ?_) (fun _ => follows_done _)
  refine follows_ite (fun _ => ?_) (fun _ => follows_same (ih.parseDeclarationLoop t s _))
  exact follows_opt_bind (fun _ => follows_invoke (fun s' => ih.parseExpression s' _))
    (fun a => follows_same (ih.parseDeclarationLoop t s a))

theorem parseBlockStatement_follows {n : Nat} (ih : AllFollows n) (s : Nat)
    (c : MiniCCompiler) :
    Follows (n + 1 ≤ s) (Bounded.parseBlockStatement (n + 1) s c)
      (parseBlockStatement (n + 1) c) := by
  rw [Bounded.parseBlockStatement, parseBlockStatement]
  simp only [Option.bind_eq_bind]
  refine follows_ite (fun _ => ?_) (fun _ => follows_done _)
  exact follows_bind (follows_invoke (fun s' => ih.parseStatement s' c))
    (fun a => follows_same (ih.parseBlockStatement s a))

theorem parseStatement_follows {n : Nat} (ih : AllFollows n) (s : Nat) (c : MiniCCompiler) :
    Follows (n + 1 ≤ s) (Bounded.parseStatement (n + 1) s c) (parseStatement (n + 1) c) := by
  rw [Bounded.parseStatement, parseStatement]
  simp only [Option.bind_eq_bind]
  refine follows_ite (fun _ => ?_) (fun _ => ?_)
  · refine follows_ite (fun _ => follows_invoke (fun s' => ih.parseDeclarationOrFunction s' c))
      (fun _ => ?_)
    refine follows_ite (fun _ => follows_invoke (fun s' => ih.parseIfStatement s' c))
      (fun _ => ?_)
    refine follows_ite (fun _ => follows_invoke (fun s' => ih.parseWhileStatement s' c))
      (fun _ => ?_)
    refine follows_ite (fun _ => follows_invoke (fun s' => ih.parseForStatement s' c))
      (fun _ => ?_)
    refine follows_ite (fun _ => follows_invoke (fun s' => ih.parseReturnStatement s' c))
      (fun _ => ?_)
    exact follows_ite (fun _ => follows_invoke (fun s' => ih.parseFunctionCall s' c))
      (fun _ => follows_done _)
  · refine follows_ite (fun _ => ?_) (fun _ => follows_done _)
    refine follows_ite (fun _ => follows_invoke (fun s' => ih.parseFunctionCall s' _))
      (fun _ => ?_)
    exact follows_ite (fun _ => follows_invoke (fun s' => ih.parseAssignment _ s' _))
      (fun _ => follows_done _)

theorem parseIfStatement_follows {n : Nat} (ih : AllFollows n) (s : Nat) (c : MiniCCompiler) :
    Follows (n + 1 ≤ s) (Bounded.parseIfStatement (n + 1) s c) (parseIfStatement (n + 1) c) := by
  rw [Bounded.parseIfStatement, parseIfStatement]
  simp only [Option.bind_eq_bind]
  refine follows_bind (follows_invoke (fun s' => ih.parseExpression s' _)) (fun a => ?_)
  refine follows_bind (follows_blockOrStatement ih _) (fun b => ?_)
  exact follows_ite (fun _ => follows_blockOrStatement ih _) (fun _ => follows_done _)

theorem parseWhileStatement_follows {n : Nat} (ih : AllFollows n) (s : Nat)
    (c : MiniCCompiler) :
    Follows (n + 1 ≤ s) (Bounded.parseWhileStatement (n + 1) s c)
      (parseWhileStatement (n + 1) c) := by
  rw [Bounded.parseWhileStatement, parseWhileStatement]
  simp only [Option.bind_eq_bind]
  exact follows_bind (follows_invoke (fun s' => ih.parseExpression s' _))
    (fun a => follows_blockOrStatement ih _)

theorem parseForStatement_follows {n : Nat} (ih : AllFollows n) (s : Nat) (c : MiniCCompiler) :
    Follows (n + 1 ≤ s) (Bounded.parseForStatement (n + 1) s c)
      (parseForStatement (n + 1) c) := by
  rw [Bounded.parseForStatement, parseForStatement]
  simp only [Option.bind_eq_bind]
  refine follows_opt_bind (fun _ => follows_invoke (fun s' => ih.parseStatement s' _))
    (fun a => ?_)
  refine follows_opt_bind (fun _ => follows_invoke (fun s' => ih.parseExpression s' _))
    (fun b => ?_)
  refine follows_opt_bind (fun _ => follows_invoke (fun s' => ih.parseExpression s' _))
    (fun d => ?_)
  exact follows_blockOrStatement ih _

theorem parseReturnStatement_follows {n : Nat} (ih : AllFollows n) (s : Nat)
    (c : MiniCCompiler) :
    Follows (n + 1 ≤ s) (Bounded.parseReturnStatement (n + 1) s c)
      (parseReturnStatement (n + 1) c) := by
  rw [Bounded.parseReturnStatement, parseReturnStatement]
  simp only [Option.bind_eq_bind]
  exact follows_opt_bind (fun _ => follows_invoke (fun s' => ih.parseExpression s' _))
    (fun a => follows_done _)

theorem parseFunctionCall_follows {n : Nat} (ih : AllFollows n) (s : Nat) (c : MiniCCompiler) :
    Follows (n + 1 ≤ s) (Bounded.parseFunctionCall (n + 1) s c)
      (parseFunctionCall (n + 1) c) := by
  rw [Bounded.parseFunctionCall, parseFunctionCall]
  simp only [Option.bind_eq_bind]
  exact follows_opt_bind (fun _ => follows_invoke (fun s' => ih.parseArgumentList s' _))
    (fun a => follows_done _)

theorem parseArgumentList_follows {n : Nat} (ih : AllFollows n) (s : Nat) (c : MiniCCompiler) :
    Follows (n + 1 ≤ s) (Bounded.parseArgumentList (n + 1) s c)
      (parseArgumentList (n + 1) c) := by
  rw [Bounded.parseArgumentList, parseArgumentList]
  simp only [Option.bind_eq_bind]
  refine follows_bind (follows_invoke (fun s' => ih.parseExpression s' _)) (fun a => ?_)
  refine follows_ite (fun _ => ?_) (fun _ => follows_done _)
  exact follows_ite (fun _ => follows_same (ih.parseArgumentList s _)) (fun _ => follows_done _)

theorem parseAssignment_follows {n : Nat} (ih : AllFollows n) (x : JSString) (s : Nat)
    (c : MiniCCompiler) :
    Follows (n + 1 ≤ s) (Bounded.parseAssignment (n + 1) x s c)
      (parseAssignment (n + 1) x c) := by
  rw [Bounded.parseAssignment, parseAssignment]
  simp only [Option.bind_eq_bind]
  exact follows_bind (follows_invoke (fun s' => ih.parseExpression s' _))
    (fun a => follows_done _)

theorem parseExpression_follows {n : Nat} (ih : AllFollows n) (s : Nat) (c : MiniCCompiler) :
    Follows (n + 1 ≤ s) (Bounded.parseExpression (n + 1) s c) (parseExpression (n + 1) c) := by
  rw [Bounded.parseExpression, parseExpression]
  exact follows_invoke (fun s' => ih.parseLogicalOr s' c)

theorem parseLogicalOr_follows {n : Nat} (ih : AllFollows n) (s : Nat) (c : MiniCCompiler) :
    Follows (n + 1 ≤ s) (Bounded.parseLogicalOr (n + 1) s c) (parseLogicalOr (n + 1) c) := by
  rw [Bounded.parseLogicalOr, parseLogicalOr]
  simp only [Option.bind_eq_bind]
  exact follows_bind (follows_invoke (fun s' => ih.parseLogicalAnd s' c))
    (fun a => follows_same (ih.parseLogicalOrLoop s a))

theorem parseLogicalOrLoop_follows {n : Nat} (ih : AllFollows n) (s : Nat)
    (c : MiniCCompiler) :
    Follows (n + 1 ≤ s) (Bounded.parseLogicalOrLoop (n + 1) s c)
      (parseLogicalOrLoop (n + 1) c) := by
  rw [Bounded.parseLogicalOrLoop, parseLogicalOrLoop]
  simp only [Option.bind_eq_bind]
  refine follows_ite (fun _ => ?_) (fun _ => follows_done _)
  exact follows_bind (follows_invoke (fun s' => ih.parseLogicalAnd s' _))
    (fun a => follows_same (ih.parseLogicalOrLoop s a))

theorem parseLogicalAnd_follows {n : Nat} (ih : AllFollows n) (s : Nat) (c : MiniCCompiler) :
    Follows (n + 1 ≤ s) (Bounded.parseLogicalAnd (n + 1) s c) (parseLogicalAnd (n + 1) c) := by
  rw [Bounded.parseLogicalAnd, parseLogicalAnd]
  simp only [Option.bind_eq_bind]
  exact follows_bind (follows_invoke (fun s' => ih.parseEquality s' c))
    (fun a => follows_same (ih.parseLogicalAndLoop s a))

theorem parseLogicalAndLoop_follows {n : Nat} (ih : AllFollows n) (s : Nat)
    (c : MiniCCompiler) :
    Follows (n + 1 ≤ s) (Bounded.parseLogicalAndLoop (n + 1) s c)
      (parseLogicalAndLoop (n + 1) c) := by
  rw [Bounded.parseLogicalAndLoop, parseLogicalAndLoop]
  simp only [Option.bind_eq_bind]
  refine follows_ite (fun _ => ?_) (fun _ => follows_done _)
  exact follows_bind (follows_invoke (fun s' => ih.parseEquality s' _))
    (fun a => follows_same (ih.parseLogicalAndLoop s a))

theorem parseEquality_follows {n : Nat} (ih : AllFollows n) (s : Nat) (c : MiniCCompiler) :
    Follows (n + 1 ≤ s) (Bounded.parseEquality (n + 1) s c) (parseEquality (n + 1) c) := by
  rw [Bounded.parseEquality, parseEquality]
  simp only [Option.bind_eq_bind]
  exact follows_bind (follows_invoke (fun s' => ih.parseRelational s' c))
    (fun a => follows_same (ih.parseEqualityLoop s a))

theorem parseEqualityLoop_follows {n : Nat} (ih : AllFollows n) (s : Nat)
    (c : MiniCCompiler) :
    Follows (n + 1 ≤ s) (Bounded.parseEqualityLoop (n + 1) s c)
      (parseEqualityLoop (n + 1) c) := by
  rw [Bounded.parseEqualityLoop, parseEqualityLoop]
  simp only [Option.bind_eq_bind]
  refine follows_ite (fun _ => ?_) (fun _ => follows_done _)
  exact follows_bind (follows_invoke (fun s' => ih.parseRelational s' _))
    (fun a => follows_same (ih.parseEqualityLoop s a))

theorem parseRelational_follows {n : Nat} (ih : AllFollows n) (s : Nat) (c : MiniCCompiler) :
    Follows (n + 1 ≤ s) (Bounded.parseRelational (n + 1) s c) (parseRelational (n + 1) c) := by
  rw [Bounded.parseRelational, parseRelational]
  simp only [Option.bind_eq_bind]
  exact follows_bind (follows_invoke (fun s' => ih.parseAdditive s' c))
    (fun a => follows_same (ih.parseRelationalLoop s a))

theorem parseRelationalLoop_follows {n : Nat} (ih : AllFollows n) (s : Nat)
    (c : MiniCCompiler) :
    Follows (n + 1 ≤ s) (Bounded.parseRelationalLoop (n + 1) s c)
      (parseRelationalLoop (n + 1) c) := by
  rw [Bounded.parseRelationalLoop, parseRelationalLoop]
  simp only [Option.bind_eq_bind]
  refine follows_ite (fun _ => ?_) (fun _ => follows_done _)
  exact follows_bind (follows_invoke (fun s' => ih.parseAdditive s' _))
    (fun a => follows_same (ih.parseRelationalLoop s a))

theorem parseAdditive_follows {n : Nat} (ih : AllFollows n) (s : Nat) (c : MiniCCompiler) :
    Follows (n + 1 ≤ s) (Bounded.parseAdditive (n + 1) s c) (parseAdditive (n + 1) c) := by
  rw [Bounded.parseAdditive, parseAdditive]
  simp only [Option.bind_eq_bind]
  exact follows_bind (follows_invoke (fun s' => ih.parseMultiplicative s' c))
    (fun a => follows_same (ih.parseAdditiveLoop s a))

theorem parseAdditiveLoop_follows {n : Nat} (ih : AllFollows n) (s : Nat)
    (c : MiniCCompiler) :
    Follows (n + 1 ≤ s) (Bounded.parseAdditiveLoop (n + 1) s c)
      (parseAdditiveLoop (n + 1) c) := by
  rw [Bounded.parseAdditiveLoop, parseAdditiveLoop]
  simp only [Option.bind_eq_bind]
  refine follows_ite (fun _ => ?_) (fun _ => follows_done _)
  exact follows_bind (follows_invoke (fun s' => ih.parseMultiplicative s' _))
    (fun a => follows_same (ih.parseAdditiveLoop s a))

theorem parseMultiplicative_follows {n : Nat} (ih : AllFollows n) (s : Nat)
    (c : MiniCCompiler) :
    Follows (n + 1 ≤ s) (Bounded.parseMultiplicative (n + 1) s c)
      (parseMultiplicative (n + 1) c) := by
  rw [Bounded.parseMultiplicative, parseMultiplicative]
  simp only [Option.bind_eq_bind]
  exact follows_bind (follows_invoke (fun s' => ih.parseUnary s' c))
    (fun a => follows_same (ih.parseMultiplicativeLoop s a))

theorem parseMultiplicativeLoop_follows {n : Nat} (ih : AllFollows n) (s : Nat)
    (c : MiniCCompiler) :
    Follows (n + 1 ≤ s) (Bounded.parseMultiplicativeLoop (n + 1) s c)
      (parseMultiplicativeLoop (n + 1) c) := by
  rw [Bounded.parseMultiplicativeLoop, parseMultiplicativeLoop]
  simp only [Option.bind_eq_bind]
  refine follows_ite (fun _ => ?_) (fun _ => follows_done _)
  exact follows_bind (follows_invoke (fun s' => ih.parseUnary s' _))
    (fun a => follows_same (ih.parseMultiplicativeLoop s a))

theorem parseUnary_follows {n : Nat} (ih : AllFollows n) (s : Nat) (c : MiniCCompiler) :
    Follows (n + 1 ≤ s) (Bounded.parseUnary (n + 1) s c) (parseUnary (n + 1) c) := by
  rw [Bounded.parseUnary, parseUnary]
  exact follows_ite (fun _ => follows_invoke (fun s' => ih.parseUnary s' _))
    (fun _ => follows_invoke (fun s' => ih.parsePrimary s' c))

theorem parsePrimary_follows {n : Nat} (ih : AllFollows n) (s : Nat) (c : MiniCCompiler) :
    Follows (n + 1 ≤ s) (Bounded.parsePrimary (n + 1) s c) (parsePrimary (n + 1) c) := by
  rw [Bounded.parsePrimary, parsePrimary]
  simp only [Option.bind_eq_bind]
  refine follows_ite (fun _ => follows_done _) (fun _ => ?_)
  refine follows_ite (fun _ => ?_) (fun _ => ?_)
  · exact follows_ite (fun _ => follows_invoke (fun s' => ih.parseFunctionCall s' _))
      (fun _ => follows_done _)
  · refine follows_ite (fun _ => ?_) (fun _ => follows_done _)
    exact follows_bind (follows_invoke (fun s' => ih.parseExpression s' _))
      (fun a => follows_done _)

/-- Every grammar method on a bounded stack returns what the method returns on a
stack that suffices, or raises the `RangeError`; it runs out of fuel only if the
other run does, and with as many frames as fuel it does not raise. -/
theorem allFollows : ∀ n, AllFollows n := by
  intro n
  induction n with
  | zero =>
    exact
      { parseProgram := fun _ _ => by
          rw [Bounded.parseProgram, parseProgram]
          exact follows_stuck
        parseDeclarationOrFunction := fun _ _ => by
          rw [Bounded.parseDeclarationOrFunction, parseDeclarationOrFunction]
          exact follows_stuck
        parseFunction := fun _ _ _ _ => by
          rw [Bounded.parseFunction, parseFunction]
          exact follows_stuck
        parseDeclaration := fun _ _ _ _ => by
          rw [Bounded.parseDeclaration, parseDeclaration]
          exact follows_stuck
        parseDeclarationLoop := fun _ _ _ => by
          rw [Bounded.parseDeclarationLoop, parseDeclarationLoop]
          exact follows_stuck
        parseBlockStatement := fun _ _ => by
          rw [Bounded.parseBlockStatement, parseBlockStatement]
          exact follows_stuck
        parseStatement := fun _ _ => by
          rw [Bounded.parseStatement, parseStatement]
          exact follows_stuck
        parseIfStatement := fun _ _ => by
          rw [Bounded.parseIfStatement, parseIfStatement]
          exact follows_stuck
        parseWhileStatement := fun _ _ => by
          rw [Bounded.parseWhileStatement, parseWhileStatement]
          exact follows_stuck
        parseForStatement := fun _ _ => by
          rw [Bounded.parseForStatement, parseForStatement]
          exact follows_stuck
        parseReturnStatement := fun _ _ => by
          rw [Bounded.parseReturnStatement, parseReturnStatement]
          exact follows_stuck
        parseFunctionCall := fun _ _ => by
          rw [Bounded.parseFunctionCall, parseFunctionCall]
          exact follows_stuck
        parseArgumentList := fun _ _ => by
          rw [Bounded.parseArgumentList, parseArgumentList]
          exact follows_stuck
        parseAssignment := fun _ _ _ => by
          rw [Bounded.parseAssignment, parseAssignment]
          exact follows_stuck
        parseExpression := fun _ _ => by
          rw [Bounded.parseExpression, parseExpression]
          exact follows_stuck
        parseLogicalOr := fun _ _ => by
          rw [Bounded.parseLogicalOr, parseLogicalOr]
          exact follows_stuck
        parseLogicalOrLoop := fun _ _ => by
          rw [Bounded.parseLogicalOrLoop, parseLogicalOrLoop]
          exact follows_stuck
        parseLogicalAnd := fun _ _ => by
          rw [Bounded.parseLogicalAnd, parseLogicalAnd]
          exact follows_stuck
        parseLogicalAndLoop := fun _ _ => by
          rw [Bounded.parseLogicalAndLoop, parseLogicalAndLoop]
          exact follows_stuck
        parseEquality := fun _ _ => by
          rw [Bounded.parseEquality, parseEquality]
          exact follows_stuck
        parseEqualityLoop := fun _ _ => by
          rw [Bounded.parseEqualityLoop, parseEqualityLoop]
          exact follows_stuck
        parseRelational := fun _ _ => by
          rw [Bounded.parseRelational, parseRelational]
          exact follows_stuck
        parseRelationalLoop := fun _ _ => by
          rw [Bounded.parseRelationalLoop, parseRelationalLoop]
          exact follows_stuck
        parseAdditive := fun _ _ => by
          rw [Bounded.parseAdditive, parseAdditive]
          exact follows_stuck
        parseAdditiveLoop := fun _ _ => by
          rw [Bounded.parseAdditiveLoop, parseAdditiveLoop]
          exact follows_stuck
        parseMultiplicative := fun _ _ => by
          rw [Bounded.parseMultiplicative, parseMultiplicative]
          exact follows_stuck
        parseMultiplicativeLoop := fun _ _ => by
          rw [Bounded.parseMultiplicativeLoop, parseMultiplicativeLoop]
          exact follows_stuck
        parseUnary := fun _ _ => by
          rw [Bounded.parseUnary, parseUnary]
          exact follows_stuck
        parsePrimary := fun _ _ => by
          rw [Bounded.parsePrimary, parsePrimary]
          exact follows_stuck }
  | succ n ih =>
    exact
      { parseProgram := parseProgram_follows ih
        parseDeclarationOrFunction := parseDeclarationOrFunction_follows ih
        parseFunction := parseFunction_follows ih
        parseDeclaration := parseDeclaration_follows ih
        parseDeclarationLoop := parseDeclarationLoop_follows ih
        parseBlockStatement := parseBlockStatement_follows ih
        parseStatement := parseStatement_follows ih
        parseIfStatement := parseIfStatement_follows ih
        parseWhileStatement := parseWhileStatement_follows ih
        parseForStatement := parseForStatement_follows ih
        parseReturnStatement := parseReturnStatement_follows ih
        parseFunctionCall := parseFunctionCall_follows ih
        parseArgumentList := parseArgumentList_follows ih
        parseAssignment := parseAssignment_follows ih
        parseExpression := parseExpression_follows ih
        parseLogicalOr := parseLogicalOr_follows ih
        parseLogicalOrLoop := parseLogicalOrLoop_follows ih
        parseLogicalAnd := parseLogicalAnd_follows ih
        parseLogicalAndLoop := parseLogicalAndLoop_follows ih
        parseEquality := parseEquality_follows ih
        parseEqualityLoop := parseEqualityLoop_follows ih
        parseRelational := parseRelational_follows ih
        parseRelationalLoop := parseRelationalLoop_follows ih
        parseAdditive := parseAdditive_follows ih
        parseAdditiveLoop := parseAdditiveLoop_follows ih
        parseMultiplicative := parseMultiplicative_follows ih
        parseMultiplicativeLoop := parseMultiplicativeLoop_follows ih
        parseUnary := parseUnary_follows ih
        parsePrimary := parsePrimary_follows ih }

/-! ## What holds of the instance when a call ends, returned or thrown -/

theorem all_done {Q : MiniCCompiler → Prop} {r : MiniCCompiler} (h : Q r) :
    (Outcome.done r).All Q := by
  unfold Outcome.All
  exact h

theorem all_thrown {Q : MiniCCompiler → Prop} {r : MiniCCompiler} (h : Q r) :
    (Outcome.thrown r).All Q := by
  unfold Outcome.All
  exact h

theorem all_stuck {Q : MiniCCompiler → Prop} : Outcome.stuck.All Q := by
  unfold Outcome.All
  trivial

theorem all_of_done {Q : MiniCCompiler → Prop} {r : MiniCCompiler}
    (h : (Outcome.done r).All Q) : Q r := by
  unfold Outcome.All at h
  exact h

theorem all_of_thrown {Q : MiniCCompiler → Prop} {r : MiniCCompiler}
    (h : (Outcome.thrown r).All Q) : Q r := by
  unfold Outcome.All at h
  exact h

theorem Outcome.All.of_imp {Q Q' : MiniCCompiler → Prop} {o : Outcome} (h : o.All Q)
    (hq : ∀ r, Q r → Q' r) : o.All Q' := by
  cases o with
  | done r => exact all_done (hq r (all_of_done h))
  | thrown r => exact all_thrown (hq r (all_of_thrown h))
  | stuck => exact all_stuck

/-- A call that starts some steps later. -/
theorem StepClosed.later {E : MiniCCompiler → MiniCCompiler → Prop} (S : StepClosed E)
    {c b : MiniCCompiler} {o : Outcome} (hb : E c b) (h : o.All (E b)) : o.All (E c) :=
  h.of_imp (fun r hr => S.trans c b r hb hr)

theorem StepClosed.bind {E : MiniCCompiler → MiniCCompiler → Prop} (S : StepClosed E)
    {c : MiniCCompiler} {o : Outcome} {k : MiniCCompiler → Outcome} (h : o.All (E c))
    (hk : ∀ a, (k a).All (E a)) : (o.bind k).All (E c) := by
  cases o with
  | done r => exact S.later (all_of_done h) (hk r)
  | thrown r => exact h
  | stuck => exact all_stuck

theorem StepClosed.invoke {E : MiniCCompiler → MiniCCompiler → Prop} (S : StepClosed E)
    {c : MiniCCompiler} {F : Nat → MiniCCompiler → Outcome} (s : Nat)
    (h : ∀ s', (F s' c).All (E c)) : (MiniC.invoke s c F).All (E c) := by
  cases s with
  | zero => exact all_thrown (S.refl c)
  | succ s' => exact h s'

theorem all_ite {Q : MiniCCompiler → Prop} {p : Prop} [Decidable p] {o o2 : Outcome}
    (h1 : p → o.All Q) (h2 : ¬p → o2.All Q) : (if p then o else o2).All Q := by
  by_cases hp : p
  · rw [if_pos hp]; exact h1 hp
  · rw [if_neg hp]; exact h2 hp

theorem StepClosed.consume {E : MiniCCompiler → MiniCCompiler → Prop} (S : StepClosed E)
    (c : MiniCCompiler) (type : TokenType) (value : JSString) :
    E c (consumeToken c type value).2 := by
  rw [consumeToken]
  split
  · exact S.adv c
  · exact S.syn c _ _

theorem StepClosed.check {E : MiniCCompiler → MiniCCompiler → Prop} (S : StepClosed E)
    (c : MiniCCompiler) (b : Bool) (m s : JSString) :
    E c (if b = true then semanticError c m s else c) := by
  split
  · exact S.sem c m s
  · exact S.refl c

theorem StepClosed.include {E : MiniCCompiler → MiniCCompiler → Prop} (S : StepClosed E)
    (c : MiniCCompiler) : E c (parseInclude c) := by
  have h1 := S.consume c .DELIMITER (utf16 "#")
  have h2 := S.trans _ _ _ h1 (S.consume _ .KEYWORD (utf16 "include"))
  rw [parseInclude]
  simp only
  split
  · refine S.trans _ _ _ (S.trans _ _ _ h2 (S.consume _ .OPERATOR (utf16 "<"))) ?_
    split
    · exact S.trans _ _ _ (S.syn _ _ _) (S.consume _ _ _)
    · exact S.trans _ _ _ (S.adv _) (S.consume _ _ _)
  · exact S.trans _ _ _ h2 (S.syn _ _ _)

theorem StepClosed.parameters {E : MiniCCompiler → MiniCCompiler → Prop} (S : StepClosed E) :
    ∀ (n : Nat) (c : MiniCCompiler), (Outcome.ofOption (parseParameterList n c)).All (E c) := by
  intro n
  induction n with
  | zero => intro c; exact all_stuck
  | succ n ih =>
    intro c
    have h2 : E c (if checkTokenType (advance c) .IDENTIFIER = true then
        advance (setSymbol (advance c) (getCurrentToken (advance c)).value
          (.parameter (getCurrentToken c).value))
      else syntaxError (advance c) (utf16 "Expected parameter name")
        (utf16 "Add parameter name after type")) := by
      split
      · exact S.trans _ _ _ (S.adv c) (S.trans _ _ _ (S.set _ _ _) (S.adv _))
      · exact S.trans _ _ _ (S.adv c) (S.syn _ _ _)
    rw [parseParameterList]
    simp only [apply_ite Outcome.ofOption]
    refine all_ite (fun _ => ?_) (fun _ => all_done (S.syn c _ _))
    refine all_ite (fun _ => ?_) (fun _ => all_done h2)
    exact all_ite (fun _ => S.later (S.trans _ _ _ h2 (S.adv _)) (ih _))
      (fun _ => all_done (S.trans _ _ _ h2 (S.adv _)))

theorem StepClosed.block {E : MiniCCompiler → MiniCCompiler → Prop} (S : StepClosed E)
    {n : Nat} (ih : AllReach E n) (s : Nat) (c : MiniCCompiler) :
    (Bounded.blockOrStatement s (Bounded.parseBlockStatement n) (Bounded.parseStatement n)
      c).All (E c) := by
  rw [Bounded.blockOrStatement]
  try dsimp only
  refine all_ite (fun _ => ?_) (fun _ => S.invoke s (fun s' => ih.parseStatement s' c))
  refine S.later ?_ (S.bind (S.invoke s (fun s' => ih.parseBlockStatement s' _))
    (fun a => all_done (S.consume a _ _)))
  exact S.consume c _ _

theorem parseProgram_reach {E : MiniCCompiler → MiniCCompiler → Prop} (S : StepClosed E)
    {n : Nat} (ih : AllReach E n) (s : Nat) (c : MiniCCompiler) :
    (Bounded.parseProgram (n + 1) s c).All (E c) := by
  rw [Bounded.parseProgram]
  refine all_ite (fun _ => ?_) (fun _ => all_done (S.refl c))
  refine all_ite (fun _ => ?_) (fun _ => ?_)
  · exact S.bind (S.invoke s (fun _ => all_done (S.include c))) (fun a => ih.parseProgram s a)
  · refine all_ite (fun _ => S.bind (S.invoke s (fun s' => ih.parseDeclarationOrFunction s' c))
      (fun a => ih.parseProgram s a)) (fun _ => ?_)
    refine S.later ?_ (ih.parseProgram s _)
    exact S.trans _ _ _ (S.syn c _ _) (S.adv _)

theorem parseDeclarationOrFunction_reach {E : MiniCCompiler → MiniCCompiler → Prop}
    (S : StepClosed E) {n : Nat} (ih : AllReach E n) (s : Nat) (c : MiniCCompiler) :
    (Bounded.parseDeclarationOrFunction (n + 1) s c).All (E c) := by
  rw [Bounded.parseDeclarationOrFunction]
  try dsimp only
  have h2 : E c (advance (advance c)) := S.trans _ _ _ (S.adv c) (S.adv _)
  refine all_ite (fun _ => all_done (S.trans _ _ _ (S.adv c) (S.syn _ _ _))) (fun _ => ?_)
  refine all_ite (fun _ => S.later h2 (S.invoke s (fun s' => ih.parseFunction _ _ s' _)))
    (fun _ => ?_)
  exact all_ite (fun _ => S.later h2 (S.invoke s (fun s' => ih.parseDeclaration _ _ s' _)))
    (fun _ => all_done (S.trans _ _ _ h2 (S.syn _ _ _)))

theorem parseFunction_reach {E : MiniCCompiler → MiniCCompiler → Prop} (S : StepClosed E)
    {n : Nat} (ih : AllReach E n) (t x : JSString) (s : Nat) (c : MiniCCompiler) :
    (Bounded.parseFunction (n + 1) t x s c).All (E c) := by
  rw [Bounded.parseFunction]
  try dsimp only
  have h2 : E c (consumeToken (setSymbol c x (.function t)) .DELIMITER (utf16 "(")).2 :=
    S.trans _ _ _ (S.set c _ _) (S.consume _ _ _)
  refine S.later h2 (S.bind (all_ite (fun _ => S.invoke s (fun _ => S.parameters n _))
    (fun _ => all_done (S.refl _))) (fun a => ?_))
  refine S.later ?_ (S.bind (S.invoke s (fun s' => ih.parseBlockStatement s' _))
    (fun b => all_done (S.consume b _ _)))
  exact S.trans _ _ _ (S.consume a _ _) (S.consume _ _ _)

theorem parseDeclaration_reach {E : MiniCCompiler → MiniCCompiler → Prop} (S : StepClosed E)
    {n : Nat} (ih : AllReach E n) (t x : JSString) (s : Nat) (c : MiniCCompiler) :
    (Bounded.parseDeclaration (n + 1) t x s c).All (E c) := by
  rw [Bounded.parseDeclaration]
  try dsimp only
  refine S.later (S.set c x (.variable t)) (S.bind (all_ite
    (fun _ => S.later (S.adv _) (S.invoke s (fun s' => ih.parseExpression s' _)))
    (fun _ => all_done (S.refl _))) (fun a => ?_))
  exact S.bind (ih.parseDeclarationLoop t s a) (fun b => all_done (S.consume b _ _))

theorem parseDeclarationLoop_reach {E : MiniCCompiler → MiniCCompiler → Prop}
    (S : StepClosed E) {n : Nat} (ih : AllReach E n) (t : JSString) (s : Nat)
    (c : MiniCCompiler) : (Bounded.parseDeclarationLoop (n + 1) t s c).All (E c) := by
  rw [Bounded.parseDeclarationLoop]
  try dsimp only
  refine all_ite (fun _ => ?_) (fun _ => all_done (S.refl c))
  refine all_ite (fun _ => ?_) (fun _ => ?_)
  · have h2 : E c (advance (setSymbol (advance c) (getCurrentToken (advance c)).value
        (.variable t))) :=
      S.trans _ _ _ (S.adv c) (S.trans _ _ _ (S.set _ _ _) (S.adv _))
    exact S.later h2 (S.bind (all_ite
      (fun _ => S.later (S.adv _) (S.invoke s (fun s' => ih.parseExpression s' _)))
      (fun _ => all_done (S.refl _))) (fun a => ih.parseDeclarationLoop t s a))
  · refine S.later ?_ (ih.parseDeclarationLoop t s _)
    exact S.trans _ _ _ (S.adv c) (S.syn _ _ _)

theorem parseBlockStatement_reach {E : MiniCCompiler → MiniCCompiler → Prop}
    (S : StepClosed E) {n : Nat} (ih : AllReach E n) (s : Nat) (c : MiniCCompiler) :
    (Bounded.parseBlockStatement (n + 1) s c).All (E c) := by
  rw [Bounded.parseBlockStatement]
  exact all_ite (fun _ => S.bind (S.invoke s (fun s' => ih.parseStatement s' c))
    (fun a => ih.parseBlockStatement s a)) (fun _ => all_done (S.refl c))

theorem parseStatement_reach {E : MiniCCompiler → MiniCCompiler → Prop} (S : StepClosed E)
    {n : Nat} (ih : AllReach E n) (s : Nat) (c : MiniCCompiler) :
    (Bounded.parseStatement (n + 1) s c).All (E c) := by
  rw [Bounded.parseStatement]
  try dsimp only
  refine all_ite (fun _ => ?_) (fun _ => ?_)
  · refine all_ite (fun _ => S.invoke s (fun s' => ih.parseDeclarationOrFunction s' c))
      (fun _ => ?_)
    refine all_ite (fun _ => S.invoke s (fun s' => ih.parseIfStatement s' c)) (fun _ => ?_)
    refine all_ite (fun _ => S.invoke s (fun s' => ih.parseWhileStatement s' c)) (fun _ => ?_)
    refine all_ite (fun _ => S.invoke s (fun s' => ih.parseForStatement s' c)) (fun _ => ?_)
    refine all_ite (fun _ => S.invoke s (fun s' => ih.parseReturnStatement s' c)) (fun _ => ?_)
    refine all_ite (fun _ => S.invoke s (fun s' => ih.parseFunctionCall s' c)) (fun _ => ?_)
    exact all_done (S.trans _ _ _ (S.syn c _ _) (S.adv _))
  · refine all_ite (fun _ => ?_) (fun _ => all_done (S.trans _ _ _ (S.syn c _ _) (S.adv _)))
    refine all_ite (fun _ => ?_) (fun _ => ?_)
    · refine S.later ?_ (S.invoke s (fun s' => ih.parseFunctionCall s' _))
      exact S.trans _ _ _ (S.adv c) (S.ret _)
    · exact all_ite (fun _ => S.later (S.adv c) (S.invoke s (fun s' => ih.parseAssignment _ s' _)))
        (fun _ => all_done (S.trans _ _ _ (S.adv c) (S.syn _ _ _)))

theorem parseIfStatement_reach {E : MiniCCompiler → MiniCCompiler → Prop} (S : StepClosed E)
    {n : Nat} (ih : AllReach E n) (s : Nat) (c : MiniCCompiler) :
    (Bounded.parseIfStatement (n + 1) s c).All (E c) := by
  rw [Bounded.parseIfStatement]
  try dsimp only
  have h2 : E c (consumeToken (consumeToken c .KEYWORD (utf16 "if")).2 .DELIMITER
      (utf16 "(")).2 := S.trans _ _ _ (S.consume c _ _) (S.consume _ _ _)
  refine S.later h2 (S.bind (S.invoke s (fun s' => ih.parseExpression s' _)) (fun a => ?_))
  refine S.later (S.consume a .DELIMITER (utf16 ")")) (S.bind (S.block ih s _) (fun b => ?_))
  exact all_ite (fun _ => S.later (S.adv b) (S.block ih s _)) (fun _ => all_done (S.refl b))

theorem parseWhileStatement_reach {E : MiniCCompiler → MiniCCompiler → Prop}
    (S : StepClosed E) {n : Nat} (ih : AllReach E n) (s : Nat) (c : MiniCCompiler) :
    (Bounded.parseWhileStatement (n + 1) s c).All (E c) := by
  rw [Bounded.parseWhileStatement]
  try dsimp only
  have h2 : E c (consumeToken (consumeToken c .KEYWORD (utf16 "while")).2 .DELIMITER
      (utf16 "(")).2 := S.trans _ _ _ (S.consume c _ _) (S.consume _ _ _)
  refine S.later h2 (S.bind (S.invoke s (fun s' => ih.parseExpression s' _)) (fun a => ?_))
  exact S.later (S.consume a .DELIMITER (utf16 ")")) (S.block ih s _)

theorem parseForStatement_reach {E : MiniCCompiler → MiniCCompiler → Prop} (S : StepClosed E)
    {n : Nat} (ih : AllReach E n) (s : Nat) (c : MiniCCompiler) :
    (Bounded.parseForStatement (n + 1) s c).All (E c) := by
  rw [Bounded.parseForStatement]
  try dsimp only
  have h2 : E c (consumeToken (consumeToken c .KEYWORD (utf16 "for")).2 .DELIMITER
      (utf16 "(")).2 := S.trans _ _ _ (S.consume c _ _) (S.consume _ _ _)
  refine S.later h2 ?_
  refine StepClosed.bind S ?_ ?_
  · refine all_ite (fun _ => S.invoke s (fun s' => ih.parseStatement s' _)) (fun _ => ?_)
    exact all_done (S.adv _)
  intro a
  refine StepClosed.bind S ?_ ?_
  · refine all_ite (fun _ => S.invoke s (fun s' => ih.parseExpression s' _)) (fun _ => ?_)
    exact all_done (S.refl _)
  intro b
  refine S.later (S.consume b .DELIMITER (utf16 ";")) ?_
  refine StepClosed.bind S ?_ ?_
  · refine all_ite (fun _ => S.invoke s (fun s' => ih.parseExpression s' _)) (fun _ => ?_)
    exact all_done (S.refl _)
  intro d
  exact S.later (S.consume d .DELIMITER (utf16 ")")) (S.block ih s _)

theorem parseReturnStatement_reach {E : MiniCCompiler → MiniCCompiler → Prop}
    (S : StepClosed E) {n : Nat} (ih : AllReach E n) (s : Nat) (c : MiniCCompiler) :
    (Bounded.parseReturnStatement (n + 1) s c).All (E c) := by
  rw [Bounded.parseReturnStatement]
  try dsimp only
  exact S.later (S.consume c .KEYWORD (utf16 "return")) (S.bind (all_ite
    (fun _ => S.invoke s (fun s' => ih.parseExpression s' _)) (fun _ => all_done (S.refl _)))
    (fun a => all_done (S.consume a _ _)))

theorem parseFunctionCall_reach {E : MiniCCompiler → MiniCCompiler → Prop} (S : StepClosed E)
    {n : Nat} (ih : AllReach E n) (s : Nat) (c : MiniCCompiler) :
    (Bounded.parseFunctionCall (n + 1) s c).All (E c) := by
  rw [Bounded.parseFunctionCall]
  try dsimp only
  refine S.later ?_ (S.bind (all_ite
    (fun _ => S.invoke s (fun s' => ih.parseArgumentList s' _)) (fun _ => all_done (S.refl _)))
    (fun a => all_done (S.trans _ _ _ (S.consume a .DELIMITER (utf16 ")")) (S.consume _ _ _))))
  exact S.trans _ _ _ (S.adv c) (S.trans _ _ _ (S.check _ _ _ _) (S.consume _ _ _))

theorem parseArgumentList_reach {E : MiniCCompiler → MiniCCompiler → Prop} (S : StepClosed E)
    {n : Nat} (ih : AllReach E n) (s : Nat) (c : MiniCCompiler) :
    (Bounded.parseArgumentList (n + 1) s c).All (E c) := by
  rw [Bounded.parseArgumentList]
  refine S.bind (S.invoke s (fun s' => ih.parseExpression s' c)) (fun a => ?_)
  try dsimp only
  refine all_ite (fun _ => ?_) (fun _ => all_done (S.refl a))
  exact all_ite (fun _ => S.later (S.adv a) (ih.parseArgumentList s _)) (fun _ => all_done (S.adv a))

theorem parseAssignment_reach {E : MiniCCompiler → MiniCCompiler → Prop} (S : StepClosed E)
    {n : Nat} (ih : AllReach E n) (x : JSString) (s : Nat) (c : MiniCCompiler) :
    (Bounded.parseAssignment (n + 1) x s c).All (E c) := by
  rw [Bounded.parseAssignment]
  try dsimp only
  refine S.later ?_ (S.bind (S.invoke s (fun s' => ih.parseExpression s' _))
    (fun a => all_done (S.consume a _ _)))
  exact S.trans _ _ _ (S.check c _ _ _) (S.adv _)

theorem parseExpression_reach {E : MiniCCompiler → MiniCCompiler → Prop} (S : StepClosed E)
    {n : Nat} (ih : AllReach E n) (s : Nat) (c : MiniCCompiler) :
    (Bounded.parseExpression (n + 1) s c).All (E c) := by
  rw [Bounded.parseExpression]
  exact S.invoke s (fun s' => ih.parseLogicalOr s' c)

theorem parseUnary_reach {E : MiniCCompiler → MiniCCompiler → Prop} (S : StepClosed E)
    {n : Nat} (ih : AllReach E n) (s : Nat) (c : MiniCCompiler) :
    (Bounded.parseUnary (n + 1) s c).All (E c) := by
  rw [Bounded.parseUnary]
  exact all_ite (fun _ => S.later (S.adv c) (S.invoke s (fun s' => ih.parseUnary s' _)))
    (fun _ => S.invoke s (fun s' => ih.parsePrimary s' c))

theorem parsePrimary_reach {E : MiniCCompiler → MiniCCompiler → Prop} (S : StepClosed E)
    {n : Nat} (ih : AllReach E n) (s : Nat) (c : MiniCCompiler) :
    (Bounded.parsePrimary (n + 1) s c).All (E c) := by
  rw [Bounded.parsePrimary]
  try dsimp only
  refine all_ite (fun _ => all_done (S.adv c)) (fun _ => ?_)
  refine all_ite (fun _ => ?_) (fun _ => ?_)
  · have h2 := S.trans _ _ _ (S.check c (!c.symbolTable.has (getCurrentToken c).value)
      (utf16 "Undeclared variable: " ++ (getCurrentToken c).value)
      (utf16 "Declare variable before use")) (S.adv _)
    exact all_ite (fun _ => S.later (S.trans _ _ _ h2 (S.ret _))
      (S.invoke s (fun s' => ih.parseFunctionCall s' _))) (fun _ => all_done h2)
  · refine all_ite (fun _ => ?_) (fun _ => all_done (S.syn c _ _))
    exact S.later (S.consume c .DELIMITER (utf16 "(")) (S.bind
      (S.invoke s (fun s' => ih.parseExpression s' _)) (fun a => all_done (S.consume a _ _)))

theorem parseLogicalOr_reach {E : MiniCCompiler → MiniCCompiler → Prop} (S : StepClosed E)
    {n : Nat} (ih : AllReach E n) (s : Nat) (c : MiniCCompiler) :
    (Bounded.parseLogicalOr (n + 1) s c).All (E c) := by
  rw [Bounded.parseLogicalOr]
  exact S.bind (S.invoke s (fun s' => ih.parseLogicalAnd s' c)) (fun a => ih.parseLogicalOrLoop s a)

theorem parseLogicalOrLoop_reach {E : MiniCCompiler → MiniCCompiler → Prop} (S : StepClosed E)
    {n : Nat} (ih : AllReach E n) (s : Nat) (c : MiniCCompiler) :
    (Bounded.parseLogicalOrLoop (n + 1) s c).All (E c) := by
  rw [Bounded.parseLogicalOrLoop]
  exact all_ite (fun _ => S.later (S.adv c) (S.bind (S.invoke s (fun s' => ih.parseLogicalAnd s' _))
    (fun a => ih.parseLogicalOrLoop s a))) (fun _ => all_done (S.refl c))

theorem parseLogicalAnd_reach {E : MiniCCompiler → MiniCCompiler → Prop} (S : StepClosed E)
    {n : Nat} (ih : AllReach E n) (s : Nat) (c : MiniCCompiler) :
    (Bounded.parseLogicalAnd (n + 1) s c).All (E c) := by
  rw [Bounded.parseLogicalAnd]
  exact S.bind (S.invoke s (fun s' => ih.parseEquality s' c)) (fun a => ih.parseLogicalAndLoop s a)

theorem parseLogicalAndLoop_reach {E : MiniCCompiler → MiniCCompiler → Prop} (S : StepClosed E)
    {n : Nat} (ih : AllReach E n) (s : Nat) (c : MiniCCompiler) :
    (Bounded.parseLogicalAndLoop (n + 1) s c).All (E c) := by
  rw [Bounded.parseLogicalAndLoop]
  exact all_ite (fun _ => S.later (S.adv c) (S.bind (S.invoke s (fun s' => ih.parseEquality s' _))
    (fun a => ih.parseLogicalAndLoop s a))) (fun _ => all_done (S.refl c))

theorem parseEquality_reach {E : MiniCCompiler → MiniCCompiler → Prop} (S : StepClosed E)
    {n : Nat} (ih : AllReach E n) (s : Nat) (c : MiniCCompiler) :
    (Bounded.parseEquality (n + 1) s c).All (E c) := by
  rw [Bounded.parseEquality]
  exact S.bind (S.invoke s (fun s' => ih.parseRelational s' c)) (fun a => ih.parseEqualityLoop s a)

theorem parseEqualityLoop_reach {E : MiniCCompiler → MiniCCompiler → Prop} (S : StepClosed E)
    {n : Nat} (ih : AllReach E n) (s : Nat) (c : MiniCCompiler) :
    (Bounded.parseEqualityLoop (n + 1) s c).All (E c) := by
  rw [Bounded.parseEqualityLoop]
  exact all_ite (fun _ => S.later (S.adv c) (S.bind (S.invoke s (fun s' => ih.parseRelational s' _))
    (fun a => ih.parseEqualityLoop s a))) (fun _ => all_done (S.refl c))

theorem parseRelational_reach {E : MiniCCompiler → MiniCCompiler → Prop} (S : StepClosed E)
    {n : Nat} (ih : AllReach E n) (s : Nat) (c : MiniCCompiler) :
    (Bounded.parseRelational (n + 1) s c).All (E c) := by
  rw [Bounded.parseRelational]
  exact S.bind (S.invoke s (fun s' => ih.parseAdditive s' c)) (fun a => ih.parseRelationalLoop s a)

theorem parseRelationalLoop_reach {E : MiniCCompiler → MiniCCompiler → Prop} (S : StepClosed E)
    {n : Nat} (ih : AllReach E n) (s : Nat) (c : MiniCCompiler) :
    (Bounded.parseRelationalLoop (n + 1) s c).All (E c) := by
  rw [Bounded.parseRelationalLoop]
  exact all_ite (fun _ => S.later (S.adv c) (S.bind (S.invoke s (fun s' => ih.parseAdditive s' _))
    (fun a => ih.parseRelationalLoop s a))) (fun _ => all_done (S.refl c))

theorem parseAdditive_reach {E : MiniCCompiler → MiniCCompiler → Prop} (S : StepClosed E)
    {n : Nat} (ih : AllReach E n) (s : Nat) (c : MiniCCompiler) :
    (Bounded.parseAdditive (n + 1) s c).All (E c) := by
  rw [Bounded.parseAdditive]
  exact S.bind (S.invoke s (fun s' => ih.parseMultiplicative s' c)) (fun a => ih.parseAdditiveLoop s a)

theorem parseAdditiveLoop_reach {E : MiniCCompiler → MiniCCompiler → Prop} (S : StepClosed E)
    {n : Nat} (ih : AllReach E n) (s : Nat) (c : MiniCCompiler) :
    (Bounded.parseAdditiveLoop (n + 1) s c).All (E c) := by
  rw [Bounded.parseAdditiveLoop]
  exact all_ite (fun _ => S.later (S.adv c) (S.bind (S.invoke s (fun s' => ih.parseMultiplicative s' _))
    (fun a => ih.parseAdditiveLoop s a))) (fun _ => all_done (S.refl c))

theorem parseMultiplicative_reach {E : MiniCCompiler → MiniCCompiler → Prop} (S : StepClosed E)
    {n : Nat} (ih : AllReach E n) (s : Nat) (c : MiniCCompiler) :
    (Bounded.parseMultiplicative (n + 1) s c).All (E c) := by
  rw [Bounded.parseMultiplicative]
  exact S.bind (S.invoke s (fun s' => ih.parseUnary s' c)) (fun a => ih.parseMultiplicativeLoop s a)

theorem parseMultiplicativeLoop_reach {E : MiniCCompiler → MiniCCompiler → Prop} (S : StepClosed E)
    {n : Nat} (ih : AllReach E n) (s : Nat) (c : MiniCCompiler) :
    (Bounded.parseMultiplicativeLoop (n + 1) s c).All (E c) := by
  rw [Bounded.parseMultiplicativeLoop]
  exact all_ite (fun _ => S.later (S.adv c) (S.bind (S.invoke s (fun s' => ih.parseUnary s' _))
    (fun a => ih.parseMultiplicativeLoop s a))) (fun _ => all_done (S.refl c))

/-- A relation that every primitive step keeps holds between the instance a grammar
method is called on and the instance it ends with, returned or thrown. -/
theorem allReach {E : MiniCCompiler → MiniCCompiler → Prop} (S : StepClosed E) :
    ∀ n, AllReach E n := by
  intro n
  induction n with
  | zero =>
    exact
      { parseProgram := fun _ _ => by
          rw [Bounded.parseProgram]
          exact all_stuck
        parseDeclarationOrFunction := fun _ _ => by
          rw [Bounded.parseDeclarationOrFunction]
          exact all_stuck
        parseFunction := fun _ _ _ _ => by
          rw [Bounded.parseFunction]
          exact all_stuck
        parseDeclaration := fun _ _ _ _ => by
          rw [Bounded.parseDeclaration]
          exact all_stuck
        parseDeclarationLoop := fun _ _ _ => by
          rw [Bounded.parseDeclarationLoop]
          exact all_stuck
        parseBlockStatement := fun _ _ => by
          rw [Bounded.parseBlockStatement]
          exact all_stuck
        parseStatement := fun _ _ => by
          rw [Bounded.parseStatement]
          exact all_stuck
        parseIfStatement := fun _ _ => by
          rw [Bounded.parseIfStatement]
          exact all_stuck
        parseWhileStatement := fun _ _ => by
          rw [Bounded.parseWhileStatement]
          exact all_stuck
        parseForStatement := fun _ _ => by
          rw [Bounded.parseForStatement]
          exact all_stuck
        parseReturnStatement := fun _ _ => by
          rw [Bounded.parseReturnStatement]
          exact all_stuck
        parseFunctionCall := fun _ _ => by
          rw [Bounded.parseFunctionCall]
          exact all_stuck
        parseArgumentList := fun _ _ => by
          rw [Bounded.parseArgumentList]
          exact all_stuck
        parseAssignment := fun _ _ _ => by
          rw [Bounded.parseAssignment]
          exact all_stuck
        parseExpression := fun _ _ => by
          rw [Bounded.parseExpression]
          exact all_stuck
        parseLogicalOr := fun _ _ => by
          rw [Bounded.parseLogicalOr]
          exact all_stuck
        parseLogicalOrLoop := fun _ _ => by
          rw [Bounded.parseLogicalOrLoop]
          exact all_stuck
        parseLogicalAnd := fun _ _ => by
          rw [Bounded.parseLogicalAnd]
          exact all_stuck
        parseLogicalAndLoop := fun _ _ => by
          rw [Bounded.parseLogicalAndLoop]
          exact all_stuck
        parseEquality := fun _ _ => by
          rw [Bounded.parseEquality]
          exact all_stuck
        parseEqualityLoop := fun _ _ => by
          rw [Bounded.parseEqualityLoop]
          exact all_stuck
        parseRelational := fun _ _ => by
          rw [Bounded.parseRelational]
          exact all_stuck
        parseRelationalLoop := fun _ _ => by
          rw [Bounded.parseRelationalLoop]
          exact all_stuck
        parseAdditive := fun _ _ => by
          rw [Bounded.parseAdditive]
          exact all_stuck
        parseAdditiveLoop := fun _ _ => by
          rw [Bounded.parseAdditiveLoop]
          exact all_stuck
        parseMultiplicative := fun _ _ => by
          rw [Bounded.parseMultiplicative]
          exact all_stuck
        parseMultiplicativeLoop := fun _ _ => by
          rw [Bounded.parseMultiplicativeLoop]
          exact all_stuck
        parseUnary := fun _ _ => by
          rw [Bounded.parseUnary]
          exact all_stuck
        parsePrimary := fun _ _ => by
          rw [Bounded.parsePrimary]
          exact all_stuck }
  | succ n ih =>
    exact
      { parseProgram := parseProgram_reach S ih
        parseDeclarationOrFunction := parseDeclarationOrFunction_reach S ih
        parseFunction := parseFunction_reach S ih
        parseDeclaration := parseDeclaration_reach S ih
        parseDeclarationLoop := parseDeclarationLoop_reach S ih
        parseBlockStatement := parseBlockStatement_reach S ih
        parseStatement := parseStatement_reach S ih
        parseIfStatement := parseIfStatement_reach S ih
        parseWhileStatement := parseWhileStatement_reach S ih
        parseForStatement := parseForStatement_reach S ih
        parseReturnStatement := parseReturnStatement_reach S ih
        parseFunctionCall := parseFunctionCall_reach S ih
        parseArgumentList := parseArgumentList_reach S ih
        parseAssignment := parseAssignment_reach S ih
        parseExpression := parseExpression_reach S ih
        parseLogicalOr := parseLogicalOr_reach S ih
        parseLogicalOrLoop := parseLogicalOrLoop_reach S ih
        parseLogicalAnd := parseLogicalAnd_reach S ih
        parseLogicalAndLoop := parseLogicalAndLoop_reach S ih
        parseEquality := parseEquality_reach S ih
        parseEqualityLoop := parseEqualityLoop_reach S ih
        parseRelational := parseRelational_reach S ih
        parseRelationalLoop := parseRelationalLoop_reach S ih
        parseAdditive := parseAdditive_reach S ih
        parseAdditiveLoop := parseAdditiveLoop_reach S ih
        parseMultiplicative := parseMultiplicative_reach S ih
        parseMultiplicativeLoop := parseMultiplicativeLoop_reach S ih
        parseUnary := parseUnary_reach S ih
        parsePrimary := parsePrimary_reach S ih }

theorem stepClosed_grows : StepClosed Grows where
  refl := fun c => ⟨rfl, [], by simp, by simp⟩
  trans := fun a b c h1 h2 => by
    obtain ⟨t1, es1, e1, g1⟩ := h1
    obtain ⟨t2, es2, e2, g2⟩ := h2
    refine ⟨t2.trans t1, es1 ++ es2, by rw [e2, e1, List.append_assoc], ?_⟩
    intro e he
    rcases List.mem_append.1 he with h | h
    · exact g1 e h
    · exact g2 e h
  adv := fun c => ⟨rfl, [], by simp [advance], by simp⟩
  ret := fun c => ⟨rfl, [], by simp [retreat], by simp⟩
  syn := fun c m s => ⟨rfl, [_], rfl, by simp⟩
  sem := fun c m s => ⟨rfl, [_], rfl, by simp⟩
  set := fun c k v => ⟨rfl, [], by simp [setSymbol], by simp⟩

/-! ## The driver on a bounded call stack -/

theorem Follows.cases {P : Prop} {o : Outcome} {x : Option MiniCCompiler} {r : MiniCCompiler}
    (h : Follows P o x) (hx : x = some r) : o = .done r ∨ (¬P ∧ ∃ r', o = .thrown r') := by
  cases o with
  | done a =>
    have h1 : x = some a := h
    rw [hx] at h1
    cases h1
    exact Or.inl rfl
  | thrown a => exact Or.inr ⟨h, a, rfl⟩
  | stuck =>
    have h1 : x = none := h
    rw [hx] at h1
    cases h1

/-- A call of a method that returns `r` on a stack that suffices returns `r`, or it
raises the `RangeError`, and then fewer than `n + 1` frames were left. -/
theorem invoke_cases {n s : Nat} {c : MiniCCompiler} {F : Nat → MiniCCompiler → Outcome}
    {x : Option MiniCCompiler} {r : MiniCCompiler} (h : ∀ s', Follows (n ≤ s') (F s' c) x)
    (hx : x = some r) :
    invoke s c F = .done r ∨ (s < n + 1 ∧ ∃ r', invoke s c F = .thrown r') := by
  rcases (follows_invoke (s := s) h).cases hx with h1 | ⟨h1, h2⟩
  · exact Or.inl h1
  · exact Or.inr ⟨by omega, h2⟩

/-- The method `parse` returns on every token list, whatever the number of frames:
normally, or through its `catch` with the instance as the `RangeError` left it. -/
theorem bounded_parse_returns (s : Nat) (c : MiniCCompiler) (tokens : List Token) :
    ∃ c1, Bounded.parse s c tokens = some c1 ∧
      Grows { c with tokens := tokens, currentToken := 0 } c1 := by
  obtain ⟨c2, h2, -⟩ := parse_total c tokens
  have h2' : parseProgram (parseFuel tokens) { c with tokens := tokens, currentToken := 0 } =
      some c2 := h2
  have hR := stepClosed_grows.invoke s (fun s' =>
    (allReach stepClosed_grows (parseFuel tokens)).parseProgram s'
      { c with tokens := tokens, currentToken := 0 })
  rcases invoke_cases (s := s)
    (fun s' => (allFollows (parseFuel tokens)).parseProgram s'
      { c with tokens := tokens, currentToken := 0 }) h2' with h | ⟨-, r, h⟩
  · rw [h] at hR
    exact ⟨c2, by simp only [Bounded.parse, h], all_of_done hR⟩
  · rw [h] at hR
    exact ⟨r, by simp only [Bounded.parse, h], all_of_thrown hR⟩

/-- With more frames than the fuel of `parseProgram` the `catch` of `parse` is not
entered: the method returns what it returns on a stack that suffices. -/
theorem bounded_parse_of_enough_stack (s : Nat) (c : MiniCCompiler) (tokens : List Token)
    (hs : parseFuel tokens < s) : Bounded.parse s c tokens = parse c tokens := by
  obtain ⟨s', rfl⟩ : ∃ k, s = k + 1 := ⟨s - 1, by omega⟩
  obtain ⟨c2, h2, -⟩ := parse_total c tokens
  have h2' : parseProgram (parseFuel tokens) { c with tokens := tokens, currentToken := 0 } =
      some c2 := h2
  have hF := (allFollows (parseFuel tokens)).parseProgram s'
    { c with tokens := tokens, currentToken := 0 }
  have hi : invoke (s' + 1) { c with tokens := tokens, currentToken := 0 }
      (Bounded.parseProgram (parseFuel tokens)) =
      Bounded.parseProgram (parseFuel tokens) s'
        { c with tokens := tokens, currentToken := 0 } := rfl
  rw [h2]
  simp only [Bounded.parse, hi]
  cases ho : Bounded.parseProgram (parseFuel tokens) s'
      { c with tokens := tokens, currentToken := 0 } with
  | done r =>
    rw [ho] at hF
    have h3 : parseProgram (parseFuel tokens)
        { c with tokens := tokens, currentToken := 0 } = some r := hF
    rw [h2'] at h3
    rw [h3]
  | thrown r =>
    rw [ho] at hF
    exact absurd (show parseFuel tokens ≤ s' by omega) hF
  | stuck =>
    rw [ho] at hF
    have h3 : parseProgram (parseFuel tokens)
        { c with tokens := tokens, currentToken := 0 } = none := hF
    rw [h2'] at h3
    cases h3

theorem getCurrentTokenChecked_eq (c : MiniCCompiler) :
    getCurrentTokenChecked c = some (getCurrentToken c) := by
  unfold getCurrentTokenChecked
  by_cases h : c.currentToken ≥ c.tokens.length
  · rw [if_pos h, getCurrentToken_of_exhausted h]
  · rw [if_neg h]
    exact getCurrentToken_of_lt (by omega)

theorem semanticErrorChecked_eq (c : MiniCCompiler) (message suggestion : JSString) :
    semanticErrorChecked c message suggestion = .ok (semanticError c message suggestion) := by
  unfold semanticErrorChecked
  rw [getCurrentTokenChecked_eq]
  rfl

theorem foldlM_ok {α β ε : Type} {f : β → α → Except ε β} {g : β → α → β}
    (h : ∀ b a, f b a = .ok (g b a)) : ∀ (l : List α) (b : β),
      l.foldlM f b = .ok (l.foldl g b) := by
  intro l
  induction l with
  | nil => intro b; rfl
  | cons a l ih =>
    intro b
    rw [List.foldlM_cons, h, List.foldl_cons]
    exact ih _

/-- The sweep raises no `TypeError`: every token it reads comes from the guarded
`getCurrentToken`. -/
theorem semanticAnalysisChecked_eq (c : MiniCCompiler) :
    semanticAnalysisChecked c = .ok (semanticAnalysis c) := by
  unfold semanticAnalysisChecked semanticAnalysis
  refine foldlM_ok (fun b a => ?_) _ _
  rcases a with ⟨name, t | t | t⟩
  · by_cases hv : t = utf16 "void"
    · simp only [hv, if_true, semanticErrorChecked_eq]
    · simp only [hv, if_false]
  · rfl
  · rfl

/-- With no frame left `compile` ends in its `catch`. -/
theorem bounded_compile_zero (c0 : MiniCCompiler) (code : JSString) :
    Bounded.compile 0 c0 code =
      some (⟨false, [], [internalDiagnostic], [], [], [], [phaseLexical]⟩,
        resetForCompile c0) := rfl

theorem bounded_compile_of_lexical_errors (s : Nat) (c0 : MiniCCompiler) (code : JSString)
    (toks : List Token) (c1 : MiniCCompiler)
    (ht : tokenize (resetForCompile c0) code = some (toks, c1)) (he : c1.errors ≠ []) :
    Bounded.compile (s + 1) c0 code =
      some (⟨false, toks, c1.errors, [], [], [], [phaseLexical]⟩, c1) := by
  have hl : c1.errors.length > 0 := List.length_pos.2 he
  unfold resetForCompile at ht
  simp [Bounded.compile, ht, hl]

theorem bounded_compile_of_syntax_errors (s : Nat) (c0 : MiniCCompiler) (code : JSString)
    (toks : List Token) (c1 c2 : MiniCCompiler)
    (ht : tokenize (resetForCompile c0) code = some (toks, c1)) (he : c1.errors = [])
    (hp : Bounded.parse s c1 toks = some c2) (he2 : c2.errors ≠ []) :
    Bounded.compile (s + 1) c0 code =
      some (⟨false, toks, c2.errors, [], [], [], [phaseLexical, phaseSyntax]⟩, c2) := by
  have hl : c2.errors.length > 0 := List.length_pos.2 he2
  unfold resetForCompile at ht
  simp [Bounded.compile, ht, he, hp, hl]

theorem bounded_compile_of_no_syntax_errors (s : Nat) (c0 : MiniCCompiler) (code : JSString)
    (toks : List Token) (c1 c2 : MiniCCompiler)
    (ht : tokenize (resetForCompile c0) code = some (toks, c1)) (he : c1.errors = [])
    (hp : Bounded.parse s c1 toks = some c2) (he2 : c2.errors = []) :
    Bounded.compile (s + 1) c0 code =
      some (⟨(generateCode (semanticAnalysis c2)).errors.length == 0, toks,
          (generateCode (semanticAnalysis c2)).errors,
          (generateCode (semanticAnalysis c2)).warnings,
          (generateCode (semanticAnalysis c2)).symbolTable,
          (generateCode (semanticAnalysis c2)).output,
          [phaseLexical, phaseSyntax, phaseSemantic, phaseGeneration]⟩,
        generateCode (semanticAnalysis c2)) := by
  unfold resetForCompile at ht
  simp [Bounded.compile, ht, he, hp, he2, semanticAnalysisChecked_eq]

/-- The three ways `compile` ends when it is entered with a frame left. -/
theorem bounded_compile_cases (s : Nat) (c0 : MiniCCompiler) (code : JSString) :
    ∃ toks c1, tokenize (resetForCompile c0) code = some (toks, c1) ∧
      ((c1.errors ≠ [] ∧
          Bounded.compile (s + 1) c0 code =
            some (⟨false, toks, c1.errors, [], [], [], [phaseLexical]⟩, c1)) ∨
        (c1.errors = [] ∧ ∃ c2, Bounded.parse s c1 toks = some c2 ∧
          Grows { c1 with tokens := toks, currentToken := 0 } c2 ∧
          ((c2.errors ≠ [] ∧
              Bounded.compile (s + 1) c0 code =
                some (⟨false, toks, c2.errors, [], [], [], [phaseLexical, phaseSyntax]⟩, c2)) ∨
            (c2.errors = [] ∧
              Bounded.compile (s + 1) c0 code =
                some (⟨(generateCode (semanticAnalysis c2)).errors.length == 0, toks,
                    (generateCode (semanticAnalysis c2)).errors,
                    (generateCode (semanticAnalysis c2)).warnings,
                    (generateCode (semanticAnalysis c2)).symbolTable,
                    (generateCode (semanticAnalysis c2)).output,
                    [phaseLexical, phaseSyntax, phaseSemantic, phaseGeneration]⟩,
                  generateCode (semanticAnalysis c2)))))) := by
  obtain ⟨toks, c1, ht⟩ := tokenize_total (resetForCompile c0) code
  refine ⟨toks, c1, ht, ?_⟩
  by_cases he : c1.errors = []
  · obtain ⟨c2, hp, hg⟩ := bounded_parse_returns s c1 toks
    refine Or.inr ⟨he, c2, hp, hg, ?_⟩
    by_cases he2 : c2.errors = []
    · exact Or.inr ⟨he2, bounded_compile_of_no_syntax_errors s c0 code toks c1 c2 ht he hp he2⟩
    · exact Or.inl ⟨he2, bounded_compile_of_syntax_errors s c0 code toks c1 c2 ht he hp he2⟩
  · exact Or.inl ⟨he, bounded_compile_of_lexical_errors s c0 code toks c1 ht he⟩

/-- With more frames than the fuel of `parseProgram`, `compile` returns what it
returns on a stack that suffices. -/
theorem bounded_compile_of_enough_stack (s : Nat) (c0 : MiniCCompiler) (code : JSString)
    (toks : List Token) (c1 : MiniCCompiler)
    (ht : tokenize (resetForCompile c0) code = some (toks, c1)) (hs : parseFuel toks < s) :
    Bounded.compile (s + 1) c0 code = compile c0 code := by
  have hp := bounded_parse_of_enough_stack s c1 toks hs
  by_cases he : c1.errors = []
  · obtain ⟨c2, h2, -⟩ := parse_total c1 toks
    rw [h2] at hp
    by_cases he2 : c2.errors = []
    · rw [bounded_compile_of_no_syntax_errors s c0 code toks c1 c2 ht he hp he2,
        compile_of_no_syntax_errors c0 code toks c1 c2 ht he h2 he2]
    · rw [bounded_compile_of_syntax_errors s c0 code toks c1 c2 ht he hp he2,
        compile_of_syntax_errors c0 code toks c1 c2 ht he h2 he2]
  · rw [bounded_compile_of_lexical_errors s c0 code toks c1 ht he,
      compile_of_lexical_errors c0 code toks c1 ht he]
/-! ## The parser on a bounded stack: every loop iteration moves the cursor -/

/-- A call of `parseStatement` returns one token further, or it raises. -/
theorem bounded_parseStatement_call (n s : Nat) (c : MiniCCompiler)
    (hB : 14 + 32 * (c.tokens.length - c.currentToken) ≤ n) :
    (∃ c1, Bounded.parseStatement n s c = .done c1 ∧ c.currentToken + 1 ≤ c1.currentToken) ∨
    (s < n ∧ ∃ c1, Bounded.parseStatement n s c = .thrown c1) := by
  obtain ⟨c1, h1, a1⟩ := (allSpecs n).parseStatement c trivial hB
  rcases ((allFollows n).parseStatement s c).cases h1 with h | ⟨hs, r, h⟩
  · exact Or.inl ⟨c1, h, a1.cursor⟩
  · exact Or.inr ⟨by omega, r, h⟩

/-- One iteration of the top-level loop on a bounded stack. -/
theorem bounded_parseProgram_iteration (n s : Nat) (c : MiniCCompiler)
    (hlt : c.currentToken < c.tokens.length)
    (hB : 17 + 32 * (c.tokens.length - c.currentToken) ≤ n + 1) :
    (∃ c1, c.currentToken + 1 ≤ c1.currentToken ∧ c1.tokens = c.tokens ∧
      Bounded.parseProgram (n + 1) s c = Bounded.parseProgram n s c1) ∨
    (s < n + 1 ∧ ∃ c1, Bounded.parseProgram (n + 1) s c = .thrown c1) := by
  rw [Bounded.parseProgram, if_pos hlt]
  by_cases hinc : checkToken c .KEYWORD (utf16 "include") = true
  · rw [if_pos hinc]
    have a1 := adv_parseInclude c hinc
    cases s with
    | zero => exact Or.inr ⟨by omega, c, rfl⟩
    | succ s' => exact Or.inl ⟨parseInclude c, a1.cursor, a1.ext.tokens, rfl⟩
  · rw [if_neg hinc]
    by_cases hk : checkTokenType c .KEYWORD = true
    · rw [if_pos hk]
      obtain ⟨c1, h1, a1⟩ := (allSpecs n).parseDeclarationOrFunction c trivial (by omega)
      rcases invoke_cases (s := s)
        (fun s' => (allFollows n).parseDeclarationOrFunction s' c) h1 with h | ⟨hs, r, h⟩
      · exact Or.inl ⟨c1, a1.cursor, a1.ext.tokens, by rw [h]; rfl⟩
      · exact Or.inr ⟨hs, r, by rw [h]; rfl⟩
    · rw [if_neg hk]
      exact Or.inl ⟨advance (syntaxError c (utf16 "Expected declaration or function")
        (utf16 "Add proper function or variable declaration")), Nat.le_refl _, rfl, rfl⟩

/-- One iteration of the loop of `parseBlockStatement` on a bounded stack. -/
theorem bounded_parseBlockStatement_iteration (n s : Nat) (c : MiniCCompiler)
    (hc : (!checkToken c .DELIMITER (utf16 "\x7d") &&
      decide (c.currentToken < c.tokens.length)) = true)
    (hB : 15 + 32 * (c.tokens.length - c.currentToken) ≤ n + 1) :
    (∃ c1, c.currentToken + 1 ≤ c1.currentToken ∧ c1.tokens = c.tokens ∧
      Bounded.parseBlockStatement (n + 1) s c = Bounded.parseBlockStatement n s c1) ∨
    (s < n + 1 ∧ ∃ c1, Bounded.parseBlockStatement (n + 1) s c = .thrown c1) := by
  rw [Bounded.parseBlockStatement, if_pos hc]
  obtain ⟨c1, h1, a1⟩ := (allSpecs n).parseStatement c trivial (by omega)
  rcases invoke_cases (s := s) (fun s' => (allFollows n).parseStatement s' c) h1 with
    h | ⟨hs, r, h⟩
  · exact Or.inl ⟨c1, a1.cursor, a1.ext.tokens, by rw [h]; rfl⟩
  · exact Or.inr ⟨hs, r, by rw [h]; rfl⟩

/-- One iteration of the loop of `parseDeclaration` on a bounded stack. -/
theorem bounded_parseDeclarationLoop_iteration (n : Nat) (type : JSString) (s : Nat)
    (c : MiniCCompiler) (hc : checkToken c .DELIMITER (utf16 ",") = true)
    (hB : 1 + 32 * (c.tokens.length - c.currentToken) ≤ n + 1) :
    (∃ c1, c.currentToken + 1 ≤ c1.currentToken ∧ c1.tokens = c.tokens ∧
      Bounded.parseDeclarationLoop (n + 1) type s c = Bounded.parseDeclarationLoop n type s c1) ∨
    (s < n + 1 ∧ ∃ c1, Bounded.parseDeclarationLoop (n + 1) type s c = .thrown c1) := by
  have hlt := lt_of_checkToken hc (by decide)
  rw [Bounded.parseDeclarationLoop, if_pos hc]
  simp only []
  by_cases hid : checkTokenType (advance c) .IDENTIFIER = true
  · rw [if_pos hid]
    have a2 := ((adv_advance c).andThen (adv_setSymbol (advance c)
      (getCurrentToken (advance c)).value (.variable type))).andThen (adv_advance _)
    generalize advance (setSymbol (advance c) (getCurrentToken (advance c)).value
      (.variable type)) = c2 at a2 ⊢
    have l2 := a2.len
    have k2 := a2.cursor
    by_cases he : checkToken c2 .OPERATOR (utf16 "=") = true
    · rw [if_pos he]
      have hlt2 := lt_of_checkToken he (by decide)
      have a := adv_advance c2
      have := a.len
      have := a.cursor
      obtain ⟨c3, h3, a3⟩ := (allSpecs n).parseExpression (advance c2) trivial (by omega)
      have k3 := a3.cursor
      rcases invoke_cases (s := s)
        (fun s' => (allFollows n).parseExpression s' (advance c2)) h3 with h | ⟨hs, r, h⟩
      · exact Or.inl ⟨c3, by omega, ((a2.andThen a).andThen a3).ext.tokens, by rw [h]; rfl⟩
      · exact Or.inr ⟨hs, r, by rw [h]; rfl⟩
    · rw [if_neg he]
      exact Or.inl ⟨c2, by omega, a2.ext.tokens, rfl⟩
  · rw [if_neg hid]
    exact Or.inl ⟨syntaxError (advance c) (utf16 "Expected identifier")
      (utf16 "Add variable name after comma"), Nat.le_refl _, rfl, rfl⟩

/-- One pass through the body of the loop of `parseArgumentList` on a bounded stack:
the loop ends, or it goes on from a later cursor, or the call of `parseExpression`
raises. -/
theorem bounded_parseArgumentList_iteration (n s : Nat) (c : MiniCCompiler)
    (hB : 11 + 32 * (c.tokens.length - c.currentToken) ≤ n + 1) :
    (∃ c1, c.currentToken ≤ c1.currentToken ∧
      Bounded.parseArgumentList (n + 1) s c = .done c1) ∨
    (∃ c1, c.currentToken + 1 ≤ c1.currentToken ∧ c1.tokens = c.tokens ∧
      Bounded.parseArgumentList (n + 1) s c = Bounded.parseArgumentList n s c1) ∨
    (s < n + 1 ∧ ∃ c1, Bounded.parseArgumentList (n + 1) s c = .thrown c1) := by
  obtain ⟨c1, h1, a1⟩ := (allSpecs n).parseExpression c trivial (by omega)
  have k1 := a1.cursor
  rw [Bounded.parseArgumentList]
  rcases invoke_cases (s := s) (fun s' => (allFollows n).parseExpression s' c) h1 with
    h | ⟨hs, r, h⟩
  · rw [h]
    simp only [Outcome.bind]
    by_cases hcm : checkToken c1 .DELIMITER (utf16 ",") = true
    · rw [if_pos hcm]
      have a2 := a1.andThen (adv_advance c1)
      have k2 := a2.cursor
      by_cases hl : (advance c1).currentToken < (advance c1).tokens.length
      · rw [if_pos hl]
        exact Or.inr (Or.inl ⟨_, by omega, a2.ext.tokens, rfl⟩)
      · rw [if_neg hl]
        exact Or.inl ⟨_, by omega, rfl⟩
    · rw [if_neg hcm]
      exact Or.inl ⟨c1, by omega, rfl⟩
  · exact Or.inr (Or.inr ⟨hs, r, by rw [h]; rfl⟩)

/-! ## The internal-fault branch of the driver -/

/-- The diagnostics of the result of `compile`, entered with a frame left, are those
of the instance, and each is of kind `LEXICAL`, `SYNTAX` or `SEMANTIC`. -/
theorem bounded_compile_errors (s : Nat) (c0 : MiniCCompiler) (code : JSString) :
    ∃ r c, Bounded.compile (s + 1) c0 code = some (r, c) ∧ r.errors = c.errors ∧
      ∀ e ∈ r.errors, e.type = .LEXICAL ∨ e.type = .SYNTAX ∨ e.type = .SEMANTIC := by
  obtain ⟨toks, c1, ht, h⟩ := bounded_compile_cases s c0 code
  obtain ⟨es1, hc1, g1⟩ := tokenize_errs _ _ _ _ ht
  have hce : c1.errors = es1 := by rw [hc1]; simp [resetForCompile]
  rcases h with ⟨-, hc⟩ | ⟨he, c2, -, hg, h⟩
  · refine ⟨_, _, hc, rfl, ?_⟩
    intro e hm
    exact Or.inl (g1 e (by simpa [hce] using hm)).1
  · obtain ⟨-, es2, hc2, g2⟩ := hg
    have hc2' : c2.errors = es2 := by
      rw [hc2]
      show c1.errors ++ es2 = es2
      rw [he]
      rfl
    rcases h with ⟨-, hc⟩ | ⟨he2, hc⟩
    · refine ⟨_, _, hc, rfl, ?_⟩
      intro e hm
      have hm : e ∈ c2.errors := hm
      rw [hc2'] at hm
      exact Or.inr (g2 e hm)
    · refine ⟨_, _, hc, rfl, ?_⟩
      intro e hm
      have hm : e ∈ (generateCode (semanticAnalysis c2)).errors := hm
      rw [generateCode_errors, semanticAnalysis_eq, he2] at hm
      simp only [List.nil_append, List.mem_map] at hm
      obtain ⟨x, -, rfl⟩ := hm
      exact Or.inr (Or.inr rfl)

theorem readToken_of_exhausted (c : MiniCCompiler) (h : c.tokens.length ≤ c.currentToken) :
    readToken c = none := by
  unfold readToken
  rw [List.getElem?_eq_none_iff]
  exact h
/-! ## A source that exhausts the call stack -/

theorem lex_parens (line : JSString) :
    ∀ (m col : Nat), line.drop col = List.replicate m 40 ++ [59] →
      Scans 0 line col (parenTokens col m ++ [⟨.DELIMITER, utf16 ";", 1, col + m⟩]) [] := by
  intro m
  induction m with
  | zero =>
    intro col hd
    have hd : line.drop col = [59] := hd
    obtain ⟨-, hlt⟩ := getD_of_drop_eq hd
    have hlen := length_of_drop_eq hd (by omega)
    have := Scans.of_next hlt
      (scanStep_single 0 line col 59 [] hd (by decide) (by decide) (by decide) (by decide)
        (by decide) (Or.inl rfl) (by decide))
      (show Scans 0 line (col + 1) [] [] from Scans.of_end (by rw [hlen]; simp))
    have e : utf16 ";" = [59] := by decide
    simpa [parenTokens, e] using this
  | succ m ih =>
    intro col hd
    have hd : line.drop col = 40 :: (List.replicate m 40 ++ [59]) := hd
    obtain ⟨-, hlt⟩ := getD_of_drop_eq hd
    have hd1 : line.drop (col + 1) = List.replicate m 40 ++ [59] := by
      have := drop_eq_getD_cons line col hlt
      rw [hd] at this
      injection this with _ h
      exact h.symm
    have h6 : operators.contains ((40 :: (List.replicate m 40 ++ [59])).take 2) = false := by
      cases m with
      | zero => decide
      | succ m =>
        show operators.contains [40, 40] = false
        decide
    have := Scans.of_next hlt
      (scanStep_single 0 line col 40 _ hd (by decide) (fun h => absurd h (by decide))
        (by decide) (by decide) (by decide) (Or.inr h6) (by decide))
      (ih (col + 1) hd1)
    have e : utf16 "(" = [40] := by decide
    have e2 : col + 1 + m = col + (m + 1) := by omega
    simpa [parenTokens, e, e2] using this

/-- The lexer on `void x = (( ... (;`. -/
theorem lex_nestedVoid (k : Nat) : lex (nestedVoidSource k) = some (nestedVoidTokens k, []) := by
  have e1 : utf16 "void x = " = [118, 111, 105, 100, 32, 120, 32, 61, 32] := by decide
  have e3 : utf16 ";" = [59] := by decide
  have e4 : utf16 "void" = [118, 111, 105, 100] := by decide
  have e5 : utf16 "=" = [61] := by decide
  have e6 : utf16 "x" = [120] := by decide
  unfold nestedVoidSource nestedVoidTokens
  rw [e1]
  generalize hline : [118, 111, 105, 100, 32, 120, 32, 61, 32] ++
    (List.replicate k 40 ++ utf16 ";") = line
  apply lex_of_scans
  · intro ch hch
    rw [← hline, e3] at hch
    simp only [List.mem_append, List.mem_cons, List.mem_singleton, List.not_mem_nil,
      or_false, List.mem_replicate] at hch
    rcases hch with h | h | h
    · omega
    · omega
    · omega
  have s9 := lex_parens line k 9 (drop_of_eq_append [118, 111, 105, 100, 32, 120, 32, 61, 32]
    (by rw [← hline, e3]) rfl)
  have hlen : 9 < line.length := by
    rw [← hline, e3]
    simp
  have s8 : Scans 0 line 8 (parenTokens 9 k ++ [⟨.DELIMITER, utf16 ";", 1, 9 + k⟩]) [] := by
    have hd : line.drop 8 = 32 :: (List.replicate k 40 ++ [59]) :=
      drop_of_eq_append [118, 111, 105, 100, 32, 120, 32, 61] (by rw [← hline, e3]; rfl) rfl
    have := Scans.of_next (by omega) (scanStep_whitespace 0 line 8 32 _ hd (by decide)) s9
    simpa using this
  have s7 : Scans 0 line 7 (⟨.OPERATOR, utf16 "=", 1, 7⟩ ::
      (parenTokens 9 k ++ [⟨.DELIMITER, utf16 ";", 1, 9 + k⟩])) [] := by
    have hd : line.drop 7 = 61 :: (32 :: (List.replicate k 40 ++ [59])) :=
      drop_of_eq_append [118, 111, 105, 100, 32, 120, 32] (by rw [← hline, e3]; rfl) rfl
    have := Scans.of_next (by omega)
      (scanStep_single 0 line 7 61 _ hd (by decide) (fun h => absurd h (by decide))
        (by decide) (by decide) (by decide)
        (Or.inr (show operators.contains [61, 32] = false from by decide)) (by decide)) s8
    simpa [e5] using this
  have s6 : Scans 0 line 6 (⟨.OPERATOR, utf16 "=", 1, 7⟩ ::
      (parenTokens 9 k ++ [⟨.DELIMITER, utf16 ";", 1, 9 + k⟩])) [] := by
    have hd : line.drop 6 = 32 :: (61 :: 32 :: (List.replicate k 40 ++ [59])) :=
      drop_of_eq_append [118, 111, 105, 100, 32, 120] (by rw [← hline, e3]; rfl) rfl
    have := Scans.of_next (by omega) (scanStep_whitespace 0 line 6 32 _ hd (by decide)) s7
    simpa using this
  have s5 : Scans 0 line 5 (⟨.IDENTIFIER, utf16 "x", 1, 5⟩ :: ⟨.OPERATOR, utf16 "=", 1, 7⟩ ::
      (parenTokens 9 k ++ [⟨.DELIMITER, utf16 ";", 1, 9 + k⟩])) [] := by
    have hd : line.drop 5 = [120] ++ (32 :: 61 :: 32 :: (List.replicate k 40 ++ [59])) :=
      drop_of_eq_append [118, 111, 105, 100, 32] (by rw [← hline, e3]; rfl) rfl
    have := Scans.of_next (by omega)
      (scanStep_word 0 line 5 [120] _ hd (by decide) (by intro t h; cases h; decide)) s6
    have hk1 : keywords.contains [120] = false := by decide
    simpa [hk1, e6] using this
  have s4 : Scans 0 line 4 (⟨.IDENTIFIER, utf16 "x", 1, 5⟩ :: ⟨.OPERATOR, utf16 "=", 1, 7⟩ ::
      (parenTokens 9 k ++ [⟨.DELIMITER, utf16 ";", 1, 9 + k⟩])) [] := by
    have hd : line.drop 4 = 32 :: ([120] ++ (32 :: 61 :: 32 :: (List.replicate k 40 ++ [59]))) :=
      drop_of_eq_append [118, 111, 105, 100] (by rw [← hline, e3]; rfl) rfl
    have := Scans.of_next (by omega) (scanStep_whitespace 0 line 4 32 _ hd (by decide)) s5
    simpa using this
  have s0 : Scans 0 line 0 (⟨.KEYWORD, utf16 "void", 1, 0⟩ :: ⟨.IDENTIFIER, utf16 "x", 1, 5⟩ ::
      ⟨.OPERATOR, utf16 "=", 1, 7⟩ ::
      (parenTokens 9 k ++ [⟨.DELIMITER, utf16 ";", 1, 9 + k⟩])) [] := by
    have hd : line.drop 0 = [118, 111, 105, 100] ++
        (32 :: ([120] ++ (32 :: 61 :: 32 :: (List.replicate k 40 ++ [59])))) := by
      rw [← hline, e3]
      rfl
    have := Scans.of_next (by omega)
      (scanStep_word 0 line 0 [118, 111, 105, 100] _ hd (by decide)
        (by intro t h; cases h; decide)) s4
    have hk1 : keywords.contains [118, 111, 105, 100] = true := by decide
    simpa [hk1, e4] using this
  exact s0
/-! ## The descent through nested parentheses on a bounded stack -/

theorem bind_thrown (r : MiniCCompiler) (k : MiniCCompiler → Outcome) :
    (Outcome.thrown r).bind k = .thrown r := rfl

/-- A `RangeError` raised by the next method of the chain passes through the calling
one. -/
theorem chain_step (i n s : Nat) (c r : MiniCCompiler) (hi : i < 7)
    (h : invoke s c (Bounded.chainMethod (i + 1) n) = .thrown r) :
    Bounded.chainMethod i (n + 1) s c = .thrown r := by
  match i, hi with
  | 0, _ =>
    show Bounded.parseExpression (n + 1) s c = _
    rw [Bounded.parseExpression]
    exact h
  | 1, _ =>
    show Bounded.parseLogicalOr (n + 1) s c = _
    have h1 : invoke s c (Bounded.parseLogicalAnd n) = .thrown r := h
    rw [Bounded.parseLogicalOr, h1, bind_thrown]
  | 2, _ =>
    show Bounded.parseLogicalAnd (n + 1) s c = _
    have h1 : invoke s c (Bounded.parseEquality n) = .thrown r := h
    rw [Bounded.parseLogicalAnd, h1, bind_thrown]
  | 3, _ =>
    show Bounded.parseEquality (n + 1) s c = _
    have h1 : invoke s c (Bounded.parseRelational n) = .thrown r := h
    rw [Bounded.parseEquality, h1, bind_thrown]
  | 4, _ =>
    show Bounded.parseRelational (n + 1) s c = _
    have h1 : invoke s c (Bounded.parseAdditive n) = .thrown r := h
    rw [Bounded.parseRelational, h1, bind_thrown]
  | 5, _ =>
    show Bounded.parseAdditive (n + 1) s c = _
    have h1 : invoke s c (Bounded.parseMultiplicative n) = .thrown r := h
    rw [Bounded.parseAdditive, h1, bind_thrown]
  | 6, _ =>
    show Bounded.parseMultiplicative (n + 1) s c = _
    have h1 : invoke s c (Bounded.parseUnary n) = .thrown r := h
    rw [Bounded.parseMultiplicative, h1, bind_thrown]

/-- On a token that is no operator `parseUnary` calls `parsePrimary`. -/
theorem chain_step_unary (n s : Nat) (c r : MiniCCompiler)
    (ht : (getCurrentToken c).type = .DELIMITER)
    (h : invoke s c (Bounded.parsePrimary n) = .thrown r) :
    Bounded.parseUnary (n + 1) s c = .thrown r := by
  rw [Bounded.parseUnary]
  simp only [checkToken_eq, ht]
  exact h

/-- On `(` the method `parsePrimary` moves the cursor on and calls `parseExpression`. -/
theorem chain_step_primary (n s : Nat) (c r : MiniCCompiler) (t : Token) (l : List Token)
    (hd : c.tokens.drop c.currentToken = t :: l) (ht : isDelimiter (utf16 "(") t = true)
    (h : invoke s (advance c) (Bounded.parseExpression n) = .thrown r) :
    Bounded.parsePrimary (n + 1) s c = .thrown r := by
  obtain ⟨hg, -, -⟩ := getCurrentToken_of_drop hd
  obtain ⟨hc, -⟩ := consumeToken_of_delimiter hd ht
  simp only [isDelimiter, Bool.and_eq_true, decide_eq_true_eq] at ht
  rw [Bounded.parsePrimary]
  simp only [checkToken_eq, checkTokenType_eq, hg, ht.1, ht.2, hc, h, bind_thrown]
  simp

/-- With `s` frames left on a run of `m` opening parentheses, the call of a method of
the chain raises the `RangeError` after the cursor has passed one parenthesis for
every nine calls. -/
theorem chain_thrown : ∀ (s i n col m : Nat) (semi : Token) (c : MiniCCompiler), i ≤ 8 → s < n →
    c.tokens.drop c.currentToken = parenTokens col m ++ [semi] → (s + i) / 9 < m →
    invoke s c (Bounded.chainMethod i n) =
      .thrown { c with currentToken := c.currentToken + (s + i) / 9 } := by
  intro s
  induction s with
  | zero =>
    intro i n col m semi c hi hn hd hm
    have h0 : (0 + i) / 9 = 0 := by omega
    rw [h0]
    rfl
  | succ s ih =>
    intro i n col m semi c hi hn hd hm
    obtain ⟨n, rfl⟩ : ∃ k, n = k + 1 := ⟨n - 1, by omega⟩
    show Bounded.chainMethod i (n + 1) s c = _
    by_cases h7 : i < 7
    · have h := ih (i + 1) n col m semi c (by omega) (by omega) hd (by omega)
      rw [chain_step i n s c _ h7 h]
      congr 2
      omega
    · obtain ⟨m, rfl⟩ : ∃ k, m = k + 1 := ⟨m - 1, by omega⟩
      have hd1 : c.tokens.drop c.currentToken =
          ⟨.DELIMITER, utf16 "(", 1, col⟩ :: (parenTokens (col + 1) m ++ [semi]) := hd
      obtain ⟨hg, -, hd2⟩ := getCurrentToken_of_drop hd1
      by_cases h8 : i = 7
      · subst h8
        have h := ih 8 n col (m + 1) semi c (by omega) (by omega) hd (by omega)
        show Bounded.parseUnary (n + 1) s c = _
        rw [chain_step_unary n s c _ (by rw [hg]) h]
      · have h8' : i = 8 := by omega
        subst h8'
        have h := ih 0 n (col + 1) m semi (advance c) (by omega) (by omega) hd2 (by omega)
        show Bounded.parsePrimary (n + 1) s c = _
        rw [chain_step_primary n s c _ _ _ hd1 rfl h]
        congr 1
        cases c
        simp only [advance, MiniCCompiler.mk.injEq, true_and, and_true]
        omega

theorem length_parenTokens (col m : Nat) : (parenTokens col m).length = m := by
  induction m generalizing col with
  | zero => rfl
  | succ m ih => simp [parenTokens, ih]

theorem drop_parenTokens (l : List Token) : ∀ (j col m : Nat), j < m →
    (parenTokens col m ++ l).drop j =
      ⟨.DELIMITER, utf16 "(", 1, col + j⟩ :: (parenTokens (col + j + 1) (m - j - 1) ++ l) := by
  intro j
  induction j with
  | zero =>
    intro col m h
    obtain ⟨m, rfl⟩ : ∃ k, m = k + 1 := ⟨m - 1, by omega⟩
    rfl
  | succ j ih =>
    intro col m h
    obtain ⟨m, rfl⟩ : ∃ k, m = k + 1 := ⟨m - 1, by omega⟩
    show (parenTokens (col + 1) m ++ l).drop j = _
    rw [ih (col + 1) m (by omega)]
    have e1 : col + 1 + j = col + (j + 1) := by omega
    have e2 : m + 1 - (j + 1) - 1 = m - j - 1 := by omega
    rw [e1, e2]

/-- The token under the cursor while it is on one of the parentheses. -/
theorem getCurrentToken_nestedVoid (k j : Nat) (c : MiniCCompiler)
    (ht : c.tokens = nestedVoidTokens k) (hc : c.currentToken = 3 + j) (hj : j < k) :
    getCurrentToken c = ⟨.DELIMITER, utf16 "(", 1, 9 + j⟩ := by
  have hd : c.tokens.drop c.currentToken =
      ⟨.DELIMITER, utf16 "(", 1, 9 + j⟩ ::
        (parenTokens (9 + j + 1) (k - j - 1) ++ [⟨.DELIMITER, utf16 ";", 1, 9 + k⟩]) := by
    rw [ht, hc, ← drop_parenTokens _ j 9 k hj, nestedVoidTokens, ← List.drop_drop]
    rfl
  exact (getCurrentToken_of_drop hd).1

/-- The call of `parseProgram` on `void x = (( ... (;` with too few frames for the
parentheses raises the `RangeError`, with no diagnostic recorded, with `x` recorded as
a `void` variable and with the cursor on a parenthesis. -/
theorem parseProgram_nestedVoid (k s : Nat) (c : MiniCCompiler) (h3 : 3 ≤ s)
    (hk : s < 9 * k + 3) :
    invoke s { c with tokens := nestedVoidTokens k, currentToken := 0 }
        (Bounded.parseProgram (parseFuel (nestedVoidTokens k))) =
      .thrown { c with
        tokens := nestedVoidTokens k
        currentToken := 3 + (s - 3) / 9
        symbolTable := c.symbolTable.set (utf16 "x") (.variable (utf16 "void")) } := by
  obtain ⟨s, rfl⟩ : ∃ j, s = j + 3 := ⟨s - 3, by omega⟩
  obtain ⟨f, hf, hsf⟩ : ∃ f, parseFuel (nestedVoidTokens k) = f + 4 ∧ s < f + 1 := by
    refine ⟨32 * k + 156, ?_, by omega⟩
    simp only [parseFuel, nestedVoidTokens, List.length_append, List.length_cons,
      List.length_nil, length_parenTokens]
    omega
  rcases c with ⟨tk, cur, es, ws, st, out⟩
  have e : s + 3 - 3 = s := by omega
  rw [hf, e]
  generalize hrest : parenTokens 9 k ++ [(⟨.DELIMITER, utf16 ";", 1, 9 + k⟩ : Token)] = rest
  have hT : nestedVoidTokens k = ⟨.KEYWORD, utf16 "void", 1, 0⟩ ::
      ⟨.IDENTIFIER, utf16 "x", 1, 5⟩ :: ⟨.OPERATOR, utf16 "=", 1, 7⟩ :: rest := by
    rw [← hrest]
    rfl
  rw [hT]
  generalize hT2 : (⟨.KEYWORD, utf16 "void", 1, 0⟩ ::
      ⟨.IDENTIFIER, utf16 "x", 1, 5⟩ :: ⟨.OPERATOR, utf16 "=", 1, 7⟩ :: rest : List Token) = T
  have g0 : getCurrentToken ⟨T, 0, es, ws, st, out⟩ = ⟨.KEYWORD, utf16 "void", 1, 0⟩ :=
    (getCurrentToken_of_drop (c := ⟨T, 0, es, ws, st, out⟩) (by rw [← hT2]; rfl)).1
  have l0 : 0 < T.length := by rw [← hT2]; simp
  have g1 : getCurrentToken ⟨T, 1, es, ws, st, out⟩ = ⟨.IDENTIFIER, utf16 "x", 1, 5⟩ :=
    (getCurrentToken_of_drop (c := ⟨T, 1, es, ws, st, out⟩) (by rw [← hT2]; rfl)).1
  have g2 : getCurrentToken ⟨T, 2, es, ws, st, out⟩ = ⟨.OPERATOR, utf16 "=", 1, 7⟩ :=
    (getCurrentToken_of_drop (c := ⟨T, 2, es, ws, st, out⟩) (by rw [← hT2]; rfl)).1
  have g2' : getCurrentToken ⟨T, 2, es, ws,
      st.set (utf16 "x") (.variable (utf16 "void")), out⟩ = ⟨.OPERATOR, utf16 "=", 1, 7⟩ :=
    (getCurrentToken_of_drop (c := ⟨T, 2, es, ws, _, out⟩) (by rw [← hT2]; rfl)).1
  have hd3 : (⟨T, 3, es, ws, st.set (utf16 "x") (.variable (utf16 "void")), out⟩ :
      MiniCCompiler).tokens.drop 3 = parenTokens 9 k ++ [⟨.DELIMITER, utf16 ";", 1, 9 + k⟩] := by
    rw [← hT2, hrest]
    rfl
  have hch : invoke s ⟨T, 3, es, ws, st.set (utf16 "x") (.variable (utf16 "void")), out⟩
      (Bounded.parseExpression (f + 1)) =
      .thrown ⟨T, 3 + (s + 0) / 9, es, ws,
        st.set (utf16 "x") (.variable (utf16 "void")), out⟩ :=
    chain_thrown s 0 (f + 1) 9 k _
      ⟨T, 3, es, ws, st.set (utf16 "x") (.variable (utf16 "void")), out⟩ (by omega) hsf hd3
      (by omega)
  have n1 : utf16 "void" ≠ utf16 "include" := by decide
  have p1 : invoke (s + 3) ⟨T, 0, es, ws, st, out⟩ (Bounded.parseProgram (f + 4)) =
      (invoke (s + 2) ⟨T, 0, es, ws, st, out⟩ (Bounded.parseDeclarationOrFunction (f + 3))).bind
        (Bounded.parseProgram (f + 3) (s + 2)) := by
    show Bounded.parseProgram (f + 3 + 1) (s + 2) _ = _
    rw [Bounded.parseProgram]
    simp [checkToken_eq, checkTokenType_eq, g0, l0, n1]
  have p2 : invoke (s + 2) ⟨T, 0, es, ws, st, out⟩
      (Bounded.parseDeclarationOrFunction (f + 3)) =
      invoke (s + 1) ⟨T, 2, es, ws, st, out⟩
        (Bounded.parseDeclaration (f + 2) (utf16 "void") (utf16 "x")) := by
    show Bounded.parseDeclarationOrFunction (f + 2 + 1) (s + 1) _ = _
    rw [Bounded.parseDeclarationOrFunction]
    have n2 : utf16 "=" ≠ utf16 "(" := by decide
    simp [checkToken_eq, checkTokenType_eq, g0, g1, g2, advance, n2]
  have p3 : invoke (s + 1) ⟨T, 2, es, ws, st, out⟩
      (Bounded.parseDeclaration (f + 2) (utf16 "void") (utf16 "x")) =
      .thrown ⟨T, 3 + (s + 0) / 9, es, ws,
        st.set (utf16 "x") (.variable (utf16 "void")), out⟩ := by
    show Bounded.parseDeclaration (f + 1 + 1) (utf16 "void") (utf16 "x") s _ = _
    rw [Bounded.parseDeclaration]
    simp only [checkToken_eq, g2', setSymbol, advance, decide_True, Bool.and_self, if_true,
      hch, bind_thrown]
  simp only [p1, p2, p3, bind_thrown, Nat.add_zero]

/-- The method `parse` on `void x = (( ... (;` with too few frames for the
parentheses returns through its `catch`. -/
theorem bounded_parse_nestedVoid (k s : Nat) (c : MiniCCompiler) (h3 : 3 ≤ s)
    (hk : s < 9 * k + 3) :
    Bounded.parse s c (nestedVoidTokens k) =
      some { c with
        tokens := nestedVoidTokens k
        currentToken := 3 + (s - 3) / 9
        symbolTable := c.symbolTable.set (utf16 "x") (.variable (utf16 "void")) } := by
  rw [Bounded.parse, parseProgram_nestedVoid k s c h3 hk]

/-- The driver on `void x = (( ... (;` with too few frames for the parentheses: all
four phases run, and the one diagnostic is the one of the sweep, placed at the
parenthesis under the cursor. -/
theorem bounded_compile_nestedVoid (k s : Nat) (c0 : MiniCCompiler) (h3 : 3 ≤ s)
    (hk : s < 9 * k + 3) :
    (Bounded.compileResult (s + 1) c0 (nestedVoidSource k)).map
        (fun r => (r.success, r.errors, r.phases)) =
      some (false,
        [voidDiagnostic ⟨.DELIMITER, utf16 "(", 1, 9 + (s - 3) / 9⟩ (utf16 "x")],
        [phaseLexical, phaseSyntax, phaseSemantic, phaseGeneration]) := by
  have ht := tokenize_of_lex (resetForCompile c0) (lex_nestedVoid k)
  have hp := bounded_parse_nestedVoid k s (resetForCompile c0) h3 hk
  have hg := getCurrentToken_nestedVoid k ((s - 3) / 9)
    { resetForCompile c0 with
      tokens := nestedVoidTokens k
      currentToken := 3 + (s - 3) / 9
      symbolTable := (resetForCompile c0).symbolTable.set (utf16 "x")
        (.variable (utf16 "void")) } rfl rfl (by omega)
  rw [Bounded.compileResult,
    bounded_compile_of_no_syntax_errors s c0 _ _ _ _ ht rfl hp rfl]
  simp only [Option.map_some', generateCode_errors, semanticAnalysis_eq, hg]
  rfl

/-! ## Termination of the parser -/

/-- C23: for every finite token sequence `parse` terminates, and does so whatever
number of frames the call stack has left: it returns an instance with the given token
list, through the normal path or, when a call of a grammar method exhausts the stack,
through its `catch`; with more frames than the fuel of `parseProgram` it returns with
the cursor at or past the end, while on `void x = (( ... (;` with too few frames for
the parentheses it returns with the cursor on a parenthesis and no diagnostic. Each
call of `parseStatement` returns at least one token further (the one-token backtrack
for calls included) or raises, and only on a stack with fewer frames than its fuel;
each iteration of the top-level loop, of the block loop and of the declaration loop
hands the loop a cursor that is at least one token further, or raises; each pass of the
parameter loop and of the argument loop ends the loop or hands it a cursor that is at
least one token further, or (argument loop) raises. The fuel bounds say that the method
is given 32 units for every token left. -/
theorem parse_terminates :
    (∀ (s : Nat) (c : MiniCCompiler) (tokens : List Token),
      ∃ c1, Bounded.parse s c tokens = some c1 ∧ c1.tokens = tokens) ∧
    (∀ (s : Nat) (c : MiniCCompiler) (tokens : List Token), parseFuel tokens < s →
      ∃ c1, Bounded.parse s c tokens = some c1 ∧ tokens.length ≤ c1.currentToken) ∧
    (∀ (k s : Nat) (c : MiniCCompiler), 3 ≤ s → s < 9 * k + 3 →
      ∃ c1, Bounded.parse s c (nestedVoidTokens k) = some c1 ∧
        c1.currentToken = 3 + (s - 3) / 9 ∧ c1.currentToken < (nestedVoidTokens k).length ∧
        c1.errors = c.errors) ∧
    (∀ (n s : Nat) (c : MiniCCompiler), 14 + 32 * (c.tokens.length - c.currentToken) ≤ n →
      (∃ c1, Bounded.parseStatement n s c = .done c1 ∧
        c.currentToken + 1 ≤ c1.currentToken) ∨
      (s < n ∧ ∃ c1, Bounded.parseStatement n s c = .thrown c1)) ∧
    (∀ (n s : Nat) (c : MiniCCompiler), c.currentToken < c.tokens.length →
      17 + 32 * (c.tokens.length - c.currentToken) ≤ n + 1 →
      (∃ c1, c.currentToken + 1 ≤ c1.currentToken ∧ c1.tokens = c.tokens ∧
        Bounded.parseProgram (n + 1) s c = Bounded.parseProgram n s c1) ∨
      (s < n + 1 ∧ ∃ c1, Bounded.parseProgram (n + 1) s c = .thrown c1)) ∧
    (∀ (n s : Nat) (c : MiniCCompiler),
      (!checkToken c .DELIMITER (utf16 "\x7d") &&
        decide (c.currentToken < c.tokens.length)) = true →
      15 + 32 * (c.tokens.length - c.currentToken) ≤ n + 1 →
      (∃ c1, c.currentToken + 1 ≤ c1.currentToken ∧ c1.tokens = c.tokens ∧
        Bounded.parseBlockStatement (n + 1) s c = Bounded.parseBlockStatement n s c1) ∨
      (s < n + 1 ∧ ∃ c1, Bounded.parseBlockStatement (n + 1) s c = .thrown c1)) ∧
    (∀ (n : Nat) (type : JSString) (s : Nat) (c : MiniCCompiler),
      checkToken c .DELIMITER (utf16 ",") = true →
      1 + 32 * (c.tokens.length - c.currentToken) ≤ n + 1 →
      (∃ c1, c.currentToken + 1 ≤ c1.currentToken ∧ c1.tokens = c.tokens ∧
        Bounded.parseDeclarationLoop (n + 1) type s c =
          Bounded.parseDeclarationLoop n type s c1) ∨
      (s < n + 1 ∧ ∃ c1, Bounded.parseDeclarationLoop (n + 1) type s c = .thrown c1)) ∧
    (∀ (n : Nat) (c : MiniCCompiler),
      (∃ c1, c.currentToken ≤ c1.currentToken ∧ parseParameterList (n + 1) c = some c1) ∨
      ∃ c1, c.currentToken + 1 ≤ c1.currentToken ∧ c1.tokens = c.tokens ∧
        parseParameterList (n + 1) c = parseParameterList n c1) ∧
    (∀ (n s : Nat) (c : MiniCCompiler),
      11 + 32 * (c.tokens.length - c.currentToken) ≤ n + 1 →
      (∃ c1, c.currentToken ≤ c1.currentToken ∧
        Bounded.parseArgumentList (n + 1) s c = .done c1) ∨
      (∃ c1, c.currentToken + 1 ≤ c1.currentToken ∧ c1.tokens = c.tokens ∧
        Bounded.parseArgumentList (n + 1) s c = Bounded.parseArgumentList n s c1) ∨
      (s < n + 1 ∧ ∃ c1, Bounded.parseArgumentList (n + 1) s c = .thrown c1)) := by
  refine ⟨?_, ?_, ?_, bounded_parseStatement_call, bounded_parseProgram_iteration,
    bounded_parseBlockStatement_iteration, bounded_parseDeclarationLoop_iteration,
    parseParameterList_iteration, bounded_parseArgumentList_iteration⟩
  · intro s c tokens
    obtain ⟨c1, h1, hg⟩ := bounded_parse_returns s c tokens
    exact ⟨c1, h1, hg.1⟩
  · intro s c tokens hs
    obtain ⟨c1, h1, ht, -, -, hc, -⟩ := parse_total c tokens
    exact ⟨c1, by rw [bounded_parse_of_enough_stack s c tokens hs, h1], by rw [← ht]; exact hc⟩
  · intro k s c h3 hk
    refine ⟨_, bounded_parse_nestedVoid k s c h3 hk, rfl, ?_, rfl⟩
    show 3 + (s - 3) / 9 < (nestedVoidTokens k).length
    simp only [nestedVoidTokens, List.length_append, List.length_cons, List.length_nil,
      length_parenTokens]
    omega

/-- Witness of C23: on the single token `)` the call of `parseStatement` fails and
still returns one token further, also with no frame left, since it calls no grammar
method. -/
theorem parse_terminates_witness :
    (∃ c1, Bounded.parseStatement 46 0 ⟨[⟨.DELIMITER, utf16 ")", 1, 0⟩], 0, [], [], [], []⟩ =
        .done c1 ∧ 0 + 1 ≤ c1.currentToken) ∨
      (0 < 46 ∧ ∃ c1,
        Bounded.parseStatement 46 0 ⟨[⟨.DELIMITER, utf16 ")", 1, 0⟩], 0, [], [], [], []⟩ =
          .thrown c1) :=
  parse_terminates.2.2.2.1 46 0 ⟨[⟨.DELIMITER, utf16 ")", 1, 0⟩], 0, [], [], [], []⟩ (by decide)

/-- C28: the internal-fault branch of `compile` is not reached: on every source, and
on every call stack with at least one frame left for the calls `compile` makes (it is
called from the click handler of the page), `compile` returns through the normal path
with the diagnostics of the instance, none of kind `INTERNAL`. The `catch` of `compile`
is live in the model: with no frame left it pushes the `INTERNAL` diagnostic. A
`RangeError` does arise inside `parse` (on `void x = (( ... (;` for every stack that is
too short for the parentheses) and is swallowed there, by the `catch` of `parse`. Every
token access goes through `getCurrentToken`, which never returns `undefined`: it returns
the EOF placeholder when the cursor is at or past the end (also one further), where the
bare array read would give `undefined`, and reads the array only inside its bounds; the
cursor is moved back only right after it was moved forward. So the sweep, which runs
outside `parse` and reads the current token, raises no `TypeError` for the `catch` of
`compile`. A `variable` record holds its declared type as a string by construction (the
argument of `SymbolInfo.variable`). -/
theorem internal_fault_unreachable (stack : Nat) (c0 : MiniCCompiler) (code : JSString)
    (hs : 1 ≤ stack) :
    (∃ r c, Bounded.compile stack c0 code = some (r, c) ∧ r.errors = c.errors ∧
      ∀ e ∈ r.errors, e.type ≠ .INTERNAL) ∧
    (Bounded.compileResult 0 c0 code).map (fun r => r.errors) = some [internalDiagnostic] ∧
    (∀ (k s : Nat) (c : MiniCCompiler), 3 ≤ s → s < 9 * k + 3 →
      (∃ r, invoke s { c with tokens := nestedVoidTokens k, currentToken := 0 }
        (Bounded.parseProgram (parseFuel (nestedVoidTokens k))) = .thrown r) ∧
      ∃ c1, Bounded.parse s c (nestedVoidTokens k) = some c1 ∧ c1.errors = c.errors) ∧
    (∀ c : MiniCCompiler, getCurrentTokenChecked c = some (getCurrentToken c)) ∧
    (∀ c : MiniCCompiler, semanticAnalysisChecked c = .ok (semanticAnalysis c)) ∧
    (∀ c : MiniCCompiler, c.tokens.length ≤ c.currentToken →
      readToken c = none ∧ getCurrentToken c = eofToken ∧
        getCurrentToken (advance c) = eofToken) ∧
    (∀ c : MiniCCompiler, c.currentToken < c.tokens.length →
      readToken c = some (getCurrentToken c)) ∧
    (∀ c : MiniCCompiler, retreat (advance c) = c) := by
  refine ⟨?_, rfl, ?_, getCurrentTokenChecked_eq, semanticAnalysisChecked_eq, ?_,
    fun c h => getCurrentToken_of_lt h, retreat_advance⟩
  · obtain ⟨s, rfl⟩ : ∃ k, stack = k + 1 := ⟨stack - 1, by omega⟩
    obtain ⟨r, c, h, he, ht⟩ := bounded_compile_errors s c0 code
    refine ⟨r, c, h, he, ?_⟩
    intro e hm hi
    rcases ht e hm with h1 | h1 | h1 <;> (rw [hi] at h1; cases h1)
  · intro k s c h3 hk
    exact ⟨⟨_, parseProgram_nestedVoid k s c h3 hk⟩, _, bounded_parse_nestedVoid k s c h3 hk,
      rfl⟩
  · intro c h
    exact ⟨readToken_of_exhausted c h, getCurrentToken_of_exhausted h,
      getCurrentToken_of_exhausted (show (advance c).tokens.length ≤ (advance c).currentToken
        from Nat.le_succ_of_le h)⟩

/-- Witness of C28: `compile` on `void x = ` followed by 2000 opening parentheses and
`;`, entered with 13 frames left, returns a result with no `INTERNAL` diagnostic. -/
theorem internal_fault_unreachable_witness :
    ∃ r c, Bounded.compile 13 MiniCCompiler.new (nestedVoidSource 2000) = some (r, c) ∧
      r.errors = c.errors ∧ ∀ e ∈ r.errors, e.type ≠ .INTERNAL :=
  (internal_fault_unreachable 13 MiniCCompiler.new (nestedVoidSource 2000) (by decide)).1

/-- C29, where it holds and where the code departs from it. On a call stack with more
frames than the fuel of `parseProgram`, every `SEMANTIC` diagnostic in the errors of
`compile` whose message is "Variable 'name' cannot be of type void" has line 0 and
column 0, the position of the EOF placeholder, since `parse` has moved the cursor to or
past the end. On `void x = (( ... (;` with `k` parentheses and a stack too short for
them, `parse` returns through its `catch` with no diagnostic and the cursor on a
parenthesis, all four phases run, and the one diagnostic of the result is the one of the
sweep, placed at that parenthesis on line 1. -/
theorem sweep_diagnostics_position :
    (∀ (stack : Nat) (c0 : MiniCCompiler) (code : JSString) (toks : List Token)
      (c1 : MiniCCompiler), tokenize (resetForCompile c0) code = some (toks, c1) →
      parseFuel toks + 1 < stack →
      ∃ r, Bounded.compileResult stack c0 code = some r ∧
        (∀ e ∈ r.errors, e.type = .SEMANTIC →
          (∃ name, e.message = utf16 "Variable \x27" ++ name ++
            utf16 "\x27 cannot be of type void") → e.line = 0 ∧ e.column = 0) ∧
        (r.phases.length = 4 → ∀ e ∈ r.errors, ∃ name, e = voidDiagnostic eofToken name)) ∧
    (∀ (k s : Nat) (c0 : MiniCCompiler), 3 ≤ s → s < 9 * k + 3 →
      (Bounded.compileResult (s + 1) c0 (nestedVoidSource k)).map
          (fun r => (r.success, r.errors, r.phases)) =
        some (false,
          [voidDiagnostic ⟨.DELIMITER, utf16 "(", 1, 9 + (s - 3) / 9⟩ (utf16 "x")],
          [phaseLexical, phaseSyntax, phaseSemantic, phaseGeneration])) := by
  refine ⟨?_, bounded_compile_nestedVoid⟩
  intro stack c0 code toks c1 ht hs
  obtain ⟨s, rfl⟩ : ∃ k, stack = k + 1 := ⟨stack - 1, by omega⟩
  have hb : Bounded.compileResult (s + 1) c0 code = compileResult c0 code := by
    rw [Bounded.compileResult, compileResult,
      bounded_compile_of_enough_stack s c0 code toks c1 ht (by omega)]
  obtain ⟨r, hr, h⟩ := compile_errors_cases c0 code
  refine ⟨r, by rw [hb, hr], ?_, ?_⟩
  · intro e he hty ⟨name, hm⟩
    rcases h with ⟨-, -, -, h⟩ | ⟨-, -, -, h⟩ | ⟨-, h⟩
    · have := (h e he).1
      rw [hty] at this
      cases this
    · rcases (h e he).1 with h1 | ⟨-, h1⟩
      · rw [hty] at h1
        cases h1
      · rw [hm] at h1
        exact absurd h1 (message_not_undeclared name)
    · obtain ⟨x, rfl⟩ := h e he
      exact ⟨rfl, rfl⟩
  · intro h4
    rcases h with ⟨hp, -⟩ | ⟨hp, -⟩ | ⟨-, h⟩
    · rw [hp] at h4
      cases h4
    · rw [hp] at h4
      cases h4
    · exact h

/-- Witness of C29: `compile` on `void x = ` followed by 2000 opening parentheses and
`;`, entered with 13 frames left, reports the `void` variable at line 1, column 10. -/
theorem sweep_diagnostics_position_witness :
    (Bounded.compileResult (12 + 1) MiniCCompiler.new (nestedVoidSource 2000)).map
        (fun r => (r.success, r.errors, r.phases)) =
      some (false,
        [voidDiagnostic ⟨.DELIMITER, utf16 "(", 1, 9 + (12 - 3) / 9⟩ (utf16 "x")],
        [phaseLexical, phaseSyntax, phaseSemantic, phaseGeneration]) :=
  sweep_diagnostics_position.2 2000 12 MiniCCompiler.new (by decide) (by decide)

/-! ## The parser on expressions with calls -/

theorem ReadTo.refl (c : MiniCCompiler) : ReadTo c 0 c :=
  ⟨[], by cases c; simp, fun _ h => nomatch h⟩

theorem ReadTo.trans {a b c : MiniCCompiler} {k j : Nat} (h1 : ReadTo a k b)
    (h2 : ReadTo b j c) : ReadTo a (k + j) c := by
  obtain ⟨es1, rfl, g1⟩ := h1
  obtain ⟨es2, rfl, g2⟩ := h2
  refine ⟨es1 ++ es2, by simp [Nat.add_assoc], ?_⟩
  intro d hd
  rcases List.mem_append.1 hd with h | h
  · exact g1 d h
  · exact g2 d h

theorem ReadTo.cast {a b : MiniCCompiler} {k j : Nat} (h : ReadTo a k b) (hk : k = j) :
    ReadTo a j b := hk ▸ h

theorem readTo_advance (c : MiniCCompiler) : ReadTo c 1 (advance c) :=
  ⟨[], by cases c; simp [advance], fun _ h => nomatch h⟩

theorem readTo_semanticError (c : MiniCCompiler) (m s : JSString) :
    ReadTo c 0 (semanticError c m s) :=
  ⟨[⟨.SEMANTIC, m, (getCurrentToken c).line, (getCurrentToken c).column, s⟩],
    by cases c; simp [semanticError], fun d h => by
      rw [List.mem_singleton.1 h]
      exact Or.inl rfl⟩

theorem readTo_afterTokens (c : MiniCCompiler) (ts : List Token) :
    ReadTo c ts.length (afterTokens c ts) :=
  ⟨undeclaredVariables c.symbolTable ts, rfl,
    fun d h => Or.inl (undeclaredVariables_type _ _ d h).1⟩

theorem ReadTo.tokens {c r : MiniCCompiler} {k : Nat} (h : ReadTo c k r) :
    r.tokens = c.tokens := by
  obtain ⟨es, rfl, -⟩ := h
  rfl

theorem ReadTo.cursor {c r : MiniCCompiler} {k : Nat} (h : ReadTo c k r) :
    r.currentToken = c.currentToken + k := by
  obtain ⟨es, rfl, -⟩ := h
  rfl

theorem ReadTo.symbolTable {c r : MiniCCompiler} {k : Nat} (h : ReadTo c k r) :
    r.symbolTable = c.symbolTable := by
  obtain ⟨es, rfl, -⟩ := h
  rfl

theorem ReadTo.drop {c r : MiniCCompiler} {ts rest : List Token} (h : ReadTo c ts.length r)
    (hd : c.tokens.drop c.currentToken = ts ++ rest) :
    r.tokens.drop r.currentToken = rest := by
  rw [h.tokens, h.cursor, ← List.drop_drop, hd, List.drop_left]

theorem ReadTo.unmoved {c r : MiniCCompiler} {rest : List Token} (h : ReadTo c 0 r)
    (hd : c.tokens.drop c.currentToken = rest) : r.tokens.drop r.currentToken = rest := by
  rw [h.tokens, h.cursor]
  exact hd

/-- The `consumeToken` for a delimiter that is there moves on by one token. -/
theorem readTo_consume {c : MiniCCompiler} {t : Token} {l : List Token} {v : JSString}
    (hd : c.tokens.drop c.currentToken = t :: l) (ht : isDelimiter v t = true) :
    ReadTo c 1 (consumeToken c .DELIMITER v).2 := by
  rw [(consumeToken_of_delimiter hd ht).1]
  exact readTo_advance c

/-- The `consumeToken` for `;` at another token stays and appends "Expected ;". -/
theorem readTo_expected {c : MiniCCompiler} {rest : List Token}
    (hd : c.tokens.drop c.currentToken = rest)
    (ht : isDelimiter (utf16 ";") (rest.headD eofToken) = false) :
    ReadTo c 0 (consumeToken c .DELIMITER (utf16 ";")).2 := by
  have hg := getCurrentToken_of_drop_eq hd
  have hn : ¬((getCurrentToken c).type = .DELIMITER ∧ (getCurrentToken c).value = utf16 ";") := by
    intro h
    rw [hg] at h
    have : isDelimiter (utf16 ";") (rest.headD eofToken) = true := by
      simp only [isDelimiter, Bool.and_eq_true, decide_eq_true_eq]
      exact h
    rw [this] at ht
    cases ht
  unfold consumeToken
  simp only [if_neg hn]
  refine ⟨[⟨.SYNTAX, utf16 "Expected " ++ utf16 ";", (getCurrentToken c).line,
    (getCurrentToken c).column, utf16 "Add " ++ utf16 ";"⟩], by cases c; simp [syntaxError], ?_⟩
  intro d h
  rw [List.mem_singleton.1 h]
  exact Or.inr ⟨rfl, show utf16 "Expected " ++ utf16 ";" = utf16 "Expected ;" by decide⟩

theorem reads_of_parses {f : Nat → MiniCCompiler → Option MiniCCompiler} {need : Nat}
    {ok ok1 : Token → Prop} {ts : List Token} (h : Parses f need ok ts)
    (hok : ∀ t, ok1 t → ok t) : Reads f need ok1 ts := by
  intro c rest n hd h1 hB
  exact ⟨_, h c rest n hd (hok _ h1) hB, readTo_afterTokens c ts⟩

theorem FollowCall.lower {m k : Nat} {t : Token} (h : FollowCall m t) (hk : k ≤ m) :
    FollowCall k t :=
  ⟨h.1.weaken hk, h.2⟩

theorem followCall_of_operator {k : Nat} {t : Token} (hk : k < 6)
    (h : isLevelOperator k t = true) : FollowCall k t :=
  ⟨followOk_of_operator hk h, by simp [isDelimiter, (type_of_isLevelOperator h).1]⟩

theorem followCall_of_delimiter {m : Nat} {t : Token} (ht : t.type = .DELIMITER)
    (hv : t.value ≠ utf16 "(") (hs : t.value ≠ utf16 ";") : FollowCall m t :=
  ⟨followOk_of_delimiter ht hv, by simp [isDelimiter, hs]⟩

theorem followCall_rparen {m : Nat} {t : Token} (h : isDelimiter (utf16 ")") t = true) :
    FollowCall m t := by
  simp only [isDelimiter, Bool.and_eq_true, decide_eq_true_eq] at h
  exact followCall_of_delimiter h.1 (by rw [h.2]; decide) (by rw [h.2]; decide)

theorem followCall_comma {m : Nat} {t : Token} (h : isDelimiter (utf16 ",") t = true) :
    FollowCall m t := by
  simp only [isDelimiter, Bool.and_eq_true, decide_eq_true_eq] at h
  exact followCall_of_delimiter h.1 (by rw [h.2]; decide) (by rw [h.2]; decide)

/-- The first token of a primary expression is not an operator and not `)`. -/
theorem Grammar.primary_head {ts : List Token} (h : Grammar .primary ts) :
    ∃ t ts1, ts = t :: ts1 ∧ t.type ≠ .OPERATOR ∧ isDelimiter (utf16 ")") t = false ∧
      isDelimiter (utf16 ";") t = false := by
  cases h with
  | literal t ht =>
    refine ⟨t, [], rfl, ?_, ?_, ?_⟩
    · intro h1
      simp [isLiteral, h1] at ht
    · cases hd : isDelimiter (utf16 ")") t with
      | false => rfl
      | true =>
        simp only [isDelimiter, Bool.and_eq_true, decide_eq_true_eq] at hd
        simp [isLiteral, hd.1] at ht
    · cases hd : isDelimiter (utf16 ";") t with
      | false => rfl
      | true =>
        simp only [isDelimiter, Bool.and_eq_true, decide_eq_true_eq] at hd
        simp [isLiteral, hd.1] at ht
  | identifier t ht =>
    exact ⟨t, [], rfl, by rw [ht]; decide, by simp [isDelimiter, ht], by simp [isDelimiter, ht]⟩
  | paren l r ts hl hr hts =>
    simp only [isDelimiter, Bool.and_eq_true, decide_eq_true_eq] at hl
    refine ⟨l, ts ++ [r], rfl, by rw [hl.1]; decide, ?_, ?_⟩
    · have : utf16 "(" ≠ utf16 ")" := by decide
      simp [isDelimiter, hl.2, this]
    · have : utf16 "(" ≠ utf16 ";" := by decide
      simp [isDelimiter, hl.2, this]
  | call name lp rp args hn _ _ _ =>
    exact ⟨name, lp :: args ++ [rp], rfl, by rw [hn]; decide, by simp [isDelimiter, hn],
      by simp [isDelimiter, hn]⟩
  | callEmpty name lp rp hn _ _ =>
    exact ⟨name, [lp, rp], rfl, by rw [hn]; decide, by simp [isDelimiter, hn],
      by simp [isDelimiter, hn]⟩

/-- A phrase other than an operator tail is not empty and starts neither with `)` nor
with `;`. -/
theorem Grammar.phrase_head {kd : Phrase} {ts : List Token} (h : Grammar kd ts) :
    (∀ k, kd ≠ .tail k) → ∃ t ts1, ts = t :: ts1 ∧ isDelimiter (utf16 ")") t = false ∧
      isDelimiter (utf16 ";") t = false := by
  induction h with
  | literal t ht =>
    intro _
    obtain ⟨t1, ts1, h1, _, h2⟩ := Grammar.primary_head (Grammar.literal t ht)
    exact ⟨t1, ts1, h1, h2⟩
  | identifier t ht =>
    intro _
    obtain ⟨t1, ts1, h1, _, h2⟩ := Grammar.primary_head (Grammar.identifier t ht)
    exact ⟨t1, ts1, h1, h2⟩
  | paren l r ts hl hr hts _ =>
    intro _
    obtain ⟨t1, ts1, h1, _, h2⟩ := Grammar.primary_head (Grammar.paren l r ts hl hr hts)
    exact ⟨t1, ts1, h1, h2⟩
  | call name lp rp args hn hl hr ha _ =>
    intro _
    obtain ⟨t1, ts1, h1, _, h2⟩ :=
      Grammar.primary_head (Grammar.call name lp rp args hn hl hr ha)
    exact ⟨t1, ts1, h1, h2⟩
  | callEmpty name lp rp hn hl hr =>
    intro _
    obtain ⟨t1, ts1, h1, _, h2⟩ :=
      Grammar.primary_head (Grammar.callEmpty name lp rp hn hl hr)
    exact ⟨t1, ts1, h1, h2⟩
  | operand ts _ ih =>
    intro _
    exact ih (fun k hk => by cases hk)
  | unary t ts ht _ _ =>
    intro _
    have := type_of_isUnaryOperator ht
    exact ⟨t, ts, rfl, by simp [isDelimiter, this], by simp [isDelimiter, this]⟩
  | binary k ts tl _ _ _ ih _ =>
    intro _
    obtain ⟨t1, ts1, h1, h2⟩ := ih (fun k hk => by cases hk)
    exact ⟨t1, ts1 ++ tl, by rw [h1]; rfl, h2⟩
  | done k _ =>
    intro h
    exact absurd rfl (h k)
  | more k t ts tl _ _ _ _ _ _ =>
    intro h
    exact absurd rfl (h k)
  | last ts _ ih =>
    intro _
    exact ih (fun k hk => by cases hk)
  | comma ts t tl _ _ _ ih _ =>
    intro _
    obtain ⟨t1, ts1, h1, h2⟩ := ih (fun k hk => by cases hk)
    exact ⟨t1, ts1 ++ t :: tl, by rw [h1]; rfl, h2⟩

/-- The token after an operand of level `k` inside level `k + 1`. -/
theorem followCall_tail {k : Nat} {tl rest : List Token} (hk : k < 6) (h : Grammar (.tail k) tl)
    (hok : FollowCall (k + 1) (rest.headD eofToken)) :
    FollowCall k ((tl ++ rest).headD eofToken) := by
  cases h with
  | done => exact hok.lower (by omega)
  | more _ t ts tl1 _ ht _ _ => exact followCall_of_operator hk ht
/-- A precedence level that runs `sub` and then its loop, calls included. -/
theorem reads_level {f sub loop : Nat → MiniCCompiler → Option MiniCCompiler} {r : Nat}
    {ok okSub : Token → Prop} {ts tl : List Token}
    (hf : ∀ n c, f (n + 1) c = (sub n c).bind (loop n))
    (hs : Reads sub r okSub ts) (hl : Reads loop 1 ok tl) (hr : 1 ≤ r)
    (hfo : ∀ rest, ok (rest.headD eofToken) → okSub ((tl ++ rest).headD eofToken)) :
    Reads f (r + 1) ok (ts ++ tl) := by
  intro c rest n hd hok hB
  obtain ⟨m, rfl⟩ : ∃ m, n = m + 1 := ⟨n - 1, by omega⟩
  have hd1 : c.tokens.drop c.currentToken = ts ++ (tl ++ rest) := by
    rw [hd, List.append_assoc]
  have hlen := length_of_drop_append hd1
  obtain ⟨c1, h1, r1⟩ := hs c (tl ++ rest) m hd1 (hfo rest hok) (by omega)
  have hd2 := r1.drop hd1
  obtain ⟨c2, h2, r2⟩ := hl c1 rest m hd2 hok (by rw [r1.tokens, r1.cursor]; omega)
  exact ⟨c2, by rw [hf, h1, Option.some_bind, h2], (r1.trans r2).cast (by simp)⟩

theorem reads_loop_nil {sub loop : Nat → MiniCCompiler → Option MiniCCompiler}
    (isOp : Token → Bool) {ok : Token → Prop}
    (hloop : ∀ n c, loop (n + 1) c =
      if isOp (getCurrentToken c) = true then (sub n (advance c)).bind (loop n) else some c)
    (hno : ∀ t, ok t → isOp t = false) : Reads loop 1 ok [] := by
  intro c rest n hd hok hB
  obtain ⟨m, rfl⟩ : ∃ m, n = m + 1 := ⟨n - 1, by omega⟩
  refine ⟨c, ?_, ReadTo.refl c⟩
  rw [hloop, getCurrentToken_of_drop_eq hd, List.nil_append, hno _ hok]
  rfl

theorem reads_loop_cons {sub loop : Nat → MiniCCompiler → Option MiniCCompiler} {r : Nat}
    (isOp : Token → Bool) {ok okSub : Token → Prop} {t : Token} {ts tl : List Token}
    (hloop : ∀ n c, loop (n + 1) c =
      if isOp (getCurrentToken c) = true then (sub n (advance c)).bind (loop n) else some c)
    (ht : isOp t = true)
    (hs : Reads sub r okSub ts) (hl : Reads loop 1 ok tl) (hr : r ≤ 32)
    (hfo : ∀ rest, ok (rest.headD eofToken) → okSub ((tl ++ rest).headD eofToken)) :
    Reads loop 1 ok (t :: ts ++ tl) := by
  intro c rest n hd hok hB
  obtain ⟨m, rfl⟩ : ∃ m, n = m + 1 := ⟨n - 1, by omega⟩
  have hd1 : c.tokens.drop c.currentToken = t :: (ts ++ (tl ++ rest)) := by
    rw [hd]
    simp
  obtain ⟨hg, hlt, hd2⟩ := getCurrentToken_of_drop hd1
  have hlen := length_of_drop_append (show c.tokens.drop c.currentToken =
    (t :: ts) ++ (tl ++ rest) from hd1)
  simp only [List.length_cons, List.length_append] at hlen
  have hd3 : (advance c).tokens.drop (advance c).currentToken = ts ++ (tl ++ rest) := hd2
  obtain ⟨c1, h1, r1⟩ := hs (advance c) (tl ++ rest) m hd3 (hfo rest hok)
    (by show r + 32 * (c.tokens.length - (c.currentToken + 1)) ≤ m; omega)
  have hd4 := r1.drop hd3
  obtain ⟨c2, h2, r2⟩ := hl c1 rest m hd4 hok (by
    rw [r1.tokens, r1.cursor]
    show 1 + 32 * (c.tokens.length - (c.currentToken + 1 + ts.length)) ≤ m
    omega)
  refine ⟨c2, by rw [hloop, hg, if_pos ht, h1, Option.some_bind, h2], ?_⟩
  exact (((readTo_advance c).trans r1).trans r2).cast (by simp; omega)

theorem reads_paren (l r : Token) (ts : List Token) (hl : isDelimiter (utf16 "(") l = true)
    (hr : isDelimiter (utf16 ")") r = true) (hts : Reads parseLogicalOr 9 (FollowCall 6) ts) :
    Reads parsePrimary 2 (FollowCall 0) (l :: ts ++ [r]) := by
  intro c rest n hd hok hB
  obtain ⟨m, rfl⟩ : ∃ m, n = m + 1 := ⟨n - 1, by omega⟩
  have hd1 : c.tokens.drop c.currentToken = l :: (ts ++ (r :: rest)) := by
    rw [hd]; simp
  obtain ⟨hg, hlt, hd2⟩ := getCurrentToken_of_drop hd1
  have hl1 := hl
  simp only [isDelimiter, Bool.and_eq_true, decide_eq_true_eq] at hl1
  have h0 : (checkTokenType c .INTEGER || checkTokenType c .FLOAT ||
      checkTokenType c .STRING) = false := by
    simp [checkTokenType_eq, hg, hl1.1]
  have h1 : checkTokenType c .IDENTIFIER = false := by
    simp [checkTokenType_eq, hg, hl1.1]
  have h2 : checkToken c .DELIMITER (utf16 "(") = true := by
    rw [checkToken_eq, hg]; exact hl
  have h3 : (consumeToken c .DELIMITER (utf16 "(")).2 = advance c := by
    simp [consumeToken, hg, hl1.1, hl1.2]
  have hd3 : (advance c).tokens.drop (advance c).currentToken = ts ++ (r :: rest) := hd2
  have hlen := length_of_drop_append (show c.tokens.drop c.currentToken =
    (l :: ts) ++ (r :: rest) from hd1)
  simp only [List.length_cons] at hlen
  obtain ⟨m1, rfl⟩ : ∃ m1, m = m1 + 1 := ⟨m - 1, by omega⟩
  obtain ⟨c1, e1, r1⟩ := hts (advance c) (r :: rest) m1 hd3 (followCall_rparen hr)
    (by show 9 + 32 * (c.tokens.length - (c.currentToken + 1)) ≤ m1; omega)
  have h4 : parseExpression (m1 + 1) (advance c) = some c1 := by
    rw [parseExpression]
    exact e1
  have hd4 := r1.drop hd3
  have r2 := readTo_consume hd4 hr
  refine ⟨_, ?_, (((readTo_advance c).trans r1).trans r2).cast (by simp; omega)⟩
  rw [parsePrimary]
  simp only [h0, h1, h2, h3, h4, if_true, if_false, Bool.false_eq_true, Option.bind_eq_bind,
    Option.some_bind]

/-- The method `parseFunctionCall` on `name ( args )`, whatever follows: the callee is
checked, the arguments are read, calls among them included, and the cursor ends behind
the `)`, or behind the `;` if one follows; if none follows, "Expected ;" is
appended. -/
theorem parseFunctionCall_reads (c : MiniCCompiler) (name lp rp : Token)
    (args rest : List Token) (n : Nat)
    (hd : c.tokens.drop c.currentToken = name :: lp :: (args ++ rp :: rest))
    (hlp : isDelimiter (utf16 "(") lp = true) (hrp : isDelimiter (utf16 ")") rp = true)
    (hargs : args = [] ∨ (Grammar .arguments args ∧ ReadsPhrase .arguments args))
    (hB : 1 + 32 * (c.tokens.length - c.currentToken) ≤ n) :
    ∃ r, parseFunctionCall n c = some r ∧
      ReadTo c (args.length + 3 +
        (if isDelimiter (utf16 ";") (rest.headD eofToken) = true then 1 else 0)) r := by
  obtain ⟨m, rfl⟩ : ∃ m, n = m + 1 := ⟨n - 1, by omega⟩
  obtain ⟨hg, hlt, hd1⟩ := getCurrentToken_of_drop hd
  have hd1a : (advance c).tokens.drop (advance c).currentToken =
      lp :: (args ++ rp :: rest) := hd1
  have hlen := length_of_drop_append (show c.tokens.drop c.currentToken =
    (name :: lp :: args) ++ (rp :: rest) from hd)
  simp only [List.length_cons] at hlen
  generalize hc2 : (if (!(advance c).symbolTable.has name.value &&
        !([utf16 "printf", utf16 "scanf"].contains name.value)) = true then
        semanticError (advance c) (utf16 "Undeclared function: " ++ name.value)
          (utf16 "Declare function before use")
      else advance c) = c2
  have r2 : ReadTo (advance c) 0 c2 := by
    rw [← hc2]
    split
    · exact readTo_semanticError _ _ _
    · exact ReadTo.refl _
  have hd2 : c2.tokens.drop c2.currentToken = lp :: (args ++ rp :: rest) :=
    ReadTo.unmoved r2 hd1a
  have r3 := readTo_consume hd2 hlp
  obtain ⟨e3, hd3⟩ := consumeToken_of_delimiter hd2 hlp
  have r13 : ReadTo c 2 (advance c2) := by
    rw [← e3]
    exact (((readTo_advance c).trans r2).trans r3).cast rfl
  have e4 : ∃ c4, (if (!checkToken (advance c2) .DELIMITER (utf16 ")")) = true then
        parseArgumentList m (advance c2)
      else some (advance c2)) = some c4 ∧ ReadTo (advance c2) args.length c4 := by
    rcases hargs with rfl | ⟨hargs, hreads⟩
    · have hg3 := (getCurrentToken_of_drop
        (show (advance c2).tokens.drop (advance c2).currentToken = rp :: rest
          from hd3)).1
      have : checkToken (advance c2) .DELIMITER (utf16 ")") = true := by
        rw [checkToken_eq, hg3]; exact hrp
      simp only [this, Bool.not_true, Bool.false_eq_true, if_false]
      exact ⟨_, rfl, ReadTo.refl _⟩
    · obtain ⟨t1, ts1, ht1, hnp, -⟩ := hargs.phrase_head (fun k hk => by cases hk)
      have hg3 : getCurrentToken (advance c2) = t1 := by
        rw [ht1] at hd3
        exact (getCurrentToken_of_drop hd3).1
      have : checkToken (advance c2) .DELIMITER (utf16 ")") = false := by
        rw [checkToken_eq, hg3]; exact hnp
      simp only [this, Bool.not_false, if_true]
      have hrp1 := hrp
      simp only [isDelimiter, Bool.and_eq_true, decide_eq_true_eq] at hrp1
      refine hreads (advance c2) (rp :: rest) m hd3 ⟨followCall_rparen hrp, ?_⟩ ?_
      · have : utf16 ")" ≠ utf16 "," := by decide
        simp [isDelimiter, hrp1.2, this]
      · rw [r13.tokens, r13.cursor]
        omega
  obtain ⟨c4, e4, r4⟩ := e4
  have hd4 := r4.drop hd3
  have r5 := readTo_consume hd4 hrp
  obtain ⟨e5, hd5⟩ := consumeToken_of_delimiter hd4 hrp
  have hd5a : (consumeToken c4 .DELIMITER (utf16 ")")).2.tokens.drop
      (consumeToken c4 .DELIMITER (utf16 ")")).2.currentToken = rest := by
    rw [e5]; exact hd5
  have r6 : ReadTo (consumeToken c4 .DELIMITER (utf16 ")")).2
      (if isDelimiter (utf16 ";") (rest.headD eofToken) = true then 1 else 0)
      (consumeToken (consumeToken c4 .DELIMITER (utf16 ")")).2 .DELIMITER (utf16 ";")).2 := by
    by_cases hs : isDelimiter (utf16 ";") (rest.headD eofToken) = true
    · rw [if_pos hs]
      cases rest with
      | nil =>
        have : isDelimiter (utf16 ";") eofToken = false := by decide
        rw [show ([] : List Token).headD eofToken = eofToken from rfl, this] at hs
        cases hs
      | cons t l => exact readTo_consume hd5a hs
    · rw [if_neg hs]
      exact readTo_expected hd5a (by simpa using hs)
  refine ⟨_, ?_, ((((r13.trans r4).trans r5).trans r6)).cast (by omega)⟩
  rw [parseFunctionCall]
  simp only [hg, hc2, e3, Option.bind_eq_bind]
  rw [ite_bind_eq _ _ _ _ _ e4]

/-- In expression position `name ( args )` is handed to `parseFunctionCall`, whether
or not the name is in the symbol table. -/
theorem parsePrimary_reads_call (c : MiniCCompiler) (name lp rp : Token)
    (args rest : List Token) (n : Nat)
    (hd : c.tokens.drop c.currentToken = name :: lp :: (args ++ rp :: rest))
    (hname : name.type = .IDENTIFIER)
    (hlp : isDelimiter (utf16 "(") lp = true) (hrp : isDelimiter (utf16 ")") rp = true)
    (hargs : args = [] ∨ (Grammar .arguments args ∧ ReadsPhrase .arguments args))
    (hB : 2 + 32 * (c.tokens.length - c.currentToken) ≤ n) :
    ∃ r, parsePrimary n c = some r ∧
      ReadTo c (args.length + 3 +
        (if isDelimiter (utf16 ";") (rest.headD eofToken) = true then 1 else 0)) r := by
  obtain ⟨m, rfl⟩ : ∃ m, n = m + 1 := ⟨n - 1, by omega⟩
  obtain ⟨hg, _, hd1⟩ := getCurrentToken_of_drop hd
  have h0 : (checkTokenType c .INTEGER || checkTokenType c .FLOAT ||
      checkTokenType c .STRING) = false := by
    simp [checkTokenType_eq, hg, hname]
  have h1 : checkTokenType c .IDENTIFIER = true := by simp [checkTokenType_eq, hg, hname]
  generalize hc1 : (if (!c.symbolTable.has name.value) = true then
      semanticError c (utf16 "Undeclared variable: " ++ name.value)
        (utf16 "Declare variable before use")
    else c) = c1
  have r1 : ReadTo c 0 c1 := by
    rw [← hc1]
    split
    · exact readTo_semanticError _ _ _
    · exact ReadTo.refl _
  have hdc : c1.tokens.drop c1.currentToken = name :: lp :: (args ++ rp :: rest) :=
    ReadTo.unmoved r1 hd
  have h2 : checkToken (advance c1) .DELIMITER (utf16 "(") = true := by
    rw [checkToken_eq, (getCurrentToken_of_drop (show (advance c1).tokens.drop
      (advance c1).currentToken = lp :: (args ++ rp :: rest) from
        (getCurrentToken_of_drop hdc).2.2)).1]
    exact hlp
  obtain ⟨r, hr, r2⟩ := parseFunctionCall_reads c1 name lp rp args rest m hdc hlp hrp hargs
    (by rw [r1.tokens, r1.cursor]; omega)
  refine ⟨r, ?_, (r1.trans r2).cast (by omega)⟩
  rw [parsePrimary]
  simp only [h0, h1, hg, hc1, h2, if_true, if_false, Bool.false_eq_true, retreat_advance]
  exact hr

theorem reads_call (name lp rp : Token) (args : List Token) (hname : name.type = .IDENTIFIER)
    (hlp : isDelimiter (utf16 "(") lp = true) (hrp : isDelimiter (utf16 ")") rp = true)
    (hargs : args = [] ∨ (Grammar .arguments args ∧ ReadsPhrase .arguments args)) :
    Reads parsePrimary 2 (FollowCall 0) (name :: lp :: args ++ [rp]) := by
  intro c rest n hd hok hB
  have hd1 : c.tokens.drop c.currentToken = name :: lp :: (args ++ rp :: rest) := by
    rw [hd]; simp
  obtain ⟨r, hr, h⟩ := parsePrimary_reads_call c name lp rp args rest n hd1 hname hlp hrp hargs hB
  rw [hok.2] at h
  exact ⟨r, hr, h.cast (by simp)⟩

theorem reads_operand (ts : List Token) (h : Grammar .primary ts)
    (hp : Reads parsePrimary 2 (FollowCall 0) ts) : Reads parseUnary 3 (FollowCall 0) ts := by
  intro c rest n hd hok hB
  obtain ⟨m, rfl⟩ : ∃ m, n = m + 1 := ⟨n - 1, by omega⟩
  obtain ⟨t, ts1, rfl, hty, _⟩ := Grammar.primary_head h
  obtain ⟨hg, _, _⟩ := getCurrentToken_of_drop
    (show c.tokens.drop c.currentToken = t :: (ts1 ++ rest) from hd)
  rw [parseUnary_succ, hg, isUnaryOperator_of_type hty]
  exact hp c rest m hd hok (by omega)

theorem reads_unary (t : Token) (ts : List Token) (ht : isUnaryOperator t = true)
    (hp : Reads parseUnary 3 (FollowCall 0) ts) : Reads parseUnary 3 (FollowCall 0) (t :: ts) := by
  intro c rest n hd hok hB
  obtain ⟨m, rfl⟩ : ∃ m, n = m + 1 := ⟨n - 1, by omega⟩
  have hd1 : c.tokens.drop c.currentToken = t :: (ts ++ rest) := hd
  obtain ⟨hg, hlt, hd2⟩ := getCurrentToken_of_drop hd1
  obtain ⟨r, hr, r1⟩ := hp (advance c) rest m hd2 hok
    (by show 3 + 32 * (c.tokens.length - (c.currentToken + 1)) ≤ m; omega)
  refine ⟨r, ?_, ((readTo_advance c).trans r1).cast (by simp; omega)⟩
  rw [parseUnary_succ, hg, if_pos ht, hr]

theorem parseExpression_of_reads {ok : Token → Prop} {ts : List Token}
    (h : Reads parseLogicalOr 9 ok ts) : Reads parseExpression 10 ok ts := by
  intro c rest n hd hok hB
  obtain ⟨m, rfl⟩ : ∃ m, n = m + 1 := ⟨n - 1, by omega⟩
  rw [parseExpression]
  exact h c rest m hd hok (by omega)

theorem reads_last (ts : List Token) (h : Reads parseLogicalOr 9 (FollowCall 6) ts) :
    Reads parseArgumentList 11
      (fun t => FollowCall 6 t ∧ isDelimiter (utf16 ",") t = false) ts := by
  intro c rest n hd hok hB
  obtain ⟨m, rfl⟩ : ∃ m, n = m + 1 := ⟨n - 1, by omega⟩
  obtain ⟨c1, h1, r1⟩ := parseExpression_of_reads h c rest m hd hok.1 (by omega)
  have h2 : checkToken c1 .DELIMITER (utf16 ",") = false := by
    rw [checkToken_eq, getCurrentToken_of_drop_eq (r1.drop hd)]
    exact hok.2
  refine ⟨c1, ?_, r1⟩
  rw [parseArgumentList]
  simp only [h1, h2, Option.bind_eq_bind, Option.some_bind, if_false, Bool.false_eq_true]

theorem reads_comma (ts : List Token) (t : Token) (tl : List Token)
    (h : Reads parseLogicalOr 9 (FollowCall 6) ts) (ht : isDelimiter (utf16 ",") t = true)
    (htl : Grammar .arguments tl)
    (hl : Reads parseArgumentList 11
      (fun t => FollowCall 6 t ∧ isDelimiter (utf16 ",") t = false) tl) :
    Reads parseArgumentList 11
      (fun t => FollowCall 6 t ∧ isDelimiter (utf16 ",") t = false) (ts ++ t :: tl) := by
  intro c rest n hd hok hB
  obtain ⟨m, rfl⟩ : ∃ m, n = m + 1 := ⟨n - 1, by omega⟩
  have hd1 : c.tokens.drop c.currentToken = ts ++ (t :: (tl ++ rest)) := by
    rw [hd]; simp
  have hlen := length_of_drop_append hd1
  simp only [List.length_cons, List.length_append] at hlen
  obtain ⟨c1, h1, r1⟩ := parseExpression_of_reads h c (t :: (tl ++ rest)) m hd1
    (followCall_comma ht) (by omega)
  have hd2 := r1.drop hd1
  obtain ⟨hg, _, hd3⟩ := getCurrentToken_of_drop hd2
  have h2 : checkToken c1 .DELIMITER (utf16 ",") = true := by
    rw [checkToken_eq, hg]
    exact ht
  have hd4 : (advance c1).tokens.drop (advance c1).currentToken = tl ++ rest := hd3
  obtain ⟨t1, tl1, htl1, _⟩ := htl.phrase_head (fun k hk => by cases hk)
  have h3 : (advance c1).currentToken < (advance c1).tokens.length := by
    rw [htl1] at hd4
    exact (getCurrentToken_of_drop hd4).2.1
  obtain ⟨c2, h4, r2⟩ := hl (advance c1) rest m hd4 hok (by
    show 11 + 32 * (c1.tokens.length - (c1.currentToken + 1)) ≤ m
    rw [r1.tokens, r1.cursor]
    omega)
  refine ⟨c2, ?_, ((r1.trans (readTo_advance c1)).trans r2).cast (by simp; omega)⟩
  rw [parseArgumentList]
  simp only [h1, h2, h3, h4, Option.bind_eq_bind, Option.some_bind, if_true]

/-- The parser reads every phrase of the grammar with calls: it returns with the
cursor behind the phrase, having appended only diagnostics of expressions. -/
theorem grammar_reads {kd : Phrase} {ts : List Token} (h : Grammar kd ts) :
    ReadsPhrase kd ts := by
  induction h with
  | literal t ht => exact reads_of_parses (parses_literal t ht) (fun _ h => h.1)
  | identifier t ht => exact reads_of_parses (parses_identifier t ht) (fun _ h => h.1)
  | paren l r ts hl hr _ ih => exact reads_paren l r ts hl hr ih
  | call name lp rp args hn hl hr ha ih => exact reads_call name lp rp args hn hl hr (Or.inr ⟨ha, ih⟩)
  | callEmpty name lp rp hn hl hr => exact reads_call name lp rp [] hn hl hr (Or.inl rfl)
  | operand ts h ih => exact reads_operand ts h ih
  | unary t ts ht _ ih => exact reads_unary t ts ht ih
  | binary k ts tl hk _ htl ih1 ih2 =>
    exact reads_level (levelMethod_succ k hk) ih1 ih2 (show 1 ≤ 3 + k by omega)
      (fun rest hok => followCall_tail hk htl hok)
  | done k hk =>
    exact reads_loop_nil (isLevelOperator k) (loopMethod_succ k hk)
      (fun t ht => ht.1.2 k (by omega))
  | more k t ts tl hk ht _ htl ih1 ih2 =>
    exact reads_loop_cons (isLevelOperator k) (loopMethod_succ k hk) ht ih1 ih2
      (show 3 + k ≤ 32 by omega) (fun rest hok => followCall_tail hk htl hok)
  | last ts _ ih => exact reads_last ts ih
  | comma ts t tl _ ht htl ih1 ih2 => exact reads_comma ts t tl ih1 ht htl ih2
/-! ## The parser on an expression that ends with a call -/

/-- The last operand `u1 ... um name ( args ) ;`: the unary operators are skipped and
the call is read through its `;`. -/
theorem parseUnary_trailing (e : TrailingCall) (hw : e.WellFormed) :
    ∀ (us : List Token) (c : MiniCCompiler) (rest : List Token) (n : Nat),
      (∀ u ∈ us, isUnaryOperator u = true) →
      c.tokens.drop c.currentToken = us ++ (e.callTokens ++ rest) →
      3 + 32 * (c.tokens.length - c.currentToken) ≤ n →
        ∃ r, parseUnary n c = some r ∧ ReadTo c (us ++ e.callTokens).length r := by
  intro us
  induction us with
  | nil =>
    intro c rest n _ hd hB
    obtain ⟨m, rfl⟩ : ∃ m, n = m + 1 := ⟨n - 1, by omega⟩
    have hd0 : c.tokens.drop c.currentToken =
        e.name :: e.lparen :: (e.args ++ e.rparen :: (e.semi :: rest)) := by
      rw [hd]
      simp [TrailingCall.callTokens]
    have hg := (getCurrentToken_of_drop hd0).1
    have hu : isUnaryOperator (getCurrentToken c) = false := by
      rw [hg]
      exact isUnaryOperator_of_type (by rw [hw.name]; decide)
    have hargs : e.args = [] ∨ (Grammar .arguments e.args ∧ ReadsPhrase .arguments e.args) := by
      rcases hw.args with h | h
      · exact Or.inl h
      · exact Or.inr ⟨h, grammar_reads h⟩
    obtain ⟨r, hr, h⟩ := parsePrimary_reads_call c e.name e.lparen e.rparen e.args
      (e.semi :: rest) m hd0 hw.name hw.lparen hw.rparen hargs (by omega)
    have hs : isDelimiter (utf16 ";") ((e.semi :: rest).headD eofToken) = true := hw.semi
    rw [if_pos hs] at h
    refine ⟨r, ?_, h.cast (by simp [TrailingCall.callTokens])⟩
    rw [parseUnary_succ, hu, if_neg (by decide), hr]
  | cons u us ih =>
    intro c rest n hus hd hB
    obtain ⟨m, rfl⟩ : ∃ m, n = m + 1 := ⟨n - 1, by omega⟩
    have hu := hus u (List.mem_cons_self _ _)
    obtain ⟨hg, hlt, hd1⟩ := getCurrentToken_of_drop
      (show c.tokens.drop c.currentToken = u :: (us ++ (e.callTokens ++ rest)) from hd)
    obtain ⟨r, hr, h⟩ := ih (advance c) rest m (fun v hv => hus v (List.mem_cons_of_mem _ hv)) hd1
      (by show 3 + 32 * (c.tokens.length - (c.currentToken + 1)) ≤ m; omega)
    refine ⟨r, ?_, ((readTo_advance c).trans h).cast (by simp; omega)⟩
    rw [parseUnary_succ, hg, hu, if_pos rfl, hr]

/-- The operands before the last one are read as operator-operand pairs of the flat
parser, up to the end of the call. -/
theorem flatSteps_trailing (e : TrailingCall) (hw : e.WellFormed) :
    ∀ (ps : List (List Token × Token)) (c : MiniCCompiler) (rest : List Token),
      WellFormedOperands ps →
      c.tokens.drop c.currentToken = operandTokens ps ++ (e.unaries ++ e.callTokens) ++ rest →
        ∃ c1 n r, parseUnary n c = some c1 ∧ FlatSteps 6 c1 r ∧
          ReadTo c (operandTokens ps ++ (e.unaries ++ e.callTokens)).length r := by
  intro ps
  induction ps with
  | nil =>
    intro c rest _ hd
    obtain ⟨r, hr, h⟩ := parseUnary_trailing e hw e.unaries c rest
      (3 + 32 * (c.tokens.length - c.currentToken)) hw.unaries
      (by rw [hd]; simp [operandTokens]) (Nat.le_refl _)
    exact ⟨r, _, r, hr, .done _, h.cast (by simp [operandTokens])⟩
  | cons p ps ih =>
    intro c rest hps hd
    obtain ⟨x, op⟩ := p
    obtain ⟨hx, hop, hps⟩ := hps
    have hd0 : c.tokens.drop c.currentToken =
        x ++ op :: (operandTokens ps ++ (e.unaries ++ e.callTokens) ++ rest) := by
      rw [hd]
      simp [operandTokens]
    have hty := type_of_isBinaryOperator hop
    obtain ⟨c0, hp, r0⟩ := grammar_reads hx c _ (3 + 32 * (c.tokens.length - c.currentToken)) hd0
      ⟨⟨by simp [isDelimiter, hty], fun j hj => absurd hj (by omega)⟩,
        by simp [isDelimiter, hty]⟩ (Nat.le_refl _)
    have hp : parseUnary (3 + 32 * (c.tokens.length - c.currentToken)) c = some c0 := hp
    have hd1 := r0.drop hd0
    obtain ⟨hg, _, hd2⟩ := getCurrentToken_of_drop hd1
    obtain ⟨j, hj, hlev⟩ := (isBinaryOperator_iff op).1 hop
    obtain ⟨c1, n, r, hu, hs, h⟩ := ih (advance c0) rest hps hd2
    refine ⟨c0, _, r, hp, .step _ c1 _ j n hj (by rw [hg]; exact hlev) hu hs, ?_⟩
    exact ((r0.trans (readTo_advance c0)).trans h).cast (by simp [operandTokens]; omega)

/-- The method `parseExpression` on an expression that ends with a call reads the `;`
behind the call too. -/
theorem parseExpression_trailing (c : MiniCCompiler) (e : TrailingCall) (t : Token)
    (rest : List Token) (n : Nat) (hw : e.WellFormed)
    (hd : c.tokens.drop c.currentToken = e.toTokens ++ t :: rest)
    (ht : isBinaryOperator t = false)
    (hB : 10 + 32 * (c.tokens.length - c.currentToken) ≤ n) :
    ∃ r, parseExpression n c = some r ∧ ReadTo c e.toTokens.length r := by
  obtain ⟨c1, n0, r, hu, hs, h⟩ := flatSteps_trailing e hw e.operands c (t :: rest)
    hw.operands hd
  have h : ReadTo c e.toTokens.length r := h
  refine ⟨r, parseExpression_of_steps hu hs (fun j hj => ?_) n hB, h⟩
  rw [(getCurrentToken_of_drop (h.drop hd)).1]
  exact isLevelOperator_of_not_binary ht j hj

/-- The first token of an expression that ends with a call is not `;`. -/
theorem TrailingCall.starts_other (e : TrailingCall) (hw : e.WellFormed) :
    ∃ t l, e.toTokens = t :: l ∧ isDelimiter (utf16 ";") t = false := by
  rcases hps : e.operands with _ | ⟨⟨x, op⟩, ps⟩
  · rcases hus : e.unaries with _ | ⟨u, us⟩
    · refine ⟨e.name, _, by simp [TrailingCall.toTokens, hps, hus, operandTokens,
        TrailingCall.callTokens]; rfl, by simp [isDelimiter, hw.name]⟩
    · have hu := hw.unaries u (by rw [hus]; exact List.mem_cons_self _ _)
      refine ⟨u, _, by simp [TrailingCall.toTokens, hps, hus, operandTokens]; rfl,
        by simp [isDelimiter, type_of_isUnaryOperator hu]⟩
  · have hx : Grammar (.level 0) x := by
      have := hw.operands
      rw [hps] at this
      exact this.1
    obtain ⟨t, l, hxl, -, ht⟩ := hx.phrase_head (fun k hk => by cases hk)
    exact ⟨t, _, by simp [TrailingCall.toTokens, hps, operandTokens, hxl]; rfl, ht⟩

/-- After an expression that ends with a call the `consumeToken` for `;` of the
statement finds the token behind the `;` of the call. -/
theorem consumeToken_trailing {c r : MiniCCompiler} {ts : List Token} {t : Token}
    {rest : List Token} (h : ReadTo c ts.length r)
    (hd : c.tokens.drop c.currentToken = ts ++ t :: rest)
    (ht : isDelimiter (utf16 ";") t = false) :
    ∃ es, (consumeToken r .DELIMITER (utf16 ";")).2 =
        { c with
          currentToken := c.currentToken + ts.length
          errors := c.errors ++ es ++ [expectedDiagnostic (utf16 ";") t] } ∧
      ∀ d ∈ es, ExpressionDiagnostic d := by
  have hdr := h.drop hd
  obtain ⟨es, rfl, g⟩ := h
  exact ⟨es, consumeToken_of_other hdr ht, g⟩

/-- The method `parseReturnStatement` on `return e` where `e` ends with a call. -/
theorem parseReturnStatement_trailing (c : MiniCCompiler) (ret : Token) (e : TrailingCall)
    (t : Token) (rest : List Token) (n : Nat) (hw : e.WellFormed)
    (hd : c.tokens.drop c.currentToken = ret :: (e.toTokens ++ t :: rest))
    (hret : ret.type = .KEYWORD ∧ ret.value = utf16 "return")
    (hb : isBinaryOperator t = false) (ht : isDelimiter (utf16 ";") t = false)
    (hB : 11 + 32 * (c.tokens.length - c.currentToken) ≤ n) :
    ∃ r es, parseReturnStatement n c = some r ∧
      r.currentToken = c.currentToken + 1 + e.toTokens.length ∧
      r.errors = c.errors ++ es ++ [expectedDiagnostic (utf16 ";") t] ∧
      ∀ d ∈ es, ExpressionDiagnostic d := by
  obtain ⟨m, rfl⟩ : ∃ m, n = m + 1 := ⟨n - 1, by omega⟩
  obtain ⟨hg, hlt, hd1⟩ := getCurrentToken_of_drop hd
  have hd1a : (advance c).tokens.drop (advance c).currentToken = e.toTokens ++ t :: rest := hd1
  have h1 : (consumeToken c .KEYWORD (utf16 "return")).2 = advance c := by
    simp [consumeToken, hg, hret.1, hret.2]
  obtain ⟨t0, l0, htl, ht0⟩ := e.starts_other hw
  have h2 : checkToken (advance c) .DELIMITER (utf16 ";") = false := by
    rw [checkToken_eq, (getCurrentToken_of_drop
      (show (advance c).tokens.drop (advance c).currentToken = t0 :: (l0 ++ t :: rest) by
        rw [hd1a, htl]; rfl)).1]
    exact ht0
  obtain ⟨r1, hp, h⟩ := parseExpression_trailing (advance c) e t rest m hw hd1a hb
    (by show 10 + 32 * (c.tokens.length - (c.currentToken + 1)) ≤ m; omega)
  obtain ⟨es, hc, g⟩ := consumeToken_trailing h hd1a ht
  refine ⟨(consumeToken r1 .DELIMITER (utf16 ";")).2, es, ?_, ?_, ?_, g⟩
  · rw [parseReturnStatement]
    simp only [Option.bind_eq_bind, h1, h2, Bool.not_false, if_true]
    rw [hp, Option.some_bind]
  · rw [hc]
    rfl
  · rw [hc]
    rfl

/-- The method `parseAssignment` on `= e` where `e` ends with a call. -/
theorem parseAssignment_trailing (c : MiniCCompiler) (x : JSString) (eq : Token)
    (e : TrailingCall) (t : Token) (rest : List Token) (n : Nat) (hw : e.WellFormed)
    (hd : c.tokens.drop c.currentToken = eq :: (e.toTokens ++ t :: rest))
    (hb : isBinaryOperator t = false) (ht : isDelimiter (utf16 ";") t = false)
    (hB : 11 + 32 * (c.tokens.length - c.currentToken) ≤ n) :
    ∃ r es, parseAssignment n x c = some r ∧
      r.currentToken = c.currentToken + 1 + e.toTokens.length ∧
      r.errors = c.errors ++ es ++ [expectedDiagnostic (utf16 ";") t] ∧
      ∀ d ∈ es, ExpressionDiagnostic d := by
  obtain ⟨m, rfl⟩ : ∃ m, n = m + 1 := ⟨n - 1, by omega⟩
  generalize hc1 : (if (!c.symbolTable.has x) = true then
      semanticError c (utf16 "Undeclared variable: " ++ x) (utf16 "Declare variable before use")
    else c) = c1
  have r1 : ReadTo c 0 c1 := by
    rw [← hc1]
    split
    · exact readTo_semanticError _ _ _
    · exact ReadTo.refl _
  have hd0 : c1.tokens.drop c1.currentToken = eq :: (e.toTokens ++ t :: rest) :=
    ReadTo.unmoved r1 hd
  obtain ⟨hg, hlt, hd1⟩ := getCurrentToken_of_drop hd0
  have hd1a : (advance c1).tokens.drop (advance c1).currentToken =
      e.toTokens ++ t :: rest := hd1
  obtain ⟨r2, hp, h⟩ := parseExpression_trailing (advance c1) e t rest m hw hd1a hb
    (by
      show 10 + 32 * (c1.tokens.length - (c1.currentToken + 1)) ≤ m
      rw [r1.tokens, r1.cursor]
      omega)
  obtain ⟨es2, hc, g2⟩ := consumeToken_trailing h hd1a ht
  obtain ⟨es1, rfl, g1⟩ := r1
  refine ⟨(consumeToken r2 .DELIMITER (utf16 ";")).2, es1 ++ es2, ?_, ?_, ?_, ?_⟩
  · rw [parseAssignment]
    simp only [Option.bind_eq_bind, hc1]
    rw [hp, Option.some_bind]
  · rw [hc]
    show c.currentToken + 0 + 1 + e.toTokens.length = _
    omega
  · rw [hc]
    show c.errors ++ es1 ++ es2 ++ _ = _
    simp only [List.append_assoc]
  · intro d hd
    rcases List.mem_append.1 hd with h | h
    · exact g1 d h
    · exact g2 d h

/-- The method `parseDeclaration` on `= e` where `e` ends with a call. -/
theorem parseDeclaration_trailing (c : MiniCCompiler) (type x : JSString) (eq : Token)
    (e : TrailingCall) (t : Token) (rest : List Token) (n : Nat) (hw : e.WellFormed)
    (hd : c.tokens.drop c.currentToken = eq :: (e.toTokens ++ t :: rest))
    (heq : eq.type = .OPERATOR ∧ eq.value = utf16 "=")
    (hb : isBinaryOperator t = false)
    (ht : isDelimiter (utf16 ";") t = false) (hcomma : isDelimiter (utf16 ",") t = false)
    (hB : 11 + 32 * (c.tokens.length - c.currentToken) ≤ n) :
    ∃ r es, parseDeclaration n type x c = some r ∧
      r.currentToken = c.currentToken + 1 + e.toTokens.length ∧
      r.errors = c.errors ++ es ++ [expectedDiagnostic (utf16 ";") t] ∧
      ∀ d ∈ es, ExpressionDiagnostic d := by
  obtain ⟨m, rfl⟩ : ∃ m, n = m + 2 := ⟨n - 2, by omega⟩
  generalize hc1 : setSymbol c x (.variable type) = c1
  have hc1t : c1.tokens = c.tokens := by rw [← hc1]; rfl
  have hc1c : c1.currentToken = c.currentToken := by rw [← hc1]; rfl
  have hc1e : c1.errors = c.errors := by rw [← hc1]; rfl
  have hd0 : c1.tokens.drop c1.currentToken = eq :: (e.toTokens ++ t :: rest) := by
    rw [hc1t, hc1c]; exact hd
  obtain ⟨hg, hlt, hd1⟩ := getCurrentToken_of_drop hd0
  have hd1a : (advance c1).tokens.drop (advance c1).currentToken =
      e.toTokens ++ t :: rest := hd1
  have h1 : checkToken c1 .OPERATOR (utf16 "=") = true := by
    simp [checkToken_eq, hg, heq.1, heq.2]
  obtain ⟨r2, hp, h⟩ := parseExpression_trailing (advance c1) e t rest (m + 1) hw hd1a hb
    (by show 10 + 32 * (c1.tokens.length - (c1.currentToken + 1)) ≤ m + 1
        rw [hc1t, hc1c]; omega)
  have hd2 := h.drop hd1a
  have h2 : checkToken r2 .DELIMITER (utf16 ",") = false := by
    rw [checkToken_eq, (getCurrentToken_of_drop hd2).1]
    exact hcomma
  obtain ⟨es, hc, g⟩ := consumeToken_trailing h hd1a ht
  refine ⟨(consumeToken r2 .DELIMITER (utf16 ";")).2, es, ?_, ?_, ?_, g⟩
  · rw [parseDeclaration, hc1]
    simp only [Option.bind_eq_bind, h1, if_true]
    rw [hp, Option.some_bind]
    rw [show parseDeclarationLoop (m + 1) type r2 = some r2 by
        rw [parseDeclarationLoop, h2, if_neg (by decide)]]
    rw [Option.some_bind]
  · rw [hc]
    show c1.currentToken + 1 + e.toTokens.length = _
    rw [hc1c]
  · rw [hc]
    show c1.errors ++ es ++ _ = _
    rw [hc1e]
/-- C26, amended: a call used in expression position consumes the terminator of the
enclosing statement. `parsePrimary` hands an identifier followed by `(` to
`parseFunctionCall`, which consumes the `;` behind `)`. So for a return statement,
an assignment or a declaration initialiser whose expression ends with a call (the
operands before the call and its arguments may hold further calls), the cursor ends
behind that `;`, on the next token `t`; if `t` is not itself `;`, not a binary operator
and, in a declaration, not `,`, the statement appends the `SYNTAX` diagnostic
"Expected ;" at `t`, after diagnostics of the expression only (`SEMANTIC` ones, and
"Expected ;" for each earlier call that no `;` follows). The source
`int f() \x7b return 1; \x7d int g() \x7b return f(); \x7d` compiles to
`success = false` with exactly that one diagnostic; with `return f() + f();` and with
`return f(f());` there are two, the last one at the token behind the `;`. -/
theorem trailing_call_takes_terminator :
    (compileResult MiniCCompiler.new
        (utf16 "int f() \x7b return 1; \x7d int g() \x7b return f(); \x7d")).map
      (fun r => (r.success, r.errors)) =
      some (false, [⟨.SYNTAX, utf16 "Expected ;", 1, 44, utf16 "Add ;"⟩]) ∧
    (compileResult MiniCCompiler.new
        (utf16 "int f() \x7b return 1; \x7d int g() \x7b return f() + f(); \x7d")).map
      (fun r => (r.success, r.errors)) =
      some (false, [⟨.SYNTAX, utf16 "Expected ;", 1, 43, utf16 "Add ;"⟩,
        ⟨.SYNTAX, utf16 "Expected ;", 1, 50, utf16 "Add ;"⟩]) ∧
    (compileResult MiniCCompiler.new
        (utf16 "int f() \x7b return 1; \x7d int g() \x7b return f(f()); \x7d")).map
      (fun r => (r.success, r.errors)) =
      some (false, [⟨.SYNTAX, utf16 "Expected ;", 1, 44, utf16 "Add ;"⟩,
        ⟨.SYNTAX, utf16 "Expected ;", 1, 47, utf16 "Add ;"⟩]) ∧
    (∀ (c : MiniCCompiler) (name lp : Token) (l : List Token) (n : Nat),
      c.tokens.drop c.currentToken = name :: lp :: l → name.type = .IDENTIFIER →
      isDelimiter (utf16 "(") lp = true → c.symbolTable.has name.value = true →
        parsePrimary (n + 1) c = parseFunctionCall n c) ∧
    ∀ (c : MiniCCompiler) (first : Token) (e : TrailingCall) (t : Token) (rest : List Token)
      (n : Nat),
      e.WellFormed → c.tokens.drop c.currentToken = first :: (e.toTokens ++ t :: rest) →
      isBinaryOperator t = false → isDelimiter (utf16 ";") t = false →
      11 + 32 * (c.tokens.length - c.currentToken) ≤ n →
        (first.type = .KEYWORD ∧ first.value = utf16 "return" →
          ∃ r es, parseReturnStatement n c = some r ∧
            r.currentToken = c.currentToken + 1 + e.toTokens.length ∧
            r.errors = c.errors ++ es ++ [expectedDiagnostic (utf16 ";") t] ∧
            ∀ d ∈ es, ExpressionDiagnostic d) ∧
        (∀ x, ∃ r es, parseAssignment n x c = some r ∧
            r.currentToken = c.currentToken + 1 + e.toTokens.length ∧
            r.errors = c.errors ++ es ++ [expectedDiagnostic (utf16 ";") t] ∧
            ∀ d ∈ es, ExpressionDiagnostic d) ∧
        (first.type = .OPERATOR ∧ first.value = utf16 "=" →
          isDelimiter (utf16 ",") t = false →
          ∀ type x, ∃ r es, parseDeclaration n type x c = some r ∧
            r.currentToken = c.currentToken + 1 + e.toTokens.length ∧
            r.errors = c.errors ++ es ++ [expectedDiagnostic (utf16 ";") t] ∧
            ∀ d ∈ es, ExpressionDiagnostic d) := by
  refine ⟨by decide!, by decide!, by decide!, parsePrimary_call, ?_⟩
  intro c first e t rest n hw hd hb ht hB
  exact ⟨fun hret => parseReturnStatement_trailing c first e t rest n hw hd hret hb ht hB,
    fun x => parseAssignment_trailing c x first e t rest n hw hd hb ht hB,
    fun heq hcomma type x =>
      parseDeclaration_trailing c type x first e t rest n hw hd heq hb ht hcomma hB⟩

/-- Witness of C26: on the tokens of `return f() + f(); \x7d`, an expression with two
calls, the return statement ends on `\x7d`, behind the `;`, with the diagnostic
"Expected ;" at that token. -/
theorem trailing_call_takes_terminator_witness :
    ∃ r es,
      parseReturnStatement 331
        ⟨[⟨.KEYWORD, utf16 "return", 1, 0⟩, ⟨.IDENTIFIER, utf16 "f", 1, 7⟩,
          ⟨.DELIMITER, utf16 "(", 1, 8⟩, ⟨.DELIMITER, utf16 ")", 1, 9⟩,
          ⟨.OPERATOR, utf16 "+", 1, 11⟩, ⟨.IDENTIFIER, utf16 "f", 1, 13⟩,
          ⟨.DELIMITER, utf16 "(", 1, 14⟩, ⟨.DELIMITER, utf16 ")", 1, 15⟩,
          ⟨.DELIMITER, utf16 ";", 1, 16⟩, ⟨.DELIMITER, utf16 "\x7d", 1, 18⟩], 0, [], [],
          [(utf16 "f", .function (utf16 "int"))], []⟩ = some r ∧
      r.currentToken = 9 ∧
      r.errors = [] ++ es ++ [expectedDiagnostic (utf16 ";") ⟨.DELIMITER, utf16 "\x7d", 1, 18⟩] ∧
      ∀ d ∈ es, ExpressionDiagnostic d :=
  (trailing_call_takes_terminator.2.2.2.2
    ⟨[⟨.KEYWORD, utf16 "return", 1, 0⟩, ⟨.IDENTIFIER, utf16 "f", 1, 7⟩,
      ⟨.DELIMITER, utf16 "(", 1, 8⟩, ⟨.DELIMITER, utf16 ")", 1, 9⟩,
      ⟨.OPERATOR, utf16 "+", 1, 11⟩, ⟨.IDENTIFIER, utf16 "f", 1, 13⟩,
      ⟨.DELIMITER, utf16 "(", 1, 14⟩, ⟨.DELIMITER, utf16 ")", 1, 15⟩,
      ⟨.DELIMITER, utf16 ";", 1, 16⟩, ⟨.DELIMITER, utf16 "\x7d", 1, 18⟩], 0, [], [],
      [(utf16 "f", .function (utf16 "int"))], []⟩
    ⟨.KEYWORD, utf16 "return", 1, 0⟩
    ⟨[([⟨.IDENTIFIER, utf16 "f", 1, 7⟩, ⟨.DELIMITER, utf16 "(", 1, 8⟩,
        ⟨.DELIMITER, utf16 ")", 1, 9⟩], ⟨.OPERATOR, utf16 "+", 1, 11⟩)], [],
      ⟨.IDENTIFIER, utf16 "f", 1, 13⟩, ⟨.DELIMITER, utf16 "(", 1, 14⟩, [],
      ⟨.DELIMITER, utf16 ")", 1, 15⟩, ⟨.DELIMITER, utf16 ";", 1, 16⟩⟩
    ⟨.DELIMITER, utf16 "\x7d", 1, 18⟩ [] 331
    ⟨⟨Grammar.operand _ (Grammar.callEmpty _ _ _ rfl rfl rfl), rfl, trivial⟩,
      (fun _ h => nomatch h), rfl, rfl, Or.inl rfl, rfl, rfl⟩
    rfl (by decide) (by decide) (by decide)).1 ⟨rfl, rfl⟩

end MiniC
